import Mathlib

/-!
# Scheme interpreter: shallow embedding

The C++ interpreter keeps every object on a process-wide heap and refers to
objects by pointer.  The embedding keeps that shape: a pointer is null or an
address, the heap maps addresses to objects, and every operation is a function
from heaps to outcomes.  An outcome records normal return, a thrown C++
exception (together with the heap as it is at the throw), undefined behaviour
(null or dangling dereference, out-of-range index) and exhaustion of the
recursion budget.
-/

namespace Scheme

/-! ## Pointers, objects, heap -/

/-- `Object*`.  `addr a` points to the object stored at address `a`.
`invalid` is the value a pointer has once the object it pointed to has been
deleted: C++ makes every copy of a deleted pointer an invalid pointer value,
so that the storage can be handed out again by `new` without the old copies
aliasing the new object. -/
inductive ObjectPtr where
  | nullptr
  | addr (a : Nat)
  | invalid
  deriving DecidableEq, Repr

/-- `std::vector<Object*>`. -/
abbrev ObjectPtrVector := List ObjectPtr

/-- Exceptions that can leave the interpreter: the three classes of `error.h` and
`std::out_of_range` (thrown by `std::stoi` / `std::stoll`). -/
inductive Error where
  | SyntaxError (what : String)
  | NameError (what : String)
  | RuntimeError (what : String)
  | out_of_range (what : String)
  deriving DecidableEq, Repr

/-- Functor parameter of `BinaryFoldFunction`. -/
inductive FoldFunctor where
  | plus | minus | multiplies | divides | Max | Min
  deriving DecidableEq, Repr

/-- Functor parameter of `MonotonicFunction`. -/
inductive MonotonicFunctor where
  | less | less_equal | equal_to | greater | greater_equal
  deriving DecidableEq, Repr

/-- Type parameter of `PredicateFunction` (and of the casts `Is<T>` / `As<T>`
used on AST nodes). -/
inductive TypeTag where
  | Number | BooleanSymbol | Cell | Symbol
  deriving DecidableEq, Repr

/-- The built-in function classes of `object.h`.  All of them carry one data
member, `context_` (except `QuoteFunction`, which has none). -/
inductive FunctionClass where
  | BinaryFoldFunction (f : FoldFunctor)
  | MonotonicFunction (f : MonotonicFunctor)
  | PredicateFunction (t : TypeTag)
  | NullPredicateFunction
  | ListPredicateFunction
  | ConsFunction
  | CarFunction
  | CdrFunction
  | ToListFunction
  | ListRefFunction
  | ListTailFunction
  | AbsFunction
  | NegFunction
  | QuoteFunction
  | AndFunction
  | OrFunction
  | DefineFunction
  | SetFunction
  | SetCar
  | SetCdr
  | IfFunction
  | LambdaDeclaration
  deriving DecidableEq, Repr

/-- The dynamic type of a heap object together with its data members. -/
inductive Object where
  | Number (value_ : Int)
  | Symbol (name_ : String) (context_ : ObjectPtr)
  | BooleanSymbol (name_ : String)
  | Cell (first_ second_ : ObjectPtr)
  | Function (cls : FunctionClass) (context_ : ObjectPtr)
  | LambdaFunction (args_ body_ : ObjectPtrVector) (captured_context_ current_context_ : ObjectPtr)
  | Scope (scope_map_ : List (String × ObjectPtr))
  | Context (context_ : List ObjectPtr)
  deriving DecidableEq, Repr

/-- One allocated object: the members of the base class `Object`
(`is_connected_to_root`, `dependencies_`) and the derived part. -/
structure HeapObject where
  obj : Object
  is_connected_to_root : Bool
  dependencies_ : List ObjectPtr
  deriving DecidableEq, Repr

/-- The singleton `Heap` together with the memory it manages.  `memory[a]` is
the object stored at address `a` (`none` once deleted), `heap_` is the vector
of allocated pointers and `root_` the registered root. -/
structure Heap where
  memory : List (Option HeapObject)
  heap_ : List Nat
  root_ : ObjectPtr
  deriving DecidableEq, Repr

/-- Result of running a piece of the interpreter on a heap. -/
inductive Outcome (α : Type) where
  | ok (value : α) (heap : Heap)
  | exception (e : Error) (heap : Heap)
  | undefined
  | timeout
  deriving DecidableEq, Repr

/-- Computations over the heap. -/
def M (α : Type) : Type := Heap → Outcome α

/-- Sequencing: the continuation runs on the heap left by a normal return;
anything else propagates. -/
def M.bind {α β : Type} (m : M α) (f : α → M β) : M β := fun h =>
  match m h with
  | .ok a h1 => f a h1
  | .exception e h1 => .exception e h1
  | .undefined => .undefined
  | .timeout => .timeout

instance : Monad M where
  pure a := fun h => .ok a h
  bind := M.bind

/-- C++ `throw`. -/
def throw {α : Type} (e : Error) : M α := fun h => .exception e h

/-- Undefined behaviour. -/
def undefined {α : Type} : M α := fun _ => .undefined

/-- Recursion budget exhausted. -/
def timeout {α : Type} : M α := fun _ => .timeout

def getHeap : M Heap := fun h => .ok h h

def setHeap (h : Heap) : M Unit := fun _ => .ok () h

/-! ## Allocation and access -/

/-- Address handed out by `new`: the lowest address that holds no object. -/
def firstFree : List (Option HeapObject) → Nat
  | [] => 0
  | none :: _ => 0
  | some _ :: rest => firstFree rest + 1

/-- Write `o` at address `a` (extending the memory when `a` is its length). -/
def store (mem : List (Option HeapObject)) (a : Nat) (o : HeapObject) : List (Option HeapObject) :=
  if a < mem.length then mem.set a (some o) else mem ++ [some o]

/-- `Object::AddDependency`: `dependencies_.insert(object)`. -/
def AddDependency (dependencies_ : List ObjectPtr) (object : ObjectPtr) : List ObjectPtr :=
  if object ∈ dependencies_ then dependencies_ else dependencies_ ++ [object]

/-- `Object::RemoveDependency`: `dependencies_.erase(object)`. -/
def RemoveDependency (dependencies_ : List ObjectPtr) (object : ObjectPtr) : List ObjectPtr :=
  dependencies_.filter (fun d => d ≠ object)

/-- `Heap::Make<T>(args...)`: `new T(args...)` followed by
`heap_.push_back`.  The constructor body is given by the initial
`dependencies_` it leaves. -/
def Make (obj : Object) (dependencies_ : List ObjectPtr) : M ObjectPtr := fun h =>
  let a := firstFree h.memory
  .ok (.addr a) { h with memory := store h.memory a ⟨obj, false, dependencies_⟩, heap_ := h.heap_ ++ [a] }

/-- Dereference a pointer: the whole heap object. -/
def load (p : ObjectPtr) : M HeapObject := fun h =>
  match p with
  | .addr a =>
    match h.memory.get? a with
    | some (some o) => .ok o h
    | _ => .undefined
  | _ => .undefined

/-- Dereference a pointer: the derived part. -/
def deref (p : ObjectPtr) : M Object := do
  let o ← load p
  pure o.obj

/-- Overwrite the heap object a pointer refers to. -/
def storeAt (p : ObjectPtr) (o : HeapObject) : M Unit := fun h =>
  match p with
  | .addr a =>
    match h.memory.get? a with
    | some (some _) => .ok () { h with memory := h.memory.set a (some o) }
    | _ => .undefined
  | _ => .undefined

/-- `dynamic_cast` to one of the four AST classes succeeds. -/
def Object.hasType : Object → TypeTag → Bool
  | .Number _, .Number => true
  | .BooleanSymbol _, .BooleanSymbol => true
  | .Cell _ _, .Cell => true
  | .Symbol _ _, .Symbol => true
  | _, _ => false

/-- `Is<T>(obj)`: `dynamic_cast<T*>(obj) != nullptr`; false for `nullptr`. -/
def Is (t : TypeTag) (obj : ObjectPtr) : M Bool :=
  match obj with
  | .nullptr => pure false
  | _ => do
    let o ← deref obj
    pure (o.hasType t)

/-! ## Virtual methods that do not evaluate: `SetContext`, `Clone`, `Serialize` -/

def kTrueTokenName : String := "#t"

def kFalseTokenName : String := "#f"

def kEmptyListString : String := "()"

/-- Message of the base-class defaults `Object::Evaluate`, `Apply`, `Clone`,
`SetContext`, `Serialize`. -/
def notImplemented : Error := .RuntimeError "Not implemented."

/-- Virtual `SetContext(context)` on the object at `self`. -/
def SetContext (self : ObjectPtr) (context : ObjectPtr) : M Unit := do
  let o ← load self
  match o.obj with
  | .Number _ => pure ()
  | .BooleanSymbol _ => pure ()
  | .Cell _ _ => pure ()
  | .Symbol name_ _ => storeAt self { o with obj := .Symbol name_ context }
  | .Function .QuoteFunction _ => pure ()
  | .Function cls _ => storeAt self { o with obj := .Function cls context }
  | .LambdaFunction args_ body_ captured_context_ _ =>
    storeAt self { o with obj := .LambdaFunction args_ body_ captured_context_ context }
  | .Scope _ => throw notImplemented
  | .Context _ => throw notImplemented

/-- Fold of `AddDependency` over a vector, as in the loops of the
`LambdaFunction` and `Scope` constructors. -/
def AddDependencies (dependencies_ : List ObjectPtr) (objects : List ObjectPtr) : List ObjectPtr :=
  objects.foldl AddDependency dependencies_

/-- Constructor `LambdaFunction(args, body, context)` reached through
`Heap::Make<LambdaFunction>`: the captured context is a fresh copy of
`*context` (copy constructor of `Context`: the scope vector and
`dependencies_` are copied), `current_context_` starts as that copy. -/
def MakeLambdaFunction (args body : ObjectPtrVector) (context : ObjectPtr) : M ObjectPtr := do
  let other ← load context
  match other.obj with
  | .Context scopes =>
    let captured_context_ ← Make (.Context scopes) other.dependencies_
    Make (.LambdaFunction args body captured_context_ captured_context_)
      (AddDependencies (AddDependencies (AddDependency [] captured_context_) args) body)
  | _ => undefined

/-- Constructor `Cell(first, second)` reached through `Heap::Make<Cell>`. -/
def MakeCell (first second : ObjectPtr) : M ObjectPtr :=
  Make (.Cell first second) (AddDependency (AddDependency [] first) second)

/-- Virtual `Clone()` on the object at `self`.  `Cell::Clone` recurses into
both fields; the budget bounds that recursion. -/
def Clone : Nat → ObjectPtr → M ObjectPtr
  | 0, _ => timeout
  | fuel + 1, self => do
    match ← deref self with
    | .Number value_ => Make (.Number value_) []
    | .Symbol name_ context_ => do
      let cloned_symbol ← Make (.Symbol name_ .nullptr) []
      SetContext cloned_symbol context_
      pure cloned_symbol
    | .BooleanSymbol name_ => Make (.BooleanSymbol name_) []
    | .Cell first_ second_ => do
      let cloned_first ← if first_ = .nullptr then pure .nullptr else Clone fuel first_
      let cloned_second ← if second_ = .nullptr then pure .nullptr else Clone fuel second_
      MakeCell cloned_first cloned_second
    | .Function cls _ => Make (.Function cls .nullptr) []
    | .LambdaFunction args_ body_ captured_context_ current_context_ => do
      let cloned_lambda ← MakeLambdaFunction args_ body_ captured_context_
      SetContext cloned_lambda current_context_
      pure cloned_lambda
    | .Scope _ => throw notImplemented
    | .Context _ => throw notImplemented

/-- `std::to_string(int64_t)`. -/
def to_string (value : Int) : String :=
  if value < 0 then "-" ++ Nat.repr value.natAbs else Nat.repr value.toNat

/-- The `while (Is<Cell>(cell))` loop and the tail of `Cell::Serialize`;
`serialize` is the virtual `Serialize`. -/
def SerializeRest (serialize : ObjectPtr → M String) : Nat → ObjectPtr → String → M String
  | 0, _, _ => timeout
  | fuel + 1, cell, result => do
    if ← Is .Cell cell then
      match ← deref cell with
      | .Cell first_ second_ => do
        -- `(cell) ? As<Cell>(cell)->GetFirst()->Serialize() : kEmptyListString`:
        -- the test is on `cell`, which is non-null here
        let s ← serialize first_
        SerializeRest serialize fuel second_ ((result.push ' ') ++ s)
      | _ => undefined
    else if cell ≠ .nullptr then do
      let s ← serialize cell
      pure ((result ++ " . " ++ s).push ')')
    else
      pure (result.push ')')

/-- Virtual `Serialize()` on the object at `self`. -/
def Serialize : Nat → ObjectPtr → M String
  | 0, _ => timeout
  | fuel + 1, self => do
    match ← deref self with
    | .Number value_ => pure (to_string value_)
    | .Symbol name_ _ => pure name_
    | .BooleanSymbol name_ => pure name_
    | .Cell first_ second_ => do
      let s ← if first_ ≠ .nullptr then Serialize fuel first_ else pure kEmptyListString
      SerializeRest (Serialize fuel) fuel second_ ("(" ++ s)
    | _ => throw notImplemented

/-! ## Scope and Context -/

/-- `scope_map_[symbol_name] = value` on the association list standing for
the `unordered_map`. -/
def mapAssign : List (String × ObjectPtr) → String → ObjectPtr → List (String × ObjectPtr)
  | [], name, value => [(name, value)]
  | (k, v) :: rest, name, value =>
    if k = name then (k, value) :: rest else (k, v) :: mapAssign rest name value

/-- `scope_map_.contains(symbol_name)`. -/
def mapContains (scope_map_ : List (String × ObjectPtr)) (name : String) : Bool :=
  scope_map_.any (fun kv => kv.1 = name)

/-- Value found by `scope_map_[symbol_name]`: the stored pointer, or the
`nullptr` that `operator[]` inserts for a missing key. -/
def mapIndex : List (String × ObjectPtr) → String → ObjectPtr
  | [], _ => .nullptr
  | (k, v) :: rest, name => if k = name then v else mapIndex rest name

/-- `Scope::Contains`. -/
def Scope.Contains (self : ObjectPtr) (symbol_name : String) : M Bool := do
  match ← deref self with
  | .Scope scope_map_ => pure (mapContains scope_map_ symbol_name)
  | _ => undefined

/-- `Scope::Get`: `return scope_map_[symbol_name]` (which inserts a null
binding when the key is missing). -/
def Scope.Get (self : ObjectPtr) (symbol_name : String) : M ObjectPtr := do
  let o ← load self
  match o.obj with
  | .Scope scope_map_ =>
    if mapContains scope_map_ symbol_name then
      pure (mapIndex scope_map_ symbol_name)
    else do
      storeAt self { o with obj := .Scope (mapAssign scope_map_ symbol_name .nullptr) }
      pure .nullptr
  | _ => undefined

/-- `Scope::Define`. -/
def Scope.Define (fuel : Nat) (self : ObjectPtr) (symbol_name : String) (value : ObjectPtr) : M Unit := do
  let cloned_value ← Clone fuel value
  let o ← load self
  match o.obj with
  | .Scope scope_map_ =>
    storeAt self { o with
      obj := .Scope (mapAssign scope_map_ symbol_name cloned_value)
      dependencies_ := AddDependency o.dependencies_ cloned_value }
  | _ => undefined

/-- `Scope::Change`. -/
def Scope.Change (fuel : Nat) (self : ObjectPtr) (symbol_name : String) (value : ObjectPtr) : M Unit := do
  let o ← load self
  match o.obj with
  | .Scope scope_map_ =>
    storeAt self { o with
      obj := .Scope (if mapContains scope_map_ symbol_name then scope_map_
                     else mapAssign scope_map_ symbol_name .nullptr)
      dependencies_ := RemoveDependency o.dependencies_ (mapIndex scope_map_ symbol_name) }
    let cloned_value ← Clone fuel value
    let o1 ← load self
    match o1.obj with
    | .Scope scope_map_1 =>
      storeAt self { o1 with
        obj := .Scope (mapAssign scope_map_1 symbol_name cloned_value)
        dependencies_ := AddDependency o1.dependencies_ cloned_value }
    | _ => undefined
  | _ => undefined

/-- The scope vector `context_` of the `Context` at `self`. -/
def Context.scopes (self : ObjectPtr) : M (List ObjectPtr) := do
  match ← deref self with
  | .Context context_ => pure context_
  | _ => undefined

/-- Loop of `Context::Contains` over the scope vector, outermost first. -/
def Context.ContainsLoop : List ObjectPtr → String → M Bool
  | [], _ => pure false
  | scope :: rest, symbol_name => do
    if ← Scope.Contains scope symbol_name then pure true
    else Context.ContainsLoop rest symbol_name

/-- `Context::Contains`. -/
def Context.Contains (self : ObjectPtr) (symbol_name : String) : M Bool := do
  let context_ ← Context.scopes self
  Context.ContainsLoop context_ symbol_name

/-- `Context::Define`: `context_[context_.size() - 1]->Define(...)`. -/
def Context.Define (fuel : Nat) (self : ObjectPtr) (symbol_name : String) (value : ObjectPtr) : M Unit := do
  let context_ ← Context.scopes self
  match context_.getLast? with
  | some scope => Scope.Define fuel scope symbol_name value
  | none => undefined

/-- Loop of `Context::Change`; the list is the scope vector innermost first. -/
def Context.ChangeLoop (fuel : Nat) : List ObjectPtr → String → ObjectPtr → M Unit
  | [], _, _ => pure ()
  | scope :: rest, symbol_name, value => do
    if ← Scope.Contains scope symbol_name then Scope.Change fuel scope symbol_name value
    else Context.ChangeLoop fuel rest symbol_name value

/-- `Context::Change`. -/
def Context.Change (fuel : Nat) (self : ObjectPtr) (symbol_name : String) (value : ObjectPtr) : M Unit := do
  let context_ ← Context.scopes self
  Context.ChangeLoop fuel context_.reverse symbol_name value

/-- Loop of `Context::Get`; the list is the scope vector innermost first. -/
def Context.GetLoop : List ObjectPtr → String → M ObjectPtr
  | [], _ => pure .nullptr
  | scope :: rest, symbol_name => do
    if ← Scope.Contains scope symbol_name then Scope.Get scope symbol_name
    else Context.GetLoop rest symbol_name

/-- `Context::Get`. -/
def Context.Get (self : ObjectPtr) (symbol_name : String) : M ObjectPtr := do
  let context_ ← Context.scopes self
  Context.GetLoop context_.reverse symbol_name

/-- `Context::AddScope`. -/
def Context.AddScope (self : ObjectPtr) (scope_ptr : ObjectPtr) : M Unit := do
  let o ← load self
  match o.obj with
  | .Context context_ =>
    storeAt self { o with
      obj := .Context (context_ ++ [scope_ptr])
      dependencies_ := AddDependency o.dependencies_ scope_ptr }
  | _ => undefined

/-- `Context::PopScope`. -/
def Context.PopScope (self : ObjectPtr) : M Unit := do
  let o ← load self
  match o.obj with
  | .Context context_ =>
    match context_.getLast? with
    | some back =>
      storeAt self { o with
        obj := .Context context_.dropLast
        dependencies_ := RemoveDependency o.dependencies_ back }
    | none => undefined
  | _ => undefined

/-- `Context::AddEmptyScope`. -/
def Context.AddEmptyScope (self : ObjectPtr) : M Unit := do
  match ← deref self with
  | .Context _ =>
    let empty_scope ← Make (.Scope []) []
    Context.AddScope self empty_scope
  | _ => undefined

/-! ## Tokenizer -/

inductive BracketToken where
  | OPEN | CLOSE
  deriving DecidableEq, Repr

/-- `std::variant<ConstantToken, BracketToken, SymbolToken, QuoteToken, DotToken>`. -/
inductive Token where
  | ConstantToken (value : Int)
  | BracketToken (b : BracketToken)
  | SymbolToken (name : String)
  | QuoteToken
  | DotToken
  deriving DecidableEq, Repr

/-- `class Tokenizer`; `token_stream_` is what is left to read of the input.
A character outside the 7-bit range is a negative `char`, on which the
`<cctype>` classifiers have undefined behaviour. -/
structure Tokenizer where
  is_end_ : Bool
  token_stream_ : List Char
  last_processed_token_ : Token
  deriving DecidableEq, Repr

def IsOpenBracket (c : Char) : Bool := c = '('

def IsCloseBracket (c : Char) : Bool := c = ')'

def IsDot (c : Char) : Bool := c = '.'

def IsMinus (c : Char) : Bool := c = '-'

def IsPlus (c : Char) : Bool := c = '+'

def IsQuote (c : Char) : Bool := c = Char.ofNat 39

def IsAsterix (c : Char) : Bool := c = '*'

def IsSlash (c : Char) : Bool := c = '/'

/-- `std::isalpha` in the "C" locale. -/
def IsAlphabet (c : Char) : Bool := c.isAlpha

/-- `std::isdigit`. -/
def IsDigit (c : Char) : Bool := c.isDigit

/-- `std::isspace` in the "C" locale: space, `\t`, `\n`, `\v`, `\f`, `\r`. -/
def IsSpace (c : Char) : Bool := c = ' ' || (9 ≤ c.toNat && c.toNat ≤ 13)

def IsComparisonSign (c : Char) : Bool := '<'.toNat ≤ c.toNat && c.toNat ≤ '>'.toNat

def IsStartOfSymbol (c : Char) : Bool :=
  IsAlphabet c || IsComparisonSign c || IsAsterix c || IsSlash c || c = '#'

def IsPartOfSymbol (c : Char) : Bool :=
  IsStartOfSymbol c || IsDigit c || IsMinus c || c = '?' || c = '!'

/-- The character is representable as a non-negative `char`. -/
def isPlainChar (c : Char) : Bool := c.toNat < 128

/-- The loop `while (P(token_stream_->peek())) push_back(token_stream_->get())`:
the characters taken and the rest of the stream; `none` when a character
outside the 7-bit range is classified. -/
def takeWhilePeek (P : Char → Bool) : List Char → Option (List Char × List Char)
  | [] => some ([], [])
  | c :: rest =>
    if !isPlainChar c then none
    else if P c then
      match takeWhilePeek P rest with
      | some (taken, left) => some (c :: taken, left)
      | none => none
    else some ([], c :: rest)

/-- The loop `while (IsSpace(cur_char)) cur_char = token_stream_->get()`
together with the `get` before it: the first non-space character (`none` at
end of input) and the rest of the stream; the outer `none` is a character
outside the 7-bit range. -/
def skipSpaces : List Char → Option (Option Char × List Char)
  | [] => some (none, [])
  | c :: rest =>
    if !isPlainChar c then none
    else if IsSpace c then skipSpaces rest
    else some (some c, rest)

/-- Value of a string of decimal digits. -/
def digitsValue (digits : List Char) : Nat :=
  digits.foldl (fun acc c => 10 * acc + (c.toNat - '0'.toNat)) 0

/-- Value of a token string made of an optional sign and digits. -/
def signedValue : List Char → Int
  | '-' :: digits => - (digitsValue digits : Int)
  | '+' :: digits => (digitsValue digits : Int)
  | digits => (digitsValue digits : Int)

/-- `std::stoi`: the value when it fits `int`, `std::out_of_range` otherwise. -/
def stoi (str : List Char) : Except Error Int :=
  let v := signedValue str
  if -(2 : Int) ^ 31 ≤ v ∧ v < (2 : Int) ^ 31 then .ok v else .error (.out_of_range "stoi")

/-- `std::stoll`: the value when it fits `long long`, `std::out_of_range`
otherwise. -/
def stoll (str : List Char) : Except Error Int :=
  let v := signedValue str
  if -(2 : Int) ^ 63 ≤ v ∧ v < (2 : Int) ^ 63 then .ok v else .error (.out_of_range "stoll")

/-- Lift a conversion result into the heap monad. -/
def liftExcept {α : Type} : Except Error α → M α
  | .ok a => pure a
  | .error e => throw e

/-- `Tokenizer::ProcessPlusMinusToken`. -/
def Tokenizer.ProcessPlusMinusToken (self : Tokenizer) (cur_char : Char) : M Tokenizer :=
  match takeWhilePeek IsDigit self.token_stream_ with
  | none => undefined
  | some (digits, rest) =>
    if (cur_char :: digits).length = 1 then
      pure { self with token_stream_ := rest, last_processed_token_ := .SymbolToken (String.mk [cur_char]) }
    else do
      let value ← liftExcept (stoi (cur_char :: digits))
      pure { self with token_stream_ := rest, last_processed_token_ := .ConstantToken value }

/-- `Tokenizer::ProcessConstantToken`. -/
def Tokenizer.ProcessConstantToken (self : Tokenizer) (cur_char : Char) : M Tokenizer :=
  match takeWhilePeek IsDigit self.token_stream_ with
  | none => undefined
  | some (digits, rest) => do
    let value ← liftExcept (stoll (cur_char :: digits))
    pure { self with token_stream_ := rest, last_processed_token_ := .ConstantToken value }

/-- `Tokenizer::ProcessSymbolToken`. -/
def Tokenizer.ProcessSymbolToken (self : Tokenizer) (cur_char : Char) : M Tokenizer :=
  match takeWhilePeek IsPartOfSymbol self.token_stream_ with
  | none => undefined
  | some (part, rest) =>
    pure { self with token_stream_ := rest, last_processed_token_ := .SymbolToken (String.mk (cur_char :: part)) }

/-- `Tokenizer::Next`. -/
def Tokenizer.Next (self : Tokenizer) : M Tokenizer :=
  if self.is_end_ then throw (.SyntaxError "Wrong syntax!")
  else
    match skipSpaces self.token_stream_ with
    | none => undefined
    | some (none, rest) => pure { self with is_end_ := true, token_stream_ := rest }
    | some (some cur_char, rest) =>
      let self1 := { self with token_stream_ := rest }
      if IsQuote cur_char then pure { self1 with last_processed_token_ := .QuoteToken }
      else if IsOpenBracket cur_char then pure { self1 with last_processed_token_ := .BracketToken .OPEN }
      else if IsCloseBracket cur_char then pure { self1 with last_processed_token_ := .BracketToken .CLOSE }
      else if IsDot cur_char then pure { self1 with last_processed_token_ := .DotToken }
      else if IsPlus cur_char || IsMinus cur_char then self1.ProcessPlusMinusToken cur_char
      else if IsDigit cur_char then self1.ProcessConstantToken cur_char
      else if IsStartOfSymbol cur_char then self1.ProcessSymbolToken cur_char
      else throw (.SyntaxError "Cannot tokenize. Wrong syntax.")

/-- Constructor `Tokenizer(std::istream* in)`: the stream is attached and the
first token is read. -/
def Tokenizer.new (input : List Char) : M Tokenizer :=
  Tokenizer.Next { is_end_ := false, token_stream_ := input, last_processed_token_ := .ConstantToken 0 }

/-! ## Reader -/

def kQuoteSymbolName : String := "quote"

/-- `SpecifySymbolObject`. -/
def SpecifySymbolObject (symbol_name : String) : M ObjectPtr :=
  if symbol_name = kFalseTokenName ∨ symbol_name = kTrueTokenName then
    Make (.BooleanSymbol symbol_name) []
  else
    Make (.Symbol symbol_name .nullptr) []

/-- `AtCloseBracket`. -/
def AtCloseBracket (tokenizer : Tokenizer) : Bool :=
  match tokenizer.last_processed_token_ with
  | .BracketToken .CLOSE => true
  | _ => false

/-- `ReadList`; `read` is `Read`. -/
def ReadList (read : Tokenizer → M (ObjectPtr × Tokenizer)) :
    Nat → Tokenizer → M (ObjectPtr × Tokenizer)
  | 0, _ => timeout
  | fuel + 1, tokenizer =>
    if AtCloseBracket tokenizer then pure (.nullptr, tokenizer)
    else do
      let (first_elem, tokenizer) ← read tokenizer
      match tokenizer.last_processed_token_ with
      | .BracketToken .CLOSE => do
        let cell ← MakeCell first_elem .nullptr
        pure (cell, tokenizer)
      | .DotToken => do
        let tokenizer ← tokenizer.Next
        let (second, tokenizer) ← read tokenizer
        let cell ← MakeCell first_elem second
        pure (cell, tokenizer)
      | _ => do
        let (rest, tokenizer) ← ReadList read fuel tokenizer
        let cell ← MakeCell first_elem rest
        pure (cell, tokenizer)

/-- `Read`.  The tokenizer is passed and returned by value. -/
def Read : Nat → Tokenizer → M (ObjectPtr × Tokenizer)
  | 0, _ => timeout
  | fuel + 1, tokenizer =>
    if tokenizer.is_end_ then throw (.SyntaxError "No tokens to read.")
    else do
      let next := tokenizer.last_processed_token_
      let tokenizer ← tokenizer.Next
      match next with
      | .BracketToken .CLOSE => throw (.SyntaxError "Close bracket in the start of the expression.")
      | .BracketToken .OPEN => do
        let (list_ptr, tokenizer) ← ReadList (Read fuel) fuel tokenizer
        if !AtCloseBracket tokenizer then
          throw (.SyntaxError "Wrong syntax! Not enough close brackets.")
        else do
          let tokenizer ← tokenizer.Next
          pure (list_ptr, tokenizer)
      | .ConstantToken value => do
        let number ← Make (.Number value) []
        pure (number, tokenizer)
      | .SymbolToken name => do
        let symbol ← SpecifySymbolObject name
        pure (symbol, tokenizer)
      | .QuoteToken =>
        if tokenizer.is_end_ then throw (.SyntaxError "Wrong syntax for quote.")
        else do
          let quote ← Make (.Symbol kQuoteSymbolName .nullptr) []
          let (datum, tokenizer) ← Read fuel tokenizer
          let inner ← MakeCell datum .nullptr
          let cell ← MakeCell quote inner
          pure (cell, tokenizer)
      | .DotToken => throw (.SyntaxError "Wrong syntax! Probably dot in a wrong place.")

/-! ## Helper functions (`helper_functions.cpp`) -/

/-- The `while (Is<Cell>(cell))` loop and the tail of `ListToVector`. -/
def ListToVectorLoop : Nat → ObjectPtr → ObjectPtrVector → M ObjectPtrVector
  | 0, _, _ => timeout
  | fuel + 1, cell, result => do
    if ← Is .Cell cell then
      match ← deref cell with
      | .Cell first_ second_ => ListToVectorLoop fuel second_ (result ++ [first_])
      | _ => undefined
    else if cell ≠ .nullptr then pure (result ++ [cell])
    else pure result

/-- `ListToVector`. -/
def ListToVector (fuel : Nat) (cell : ObjectPtr) : M ObjectPtrVector := do
  if !(← Is .Cell cell) && cell ≠ .nullptr then pure [cell]
  else ListToVectorLoop fuel cell []

/-- The loop of `ThrowIfMismatchOperandsType<RequiredType>`. -/
def ThrowIfMismatchOperandsType (t : TypeTag) : ObjectPtrVector → String → M Unit
  | [], _ => pure ()
  | ptr :: rest, message => do
    if !(← Is t ptr) then throw (.RuntimeError message)
    else ThrowIfMismatchOperandsType t rest message

/-- `ThrowIfMismatchOperandType<RequiredType>(number, list, message)`. -/
def ThrowIfMismatchOperandType (t : TypeTag) (number : Nat) (vectorized_list : ObjectPtrVector)
    (message : String) : M Unit :=
  match vectorized_list.get? number with
  | none => undefined
  | some ptr => do
    if !(← Is t ptr) then throw (.RuntimeError message) else pure ()

/-- `As<Number>(p)->GetValue()`. -/
def GetValue (p : ObjectPtr) : M Int := do
  match ← deref p with
  | .Number value_ => pure value_
  | _ => undefined

/-- `ThrowIfZeroDivisors`: the divisors are the elements after the first. -/
def ThrowIfZeroDivisorsLoop : ObjectPtrVector → M Unit
  | [] => pure ()
  | p :: rest => do
    if (← GetValue p) = 0 then throw (.RuntimeError "Division by zero.")
    else ThrowIfZeroDivisorsLoop rest

def ThrowIfZeroDivisors (list : ObjectPtrVector) : M Unit :=
  ThrowIfZeroDivisorsLoop list.tail

/-- `ThrowIfWrongNumberOfArguments`. -/
def ThrowIfWrongNumberOfArguments (number : Nat) (list : ObjectPtrVector) (func_name : String) : M Unit :=
  if list.length ≠ number then
    throw (.RuntimeError (func_name ++ " takes only " ++ Nat.repr number ++ " argument."))
  else pure ()

/-- The loop `while (Is<Cell>(As<Cell>(cell)->GetSecond())) cell = ...` of
`CheckIfList`: the last cell of the chain. -/
def LastCell : Nat → ObjectPtr → M ObjectPtr
  | 0, _ => timeout
  | fuel + 1, cell => do
    match ← deref cell with
    | .Cell _ second_ =>
      if ← Is .Cell second_ then LastCell fuel second_ else pure cell
    | _ => undefined

/-- `CheckIfList`: a fresh `#t` or `#f`. -/
def CheckIfList (fuel : Nat) (ptr : ObjectPtr) : M ObjectPtr := do
  if !(← Is .Cell ptr) then
    if ptr = .nullptr then Make (.BooleanSymbol "#t") []
    else Make (.BooleanSymbol "#f") []
  else do
    let cell ← LastCell fuel ptr
    match ← deref cell with
    | .Cell _ second_ =>
      if second_ = .nullptr then Make (.BooleanSymbol "#t") []
      else Make (.BooleanSymbol "#f") []
    | _ => undefined

/-- `BooleanSymbol::IsTrue`: `is_true_` is set to `name_ == kTrueTokenName`
by both constructors. -/
def IsTrue (name_ : String) : Bool := name_ = kTrueTokenName

/-- `As<BooleanSymbol>(p)->IsTrue()`. -/
def AsBooleanIsTrue (p : ObjectPtr) : M Bool := do
  match ← deref p with
  | .BooleanSymbol name_ => pure (IsTrue name_)
  | _ => undefined

/-- `ValidateArgumentsForListTailAndRef`. -/
def ValidateArgumentsForListTailAndRef (fuel : Nat) (list : ObjectPtrVector) : M Unit := do
  ThrowIfWrongNumberOfArguments 2 list "List-ref (tail)"
  match list with
  | [l0, l1] => do
    let check ← CheckIfList fuel l0
    if !(← AsBooleanIsTrue check) then
      throw (.RuntimeError "First operand for list-ref (tail) must be list.")
    else do
      ThrowIfMismatchOperandType .Number 1 list "Second operand for list-ref (tail) must be number."
      let required_number ← GetValue l1
      if required_number < 0 then
        throw (.RuntimeError "Second operand for list-ref (tail) must be non-negative.")
      else pure ()
  | _ => undefined

/-- Two's-complement wrap-around of a mathematical integer into `int64_t`. -/
def wrap64 (v : Int) : Int := (v + 2 ^ 63) % 2 ^ 64 - 2 ^ 63

/-- The functors of `BinaryFoldFunction` on `int64_t`; `none` is the one
undefined quotient (`INT64_MIN / -1`; division by zero is excluded before
the fold). -/
def FoldFunctor.call : FoldFunctor → Int → Int → Option Int
  | .plus, a, b => some (wrap64 (a + b))
  | .minus, a, b => some (wrap64 (a - b))
  | .multiplies, a, b => some (wrap64 (a * b))
  | .divides, a, b =>
    if b = 0 ∨ (a = -2 ^ 63 ∧ b = -1) then none else some (Int.tdiv a b)
  | .Max, a, b => some (if a > b then a else b)
  | .Min, a, b => some (if a > b then b else a)

/-- The functors of `MonotonicFunction`. -/
def MonotonicFunctor.call : MonotonicFunctor → Int → Int → Bool
  | .less, a, b => a < b
  | .less_equal, a, b => a ≤ b
  | .equal_to, a, b => a = b
  | .greater, a, b => a > b
  | .greater_equal, a, b => a ≥ b

/-! ## Built-in procedures (`Apply` of the function classes)

`ev` is `EvaluateExpression`, `self` the function object on which the
virtual `Apply` was called; its member `context_` is read from the heap at
each point where the C++ reads it. -/

/-- The member `context_` of the function object at `self`. -/
def Function.context_ (self : ObjectPtr) : M ObjectPtr := do
  match ← deref self with
  | .Function _ context_ => pure context_
  | _ => undefined

/-- `EvaluateListArguments`. -/
def EvaluateListArguments (ev : ObjectPtr → ObjectPtr → M ObjectPtr) :
    ObjectPtrVector → ObjectPtr → M ObjectPtrVector
  | [], _ => pure []
  | x :: rest, context => do
    let v ← ev x context
    let vs ← EvaluateListArguments ev rest context
    pure (v :: vs)

/-- A fresh `BooleanSymbol` for a C++ `bool`. -/
def MakeBoolean (b : Bool) : M ObjectPtr :=
  Make (.BooleanSymbol (if b then kTrueTokenName else kFalseTokenName)) []

/-- The fold loop of `BinaryFoldFunction::Apply`. -/
def BinaryFoldFunction.Loop (f : FoldFunctor) : Int → ObjectPtrVector → M Int
  | result, [] => pure result
  | result, p :: rest => do
    match f.call result (← GetValue p) with
    | some r => BinaryFoldFunction.Loop f r rest
    | none => undefined

/-- `BinaryFoldFunction<Functor>::ApplyToEmptyList`. -/
def BinaryFoldFunction.ApplyToEmptyList : FoldFunctor → M ObjectPtr
  | .plus => Make (.Number 0) []
  | .multiplies => Make (.Number 1) []
  | _ => throw (.RuntimeError "Few arguments.")

/-- `BinaryFoldFunction<Functor>::Apply`. -/
def BinaryFoldFunction.Apply (ev : ObjectPtr → ObjectPtr → M ObjectPtr) (f : FoldFunctor)
    (self : ObjectPtr) (vectorized_list : ObjectPtrVector) : M ObjectPtr := do
  let eval_list ← EvaluateListArguments ev vectorized_list (← Function.context_ self)
  ThrowIfMismatchOperandsType .Number eval_list "Operands must be numbers."
  if f = .divides then ThrowIfZeroDivisors eval_list
  match eval_list with
  | [] => BinaryFoldFunction.ApplyToEmptyList f
  | front :: rest => do
    let result ← BinaryFoldFunction.Loop f (← GetValue front) rest
    Make (.Number result) []

/-- The loop of `MonotonicFunction::Apply` over adjacent pairs. -/
def MonotonicFunction.Loop (f : MonotonicFunctor) : ObjectPtrVector → M Bool
  | a :: b :: rest => do
    if !(f.call (← GetValue a) (← GetValue b)) then pure false
    else MonotonicFunction.Loop f (b :: rest)
  | _ => pure true

/-- `MonotonicFunction<Functor>::Apply`. -/
def MonotonicFunction.Apply (ev : ObjectPtr → ObjectPtr → M ObjectPtr) (f : MonotonicFunctor)
    (self : ObjectPtr) (vectorized_list : ObjectPtrVector) : M ObjectPtr := do
  let eval_list ← EvaluateListArguments ev vectorized_list (← Function.context_ self)
  ThrowIfMismatchOperandsType .Number eval_list "Operands must be numbers."
  if ← MonotonicFunction.Loop f eval_list then Make (.BooleanSymbol "#t") []
  else Make (.BooleanSymbol "#f") []

/-- `PredicateFunction<Type>::Apply`. -/
def PredicateFunction.Apply (ev : ObjectPtr → ObjectPtr → M ObjectPtr) (t : TypeTag)
    (self : ObjectPtr) (vectorized_list : ObjectPtrVector) : M ObjectPtr := do
  let eval_list ← EvaluateListArguments ev vectorized_list (← Function.context_ self)
  ThrowIfWrongNumberOfArguments 1 eval_list "Predicate"
  match eval_list with
  | [e0] => if ← Is t e0 then Make (.BooleanSymbol "#t") [] else Make (.BooleanSymbol "#f") []
  | _ => undefined

/-- `NullPredicateFunction::Apply`. -/
def NullPredicateFunction.Apply (ev : ObjectPtr → ObjectPtr → M ObjectPtr)
    (self : ObjectPtr) (vectorized_list : ObjectPtrVector) : M ObjectPtr := do
  let eval_list ← EvaluateListArguments ev vectorized_list (← Function.context_ self)
  ThrowIfWrongNumberOfArguments 1 vectorized_list "Predicate"
  match eval_list with
  | [e0] => MakeBoolean (e0 = .nullptr)
  | _ => undefined

/-- `ListPredicateFunction::Apply`. -/
def ListPredicateFunction.Apply (ev : ObjectPtr → ObjectPtr → M ObjectPtr) (fuel : Nat)
    (self : ObjectPtr) (vectorized_list : ObjectPtrVector) : M ObjectPtr := do
  let eval_list ← EvaluateListArguments ev vectorized_list (← Function.context_ self)
  ThrowIfWrongNumberOfArguments 1 eval_list "Predicate"
  match eval_list with
  | [e0] => CheckIfList fuel e0
  | _ => undefined

/-- `ConsFunction::Apply`. -/
def ConsFunction.Apply (ev : ObjectPtr → ObjectPtr → M ObjectPtr)
    (self : ObjectPtr) (vectorized_list : ObjectPtrVector) : M ObjectPtr := do
  let eval_list ← EvaluateListArguments ev vectorized_list (← Function.context_ self)
  ThrowIfWrongNumberOfArguments 2 eval_list "Cons"
  match eval_list with
  | [e0, e1] => MakeCell e0 e1
  | _ => undefined

/-- `CarFunction::Apply`. -/
def CarFunction.Apply (ev : ObjectPtr → ObjectPtr → M ObjectPtr)
    (self : ObjectPtr) (vectorized_list : ObjectPtrVector) : M ObjectPtr := do
  let eval_list ← EvaluateListArguments ev vectorized_list (← Function.context_ self)
  ThrowIfWrongNumberOfArguments 1 eval_list "Car"
  ThrowIfMismatchOperandsType .Cell eval_list "Operand must be cell."
  match eval_list with
  | [e0] =>
    match ← deref e0 with
    | .Cell first_ _ => pure first_
    | _ => undefined
  | _ => undefined

/-- `CdrFunction::Apply`. -/
def CdrFunction.Apply (ev : ObjectPtr → ObjectPtr → M ObjectPtr)
    (self : ObjectPtr) (vectorized_list : ObjectPtrVector) : M ObjectPtr := do
  let eval_list ← EvaluateListArguments ev vectorized_list (← Function.context_ self)
  ThrowIfWrongNumberOfArguments 1 eval_list "Cdr"
  ThrowIfMismatchOperandsType .Cell eval_list "Operand must be cell."
  match eval_list with
  | [e0] =>
    match ← deref e0 with
    | .Cell _ second_ => pure second_
    | _ => undefined
  | _ => undefined

/-- The loop of `ToListFunction::Apply`; the list holds the elements still
to be prepended, last one first. -/
def ToListFunction.Loop : ObjectPtrVector → ObjectPtr → M ObjectPtr
  | [], last_cell => pure last_cell
  | e :: rest, last_cell => do
    let cell ← MakeCell e last_cell
    ToListFunction.Loop rest cell

/-- `ToListFunction::Apply`. -/
def ToListFunction.Apply (ev : ObjectPtr → ObjectPtr → M ObjectPtr)
    (self : ObjectPtr) (vectorized_list : ObjectPtrVector) : M ObjectPtr := do
  let eval_list ← EvaluateListArguments ev vectorized_list (← Function.context_ self)
  match eval_list.reverse with
  | [] => pure .nullptr
  | last :: rest => do
    let last_cell ← MakeCell last .nullptr
    ToListFunction.Loop rest last_cell

/-- The `while` loop of `ListRefFunction::Apply`: the cell reached and the
final `count`. -/
def ListRefFunction.Loop : Nat → ObjectPtr → Int → Int → M (ObjectPtr × Int)
  | 0, _, _, _ => timeout
  | fuel + 1, cell, count, required_number =>
    if count = required_number then pure (cell, count)
    else do
      match ← deref cell with
      | .Cell _ second_ =>
        if ← Is .Cell second_ then ListRefFunction.Loop fuel second_ (count + 1) required_number
        else pure (cell, count)
      | _ => undefined

/-- `ListRefFunction::Apply`. -/
def ListRefFunction.Apply (ev : ObjectPtr → ObjectPtr → M ObjectPtr) (fuel : Nat)
    (self : ObjectPtr) (vectorized_list : ObjectPtrVector) : M ObjectPtr := do
  let eval_list ← EvaluateListArguments ev vectorized_list (← Function.context_ self)
  ValidateArgumentsForListTailAndRef fuel eval_list
  match eval_list with
  | [cell, e1] => do
    let required_number ← GetValue e1
    if cell = .nullptr then
      throw (.RuntimeError "Index for list-ref must less than list size.")
    else do
      let (cell, count) ← ListRefFunction.Loop fuel cell 0 required_number
      if count ≠ required_number then
        throw (.RuntimeError "Index for list-ref must less than list size.")
      else
        match ← deref cell with
        | .Cell first_ _ => pure first_
        | _ => undefined
  | _ => undefined

/-- The `while` loop of `ListTailFunction::Apply`. -/
def ListTailFunction.Loop : Nat → ObjectPtr → Int → Int → M (ObjectPtr × Int)
  | 0, _, _, _ => timeout
  | fuel + 1, cell, count, required_number =>
    if count = required_number then pure (cell, count)
    else if cell = .nullptr then pure (cell, count)
    else do
      match ← deref cell with
      | .Cell _ second_ =>
        if ← Is .Cell second_ then ListTailFunction.Loop fuel second_ (count + 1) required_number
        else pure (cell, count)
      | _ => undefined

/-- `ListTailFunction::Apply`. -/
def ListTailFunction.Apply (ev : ObjectPtr → ObjectPtr → M ObjectPtr) (fuel : Nat)
    (self : ObjectPtr) (vectorized_list : ObjectPtrVector) : M ObjectPtr := do
  let eval_list ← EvaluateListArguments ev vectorized_list (← Function.context_ self)
  ValidateArgumentsForListTailAndRef fuel eval_list
  match eval_list with
  | [cell, e1] => do
    let required_number ← GetValue e1
    let (cell, count) ← ListTailFunction.Loop fuel cell 0 required_number
    if count = required_number - 1 then pure .nullptr
    else if count = required_number then pure cell
    else throw (.RuntimeError "Index for list-tail must less or equal to list size.")
  | _ => undefined

/-- `AbsFunction::Apply`. -/
def AbsFunction.Apply (ev : ObjectPtr → ObjectPtr → M ObjectPtr)
    (self : ObjectPtr) (vectorized_list : ObjectPtrVector) : M ObjectPtr := do
  let eval_list ← EvaluateListArguments ev vectorized_list (← Function.context_ self)
  ThrowIfWrongNumberOfArguments 1 eval_list "Abs"
  ThrowIfMismatchOperandsType .Number eval_list "Operands must be numbers."
  match eval_list with
  | [e0] => do
    let value ← GetValue e0
    Make (.Number (wrap64 (if value < 0 then -value else value))) []
  | _ => undefined

/-- `NegFunction::Apply`. -/
def NegFunction.Apply (ev : ObjectPtr → ObjectPtr → M ObjectPtr)
    (self : ObjectPtr) (vectorized_list : ObjectPtrVector) : M ObjectPtr := do
  let eval_list ← EvaluateListArguments ev vectorized_list (← Function.context_ self)
  ThrowIfWrongNumberOfArguments 1 eval_list "Not"
  match eval_list with
  | [e0] =>
    if ← Is .BooleanSymbol e0 then
      if ← AsBooleanIsTrue e0 then Make (.BooleanSymbol kFalseTokenName) []
      else Make (.BooleanSymbol kTrueTokenName) []
    else Make (.BooleanSymbol kFalseTokenName) []
  | _ => undefined

/-! ## Special forms -/

/-- `QuoteFunction::Apply`. -/
def QuoteFunction.Apply (vectorized_list : ObjectPtrVector) : M ObjectPtr := do
  ThrowIfWrongNumberOfArguments 1 vectorized_list "Quote"
  match vectorized_list with
  | [v0] => pure v0
  | _ => undefined

/-- The test `As<BooleanSymbol>(p) && !As<BooleanSymbol>(p)->IsTrue()`: the
value is the Boolean `#f`. -/
def IsFalseBoolean (p : ObjectPtr) : M Bool := do
  if ← Is .BooleanSymbol p then
    pure (!(← AsBooleanIsTrue p))
  else pure false

/-- The `for` loop of `AndFunction::Apply`, entered at index `i` with the
arguments from `i` on; the empty list is the fall-through after the loop. -/
def AndFunction.Loop (ev : ObjectPtr → ObjectPtr → M ObjectPtr) (self : ObjectPtr) :
    ObjectPtrVector → M ObjectPtr
  | [] => Make (.BooleanSymbol kTrueTokenName) []
  | x :: rest => do
    let eval_ptr ← ev x (← Function.context_ self)
    if ← IsFalseBoolean eval_ptr then pure eval_ptr
    else if rest = [] then pure eval_ptr
    else AndFunction.Loop ev self rest

/-- `AndFunction::Apply`. -/
def AndFunction.Apply (ev : ObjectPtr → ObjectPtr → M ObjectPtr)
    (self : ObjectPtr) (vectorized_list : ObjectPtrVector) : M ObjectPtr :=
  AndFunction.Loop ev self vectorized_list

/-- The `for` loop of `OrFunction::Apply`. -/
def OrFunction.Loop (ev : ObjectPtr → ObjectPtr → M ObjectPtr) (self : ObjectPtr) :
    ObjectPtrVector → M ObjectPtr
  | [] => Make (.BooleanSymbol kFalseTokenName) []
  | x :: rest => do
    let eval_ptr ← ev x (← Function.context_ self)
    if !(← IsFalseBoolean eval_ptr) then pure eval_ptr
    else if rest = [] then pure eval_ptr
    else OrFunction.Loop ev self rest

/-- `OrFunction::Apply`. -/
def OrFunction.Apply (ev : ObjectPtr → ObjectPtr → M ObjectPtr)
    (self : ObjectPtr) (vectorized_list : ObjectPtrVector) : M ObjectPtr :=
  OrFunction.Loop ev self vectorized_list

/-- `As<Symbol>(p)->GetName()`. -/
def GetName (p : ObjectPtr) : M String := do
  match ← deref p with
  | .Symbol name_ _ => pure name_
  | _ => undefined

/-- `DefineFunction::Apply`.  In `context_->Define(name, EvaluateExpression(..., context_))`
the object expression `context_` is read before the argument is evaluated. -/
def DefineFunction.Apply (ev : ObjectPtr → ObjectPtr → M ObjectPtr) (fuel : Nat)
    (self : ObjectPtr) (vectorized_list : ObjectPtrVector) : M ObjectPtr :=
  match vectorized_list with
  | v0 :: v1 :: more => do
    if ← Is .Symbol v0 then
      let var_name ← GetName v0
      if (v0 :: v1 :: more).length ≠ 2 then throw (.SyntaxError "Wrong syntax for define.")
      else do
        let context_ ← Function.context_ self
        let value ← ev v1 context_
        Context.Define fuel context_ var_name value
        pure .nullptr
    else if ← Is .Cell v0 then
      let signature ← ListToVector fuel v0
      match signature with
      | s0 :: args => do
        let func_name ← GetName s0
        let body := v1 :: more
        let context_ ← Function.context_ self
        let lambda ← MakeLambdaFunction args body context_
        Context.Define fuel context_ func_name lambda
        pure .nullptr
      | [] => undefined
    else throw (.SyntaxError "Wrong syntax for define.")
  | _ => throw (.SyntaxError "Wrong syntax for define.")

/-- `SetFunction::Apply`. -/
def SetFunction.Apply (ev : ObjectPtr → ObjectPtr → M ObjectPtr) (fuel : Nat)
    (self : ObjectPtr) (vectorized_list : ObjectPtrVector) : M ObjectPtr :=
  match vectorized_list with
  | [v0, v1] => do
    ThrowIfMismatchOperandType .Symbol 0 vectorized_list "First argument for define must be a symbol"
    let var_name ← GetName v0
    if !(← Context.Contains (← Function.context_ self) var_name) then
      throw (.NameError "Variable for set must be defined before.")
    else do
      let context_ ← Function.context_ self
      let value ← ev v1 context_
      Context.Change fuel context_ var_name value
      pure .nullptr
  | _ => throw (.SyntaxError "Wrong syntax for set.")

/-- `Cell::SetFirst`. -/
def Cell.SetFirst (self : ObjectPtr) (first : ObjectPtr) : M Unit := do
  let o ← load self
  match o.obj with
  | .Cell first_ second_ =>
    storeAt self { o with
      obj := .Cell first second_
      dependencies_ := AddDependency (RemoveDependency o.dependencies_ first_) first }
  | _ => undefined

/-- `Cell::SetSecond`. -/
def Cell.SetSecond (self : ObjectPtr) (second : ObjectPtr) : M Unit := do
  let o ← load self
  match o.obj with
  | .Cell first_ second_ =>
    storeAt self { o with
      obj := .Cell first_ second
      dependencies_ := AddDependency (RemoveDependency o.dependencies_ second_) second }
  | _ => undefined

/-- `SetCar::Apply`. -/
def SetCar.Apply (ev : ObjectPtr → ObjectPtr → M ObjectPtr)
    (self : ObjectPtr) (vectorized_list : ObjectPtrVector) : M ObjectPtr :=
  match vectorized_list with
  | [v0, v1] => do
    let eval_first_arg ← ev v0 (← Function.context_ self)
    if !(← Is .Cell eval_first_arg) then
      throw (.RuntimeError "First operand for set-car must be a cell.")
    else do
      let value ← ev v1 (← Function.context_ self)
      Cell.SetFirst eval_first_arg value
      pure .nullptr
  | _ => throw (.SyntaxError "Wrong syntax for set-car.")

/-- `SetCdr::Apply`. -/
def SetCdr.Apply (ev : ObjectPtr → ObjectPtr → M ObjectPtr)
    (self : ObjectPtr) (vectorized_list : ObjectPtrVector) : M ObjectPtr :=
  match vectorized_list with
  | [v0, v1] => do
    let eval_first_arg ← ev v0 (← Function.context_ self)
    if !(← Is .Cell eval_first_arg) then
      throw (.RuntimeError "First operand for set-car must be a cell.")
    else do
      let value ← ev v1 (← Function.context_ self)
      Cell.SetSecond eval_first_arg value
      pure .nullptr
  | _ => throw (.SyntaxError "Wrong syntax for set-cdr.")

/-- `IfFunction::Apply`. -/
def IfFunction.Apply (ev : ObjectPtr → ObjectPtr → M ObjectPtr)
    (self : ObjectPtr) (vectorized_list : ObjectPtrVector) : M ObjectPtr :=
  match vectorized_list with
  | [v0, v1] => do
    let evaluated_condition ← ev v0 (← Function.context_ self)
    if !(← IsFalseBoolean evaluated_condition) then
      ev v1 (← Function.context_ self)
    else pure .nullptr
  | [v0, v1, v2] => do
    let evaluated_condition ← ev v0 (← Function.context_ self)
    if !(← IsFalseBoolean evaluated_condition) then
      ev v1 (← Function.context_ self)
    else
      ev v2 (← Function.context_ self)
  | _ => throw (.SyntaxError "Wrong number of arguments for if.")

/-- `LambdaDeclaration::Apply`. -/
def LambdaDeclaration.Apply (fuel : Nat)
    (self : ObjectPtr) (vectorized_list : ObjectPtrVector) : M ObjectPtr :=
  match vectorized_list with
  | v0 :: v1 :: more => do
    if v0 ≠ .nullptr && !(← Is .Cell v0) then
      throw (.SyntaxError "Wrong format for list of lambda's arguments.")
    else do
      let args ← ListToVector fuel v0
      ThrowIfMismatchOperandsType .Symbol args "Args for lambda declaration must be symbols."
      let body := v1 :: more
      MakeLambdaFunction args body (← Function.context_ self)
  | _ => throw (.SyntaxError "Wrong syntax for lambda declaration.")

/-- The member `captured_context_` of the lambda at `self`. -/
def LambdaFunction.captured_context_ (self : ObjectPtr) : M ObjectPtr := do
  match ← deref self with
  | .LambdaFunction _ _ captured_context_ _ => pure captured_context_
  | _ => undefined

/-- The member `current_context_` of the lambda at `self`. -/
def LambdaFunction.current_context_ (self : ObjectPtr) : M ObjectPtr := do
  match ← deref self with
  | .LambdaFunction _ _ _ current_context_ => pure current_context_
  | _ => undefined

/-- First loop of `LambdaFunction::Apply`: each argument is evaluated in
`current_context_` and at once defined in `captured_context_`. -/
def LambdaFunction.BindLoop (ev : ObjectPtr → ObjectPtr → M ObjectPtr) (fuel : Nat)
    (self : ObjectPtr) : ObjectPtrVector → ObjectPtrVector → M Unit
  | [], _ => pure ()
  | arg :: args, vectorized_list =>
    match vectorized_list with
    | [] => undefined
    | v :: vs => do
      let name ← GetName arg
      let value ← ev v (← LambdaFunction.current_context_ self)
      Context.Define fuel (← LambdaFunction.captured_context_ self) name value
      LambdaFunction.BindLoop ev fuel self args vs

/-- Second loop of `LambdaFunction::Apply` and the evaluation of the last
body expression. -/
def LambdaFunction.BodyLoop (ev : ObjectPtr → ObjectPtr → M ObjectPtr)
    (self : ObjectPtr) : ObjectPtrVector → M ObjectPtr
  | [] => undefined
  | [last] => do
    ev last (← LambdaFunction.captured_context_ self)
  | b :: rest => do
    let _ ← ev b (← LambdaFunction.captured_context_ self)
    LambdaFunction.BodyLoop ev self rest

/-- `LambdaFunction::Apply`. -/
def LambdaFunction.Apply (ev : ObjectPtr → ObjectPtr → M ObjectPtr) (fuel : Nat)
    (self : ObjectPtr) (vectorized_list : ObjectPtrVector) : M ObjectPtr := do
  match ← deref self with
  | .LambdaFunction args_ body_ captured_context_ _ => do
    Context.AddEmptyScope captured_context_
    if args_.length ≠ vectorized_list.length then
      throw (.RuntimeError "Wrong number of args for lambda call.")
    else do
      LambdaFunction.BindLoop ev fuel self args_ vectorized_list
      let ans ← LambdaFunction.BodyLoop ev self body_
      Context.PopScope captured_context_
      pure ans
  | _ => undefined

/-- Virtual `Apply(vectorized_list)` on the object at `self`. -/
def Apply (ev : ObjectPtr → ObjectPtr → M ObjectPtr) (fuel : Nat)
    (self : ObjectPtr) (vectorized_list : ObjectPtrVector) : M ObjectPtr := do
  match ← deref self with
  | .Function cls _ =>
    match cls with
    | .BinaryFoldFunction f => BinaryFoldFunction.Apply ev f self vectorized_list
    | .MonotonicFunction f => MonotonicFunction.Apply ev f self vectorized_list
    | .PredicateFunction t => PredicateFunction.Apply ev t self vectorized_list
    | .NullPredicateFunction => NullPredicateFunction.Apply ev self vectorized_list
    | .ListPredicateFunction => ListPredicateFunction.Apply ev fuel self vectorized_list
    | .ConsFunction => ConsFunction.Apply ev self vectorized_list
    | .CarFunction => CarFunction.Apply ev self vectorized_list
    | .CdrFunction => CdrFunction.Apply ev self vectorized_list
    | .ToListFunction => ToListFunction.Apply ev self vectorized_list
    | .ListRefFunction => ListRefFunction.Apply ev fuel self vectorized_list
    | .ListTailFunction => ListTailFunction.Apply ev fuel self vectorized_list
    | .AbsFunction => AbsFunction.Apply ev self vectorized_list
    | .NegFunction => NegFunction.Apply ev self vectorized_list
    | .QuoteFunction => QuoteFunction.Apply vectorized_list
    | .AndFunction => AndFunction.Apply ev self vectorized_list
    | .OrFunction => OrFunction.Apply ev self vectorized_list
    | .DefineFunction => DefineFunction.Apply ev fuel self vectorized_list
    | .SetFunction => SetFunction.Apply ev fuel self vectorized_list
    | .SetCar => SetCar.Apply ev self vectorized_list
    | .SetCdr => SetCdr.Apply ev self vectorized_list
    | .IfFunction => IfFunction.Apply ev self vectorized_list
    | .LambdaDeclaration => LambdaDeclaration.Apply fuel self vectorized_list
  | .LambdaFunction _ _ _ _ => LambdaFunction.Apply ev fuel self vectorized_list
  | _ => throw notImplemented

/-! ## Evaluation -/

/-- `Symbol::Evaluate`. -/
def Symbol.Evaluate (name_ : String) (context : ObjectPtr) : M ObjectPtr := do
  if ← Context.Contains context name_ then
    let eval_symbol ← Context.Get context name_
    SetContext eval_symbol context
    pure eval_symbol
  else throw (.NameError "There are no such name.")

/-- `EvaluateExpression`.  The budget bounds the nesting of calls of
`EvaluateExpression` (the C++ call stack) and the loops over cell chains. -/
def EvaluateExpression : Nat → ObjectPtr → ObjectPtr → M ObjectPtr
  | 0, _, _ => timeout
  | fuel + 1, ast, context =>
    match ast with
    | .nullptr => throw (.RuntimeError "Cannot evaluate AST.")
    | _ => do
      match ← deref ast with
      | .Number value_ => Make (.Number value_) []
      | .BooleanSymbol name_ => Make (.BooleanSymbol name_) []
      | .Symbol name_ _ => Symbol.Evaluate name_ context
      | .Cell head tail => do
        let symbol_evaluated ← EvaluateExpression fuel head context
        if symbol_evaluated = .nullptr then
          throw (.RuntimeError "First element of pair must be applicable.")
        else do
          let args ← ListToVector fuel tail
          Apply (EvaluateExpression fuel) fuel symbol_evaluated args
      | _ => throw (.RuntimeError "Cannot evaluate AST.")

/-! ## Collector -/

/-- The loop over `dependencies_` in `Object::Mark`; `mark` is `Mark`. -/
def MarkDependencies (mark : ObjectPtr → M Unit) : List ObjectPtr → M Unit
  | [] => pure ()
  | dependence :: rest => do
    if dependence ≠ .nullptr then
      if !(← load dependence).is_connected_to_root then mark dependence
    MarkDependencies mark rest

/-- `Object::Mark`.  The budget bounds the nesting of `Mark` calls. -/
def Mark : Nat → ObjectPtr → M Unit
  | 0, _ => timeout
  | fuel + 1, self => do
    let o ← load self
    storeAt self { o with is_connected_to_root := true }
    MarkDependencies (Mark fuel) o.dependencies_

/-- A pointer after `delete` of the object at `a`. -/
def ObjectPtr.afterDelete (a : Nat) (p : ObjectPtr) : ObjectPtr :=
  if p = .addr a then .invalid else p

/-- The pointer members of an object after `delete` of the object at `a`. -/
def Object.afterDelete (a : Nat) : Object → Object
  | .Number value_ => .Number value_
  | .Symbol name_ context_ => .Symbol name_ (context_.afterDelete a)
  | .BooleanSymbol name_ => .BooleanSymbol name_
  | .Cell first_ second_ => .Cell (first_.afterDelete a) (second_.afterDelete a)
  | .Function cls context_ => .Function cls (context_.afterDelete a)
  | .LambdaFunction args_ body_ captured_context_ current_context_ =>
    .LambdaFunction (args_.map (ObjectPtr.afterDelete a)) (body_.map (ObjectPtr.afterDelete a))
      (captured_context_.afterDelete a) (current_context_.afterDelete a)
  | .Scope scope_map_ => .Scope (scope_map_.map (fun kv => (kv.1, kv.2.afterDelete a)))
  | .Context context_ => .Context (context_.map (ObjectPtr.afterDelete a))

def HeapObject.afterDelete (a : Nat) (o : HeapObject) : HeapObject :=
  { o with obj := o.obj.afterDelete a, dependencies_ := o.dependencies_.map (ObjectPtr.afterDelete a) }

/-- `delete p` for `p = addr a`: the storage is released and every pointer to
it that is left in the heap is from now on an invalid pointer value. -/
def delete (a : Nat) : M Unit := fun h =>
  match h.memory.get? a with
  | some (some _) =>
    .ok () { h with
      memory := (h.memory.set a none).map (Option.map (HeapObject.afterDelete a))
      root_ := h.root_.afterDelete a }
  | _ => .undefined

/-- The `for` loop of `Heap::MarkAndSweep`.  `kept` is `heap_[0..i)`,
the third argument `heap_[i..)`; the result is the final `heap_`.  The first
argument bounds the number of iterations (each one shortens `heap_[i..)`). -/
def SweepLoop : Nat → List Nat → List Nat → M (List Nat)
  | 0, _, _ => timeout
  | _ + 1, kept, [] => pure kept
  | fuel + 1, kept, p :: rest => do
    let o ← load (.addr p)
    if !o.is_connected_to_root then
      -- std::swap(heap_[i], heap_.back()); delete heap_.back(); heap_.pop_back();
      delete p
      match rest.getLast? with
      | none => SweepLoop fuel kept []
      | some back => SweepLoop fuel kept (back :: rest.dropLast)
    else do
      storeAt (.addr p) { o with is_connected_to_root := false }
      SweepLoop fuel (kept ++ [p]) rest

/-- `Heap::MarkAndSweep`. -/
def MarkAndSweep : M Unit := do
  let h ← getHeap
  Mark (h.memory.length + 1) h.root_
  let h ← getHeap
  let heap_ ← SweepLoop (h.heap_.length + 1) [] h.heap_
  let h ← getHeap
  setHeap { h with heap_ := heap_ }

/-! ## Interpreter -/

/-- `kValidFunctionsMap`: the built-in names and the class of the object made
for each, in the order of the initialiser list. -/
def kValidFunctionsMap : List (String × FunctionClass) :=
  [("+", .BinaryFoldFunction .plus), ("-", .BinaryFoldFunction .minus),
   ("*", .BinaryFoldFunction .multiplies), ("/", .BinaryFoldFunction .divides),
   ("min", .BinaryFoldFunction .Min), ("max", .BinaryFoldFunction .Max),
   ("abs", .AbsFunction),
   ("<", .MonotonicFunction .less), ("<=", .MonotonicFunction .less_equal),
   ("=", .MonotonicFunction .equal_to), (">", .MonotonicFunction .greater),
   (">=", .MonotonicFunction .greater_equal),
   ("number?", .PredicateFunction .Number), ("boolean?", .PredicateFunction .BooleanSymbol),
   ("quote", .QuoteFunction), ("not", .NegFunction), ("and", .AndFunction),
   ("pair?", .PredicateFunction .Cell), ("or", .OrFunction),
   ("list-ref", .ListRefFunction), ("list?", .ListPredicateFunction),
   ("cons", .ConsFunction), ("car", .CarFunction), ("cdr", .CdrFunction),
   ("list", .ToListFunction), ("null?", .NullPredicateFunction),
   ("list-tail", .ListTailFunction), ("symbol?", .PredicateFunction .Symbol),
   ("define", .DefineFunction), ("set!", .SetFunction), ("if", .IfFunction),
   ("set-car!", .SetCar), ("set-cdr!", .SetCdr), ("lambda", .LambdaDeclaration)]

/-- Initialisation of `kValidFunctionsMap`: one `Heap::Make` per entry. -/
def MakeFunctions : List (String × FunctionClass) → M (List (String × ObjectPtr))
  | [] => pure []
  | (name, cls) :: rest => do
    let p ← Make (.Function cls .nullptr) []
    let ps ← MakeFunctions rest
    pure ((name, p) :: ps)

/-- `class Interpreter`: its only member is `context_`. -/
structure Interpreter where
  context_ : ObjectPtr
  deriving DecidableEq, Repr

/-- Constructor `Interpreter()`, preceded by the initialisation of
`kValidFunctionsMap`. -/
def Interpreter.new : M Interpreter := do
  let scope_map ← MakeFunctions kValidFunctionsMap
  let global_scope ← Make (.Scope scope_map) (AddDependencies [] (scope_map.map Prod.snd))
  let context_ ← Make (.Context []) []
  Context.AddScope context_ global_scope
  let h ← getHeap
  setHeap { h with root_ := context_ }
  pure ⟨context_⟩

/-- `Interpreter::SerializeAST`. -/
def Interpreter.SerializeAST (fuel : Nat) (ast : ObjectPtr) : M String :=
  if ast = .nullptr then pure kEmptyListString else Serialize fuel ast

/-- `Interpreter::Run`. -/
def Interpreter.Run (fuel : Nat) (self : Interpreter) (expression : String) : M String := do
  let tokenizer ← Tokenizer.new expression.data
  let (ast, tokenizer) ← Read fuel tokenizer
  if !tokenizer.is_end_ then throw (.SyntaxError "Wrong syntax!")
  else do
    let evaluated_ast ← EvaluateExpression fuel ast self.context_
    let serialized_result ← Interpreter.SerializeAST fuel evaluated_ast
    MarkAndSweep
    pure serialized_result

/-- The heap before anything is allocated. -/
def Heap.empty : Heap := ⟨[], [], .nullptr⟩

/-- What a caller of `Run` observes: the returned string, the exception, or
neither. -/
inductive Observed where
  | returned (s : String)
  | thrown (e : Error)
  | undefined
  | timeout
  deriving DecidableEq, Repr

def Outcome.observed : Outcome String → Observed
  | .ok s _ => .returned s
  | .exception e _ => .thrown e
  | .undefined => .undefined
  | .timeout => .timeout

/-- The heap an outcome leaves behind, if any. -/
def Outcome.heap? {α : Type} : Outcome α → Option Heap
  | .ok _ h => some h
  | .exception _ h => some h
  | .undefined => none
  | .timeout => none

/-- A driver loop: `Run` on each expression in turn with the same
interpreter, a thrown exception being caught by the driver.  The result is
what each call was observed to do; nothing is run after undefined behaviour
or an exhausted budget. -/
def RunAll (fuel : Nat) (self : Interpreter) : List String → Heap → List Observed
  | [], _ => []
  | expression :: rest, h =>
    let r := Interpreter.Run fuel self expression h
    match r.heap? with
    | some h1 => r.observed :: RunAll fuel self rest h1
    | none => [r.observed]

/-- A fresh interpreter run on a list of expressions. -/
def Session (fuel : Nat) (expressions : List String) : List Observed :=
  match Interpreter.new Heap.empty with
  | .ok self h => RunAll fuel self expressions h
  | _ => []

/-- The heap the driver loop `RunAll` leaves behind. -/
def HeapAfterAll (fuel : Nat) (self : Interpreter) : List String → Heap → Option Heap
  | [], h => some h
  | expression :: rest, h =>
    match (Interpreter.Run fuel self expression h).heap? with
    | some h1 => HeapAfterAll fuel self rest h1
    | none => none

/-- The interpreter and the heap after a fresh interpreter has been run on a
list of expressions. -/
def SessionState (fuel : Nat) (expressions : List String) : Option (Interpreter × Heap) :=
  match Interpreter.new Heap.empty with
  | .ok self h => (HeapAfterAll fuel self expressions h).map (fun h1 => (self, h1))
  | _ => none

/-- The scope vector of the captured context of the lambda that `name` is
bound to in the interpreter's context. -/
def CapturedScopes (name : String) (state : Interpreter × Heap) : Option (List ObjectPtr) :=
  match (do
      let lambda ← Context.Get state.1.context_ name
      let captured_context_ ← LambdaFunction.captured_context_ lambda
      Context.scopes captured_context_) state.2 with
  | .ok scopes _ => some scopes
  | _ => none

end Scheme



namespace Scheme

/-! ## Notions used to state the properties -/

/-- The value `v` is the Boolean `#f` in heap `h`. -/
def IsBooleanFalse (h : Heap) (v : ObjectPtr) : Prop :=
  deref v h = .ok (.BooleanSymbol kFalseTokenName) h

/-- The value `v` is null or an object other than the Boolean `#f` in heap
`h` (a `BooleanSymbol` is then `#t`). -/
def IsNotBooleanFalse (h : Heap) (v : ObjectPtr) : Prop :=
  v = .nullptr ∨ ∃ o, deref v h = .ok o h ∧ ∀ n, o = .BooleanSymbol n → n = kTrueTokenName

/-- The expressions are evaluated one after another from heap `h` to heap
`h1`, each in the `context_` the function object `self` holds at that
moment, and every value is the Boolean `#f` (`falsy = true`) or none of them
is (`falsy = false`). -/
inductive EvaluatesInOrder (ev : ObjectPtr → ObjectPtr → M ObjectPtr) (self : ObjectPtr)
    (falsy : Bool) : ObjectPtrVector → Heap → Heap → Prop where
  | nil (h : Heap) : EvaluatesInOrder ev self falsy [] h h
  | cons {x : ObjectPtr} {xs : ObjectPtrVector} {h h1 h2 : Heap} {context_ v : ObjectPtr} :
      Function.context_ self h = .ok context_ h →
      ev x context_ h = .ok v h1 →
      (if falsy then IsBooleanFalse h1 v else IsNotBooleanFalse h1 v) →
      EvaluatesInOrder ev self falsy xs h1 h2 →
      EvaluatesInOrder ev self falsy (x :: xs) h h2

/-- Values as finite trees: what a pointer stands for when the pair structure
below it is followed down to the atoms.  A procedure is given by its class
(built-in) or by its parameters, its body and the scope vector of its
captured context (user lambda). -/
inductive Value where
  | null
  | number (value : Int)
  | boolean (name : String)
  | symbol (name : String)
  | pair (first second : Value)
  | builtin (cls : FunctionClass)
  | lambda (args body : ObjectPtrVector) (scopes : List ObjectPtr)
  deriving DecidableEq, Repr

/-- Nesting depth of the pairs of a value. -/
def Value.depth : Value → Nat
  | .pair first second => max first.depth second.depth + 1
  | _ => 0

/-- The pointer `p` stands for the value `V` in heap `h`.  The remembered
contexts of symbols and procedures are not part of the value. -/
inductive Denotes (h : Heap) : ObjectPtr → Value → Prop where
  | null : Denotes h .nullptr .null
  | number {p : ObjectPtr} {value : Int} :
      deref p h = .ok (.Number value) h → Denotes h p (.number value)
  | boolean {p : ObjectPtr} {name : String} :
      deref p h = .ok (.BooleanSymbol name) h → Denotes h p (.boolean name)
  | symbol {p context_ : ObjectPtr} {name : String} :
      deref p h = .ok (.Symbol name context_) h → Denotes h p (.symbol name)
  | pair {p first second : ObjectPtr} {A B : Value} :
      deref p h = .ok (.Cell first second) h → Denotes h first A → Denotes h second B →
      Denotes h p (.pair A B)
  | builtin {p context_ : ObjectPtr} {cls : FunctionClass} :
      deref p h = .ok (.Function cls context_) h → Denotes h p (.builtin cls)
  | lambda {p captured_context_ current_context_ : ObjectPtr} {args body : ObjectPtrVector}
      {scopes : List ObjectPtr} :
      deref p h = .ok (.LambdaFunction args body captured_context_ current_context_) h →
      deref captured_context_ h = .ok (.Context scopes) h →
      Denotes h p (.lambda args body scopes)

/-- An object without what is not part of its value: the remembered contexts
of symbols and procedures and the bindings of a scope. -/
def Object.erase : Object → Object
  | .Symbol name_ _ => .Symbol name_ .nullptr
  | .Function cls _ => .Function cls .nullptr
  | .LambdaFunction args_ body_ captured_context_ _ =>
    .LambdaFunction args_ body_ captured_context_ .nullptr
  | .Scope _ => .Scope []
  | o => o

/-- Every object of `h` is still there in `h1`, unchanged. -/
def Extends (h h1 : Heap) : Prop :=
  ∀ p o, load p h = .ok o h → load p h1 = .ok o h1

/-- Every object of `h` is still there in `h1`, unchanged except for
remembered contexts and the bindings of scopes. -/
def Frame (h h1 : Heap) : Prop :=
  ∀ p o, deref p h = .ok o h → ∃ o1, deref p h1 = .ok o1 h1 ∧ o1.erase = o.erase

/-- A heap holding the given objects at addresses `0, 1, 2, ...` (no
dependencies recorded, no root). -/
def Heap.ofObjects (objects : List Object) : Heap :=
  { memory := objects.map (fun o => some ⟨o, false, []⟩)
    heap_ := List.range objects.length
    root_ := .nullptr }

end Scheme

namespace Scheme

/-! ## Concrete heaps for instances -/

/-- `quote` bound in a one-scope context, and the AST of `(quote undefined-name)`
at address 6. -/
def quoteExample : Heap :=
  Heap.ofObjects
    [.Function .QuoteFunction .nullptr, .Scope [("quote", .addr 0)], .Context [.addr 1],
     .Symbol "quote" .nullptr, .Symbol "undefined-name" .nullptr,
     .Cell (.addr 4) .nullptr, .Cell (.addr 3) (.addr 5)]

/-- An `IfFunction` object whose `context_` is the context at address 2, and
the ASTs `#f`, `1`, `2` at addresses 3, 4, 5. -/
def ifExample : Heap :=
  Heap.ofObjects
    [.Function .IfFunction (.addr 2), .Scope [], .Context [.addr 1],
     .BooleanSymbol "#f", .Number 1, .Number 2]

/-- The heap `ifExample` after the condition `#f` has been evaluated (its
value is the fresh Boolean at address 6). -/
def ifExampleAfterCondition : Heap :=
  match EvaluateExpression 5 (.addr 3) (.addr 2) ifExample with
  | .ok _ h => h
  | _ => ifExample

/-- An `AndFunction` object (address 0) and an `OrFunction` object (address
6) whose `context_` is the context at address 2, and the ASTs `1`, `#f`,
`undefined-name` at addresses 3, 4, 5. -/
def andOrExample : Heap :=
  Heap.ofObjects
    [.Function .AndFunction (.addr 2), .Scope [], .Context [.addr 1],
     .Number 1, .BooleanSymbol "#f", .Symbol "undefined-name" .nullptr,
     .Function .OrFunction (.addr 2)]

/-- The heap `andOrExample` after `n` of its ASTs have been evaluated, in
the order given. -/
def evaluatedIn (asts : List ObjectPtr) (h : Heap) : Heap :=
  asts.foldl (fun h ast =>
    match EvaluateExpression 5 ast (.addr 2) h with
    | .ok _ h1 => h1
    | _ => h) h

/-- A lambda `(lambda (x) x)` at address 0 whose captured context (address 2)
holds one scope. -/
def lambdaExample : Heap :=
  Heap.ofObjects
    [.LambdaFunction [.addr 3] [.addr 3] (.addr 2) (.addr 2), .Scope [], .Context [.addr 1],
     .Symbol "x" .nullptr, .Number 7]

/-- The pointer `p` is a proper list in heap `h`: a chain of cells whose first
fields are `xs`, in order, and whose last second field is null. -/
inductive IsList (h : Heap) : ObjectPtr → ObjectPtrVector → Prop where
  | nil : IsList h .nullptr []
  | cons {p first second : ObjectPtr} {xs : ObjectPtrVector} :
      deref p h = .ok (.Cell first second) h → IsList h second xs → IsList h p (first :: xs)

/-- A `DefineFunction` object (address 0) whose `context_` is the context at
address 2, in which `lambda` is bound to the `LambdaDeclaration` object at
address 3; the AST `(f x)` at address 7, the body expression `x` at address
8 and the AST `(lambda (x) x)` at address 12, which shares the parameter list
(address 6). -/
def defineLambdaExample : Heap :=
  Heap.ofObjects
    [.Function .DefineFunction (.addr 2), .Scope [("lambda", .addr 3)], .Context [.addr 1],
     .Function .LambdaDeclaration .nullptr, .Symbol "f" .nullptr, .Symbol "x" .nullptr,
     .Cell (.addr 5) .nullptr, .Cell (.addr 4) (.addr 6), .Symbol "x" .nullptr,
     .Symbol "lambda" .nullptr, .Cell (.addr 8) .nullptr, .Cell (.addr 6) (.addr 10),
     .Cell (.addr 9) (.addr 11)]

end Scheme
namespace Scheme

/-! ## Renaming of number payloads

The collector never reads the payload of a `Number`; a heap with other
payloads is collected in the same way. -/

/-- The object with every `value_` of a `Number` sent through `φ`. -/
def Object.mapNumber (φ : Int → Int) : Object → Object
  | .Number value_ => .Number (φ value_)
  | o => o

def HeapObject.mapNumber (φ : Int → Int) (o : HeapObject) : HeapObject :=
  { o with obj := o.obj.mapNumber φ }

def Heap.mapNumber (φ : Int → Int) (h : Heap) : Heap :=
  { h with memory := h.memory.map (Option.map (HeapObject.mapNumber φ)) }

def Outcome.mapNumber {α : Type} (φ : Int → Int) : Outcome α → Outcome α
  | .ok a h => .ok a (h.mapNumber φ)
  | .exception e h => .exception e (h.mapNumber φ)
  | .undefined => .undefined
  | .timeout => .timeout

/-- The two definitions of the counter closure. -/
def counterExample : List String :=
  ["(define (make) (define c 0) (lambda () (set! c (+ c 1)) c))", "(define g (make))"]

/-- The renaming that sends the payload 1000 to `v`, the payload 1001 to the
64-bit successor of `v`, and leaves every other payload. -/
def payload (v : Int) (x : Int) : Int :=
  if x = 1000 then v else if x = 1001 then wrap64 (v + 1) else x

/-- The computation `m` commutes with the renaming of number payloads. -/
def Natural {α : Type} (φ : Int → Int) (m : M α) : Prop :=
  ∀ h, m (h.mapNumber φ) = (m h).mapNumber φ

end Scheme
namespace Scheme

/-! ## The heaps of the counter closure

After the two definitions of `counterExample` and at least one run of `(g)`,
the heap between two runs has one of two shapes, which differ in the address
of the `Number` that `c` is bound to. -/

/-- The heap between two runs of `(g)` in which the counter `c` is the `Number` at
address 64, with payload `v`. -/
def shapeA (v : Int) : Heap :=
{ memory := ([
  some (HeapObject.mk (Object.Function (FunctionClass.BinaryFoldFunction (FoldFunctor.plus)) (ObjectPtr.addr 73)) false []),
  some (HeapObject.mk (Object.Function (FunctionClass.BinaryFoldFunction (FoldFunctor.minus)) (ObjectPtr.nullptr)) false []),
  some (HeapObject.mk (Object.Function (FunctionClass.BinaryFoldFunction (FoldFunctor.multiplies)) (ObjectPtr.nullptr)) false []),
  some (HeapObject.mk (Object.Function (FunctionClass.BinaryFoldFunction (FoldFunctor.divides)) (ObjectPtr.nullptr)) false []),
  some (HeapObject.mk (Object.Function (FunctionClass.BinaryFoldFunction (FoldFunctor.Min)) (ObjectPtr.nullptr)) false []),
  some (HeapObject.mk (Object.Function (FunctionClass.BinaryFoldFunction (FoldFunctor.Max)) (ObjectPtr.nullptr)) false []),
  some (HeapObject.mk (Object.Function (FunctionClass.AbsFunction) (ObjectPtr.nullptr)) false []),
  some (HeapObject.mk (Object.Function (FunctionClass.MonotonicFunction (MonotonicFunctor.less)) (ObjectPtr.nullptr)) false []),
  some (HeapObject.mk (Object.Function (FunctionClass.MonotonicFunction (MonotonicFunctor.less_equal)) (ObjectPtr.nullptr)) false []),
  some (HeapObject.mk (Object.Function (FunctionClass.MonotonicFunction (MonotonicFunctor.equal_to)) (ObjectPtr.nullptr)) false []),
  some (HeapObject.mk (Object.Function (FunctionClass.MonotonicFunction (MonotonicFunctor.greater)) (ObjectPtr.nullptr)) false []),
  some (HeapObject.mk (Object.Function (FunctionClass.MonotonicFunction (MonotonicFunctor.greater_equal)) (ObjectPtr.nullptr)) false []),
  some (HeapObject.mk (Object.Function (FunctionClass.PredicateFunction (TypeTag.Number)) (ObjectPtr.nullptr)) false []),
  some (HeapObject.mk (Object.Function (FunctionClass.PredicateFunction (TypeTag.BooleanSymbol)) (ObjectPtr.nullptr)) false []),
  some (HeapObject.mk (Object.Function (FunctionClass.QuoteFunction) (ObjectPtr.nullptr)) false []),
  some (HeapObject.mk (Object.Function (FunctionClass.NegFunction) (ObjectPtr.nullptr)) false []),
  some (HeapObject.mk (Object.Function (FunctionClass.AndFunction) (ObjectPtr.nullptr)) false []),
  some (HeapObject.mk (Object.Function (FunctionClass.PredicateFunction (TypeTag.Cell)) (ObjectPtr.nullptr)) false []),
  some (HeapObject.mk (Object.Function (FunctionClass.OrFunction) (ObjectPtr.nullptr)) false []),
  some (HeapObject.mk (Object.Function (FunctionClass.ListRefFunction) (ObjectPtr.nullptr)) false []),
  some (HeapObject.mk (Object.Function (FunctionClass.ListPredicateFunction) (ObjectPtr.nullptr)) false []),
  some (HeapObject.mk (Object.Function (FunctionClass.ConsFunction) (ObjectPtr.nullptr)) false []),
  some (HeapObject.mk (Object.Function (FunctionClass.CarFunction) (ObjectPtr.nullptr)) false []),
  some (HeapObject.mk (Object.Function (FunctionClass.CdrFunction) (ObjectPtr.nullptr)) false []),
  some (HeapObject.mk (Object.Function (FunctionClass.ToListFunction) (ObjectPtr.nullptr)) false []),
  some (HeapObject.mk (Object.Function (FunctionClass.NullPredicateFunction) (ObjectPtr.nullptr)) false []),
  some (HeapObject.mk (Object.Function (FunctionClass.ListTailFunction) (ObjectPtr.nullptr)) false []),
  some (HeapObject.mk (Object.Function (FunctionClass.PredicateFunction (TypeTag.Symbol)) (ObjectPtr.nullptr)) false []),
  some (HeapObject.mk (Object.Function (FunctionClass.DefineFunction) (ObjectPtr.addr 68)) false []),
  some (HeapObject.mk (Object.Function (FunctionClass.SetFunction) (ObjectPtr.addr 73)) false []),
  some (HeapObject.mk (Object.Function (FunctionClass.IfFunction) (ObjectPtr.nullptr)) false []),
  some (HeapObject.mk (Object.Function (FunctionClass.SetCar) (ObjectPtr.nullptr)) false []),
  some (HeapObject.mk (Object.Function (FunctionClass.SetCdr) (ObjectPtr.nullptr)) false []),
  some (HeapObject.mk (Object.Function (FunctionClass.LambdaDeclaration) (ObjectPtr.addr 68)) false []),
  some (HeapObject.mk (Object.Scope [("+", ObjectPtr.addr 0), ("-", ObjectPtr.addr 1), ("*", ObjectPtr.addr 2), ("/", ObjectPtr.addr 3), ("min", ObjectPtr.addr 4), ("max", ObjectPtr.addr 5), ("abs", ObjectPtr.addr 6), ("<", ObjectPtr.addr 7), ("<=", ObjectPtr.addr 8), ("=", ObjectPtr.addr 9), (">", ObjectPtr.addr 10), (">=", ObjectPtr.addr 11), ("number?", ObjectPtr.addr 12), ("boolean?", ObjectPtr.addr 13), ("quote", ObjectPtr.addr 14), ("not", ObjectPtr.addr 15), ("and", ObjectPtr.addr 16), ("pair?", ObjectPtr.addr 17), ("or", ObjectPtr.addr 18), ("list-ref", ObjectPtr.addr 19), ("list?", ObjectPtr.addr 20), ("cons", ObjectPtr.addr 21), ("car", ObjectPtr.addr 22), ("cdr", ObjectPtr.addr 23), ("list", ObjectPtr.addr 24), ("null?", ObjectPtr.addr 25), ("list-tail", ObjectPtr.addr 26), ("symbol?", ObjectPtr.addr 27), ("define", ObjectPtr.addr 28), ("set!", ObjectPtr.addr 29), ("if", ObjectPtr.addr 30), ("set-car!", ObjectPtr.addr 31), ("set-cdr!", ObjectPtr.addr 32), ("lambda", ObjectPtr.addr 33), ("make", ObjectPtr.addr 69), ("g", ObjectPtr.addr 74)]) false [ObjectPtr.addr 0, ObjectPtr.addr 1, ObjectPtr.addr 2, ObjectPtr.addr 3, ObjectPtr.addr 4, ObjectPtr.addr 5, ObjectPtr.addr 6, ObjectPtr.addr 7, ObjectPtr.addr 8, ObjectPtr.addr 9, ObjectPtr.addr 10, ObjectPtr.addr 11, ObjectPtr.addr 12, ObjectPtr.addr 13, ObjectPtr.addr 14, ObjectPtr.addr 15, ObjectPtr.addr 16, ObjectPtr.addr 17, ObjectPtr.addr 18, ObjectPtr.addr 19, ObjectPtr.addr 20, ObjectPtr.addr 21, ObjectPtr.addr 22, ObjectPtr.addr 23, ObjectPtr.addr 24, ObjectPtr.addr 25, ObjectPtr.addr 26, ObjectPtr.addr 27, ObjectPtr.addr 28, ObjectPtr.addr 29, ObjectPtr.addr 30, ObjectPtr.addr 31, ObjectPtr.addr 32, ObjectPtr.addr 33, ObjectPtr.addr 69, ObjectPtr.addr 74]),
  some (HeapObject.mk (Object.Context [ObjectPtr.addr 34]) false [ObjectPtr.addr 34]),
  none,
  none,
  none,
  some (HeapObject.mk (Object.Symbol "define" (ObjectPtr.nullptr)) false []),
  some (HeapObject.mk (Object.Symbol "c" (ObjectPtr.nullptr)) false []),
  some (HeapObject.mk (Object.Number (0)) false []),
  some (HeapObject.mk (Object.Cell (ObjectPtr.addr 41) (ObjectPtr.nullptr)) false [ObjectPtr.addr 41, ObjectPtr.nullptr]),
  some (HeapObject.mk (Object.Cell (ObjectPtr.addr 40) (ObjectPtr.addr 42)) false [ObjectPtr.addr 40, ObjectPtr.addr 42]),
  some (HeapObject.mk (Object.Cell (ObjectPtr.addr 39) (ObjectPtr.addr 43)) false [ObjectPtr.addr 39, ObjectPtr.addr 43]),
  some (HeapObject.mk (Object.Symbol "lambda" (ObjectPtr.nullptr)) false []),
  some (HeapObject.mk (Object.Symbol "set!" (ObjectPtr.nullptr)) false []),
  some (HeapObject.mk (Object.Symbol "c" (ObjectPtr.nullptr)) false []),
  some (HeapObject.mk (Object.Symbol "+" (ObjectPtr.nullptr)) false []),
  some (HeapObject.mk (Object.Symbol "c" (ObjectPtr.nullptr)) false []),
  some (HeapObject.mk (Object.Number (1)) false []),
  some (HeapObject.mk (Object.Cell (ObjectPtr.addr 50) (ObjectPtr.nullptr)) false [ObjectPtr.addr 50, ObjectPtr.nullptr]),
  some (HeapObject.mk (Object.Cell (ObjectPtr.addr 49) (ObjectPtr.addr 51)) false [ObjectPtr.addr 49, ObjectPtr.addr 51]),
  some (HeapObject.mk (Object.Cell (ObjectPtr.addr 48) (ObjectPtr.addr 52)) false [ObjectPtr.addr 48, ObjectPtr.addr 52]),
  some (HeapObject.mk (Object.Cell (ObjectPtr.addr 53) (ObjectPtr.nullptr)) false [ObjectPtr.addr 53, ObjectPtr.nullptr]),
  some (HeapObject.mk (Object.Cell (ObjectPtr.addr 47) (ObjectPtr.addr 54)) false [ObjectPtr.addr 47, ObjectPtr.addr 54]),
  some (HeapObject.mk (Object.Cell (ObjectPtr.addr 46) (ObjectPtr.addr 55)) false [ObjectPtr.addr 46, ObjectPtr.addr 55]),
  some (HeapObject.mk (Object.Symbol "c" (ObjectPtr.nullptr)) false []),
  some (HeapObject.mk (Object.Cell (ObjectPtr.addr 57) (ObjectPtr.nullptr)) false [ObjectPtr.addr 57, ObjectPtr.nullptr]),
  some (HeapObject.mk (Object.Cell (ObjectPtr.addr 56) (ObjectPtr.addr 58)) false [ObjectPtr.addr 56, ObjectPtr.addr 58]),
  some (HeapObject.mk (Object.Cell (ObjectPtr.nullptr) (ObjectPtr.addr 59)) false [ObjectPtr.nullptr, ObjectPtr.addr 59]),
  some (HeapObject.mk (Object.Cell (ObjectPtr.addr 45) (ObjectPtr.addr 60)) false [ObjectPtr.addr 45, ObjectPtr.addr 60]),
  none,
  none,
  some (HeapObject.mk (Object.Number v) false []),
  none,
  some (HeapObject.mk (Object.Scope [("c", ObjectPtr.addr 64)]) false [ObjectPtr.addr 64]),
  none,
  some (HeapObject.mk (Object.Context [ObjectPtr.addr 34]) false [ObjectPtr.addr 34]),
  some (HeapObject.mk (Object.LambdaFunction [] [ObjectPtr.addr 44, ObjectPtr.addr 61] (ObjectPtr.addr 68) (ObjectPtr.addr 35)) false [ObjectPtr.addr 68, ObjectPtr.addr 44, ObjectPtr.addr 61]),
  none,
  none,
  none,
  some (HeapObject.mk (Object.Context [ObjectPtr.addr 34, ObjectPtr.addr 66]) false [ObjectPtr.addr 34, ObjectPtr.addr 66]),
  some (HeapObject.mk (Object.LambdaFunction [] [ObjectPtr.addr 56, ObjectPtr.addr 57] (ObjectPtr.addr 73) (ObjectPtr.addr 35)) false [ObjectPtr.addr 73, ObjectPtr.addr 56, ObjectPtr.addr 57])] : List (Option HeapObject)),
  heap_ := [0, 1, 2, 3, 4, 5, 6, 7, 8, 9, 10, 11, 12, 13, 14, 15, 16, 17, 18, 19, 20, 21, 22, 23, 24, 25, 26, 27, 28, 29, 30, 31,
 32, 33, 34, 35, 69, 68, 61, 39, 40, 41, 42, 43, 44, 45, 46, 47, 48, 49, 50, 51, 52, 53, 54, 55, 56, 57, 58, 59, 60, 74,
 73, 64, 66],
  root_ := ObjectPtr.addr 35 }

/-- The heap between two runs of `(g)` in which the counter `c` is the `Number` at
address 65, with payload `v`. -/
def shapeB (v : Int) : Heap :=
{ memory := ([
  some (HeapObject.mk (Object.Function (FunctionClass.BinaryFoldFunction (FoldFunctor.plus)) (ObjectPtr.addr 73)) false []),
  some (HeapObject.mk (Object.Function (FunctionClass.BinaryFoldFunction (FoldFunctor.minus)) (ObjectPtr.nullptr)) false []),
  some (HeapObject.mk (Object.Function (FunctionClass.BinaryFoldFunction (FoldFunctor.multiplies)) (ObjectPtr.nullptr)) false []),
  some (HeapObject.mk (Object.Function (FunctionClass.BinaryFoldFunction (FoldFunctor.divides)) (ObjectPtr.nullptr)) false []),
  some (HeapObject.mk (Object.Function (FunctionClass.BinaryFoldFunction (FoldFunctor.Min)) (ObjectPtr.nullptr)) false []),
  some (HeapObject.mk (Object.Function (FunctionClass.BinaryFoldFunction (FoldFunctor.Max)) (ObjectPtr.nullptr)) false []),
  some (HeapObject.mk (Object.Function (FunctionClass.AbsFunction) (ObjectPtr.nullptr)) false []),
  some (HeapObject.mk (Object.Function (FunctionClass.MonotonicFunction (MonotonicFunctor.less)) (ObjectPtr.nullptr)) false []),
  some (HeapObject.mk (Object.Function (FunctionClass.MonotonicFunction (MonotonicFunctor.less_equal)) (ObjectPtr.nullptr)) false []),
  some (HeapObject.mk (Object.Function (FunctionClass.MonotonicFunction (MonotonicFunctor.equal_to)) (ObjectPtr.nullptr)) false []),
  some (HeapObject.mk (Object.Function (FunctionClass.MonotonicFunction (MonotonicFunctor.greater)) (ObjectPtr.nullptr)) false []),
  some (HeapObject.mk (Object.Function (FunctionClass.MonotonicFunction (MonotonicFunctor.greater_equal)) (ObjectPtr.nullptr)) false []),
  some (HeapObject.mk (Object.Function (FunctionClass.PredicateFunction (TypeTag.Number)) (ObjectPtr.nullptr)) false []),
  some (HeapObject.mk (Object.Function (FunctionClass.PredicateFunction (TypeTag.BooleanSymbol)) (ObjectPtr.nullptr)) false []),
  some (HeapObject.mk (Object.Function (FunctionClass.QuoteFunction) (ObjectPtr.nullptr)) false []),
  some (HeapObject.mk (Object.Function (FunctionClass.NegFunction) (ObjectPtr.nullptr)) false []),
  some (HeapObject.mk (Object.Function (FunctionClass.AndFunction) (ObjectPtr.nullptr)) false []),
  some (HeapObject.mk (Object.Function (FunctionClass.PredicateFunction (TypeTag.Cell)) (ObjectPtr.nullptr)) false []),
  some (HeapObject.mk (Object.Function (FunctionClass.OrFunction) (ObjectPtr.nullptr)) false []),
  some (HeapObject.mk (Object.Function (FunctionClass.ListRefFunction) (ObjectPtr.nullptr)) false []),
  some (HeapObject.mk (Object.Function (FunctionClass.ListPredicateFunction) (ObjectPtr.nullptr)) false []),
  some (HeapObject.mk (Object.Function (FunctionClass.ConsFunction) (ObjectPtr.nullptr)) false []),
  some (HeapObject.mk (Object.Function (FunctionClass.CarFunction) (ObjectPtr.nullptr)) false []),
  some (HeapObject.mk (Object.Function (FunctionClass.CdrFunction) (ObjectPtr.nullptr)) false []),
  some (HeapObject.mk (Object.Function (FunctionClass.ToListFunction) (ObjectPtr.nullptr)) false []),
  some (HeapObject.mk (Object.Function (FunctionClass.NullPredicateFunction) (ObjectPtr.nullptr)) false []),
  some (HeapObject.mk (Object.Function (FunctionClass.ListTailFunction) (ObjectPtr.nullptr)) false []),
  some (HeapObject.mk (Object.Function (FunctionClass.PredicateFunction (TypeTag.Symbol)) (ObjectPtr.nullptr)) false []),
  some (HeapObject.mk (Object.Function (FunctionClass.DefineFunction) (ObjectPtr.addr 68)) false []),
  some (HeapObject.mk (Object.Function (FunctionClass.SetFunction) (ObjectPtr.addr 73)) false []),
  some (HeapObject.mk (Object.Function (FunctionClass.IfFunction) (ObjectPtr.nullptr)) false []),
  some (HeapObject.mk (Object.Function (FunctionClass.SetCar) (ObjectPtr.nullptr)) false []),
  some (HeapObject.mk (Object.Function (FunctionClass.SetCdr) (ObjectPtr.nullptr)) false []),
  some (HeapObject.mk (Object.Function (FunctionClass.LambdaDeclaration) (ObjectPtr.addr 68)) false []),
  some (HeapObject.mk (Object.Scope [("+", ObjectPtr.addr 0), ("-", ObjectPtr.addr 1), ("*", ObjectPtr.addr 2), ("/", ObjectPtr.addr 3), ("min", ObjectPtr.addr 4), ("max", ObjectPtr.addr 5), ("abs", ObjectPtr.addr 6), ("<", ObjectPtr.addr 7), ("<=", ObjectPtr.addr 8), ("=", ObjectPtr.addr 9), (">", ObjectPtr.addr 10), (">=", ObjectPtr.addr 11), ("number?", ObjectPtr.addr 12), ("boolean?", ObjectPtr.addr 13), ("quote", ObjectPtr.addr 14), ("not", ObjectPtr.addr 15), ("and", ObjectPtr.addr 16), ("pair?", ObjectPtr.addr 17), ("or", ObjectPtr.addr 18), ("list-ref", ObjectPtr.addr 19), ("list?", ObjectPtr.addr 20), ("cons", ObjectPtr.addr 21), ("car", ObjectPtr.addr 22), ("cdr", ObjectPtr.addr 23), ("list", ObjectPtr.addr 24), ("null?", ObjectPtr.addr 25), ("list-tail", ObjectPtr.addr 26), ("symbol?", ObjectPtr.addr 27), ("define", ObjectPtr.addr 28), ("set!", ObjectPtr.addr 29), ("if", ObjectPtr.addr 30), ("set-car!", ObjectPtr.addr 31), ("set-cdr!", ObjectPtr.addr 32), ("lambda", ObjectPtr.addr 33), ("make", ObjectPtr.addr 69), ("g", ObjectPtr.addr 74)]) false [ObjectPtr.addr 0, ObjectPtr.addr 1, ObjectPtr.addr 2, ObjectPtr.addr 3, ObjectPtr.addr 4, ObjectPtr.addr 5, ObjectPtr.addr 6, ObjectPtr.addr 7, ObjectPtr.addr 8, ObjectPtr.addr 9, ObjectPtr.addr 10, ObjectPtr.addr 11, ObjectPtr.addr 12, ObjectPtr.addr 13, ObjectPtr.addr 14, ObjectPtr.addr 15, ObjectPtr.addr 16, ObjectPtr.addr 17, ObjectPtr.addr 18, ObjectPtr.addr 19, ObjectPtr.addr 20, ObjectPtr.addr 21, ObjectPtr.addr 22, ObjectPtr.addr 23, ObjectPtr.addr 24, ObjectPtr.addr 25, ObjectPtr.addr 26, ObjectPtr.addr 27, ObjectPtr.addr 28, ObjectPtr.addr 29, ObjectPtr.addr 30, ObjectPtr.addr 31, ObjectPtr.addr 32, ObjectPtr.addr 33, ObjectPtr.addr 69, ObjectPtr.addr 74]),
  some (HeapObject.mk (Object.Context [ObjectPtr.addr 34]) false [ObjectPtr.addr 34]),
  none,
  none,
  none,
  some (HeapObject.mk (Object.Symbol "define" (ObjectPtr.nullptr)) false []),
  some (HeapObject.mk (Object.Symbol "c" (ObjectPtr.nullptr)) false []),
  some (HeapObject.mk (Object.Number (0)) false []),
  some (HeapObject.mk (Object.Cell (ObjectPtr.addr 41) (ObjectPtr.nullptr)) false [ObjectPtr.addr 41, ObjectPtr.nullptr]),
  some (HeapObject.mk (Object.Cell (ObjectPtr.addr 40) (ObjectPtr.addr 42)) false [ObjectPtr.addr 40, ObjectPtr.addr 42]),
  some (HeapObject.mk (Object.Cell (ObjectPtr.addr 39) (ObjectPtr.addr 43)) false [ObjectPtr.addr 39, ObjectPtr.addr 43]),
  some (HeapObject.mk (Object.Symbol "lambda" (ObjectPtr.nullptr)) false []),
  some (HeapObject.mk (Object.Symbol "set!" (ObjectPtr.nullptr)) false []),
  some (HeapObject.mk (Object.Symbol "c" (ObjectPtr.nullptr)) false []),
  some (HeapObject.mk (Object.Symbol "+" (ObjectPtr.nullptr)) false []),
  some (HeapObject.mk (Object.Symbol "c" (ObjectPtr.nullptr)) false []),
  some (HeapObject.mk (Object.Number (1)) false []),
  some (HeapObject.mk (Object.Cell (ObjectPtr.addr 50) (ObjectPtr.nullptr)) false [ObjectPtr.addr 50, ObjectPtr.nullptr]),
  some (HeapObject.mk (Object.Cell (ObjectPtr.addr 49) (ObjectPtr.addr 51)) false [ObjectPtr.addr 49, ObjectPtr.addr 51]),
  some (HeapObject.mk (Object.Cell (ObjectPtr.addr 48) (ObjectPtr.addr 52)) false [ObjectPtr.addr 48, ObjectPtr.addr 52]),
  some (HeapObject.mk (Object.Cell (ObjectPtr.addr 53) (ObjectPtr.nullptr)) false [ObjectPtr.addr 53, ObjectPtr.nullptr]),
  some (HeapObject.mk (Object.Cell (ObjectPtr.addr 47) (ObjectPtr.addr 54)) false [ObjectPtr.addr 47, ObjectPtr.addr 54]),
  some (HeapObject.mk (Object.Cell (ObjectPtr.addr 46) (ObjectPtr.addr 55)) false [ObjectPtr.addr 46, ObjectPtr.addr 55]),
  some (HeapObject.mk (Object.Symbol "c" (ObjectPtr.nullptr)) false []),
  some (HeapObject.mk (Object.Cell (ObjectPtr.addr 57) (ObjectPtr.nullptr)) false [ObjectPtr.addr 57, ObjectPtr.nullptr]),
  some (HeapObject.mk (Object.Cell (ObjectPtr.addr 56) (ObjectPtr.addr 58)) false [ObjectPtr.addr 56, ObjectPtr.addr 58]),
  some (HeapObject.mk (Object.Cell (ObjectPtr.nullptr) (ObjectPtr.addr 59)) false [ObjectPtr.nullptr, ObjectPtr.addr 59]),
  some (HeapObject.mk (Object.Cell (ObjectPtr.addr 45) (ObjectPtr.addr 60)) false [ObjectPtr.addr 45, ObjectPtr.addr 60]),
  none,
  none,
  none,
  some (HeapObject.mk (Object.Number v) false []),
  some (HeapObject.mk (Object.Scope [("c", ObjectPtr.addr 65)]) false [ObjectPtr.addr 65]),
  none,
  some (HeapObject.mk (Object.Context [ObjectPtr.addr 34]) false [ObjectPtr.addr 34]),
  some (HeapObject.mk (Object.LambdaFunction [] [ObjectPtr.addr 44, ObjectPtr.addr 61] (ObjectPtr.addr 68) (ObjectPtr.addr 35)) false [ObjectPtr.addr 68, ObjectPtr.addr 44, ObjectPtr.addr 61]),
  none,
  none,
  none,
  some (HeapObject.mk (Object.Context [ObjectPtr.addr 34, ObjectPtr.addr 66]) false [ObjectPtr.addr 34, ObjectPtr.addr 66]),
  some (HeapObject.mk (Object.LambdaFunction [] [ObjectPtr.addr 56, ObjectPtr.addr 57] (ObjectPtr.addr 73) (ObjectPtr.addr 35)) false [ObjectPtr.addr 73, ObjectPtr.addr 56, ObjectPtr.addr 57])] : List (Option HeapObject)),
  heap_ := [0, 1, 2, 3, 4, 5, 6, 7, 8, 9, 10, 11, 12, 13, 14, 15, 16, 17, 18, 19, 20, 21, 22, 23, 24, 25, 26, 27, 28, 29, 30, 31,
 32, 33, 34, 35, 69, 68, 61, 39, 40, 41, 42, 43, 44, 45, 46, 47, 48, 49, 50, 51, 52, 53, 54, 55, 56, 57, 58, 59, 60, 74,
 73, 65, 66],
  root_ := ObjectPtr.addr 35 }

/-- The heap `shapeA v` after `Read` of `(g)`. -/
def shapeA1 (v : Int) : Heap :=
  { memory := (((shapeA v).memory).set 36
      (some (HeapObject.mk (Object.Symbol "g" (ObjectPtr.nullptr)) false []))).set 37
      (some (HeapObject.mk (Object.Cell (ObjectPtr.addr 36) (ObjectPtr.nullptr)) false [ObjectPtr.addr 36, ObjectPtr.nullptr])),
    heap_ := [0, 1, 2, 3, 4, 5, 6, 7, 8, 9, 10, 11, 12, 13, 14, 15, 16, 17, 18, 19, 20, 21, 22, 23, 24, 25, 26, 27, 28, 29, 30, 31,
 32, 33, 34, 35, 69, 68, 61, 39, 40, 41, 42, 43, 44, 45, 46, 47, 48, 49, 50, 51, 52, 53, 54, 55, 56, 57, 58, 59, 60, 74,
 73, 64, 66, 36, 37],
    root_ := ObjectPtr.addr 35 }

/-- The heap `shapeA1 v` after `AddEmptyScope` on the captured context of `g`. -/
def shapeA1a (v : Int) : Heap :=
  { memory := (((shapeA1 v).memory).set 38
      (some (HeapObject.mk (Object.Scope []) false []))).set 73
      (some (HeapObject.mk (Object.Context [ObjectPtr.addr 34, ObjectPtr.addr 66, ObjectPtr.addr 38]) false [ObjectPtr.addr 34, ObjectPtr.addr 66, ObjectPtr.addr 38])),
    heap_ := [0, 1, 2, 3, 4, 5, 6, 7, 8, 9, 10, 11, 12, 13, 14, 15, 16, 17, 18, 19, 20, 21, 22, 23, 24, 25, 26, 27, 28, 29, 30, 31,
 32, 33, 34, 35, 69, 68, 61, 39, 40, 41, 42, 43, 44, 45, 46, 47, 48, 49, 50, 51, 52, 53, 54, 55, 56, 57, 58, 59, 60, 74,
 73, 64, 66, 36, 37, 38],
    root_ := ObjectPtr.addr 35 }

/-- The heap `shapeA1a v` after the evaluation of `(+ c 1)`. -/
def shapeA1c (v : Int) : Heap :=
  { memory := (((shapeA1a v).memory).set 62
      (some (HeapObject.mk (Object.Number (1)) false []))).set 63
      (some (HeapObject.mk (Object.Number (wrap64 (v + 1))) false [])),
    heap_ := [0, 1, 2, 3, 4, 5, 6, 7, 8, 9, 10, 11, 12, 13, 14, 15, 16, 17, 18, 19, 20, 21, 22, 23, 24, 25, 26, 27, 28, 29, 30, 31,
 32, 33, 34, 35, 69, 68, 61, 39, 40, 41, 42, 43, 44, 45, 46, 47, 48, 49, 50, 51, 52, 53, 54, 55, 56, 57, 58, 59, 60, 74,
 73, 64, 66, 36, 37, 38, 62, 63],
    root_ := ObjectPtr.addr 35 }

/-- The heap `shapeA1c v` after `Context::Change` of `c` to the sum. -/
def shapeA1f (v : Int) : Heap :=
  { memory := (((shapeA1c v).memory).set 65
      (some (HeapObject.mk (Object.Number (wrap64 (v + 1))) false []))).set 66
      (some (HeapObject.mk (Object.Scope [("c", ObjectPtr.addr 65)]) false [ObjectPtr.addr 65])),
    heap_ := [0, 1, 2, 3, 4, 5, 6, 7, 8, 9, 10, 11, 12, 13, 14, 15, 16, 17, 18, 19, 20, 21, 22, 23, 24, 25, 26, 27, 28, 29, 30, 31,
 32, 33, 34, 35, 69, 68, 61, 39, 40, 41, 42, 43, 44, 45, 46, 47, 48, 49, 50, 51, 52, 53, 54, 55, 56, 57, 58, 59, 60, 74,
 73, 64, 66, 36, 37, 38, 62, 63, 65],
    root_ := ObjectPtr.addr 35 }

/-- The heap `shapeA1f v` after `PopScope`: the heap the evaluation of `(g)` leaves. -/
def shapeA2 (v : Int) : Heap :=
  { memory := ((shapeA1f v).memory).set 73
      (some (HeapObject.mk (Object.Context [ObjectPtr.addr 34, ObjectPtr.addr 66]) false [ObjectPtr.addr 34, ObjectPtr.addr 66])),
    heap_ := (shapeA1f v).heap_,
    root_ := ObjectPtr.addr 35 }

/-- The heap `shapeB v` after `Read` of `(g)`. -/
def shapeB1 (v : Int) : Heap :=
  { memory := (((shapeB v).memory).set 36
      (some (HeapObject.mk (Object.Symbol "g" (ObjectPtr.nullptr)) false []))).set 37
      (some (HeapObject.mk (Object.Cell (ObjectPtr.addr 36) (ObjectPtr.nullptr)) false [ObjectPtr.addr 36, ObjectPtr.nullptr])),
    heap_ := [0, 1, 2, 3, 4, 5, 6, 7, 8, 9, 10, 11, 12, 13, 14, 15, 16, 17, 18, 19, 20, 21, 22, 23, 24, 25, 26, 27, 28, 29, 30, 31,
 32, 33, 34, 35, 69, 68, 61, 39, 40, 41, 42, 43, 44, 45, 46, 47, 48, 49, 50, 51, 52, 53, 54, 55, 56, 57, 58, 59, 60, 74,
 73, 65, 66, 36, 37],
    root_ := ObjectPtr.addr 35 }

/-- The heap `shapeB1 v` after `AddEmptyScope` on the captured context of `g`. -/
def shapeB1a (v : Int) : Heap :=
  { memory := (((shapeB1 v).memory).set 38
      (some (HeapObject.mk (Object.Scope []) false []))).set 73
      (some (HeapObject.mk (Object.Context [ObjectPtr.addr 34, ObjectPtr.addr 66, ObjectPtr.addr 38]) false [ObjectPtr.addr 34, ObjectPtr.addr 66, ObjectPtr.addr 38])),
    heap_ := [0, 1, 2, 3, 4, 5, 6, 7, 8, 9, 10, 11, 12, 13, 14, 15, 16, 17, 18, 19, 20, 21, 22, 23, 24, 25, 26, 27, 28, 29, 30, 31,
 32, 33, 34, 35, 69, 68, 61, 39, 40, 41, 42, 43, 44, 45, 46, 47, 48, 49, 50, 51, 52, 53, 54, 55, 56, 57, 58, 59, 60, 74,
 73, 65, 66, 36, 37, 38],
    root_ := ObjectPtr.addr 35 }

/-- The heap `shapeB1a v` after the evaluation of `(+ c 1)`. -/
def shapeB1c (v : Int) : Heap :=
  { memory := (((shapeB1a v).memory).set 62
      (some (HeapObject.mk (Object.Number (1)) false []))).set 63
      (some (HeapObject.mk (Object.Number (wrap64 (v + 1))) false [])),
    heap_ := [0, 1, 2, 3, 4, 5, 6, 7, 8, 9, 10, 11, 12, 13, 14, 15, 16, 17, 18, 19, 20, 21, 22, 23, 24, 25, 26, 27, 28, 29, 30, 31,
 32, 33, 34, 35, 69, 68, 61, 39, 40, 41, 42, 43, 44, 45, 46, 47, 48, 49, 50, 51, 52, 53, 54, 55, 56, 57, 58, 59, 60, 74,
 73, 65, 66, 36, 37, 38, 62, 63],
    root_ := ObjectPtr.addr 35 }

/-- The heap `shapeB1c v` after `Context::Change` of `c` to the sum. -/
def shapeB1f (v : Int) : Heap :=
  { memory := (((shapeB1c v).memory).set 64
      (some (HeapObject.mk (Object.Number (wrap64 (v + 1))) false []))).set 66
      (some (HeapObject.mk (Object.Scope [("c", ObjectPtr.addr 64)]) false [ObjectPtr.addr 64])),
    heap_ := [0, 1, 2, 3, 4, 5, 6, 7, 8, 9, 10, 11, 12, 13, 14, 15, 16, 17, 18, 19, 20, 21, 22, 23, 24, 25, 26, 27, 28, 29, 30, 31,
 32, 33, 34, 35, 69, 68, 61, 39, 40, 41, 42, 43, 44, 45, 46, 47, 48, 49, 50, 51, 52, 53, 54, 55, 56, 57, 58, 59, 60, 74,
 73, 65, 66, 36, 37, 38, 62, 63, 64],
    root_ := ObjectPtr.addr 35 }

/-- The heap `shapeB1f v` after `PopScope`: the heap the evaluation of `(g)` leaves. -/
def shapeB2 (v : Int) : Heap :=
  { memory := ((shapeB1f v).memory).set 73
      (some (HeapObject.mk (Object.Context [ObjectPtr.addr 34, ObjectPtr.addr 66]) false [ObjectPtr.addr 34, ObjectPtr.addr 66])),
    heap_ := (shapeB1f v).heap_,
    root_ := ObjectPtr.addr 35 }

end Scheme
namespace Scheme

/-! ## More notions used to state the properties -/

/-- The pointer `c` is not an object of heap `h`. -/
def Fresh (h : Heap) (c : ObjectPtr) : Prop :=
  ∀ o, load c h ≠ .ok o h

/-- The pointer `p` stands for the value `V` in heap `h`, and every object
that is followed on the way (the pairs, the atoms, a lambda and its captured
context) satisfies `S`. -/
inductive DenotesIn (h : Heap) (S : ObjectPtr → Prop) : ObjectPtr → Value → Prop where
  | null : DenotesIn h S .nullptr .null
  | number {p : ObjectPtr} {value : Int} :
      S p → deref p h = .ok (.Number value) h → DenotesIn h S p (.number value)
  | boolean {p : ObjectPtr} {name : String} :
      S p → deref p h = .ok (.BooleanSymbol name) h → DenotesIn h S p (.boolean name)
  | symbol {p context_ : ObjectPtr} {name : String} :
      S p → deref p h = .ok (.Symbol name context_) h → DenotesIn h S p (.symbol name)
  | pair {p first second : ObjectPtr} {A B : Value} :
      S p → deref p h = .ok (.Cell first second) h →
      DenotesIn h S first A → DenotesIn h S second B → DenotesIn h S p (.pair A B)
  | builtin {p context_ : ObjectPtr} {cls : FunctionClass} :
      S p → deref p h = .ok (.Function cls context_) h → DenotesIn h S p (.builtin cls)
  | lambda {p captured_context_ current_context_ : ObjectPtr} {args body : ObjectPtrVector}
      {scopes : List ObjectPtr} :
      S p → S captured_context_ →
      deref p h = .ok (.LambdaFunction args body captured_context_ current_context_) h →
      deref captured_context_ h = .ok (.Context scopes) h →
      DenotesIn h S p (.lambda args body scopes)

/-- The pointers `vs` are numbers with the payloads `values`, in order. -/
def NumberValues (h : Heap) (vs : ObjectPtrVector) (values : List Int) : Prop :=
  List.Forall₂ (fun v a => deref v h = .ok (.Number a) h) vs values

/-- The pointer `p` is an improper (dotted) list of `n` pairs in heap `h`: a
chain of `n` cells whose last second field is an object that is not a
pair. -/
inductive ImproperList (h : Heap) : ObjectPtr → Nat → Prop where
  | last {p first second : ObjectPtr} {o : Object} :
      deref p h = .ok (.Cell first second) h → deref second h = .ok o h →
      o.hasType .Cell = false → ImproperList h p 1
  | cons {p first second : ObjectPtr} {n : Nat} :
      deref p h = .ok (.Cell first second) h → ImproperList h second n →
      ImproperList h p (n + 1)

/-- The relation a comparison procedure checks on adjacent arguments. -/
def MonotonicFunctor.Holds : MonotonicFunctor → Int → Int → Prop
  | .less, a, b => a < b
  | .less_equal, a, b => a ≤ b
  | .equal_to, a, b => a = b
  | .greater, a, b => a > b
  | .greater_equal, a, b => a ≥ b

/-- The left fold of `g` over a list of numbers from its first number, and
`unit` on no number. -/
def foldFrom (g : Int → Int → Int) (unit : Int) : List Int → Int
  | [] => unit
  | a :: rest => rest.foldl g a

/-- The left fold of 64-bit quotients from `r` over `divisors` is defined: no
divisor is zero and no step divides `-2 ^ 63` by `-1`. -/
def DividesDefined : Int → List Int → Prop
  | _, [] => True
  | r, a :: rest => a ≠ 0 ∧ ¬ (r = -2 ^ 63 ∧ a = -1) ∧ DividesDefined (Int.tdiv r a) rest

/-! ## Concrete heaps for instances (built-in procedures) -/

/-- A `SetFunction` object (address 0) whose `context_` is the context at
address 2, whose one scope binds `y`; the symbols `x` and `z` at addresses 3 and 4 are
not bound. -/
def unboundExample : Heap :=
  Heap.ofObjects
    [.Function .SetFunction (.addr 2), .Scope [("y", .addr 5)], .Context [.addr 1],
     .Symbol "x" .nullptr, .Symbol "z" .nullptr, .Number 1]

/-- The objects `-`, `/`, `+`, `*`, `<` at addresses 0, 3, 4, 5, 6, whose
`context_` is the context at address 2, and the number ASTs `10`, `1`, `2`,
`0` at addresses 7, 8, 9, 10. -/
def arithmeticExample : Heap :=
  Heap.ofObjects
    [.Function (.BinaryFoldFunction .minus) (.addr 2), .Scope [], .Context [.addr 1],
     .Function (.BinaryFoldFunction .divides) (.addr 2),
     .Function (.BinaryFoldFunction .plus) (.addr 2),
     .Function (.BinaryFoldFunction .multiplies) (.addr 2),
     .Function (.MonotonicFunction .less) (.addr 2),
     .Number 10, .Number 1, .Number 2, .Number 0]

/-- The objects `list?`, `list`, `list-ref` at addresses 0, 3, 4, whose
`context_` is the context at address 2, in which `list` and `cons` (address
5) are bound; the ASTs `1`, `2` at addresses 8, 9, `(list 1 2)` at address
12, `(cons 1 2)` at address 13, and `0`, `5` at addresses 14, 15. -/
def listExample : Heap :=
  Heap.ofObjects
    [.Function .ListPredicateFunction (.addr 2), .Scope [("list", .addr 3), ("cons", .addr 5)],
     .Context [.addr 1], .Function .ToListFunction (.addr 2),
     .Function .ListRefFunction (.addr 2), .Function .ConsFunction (.addr 2),
     .Symbol "list" .nullptr, .Symbol "cons" .nullptr, .Number 1, .Number 2,
     .Cell (.addr 9) .nullptr, .Cell (.addr 8) (.addr 10), .Cell (.addr 6) (.addr 11),
     .Cell (.addr 7) (.addr 11), .Number 0, .Number 5]

end Scheme
namespace Scheme

/-! ## Notions for `list-tail`, the serializer and the reader -/

/-- The pointer `t` is reached from `p` by following the second field of a
pair `k` times in heap `h`: the `k`-th tail of the chain at `p`, made of the
same objects. -/
inductive NthTail (h : Heap) : ObjectPtr → Nat → ObjectPtr → Prop where
  | zero {p : ObjectPtr} : NthTail h p 0 p
  | succ {p first second t : ObjectPtr} {k : Nat} :
      deref p h = .ok (.Cell first second) h → NthTail h second k t → NthTail h p (k + 1) t

/-- The objects `list-tail` and `list` at addresses 4 and 3, whose `context_`
is the context at address 2, in which `list` is bound; the ASTs `1`, `2` at
addresses 8, 9, `(list 1 2)` at address 12, `(list)` at address 13, and `1`,
`2` at addresses 14, 15. -/
def listTailExample : Heap :=
  Heap.ofObjects
    [.Function .ListPredicateFunction (.addr 2), .Scope [("list", .addr 3)],
     .Context [.addr 1], .Function .ToListFunction (.addr 2),
     .Function .ListTailFunction (.addr 2), .Function .ConsFunction (.addr 2),
     .Symbol "list" .nullptr, .Symbol "cons" .nullptr, .Number 1, .Number 2,
     .Cell (.addr 9) .nullptr, .Cell (.addr 8) (.addr 10), .Cell (.addr 6) (.addr 11),
     .Cell (.addr 6) .nullptr, .Number 1, .Number 2]

/-- The tokens of the input `input`, as successive calls of `Tokenizer::Next`
yield them up to the end of input, the budget `fuel` bounding the number of
calls; `none` when a call fails. -/
def tokensOf : Nat → List Char → Option (List Token)
  | 0, _ => none
  | fuel + 1, input =>
    match Tokenizer.Next ⟨false, input, .ConstantToken 0⟩ Heap.empty with
    | .ok tokenizer _ =>
      if tokenizer.is_end_ then some []
      else (tokensOf fuel tokenizer.token_stream_).map
        (fun ts => tokenizer.last_processed_token_ :: ts)
    | _ => none

/-- The tokens of a source text. -/
def tokens (expression : String) : Option (List Token) :=
  tokensOf (expression.length + 1) expression.data

/-- The tokenizer stands at the tokens `ts`: its current token is the first
of them and the further calls of `Next` yield the others and then the end of
input; at no token the end of input has been reached (the stored token is
then the last one that was read). -/
def Tokenizer.At (tokenizer : Tokenizer) : List Token → Prop
  | [] => tokenizer.is_end_ = true
  | t :: ts =>
    tokenizer.is_end_ = false ∧ tokenizer.last_processed_token_ = t ∧
      ∃ fuel, tokensOf fuel tokenizer.token_stream_ = some ts

/-- Parenthesis matching over tokens: with `depth` further open parentheses
pending, the tokens that follow the close parenthesis matching the one that
was open at the start; `none` when the tokens end before it. -/
def matchClose : Nat → List Token → Option (List Token)
  | _, [] => none
  | depth, .BracketToken .OPEN :: rest => matchClose (depth + 1) rest
  | 0, .BracketToken .CLOSE :: rest => some rest
  | depth + 1, .BracketToken .CLOSE :: rest => matchClose depth rest
  | depth, .ConstantToken _ :: rest => matchClose depth rest
  | depth, .SymbolToken _ :: rest => matchClose depth rest
  | depth, .QuoteToken :: rest => matchClose depth rest
  | depth, .DotToken :: rest => matchClose depth rest

/-- By parenthesis matching, the tokens after the first complete datum: after
an atom, after a quote and the datum it quotes, or after the close parenthesis
matching a leading open parenthesis; `none` when there is no such datum. -/
def afterDatum : List Token → Option (List Token)
  | [] => none
  | .ConstantToken _ :: rest => some rest
  | .SymbolToken _ :: rest => some rest
  | .QuoteToken :: rest => afterDatum rest
  | .BracketToken .OPEN :: rest => matchClose 0 rest
  | .BracketToken .CLOSE :: _ => none
  | .DotToken :: _ => none

/-- By parenthesis matching, the tokens `rest` are what is left of the tokens
`ts` after one complete datum, and matching from any depth over that datum
runs into `rest`. -/
def Consumed (ts rest : List Token) : Prop :=
  rest.length < ts.length ∧ (∀ depth, matchClose depth ts = matchClose depth rest) ∧
  afterDatum ts = some rest

/-- `Read` reads the tokens `D` as the value `V`: from every tokenizer that
stands at `D` followed by any tokens `rest`, in every heap and with every
budget from `n` on, `Read` returns a pointer that stands for `V`, has changed
no object of the heap, and leaves the tokenizer at `rest`. -/
def ReadsAs (n : Nat) (D : List Token) (V : Value) : Prop :=
  ∀ (fuel : Nat) (tok : Tokenizer) (h : Heap) (rest : List Token), n ≤ fuel →
    tok.At (D ++ rest) →
    ∃ p tok1 h1, Read fuel tok h = .ok (p, tok1) h1 ∧ Extends h h1 ∧ Denotes h1 p V ∧
      tok1.At rest

/-- The chain of pairs whose first fields are `elements`, in order, and whose
last second field is `last`. -/
def pairChain (elements : List Value) (last : Value) : Value :=
  elements.foldr .pair last

end Scheme
namespace Scheme

/-! ## Notions for contexts and for the collector -/

/-- A context (address 2) of two scopes: the outer scope (address 0) binds
`x` to the number `1` (address 3), the inner scope (address 1) binds `x` to
the number `2` (address 4) and `y` to the number `1`. -/
def scopesExample : Heap :=
  Heap.ofObjects
    [.Scope [("x", .addr 3)], .Scope [("x", .addr 4), ("y", .addr 3)],
     .Context [.addr 0, .addr 1], .Number 1, .Number 2]

/-- The object stored at an address, if one is allocated there. -/
def Heap.objectAt (h : Heap) (a : Nat) : Option HeapObject :=
  (h.memory.get? a).join

/-- The trace edges of the object at an address: its `dependencies_` (none
for an address that holds no object). -/
def Heap.traceEdges (h : Heap) (a : Nat) : List ObjectPtr :=
  match h.objectAt a with
  | some o => o.dependencies_
  | none => []

/-- The value a scope object binds a name to, if it binds it. -/
def Heap.bound (h : Heap) (scope : Nat) (name : String) : Option ObjectPtr :=
  match h.objectAt scope with
  | some ⟨.Scope scope_map_, _, _⟩ =>
    if mapContains scope_map_ name then some (mapIndex scope_map_ name) else none
  | _ => none

/-- The derived part of the object at an address, if one is allocated. -/
def Heap.valueAt (h : Heap) (a : Nat) : Option Object :=
  (h.objectAt a).map (fun o => o.obj)

/-- What the collector sees of a binding: the value the scope binds the name
to, the trace edges of the scope (after the first `skip` of them), the object
at one further address and the vector `heap_` (after its first `skip`
entries). -/
structure ScopeTrace where
  bound : Option ObjectPtr
  edges : List ObjectPtr
  other : Option Object
  heap_ : List Nat
  deriving DecidableEq, Repr

def Heap.scopeTrace (h : Heap) (scope : Nat) (name : String) (skip other : Nat) : ScopeTrace :=
  ⟨h.bound scope name, (h.traceEdges scope).drop skip, h.valueAt other, h.heap_.drop skip⟩

/-- An object is allocated at the address. -/
def Heap.allocated (h : Heap) (a : Nat) : Bool :=
  (h.objectAt a).isSome

/-- The mark flag `is_connected_to_root` of the object at the address is set. -/
def Heap.marked (h : Heap) (a : Nat) : Bool :=
  match h.objectAt a with
  | some o => o.is_connected_to_root
  | none => false

/-- A trace edge `Object::Mark` can follow: null (skipped) or the address of
an allocated object. -/
def Heap.validEdge (h : Heap) : ObjectPtr → Bool
  | .nullptr => true
  | .addr c => h.allocated c
  | .invalid => false

/-- `h.Reachable a b`: the address `b` is reached from the address `a` through
trace edges (`a` itself included). -/
inductive Heap.Reachable (h : Heap) : Nat → Nat → Prop
  | refl (a : Nat) : Heap.Reachable h a a
  | step {a b c : Nat} : Heap.Reachable h a b → ObjectPtr.addr c ∈ h.traceEdges b →
      Heap.Reachable h a c

/-- The object with its mark flag cleared. -/
def HeapObject.unmark (o : HeapObject) : HeapObject :=
  { o with is_connected_to_root := false }

/-- Two heaps that differ at most in mark flags. -/
def Heap.SameUpToMarks (h h1 : Heap) : Prop :=
  h1.heap_ = h.heap_ ∧ h1.root_ = h.root_ ∧ h1.memory.length = h.memory.length ∧
  ∀ a, (h1.objectAt a).map HeapObject.unmark = (h.objectAt a).map HeapObject.unmark

/-- Every allocated object that is not marked is listed in `cover`. -/
def Heap.Covered (h : Heap) (cover : List Nat) : Prop :=
  ∀ b, h.allocated b = true → h.marked b = false → b ∈ cover

/-- The trace edges of everything reachable from a start address can be
followed. -/
def Heap.ValidFrom (h : Heap) (start : Nat → Prop) : Prop :=
  ∀ a b, start a → h.Reachable a b → ∀ p ∈ h.traceEdges b, h.validEdge p = true

/-- `Marking h start h1`: `h1` is `h` with more marks; every object marked on
the way is reachable from a start address and all its trace edges lead to
marked objects. -/
structure Marking (h : Heap) (start : Nat → Prop) (h1 : Heap) : Prop where
  same : h.SameUpToMarks h1
  grow : ∀ b, h.marked b = true → h1.marked b = true
  reach : ∀ b, h1.marked b = true → h.marked b = true ∨ ∃ a, start a ∧ h.Reachable a b
  closed : ∀ b c, h1.marked b = true → h.marked b = false → ObjectPtr.addr c ∈ h.traceEdges b →
    h1.marked c = true

/-- A pointer after `delete` of the objects at the listed addresses. -/
def ObjectPtr.afterDeletes (deleted : List Nat) (p : ObjectPtr) : ObjectPtr :=
  deleted.foldl (fun q a => q.afterDelete a) p

/-- An object after `delete` of the objects at the listed addresses. -/
def HeapObject.afterDeletes (deleted : List Nat) (o : HeapObject) : HeapObject :=
  deleted.foldl (fun x a => x.afterDelete a) o

/-- `delete` of the objects at the listed addresses, one after the other. -/
def deleteAll : List Nat → M Unit
  | [] => pure ()
  | a :: rest => do
    delete a
    deleteAll rest

/-- A heap with cycles.  The root context (address 0) holds the pair at 1;
the pairs at 1 and 2 point to each other and the pair at 1 to itself; the
pairs at 3 and 4 point to each other and to the root, and nothing points to
them. -/
def gcExample : Heap :=
  { memory :=
      [some ⟨.Context [.addr 1], false, [.addr 1]⟩,
       some ⟨.Cell (.addr 2) (.addr 1), false, [.addr 2, .addr 1]⟩,
       some ⟨.Cell (.addr 1) .nullptr, false, [.addr 1, .nullptr]⟩,
       some ⟨.Cell (.addr 4) (.addr 0), false, [.addr 4, .addr 0]⟩,
       some ⟨.Cell (.addr 3) .nullptr, false, [.addr 3, .nullptr]⟩]
    heap_ := [0, 1, 2, 3, 4]
    root_ := .addr 0 }

end Scheme
/-! # Theorems -/

namespace Scheme

/-! ## The heap monad -/

theorem bind_eq {α β : Type} (m : M α) (f : α → M β) (h : Heap) :
    (m >>= f) h = match m h with
      | .ok a h1 => f a h1
      | .exception e h1 => .exception e h1
      | .undefined => .undefined
      | .timeout => .timeout := rfl

theorem bind_ok {α β : Type} {m : M α} {f : α → M β} {h h1 : Heap} {a : α}
    (hm : m h = .ok a h1) : (m >>= f) h = f a h1 := by
  rw [bind_eq, hm]

theorem bind_exception {α β : Type} {m : M α} {f : α → M β} {h h1 : Heap} {e : Error}
    (hm : m h = .exception e h1) : (m >>= f) h = .exception e h1 := by
  rw [bind_eq, hm]

theorem bind_timeout {α β : Type} {m : M α} {f : α → M β} {h : Heap}
    (hm : m h = .timeout) : (m >>= f) h = .timeout := by
  rw [bind_eq, hm]

theorem bind_undefined {α β : Type} {m : M α} {f : α → M β} {h : Heap}
    (hm : m h = .undefined) : (m >>= f) h = .undefined := by
  rw [bind_eq, hm]

theorem pure_eq {α : Type} (a : α) (h : Heap) : (pure a : M α) h = .ok a h := rfl

theorem throw_eq {α : Type} (e : Error) (h : Heap) : (throw e : M α) h = .exception e h := rfl

/-! ## Dereferencing -/

theorem load_eq (p : ObjectPtr) (h : Heap) :
    load p h = match p with
      | .addr a =>
        match h.memory.get? a with
        | some (some o) => .ok o h
        | _ => .undefined
      | _ => .undefined := by
  cases p <;> rfl

theorem load_heap {p : ObjectPtr} {h h1 : Heap} {o : HeapObject} (hl : load p h = .ok o h1) :
    h1 = h := by
  rw [load_eq] at hl
  cases p with
  | addr a =>
    simp only at hl
    split at hl
    · injection hl with _ h2
      exact h2.symm
    · cases hl
  | nullptr => cases hl
  | invalid => cases hl

theorem deref_eq (p : ObjectPtr) (h : Heap) :
    deref p h = match load p h with
      | .ok o h1 => .ok o.obj h1
      | .exception e h1 => .exception e h1
      | .undefined => .undefined
      | .timeout => .timeout := by
  simp only [deref, bind_eq]
  cases load p h <;> rfl

theorem deref_of_load {p : ObjectPtr} {h : Heap} {o : HeapObject} (hl : load p h = .ok o h) :
    deref p h = .ok o.obj h := by
  rw [deref_eq, hl]

theorem load_of_deref {p : ObjectPtr} {h h1 : Heap} {o : Object} (hd : deref p h = .ok o h1) :
    ∃ ho, load p h = .ok ho h ∧ ho.obj = o ∧ h1 = h := by
  rw [deref_eq] at hd
  cases hl : load p h with
  | ok ho h2 =>
    rw [hl] at hd
    have := load_heap hl
    subst this
    injection hd with h3 h4
    exact ⟨ho, rfl, h3, h4.symm⟩
  | exception e h2 => rw [hl] at hd; cases hd
  | undefined => rw [hl] at hd; cases hd
  | timeout => rw [hl] at hd; cases hd

theorem deref_nullptr (h : Heap) : deref .nullptr h = .undefined := rfl

theorem deref_invalid (h : Heap) : deref .invalid h = .undefined := rfl

theorem ne_nullptr_of_deref {p : ObjectPtr} {h h1 : Heap} {o : Object}
    (hd : deref p h = .ok o h1) : p ≠ .nullptr := by
  rintro rfl
  rw [deref_nullptr] at hd
  cases hd

theorem Is_nullptr (t : TypeTag) (h : Heap) : Is t .nullptr h = .ok false h := rfl

theorem Is_of_deref {t : TypeTag} {p : ObjectPtr} {h : Heap} {o : Object}
    (hd : deref p h = .ok o h) : Is t p h = .ok (o.hasType t) h := by
  cases p with
  | nullptr => rw [deref_nullptr] at hd; cases hd
  | addr a => simp only [Is]; rw [bind_ok hd]; rfl
  | invalid => rw [deref_invalid] at hd; cases hd

theorem Function.context__of_deref {self c : ObjectPtr} {cls : FunctionClass} {h : Heap}
    (hd : deref self h = .ok (.Function cls c) h) : Function.context_ self h = .ok c h := by
  simp only [Function.context_]
  rw [bind_ok hd]
  rfl

theorem IsFalseBoolean_of_false {h : Heap} {v : ObjectPtr} (hv : IsBooleanFalse h v) :
    IsFalseBoolean v h = .ok true h := by
  unfold IsBooleanFalse at hv
  simp only [IsFalseBoolean]
  rw [bind_ok (Is_of_deref hv)]
  simp only [Object.hasType, if_true, AsBooleanIsTrue, bind_eq, hv, pure_eq]
  rfl

theorem IsFalseBoolean_of_not_false {h : Heap} {v : ObjectPtr} (hv : IsNotBooleanFalse h v) :
    IsFalseBoolean v h = .ok false h := by
  rcases hv with rfl | ⟨o, hd, hn⟩
  · rfl
  · simp only [IsFalseBoolean]
    rw [bind_ok (Is_of_deref hd)]
    cases o with
    | BooleanSymbol n =>
      have := hn n rfl
      subst this
      simp only [Object.hasType, if_true, AsBooleanIsTrue, bind_eq, hd, pure_eq]
      rfl
    | _ => rfl

end Scheme

namespace Scheme

/-! ## Allocation -/

theorem firstFree_le (mem : List (Option HeapObject)) : firstFree mem ≤ mem.length := by
  induction mem with
  | nil => simp [firstFree]
  | cons x rest ih =>
    cases x with
    | none => simp [firstFree]
    | some o => simp [firstFree, ih]

theorem get?_firstFree (mem : List (Option HeapObject)) (o : HeapObject) :
    mem.get? (firstFree mem) ≠ some (some o) := by
  induction mem with
  | nil => simp [firstFree]
  | cons x rest ih =>
    cases x with
    | none => simp [firstFree]
    | some o1 => simpa [firstFree] using ih

theorem get?_store_of_ne {mem : List (Option HeapObject)} {a i : Nat} (x : HeapObject)
    (ha : a ≤ mem.length) (hne : a ≠ i) : (store mem a x).get? i = mem.get? i := by
  unfold store
  split
  · simp [List.getElem?_set_ne hne]
  · have hal : a = mem.length := by omega
    subst hal
    have : i < mem.length ∨ mem.length < i := by omega
    rcases this with hi | hi
    · simp [List.getElem?_append_left hi]
    · have h1 : mem.length + 1 ≤ i := hi
      simp [List.getElem?_eq_none, h1, Nat.le_of_lt hi]

theorem get?_store_self {mem : List (Option HeapObject)} {a : Nat} (x : HeapObject)
    (ha : a ≤ mem.length) : (store mem a x).get? a = some (some x) := by
  unfold store
  split
  · rename_i hlt
    simp [List.getElem?_set_self, hlt]
  · have hal : a = mem.length := by omega
    subst hal
    simp

theorem Make_eq (obj : Object) (deps : List ObjectPtr) (h : Heap) :
    Make obj deps h = .ok (.addr (firstFree h.memory))
      { h with memory := store h.memory (firstFree h.memory) ⟨obj, false, deps⟩,
               heap_ := h.heap_ ++ [firstFree h.memory] } := rfl

theorem load_addr_eq (a : Nat) (h : Heap) :
    load (.addr a) h = match h.memory.get? a with
      | some (some o) => .ok o h
      | _ => .undefined := rfl

theorem load_Make_of_load {obj : Object} {deps : List ObjectPtr} {h h1 : Heap} {q p : ObjectPtr}
    {o : HeapObject} (hm : Make obj deps h = .ok q h1) (hl : load p h = .ok o h) :
    load p h1 = .ok o h1 := by
  rw [Make_eq] at hm
  injection hm with hq hh
  subst hh
  cases p with
  | nullptr => cases hl
  | invalid => cases hl
  | addr a =>
    rw [load_addr_eq] at hl ⊢
    have hne : firstFree h.memory ≠ a := by
      intro heq
      have := get?_firstFree h.memory
      rw [heq] at this
      cases hg : h.memory.get? a with
      | none => rw [hg] at hl; cases hl
      | some x =>
        cases x with
        | none => rw [hg] at hl; cases hl
        | some o1 => exact this o1 hg
    simp only [get?_store_of_ne _ (firstFree_le _) hne]
    cases hg : h.memory.get? a with
    | none => rw [hg] at hl; cases hl
    | some x =>
      cases x with
      | none => rw [hg] at hl; cases hl
      | some o1 =>
        rw [hg] at hl
        injection hl with h1 _
        subst h1
        rfl

theorem load_Make_self {obj : Object} {deps : List ObjectPtr} {h h1 : Heap} {q : ObjectPtr}
    (hm : Make obj deps h = .ok q h1) : load q h1 = .ok ⟨obj, false, deps⟩ h1 := by
  rw [Make_eq] at hm
  injection hm with hq hh
  subst hh
  subst hq
  rw [load_addr_eq]
  simp only [get?_store_self _ (firstFree_le _)]

theorem deref_Make_of_deref {obj : Object} {deps : List ObjectPtr} {h h1 : Heap} {q p : ObjectPtr}
    {o : Object} (hm : Make obj deps h = .ok q h1) (hd : deref p h = .ok o h) :
    deref p h1 = .ok o h1 := by
  obtain ⟨ho, hl, ho1, _⟩ := load_of_deref hd
  subst ho1
  rw [deref_eq, load_Make_of_load hm hl]

theorem deref_Make_self {obj : Object} {deps : List ObjectPtr} {h h1 : Heap} {q : ObjectPtr}
    (hm : Make obj deps h = .ok q h1) : deref q h1 = .ok obj h1 := by
  rw [deref_eq, load_Make_self hm]

theorem Make_ok (obj : Object) (deps : List ObjectPtr) (h : Heap) :
    ∃ q h1, Make obj deps h = .ok q h1 := ⟨_, _, Make_eq obj deps h⟩

theorem storeAt_of_load {p : ObjectPtr} {h : Heap} {o : HeapObject} (x : HeapObject)
    (hl : load p h = .ok o h) : ∃ h1, storeAt p x h = .ok () h1 := by
  cases p with
  | nullptr => cases hl
  | invalid => cases hl
  | addr a =>
    rw [load_addr_eq] at hl
    cases hg : h.memory.get? a with
    | none => rw [hg] at hl; cases hl
    | some y =>
      cases y with
      | none => rw [hg] at hl; cases hl
      | some o1 =>
        refine ⟨{ h with memory := h.memory.set a (some x) }, ?_⟩
        simp only [storeAt, hg]

end Scheme

namespace Scheme

/-! ## C1 – C3: the code at the failing inputs -/

/-- C1 (code at the failing input).  In the body of `f` the self-recursive
call `(f y x 0)` is made with `x = 1`, `y = 2`.  Binding in the caller's
environment would give the callee `x = 2`, `y = 1` and the result `(2 . 1)`.
`LambdaFunction::Apply` defines `x` in the new scope of the captured context
before it evaluates the second argument, and the caller's environment is that
same context, so the argument `x` already reads the new `x`: the result is
`(2 . 2)`. -/
theorem C1_recursive_call_reads_rebound_parameter :
    Session 100 ["(define (f x y n) (if (= n 0) (cons x y) (f y x 0)))", "(f 1 2 1)"]
      = [.returned "()", .returned "(2 . 2)"] := by
  decide!

/-- C2 (code at the failing input).  After `(define (f x) x)` the captured
context of `f` holds one scope.  The call `(f)` fails on the argument count
after `AddEmptyScope` has run and before `PopScope` is reached: the captured
context then holds two scopes. -/
theorem C2_failed_call_leaves_scope :
    (SessionState 100 ["(define (f x) x)"]).bind (CapturedScopes "f") = some [.addr 34] ∧
    Session 100 ["(define (f x) x)", "(f)"]
      = [.returned "()", .thrown (.RuntimeError "Wrong number of args for lambda call.")] ∧
    (SessionState 100 ["(define (f x) x)", "(f)"]).bind (CapturedScopes "f")
      = some [.addr 34, .addr 39] := by
  decide!

/-- C3 (code at the failing input).  Binding a name to the empty list
dereferences the null pointer in `Scope::Define` / `Scope::Change`
(`value->Clone()`): with `define`, with a lambda parameter and with `set!`. -/
theorem C3_binding_null_is_undefined :
    Session 100 ["(define x '())"] = [.undefined] ∧
    Session 100 ["((lambda (x) x) '())"] = [.undefined] ∧
    Session 100 ["(define y 1)", "(set! y '())"] = [.returned "()", .undefined] := by
  decide!

end Scheme

namespace Scheme

/-! ## C8: quote -/

/-- C8.  When the head of an application evaluates to the `quote` object,
the application returns its single argument AST itself and leaves the heap as
the evaluation of the head left it; nothing is evaluated (`QuoteFunction::Apply`
returns the argument for every evaluator `ev`, also one that fails on every
expression).  With any other number of arguments the application fails. -/
theorem C8_quote_returns_datum_unevaluated (fuel : Nat) (h h1 : Heap)
    (ast head tail context q c : ObjectPtr) (args : ObjectPtrVector)
    (hast : deref ast h = .ok (.Cell head tail) h)
    (hhead : EvaluateExpression fuel head context h = .ok q h1)
    (hq : deref q h1 = .ok (.Function .QuoteFunction c) h1)
    (hargs : ListToVector fuel tail h1 = .ok args h1) :
    (∀ d, args = [d] → EvaluateExpression (fuel + 1) ast context h = .ok d h1) ∧
    (∀ (ev : ObjectPtr → ObjectPtr → M ObjectPtr) (d : ObjectPtr),
      Apply ev fuel q [d] h1 = .ok d h1) ∧
    (args.length ≠ 1 → EvaluateExpression (fuel + 1) ast context h
      = .exception (.RuntimeError "Quote takes only 1 argument.") h1) := by
  have hqn : q ≠ .nullptr := ne_nullptr_of_deref hq
  have happly : ∀ (ev : ObjectPtr → ObjectPtr → M ObjectPtr) (l : ObjectPtrVector),
      Apply ev fuel q l h1 = QuoteFunction.Apply l h1 := by
    intro ev l
    simp only [Apply, bind_eq, hq]
  have hstep : EvaluateExpression (fuel + 1) ast context h = QuoteFunction.Apply args h1 := by
    cases ast with
    | nullptr => rw [deref_nullptr] at hast; cases hast
    | invalid => rw [deref_invalid] at hast; cases hast
    | addr a =>
      simp only [EvaluateExpression, bind_eq, hast, hhead, hqn, if_false, hargs]
      exact happly _ _
  refine ⟨?_, ?_, ?_⟩
  · intro d hd
    subst hd
    rw [hstep]
    rfl
  · intro ev d
    rw [happly]
    rfl
  · intro hlen
    rw [hstep]
    simp only [QuoteFunction.Apply, ThrowIfWrongNumberOfArguments, bind_eq, hlen, ne_eq,
      not_false_eq_true, if_true, throw_eq]
    rfl

/-- C8 at a concrete input: `(quote undefined-name)` evaluates to the symbol
AST at address 4 although the name is unbound. -/
theorem C8_quote_witness :
    EvaluateExpression 6 (.addr 6) (.addr 2) quoteExample = .ok (.addr 4) quoteExample :=
  (C8_quote_returns_datum_unevaluated 5 quoteExample quoteExample (.addr 6) (.addr 3) (.addr 5)
    (.addr 2) (.addr 0) .nullptr [.addr 4] (by decide!) (by decide!) (by decide!)
    (by decide!)).1 (.addr 4) rfl

/-! ## C10: argument count of a lambda call -/

theorem Context.AddEmptyScope_ok {p : ObjectPtr} {h : Heap} {scopes : List ObjectPtr}
    (hp : deref p h = .ok (.Context scopes) h) :
    ∃ h1, Context.AddEmptyScope p h = .ok () h1 := by
  obtain ⟨q, h0, hm⟩ := Make_ok (.Scope []) [] h
  obtain ⟨ho, hl, ho1, _⟩ := load_of_deref hp
  have hl0 := load_Make_of_load hm hl
  obtain ⟨h1, hs⟩ := storeAt_of_load
    { ho with obj := .Context (scopes ++ [q]), dependencies_ := AddDependency ho.dependencies_ q } hl0
  refine ⟨h1, ?_⟩
  simp only [Context.AddEmptyScope, Context.AddScope, bind_eq, hp, hm, hl0, ho1, hs]

/-- C10.  A call of a user lambda with a number of argument expressions
different from its number of parameters throws `RuntimeError` (after the new
scope has been pushed); with an equal number the check does not throw and the
call goes on to bind the parameters, evaluate the body and pop the scope. -/
theorem C10_lambda_argument_count (ev : ObjectPtr → ObjectPtr → M ObjectPtr) (fuel : Nat)
    (h : Heap) (self captured_context_ current_context_ : ObjectPtr)
    (args_ body_ vectorized_list : ObjectPtrVector) (scopes : List ObjectPtr)
    (hself : deref self h = .ok (.LambdaFunction args_ body_ captured_context_ current_context_) h)
    (hcap : deref captured_context_ h = .ok (.Context scopes) h) :
    ∃ h1, Context.AddEmptyScope captured_context_ h = .ok () h1 ∧
      (args_.length ≠ vectorized_list.length →
        LambdaFunction.Apply ev fuel self vectorized_list h
          = .exception (.RuntimeError "Wrong number of args for lambda call.") h1) ∧
      (args_.length = vectorized_list.length →
        LambdaFunction.Apply ev fuel self vectorized_list h
          = (do
              LambdaFunction.BindLoop ev fuel self args_ vectorized_list
              let ans ← LambdaFunction.BodyLoop ev self body_
              Context.PopScope captured_context_
              pure ans) h1) := by
  obtain ⟨h1, hadd⟩ := Context.AddEmptyScope_ok hcap
  refine ⟨h1, hadd, ?_, ?_⟩
  · intro hne
    simp only [LambdaFunction.Apply, bind_eq, hself, hadd, hne, ne_eq, not_false_eq_true,
      if_true, throw_eq]
  · intro heq
    simp only [LambdaFunction.Apply, bind_eq, hself, hadd, heq, ne_eq, not_true_eq_false,
      if_false]

/-- C10 at a concrete input: the lambda `(lambda (x) x)` called with no
argument throws; called with the one argument `7` it goes on to bind `x`. -/
theorem C10_lambda_argument_count_witness :
    (∃ h1, LambdaFunction.Apply (EvaluateExpression 5) 5 (.addr 0) [] lambdaExample
      = .exception (.RuntimeError "Wrong number of args for lambda call.") h1) ∧
    (∃ h1, LambdaFunction.Apply (EvaluateExpression 5) 5 (.addr 0) [.addr 4] lambdaExample
      = (do
          LambdaFunction.BindLoop (EvaluateExpression 5) 5 (.addr 0) [.addr 3] [.addr 4]
          let ans ← LambdaFunction.BodyLoop (EvaluateExpression 5) (.addr 0) [.addr 3]
          Context.PopScope (.addr 2)
          pure ans) h1) := by
  constructor
  · obtain ⟨h1, _, hne, _⟩ := C10_lambda_argument_count (EvaluateExpression 5) 5 lambdaExample
      (.addr 0) (.addr 2) (.addr 2) [.addr 3] [.addr 3] [] [.addr 1] (by decide!) (by decide!)
    exact ⟨h1, hne (by decide)⟩
  · obtain ⟨h1, _, _, heq⟩ := C10_lambda_argument_count (EvaluateExpression 5) 5 lambdaExample
      (.addr 0) (.addr 2) (.addr 2) [.addr 3] [.addr 3] [.addr 4] [.addr 1] (by decide!)
      (by decide!)
    exact ⟨h1, heq rfl⟩

/-! ## C6: if -/

/-- C6.  `if` with three arguments evaluates the condition and then exactly
one branch, in the `context_` the `if` object holds at that moment: the
third argument when the condition's value is the Boolean `#f`, the second
argument for every other value (null, numbers and pairs included).  With two
arguments and a `#f` condition the result is null.  With any other number of
arguments the form fails.  The equations hold for every evaluator `ev`, so
the branch that is not chosen is never passed to it. -/
theorem C6_if_branch_by_truthiness (ev : ObjectPtr → ObjectPtr → M ObjectPtr) (h h1 : Heap)
    (self c t e context_ context_1 v : ObjectPtr)
    (hself : deref self h = .ok (.Function .IfFunction context_) h)
    (hc : ev c context_ h = .ok v h1)
    (hself1 : deref self h1 = .ok (.Function .IfFunction context_1) h1) :
    (IsBooleanFalse h1 v →
      IfFunction.Apply ev self [c, t, e] h = ev e context_1 h1 ∧
      IfFunction.Apply ev self [c, t] h = .ok .nullptr h1) ∧
    (IsNotBooleanFalse h1 v →
      IfFunction.Apply ev self [c, t, e] h = ev t context_1 h1 ∧
      IfFunction.Apply ev self [c, t] h = ev t context_1 h1) ∧
    ((v = .nullptr ∨ (∃ n, deref v h1 = .ok (.Number n) h1) ∨
        (∃ a b, deref v h1 = .ok (.Cell a b) h1)) → IsNotBooleanFalse h1 v) ∧
    (∀ args : ObjectPtrVector, args.length ≠ 2 → args.length ≠ 3 →
      IfFunction.Apply ev self args h
        = .exception (.SyntaxError "Wrong number of arguments for if.") h) := by
  have hctx := Function.context__of_deref hself
  have hctx1 := Function.context__of_deref hself1
  refine ⟨?_, ?_, ?_, ?_⟩
  · intro hv
    have hf := IsFalseBoolean_of_false hv
    constructor
    · simp only [IfFunction.Apply, bind_eq, hctx, hc, hf, Bool.not_true, Bool.false_eq_true,
        if_false, hctx1]
    · simp only [IfFunction.Apply, bind_eq, hctx, hc, hf, Bool.not_true, Bool.false_eq_true,
        if_false, pure_eq]
  · intro hv
    have hf := IsFalseBoolean_of_not_false hv
    constructor
    · simp only [IfFunction.Apply, bind_eq, hctx, hc, hf, Bool.not_false, if_true, hctx1]
    · simp only [IfFunction.Apply, bind_eq, hctx, hc, hf, Bool.not_false, if_true, hctx1]
  · rintro (rfl | ⟨n, hn⟩ | ⟨a, b, hab⟩)
    · exact Or.inl rfl
    · exact Or.inr ⟨_, hn, fun m hm => by cases hm⟩
    · exact Or.inr ⟨_, hab, fun m hm => by cases hm⟩
  · intro args h2 h3
    match args, h2, h3 with
    | [], _, _ => rfl
    | [_], _, _ => rfl
    | [_, _], h2, _ => exact absurd rfl h2
    | [_, _, _], _, h3 => exact absurd rfl h3
    | _ :: _ :: _ :: _ :: _, _, _ => rfl

/-- C6 at a concrete input: `(if #f 1 2)` evaluates its third argument. -/
theorem C6_if_witness :
    IsBooleanFalse ifExampleAfterCondition (.addr 6) ∧
    IfFunction.Apply (EvaluateExpression 5) (.addr 0) [.addr 3, .addr 4, .addr 5] ifExample
      = EvaluateExpression 5 (.addr 5) (.addr 2) ifExampleAfterCondition :=
  ⟨by unfold IsBooleanFalse; decide!,
   ((C6_if_branch_by_truthiness (EvaluateExpression 5) ifExample ifExampleAfterCondition (.addr 0)
      (.addr 3) (.addr 4) (.addr 5) (.addr 2) (.addr 2) (.addr 6) (by decide!) (by decide!)
      (by decide!)).1 (by unfold IsBooleanFalse; decide!)).1⟩

end Scheme

namespace Scheme

/-! ## C7: and / or -/

theorem AndFunction_Loop_skip (ev : ObjectPtr → ObjectPtr → M ObjectPtr) (self : ObjectPtr)
    {pre : ObjectPtrVector} {h h1 : Heap} (hpre : EvaluatesInOrder ev self false pre h h1)
    (x : ObjectPtr) (post : ObjectPtrVector) :
    AndFunction.Loop ev self (pre ++ x :: post) h = AndFunction.Loop ev self (x :: post) h1 := by
  induction hpre with
  | nil h => rfl
  | cons hctx hev hv _ ih =>
    rw [← ih]
    simp only [Bool.false_eq_true, if_false] at hv
    simp only [List.cons_append, AndFunction.Loop, bind_eq, hctx, hev,
      IsFalseBoolean_of_not_false hv, Bool.false_eq_true, if_false, List.append_eq, List.append_eq_nil,
      reduceCtorEq, and_false, pure_eq]

theorem OrFunction_Loop_skip (ev : ObjectPtr → ObjectPtr → M ObjectPtr) (self : ObjectPtr)
    {pre : ObjectPtrVector} {h h1 : Heap} (hpre : EvaluatesInOrder ev self true pre h h1)
    (x : ObjectPtr) (post : ObjectPtrVector) :
    OrFunction.Loop ev self (pre ++ x :: post) h = OrFunction.Loop ev self (x :: post) h1 := by
  induction hpre with
  | nil h => rfl
  | cons hctx hev hv _ ih =>
    rw [← ih]
    simp only [if_true] at hv
    simp only [List.cons_append, OrFunction.Loop, bind_eq, hctx, hev,
      IsFalseBoolean_of_false hv, Bool.not_true, Bool.false_eq_true, if_false,
      List.append_eq, List.append_eq_nil, reduceCtorEq, and_false, pure_eq]

/-- The loops of `and` and `or`, each argument being evaluated in the
`context_` the function object holds at that moment (`EvaluatesInOrder`):
for `and` applied to `pre ++ x :: post`, when the arguments in `pre`
evaluate, in order, to values that are not `#f`, and `x` then evaluates to
`v`, the result is `v` as soon as `v` is `#f` or `x` is the last argument;
`or` is the same with the roles of `#f` and not-`#f` exchanged.  The
arguments in `post` are arbitrary and no assumption is made on the evaluator
for them: they are not evaluated.  With no arguments `and` returns a fresh
`#t` and `or` a fresh `#f`.  Nothing is said here on whether the context held
is the one the form was evaluated in. -/
theorem and_or_loop_in_held_context (ev : ObjectPtr → ObjectPtr → M ObjectPtr) (self : ObjectPtr)
    (pre post : ObjectPtrVector) (x v context_ : ObjectPtr) (h h1 h2 : Heap)
    (hctx : Function.context_ self h1 = .ok context_ h1)
    (hx : ev x context_ h1 = .ok v h2) :
    (EvaluatesInOrder ev self false pre h h1 →
      (IsBooleanFalse h2 v ∨ (IsNotBooleanFalse h2 v ∧ post = [])) →
      AndFunction.Apply ev self (pre ++ x :: post) h = .ok v h2) ∧
    (EvaluatesInOrder ev self true pre h h1 →
      (IsNotBooleanFalse h2 v ∨ (IsBooleanFalse h2 v ∧ post = [])) →
      OrFunction.Apply ev self (pre ++ x :: post) h = .ok v h2) ∧
    (∃ p h3, AndFunction.Apply ev self [] h = .ok p h3 ∧
      deref p h3 = .ok (.BooleanSymbol "#t") h3) ∧
    (∃ p h3, OrFunction.Apply ev self [] h = .ok p h3 ∧
      deref p h3 = .ok (.BooleanSymbol "#f") h3) := by
  refine ⟨?_, ?_, ?_, ?_⟩
  · intro hpre hv
    unfold AndFunction.Apply
    rw [AndFunction_Loop_skip ev self hpre]
    rcases hv with hf | ⟨hnf, rfl⟩
    · simp only [AndFunction.Loop, bind_eq, hctx, hx, IsFalseBoolean_of_false hf, if_true,
        pure_eq]
    · simp only [AndFunction.Loop, bind_eq, hctx, hx, IsFalseBoolean_of_not_false hnf,
        Bool.false_eq_true, if_false, if_true, pure_eq]
  · intro hpre hv
    unfold OrFunction.Apply
    rw [OrFunction_Loop_skip ev self hpre]
    rcases hv with hnf | ⟨hf, rfl⟩
    · simp only [OrFunction.Loop, bind_eq, hctx, hx, IsFalseBoolean_of_not_false hnf,
        Bool.not_false, if_true, pure_eq]
    · simp only [OrFunction.Loop, bind_eq, hctx, hx, IsFalseBoolean_of_false hf, Bool.not_true,
        Bool.false_eq_true, if_false, if_true, pure_eq]
  · obtain ⟨p, h3, hm⟩ := Make_ok (.BooleanSymbol "#t") [] h
    exact ⟨p, h3, hm, deref_Make_self hm⟩
  · obtain ⟨p, h3, hm⟩ := Make_ok (.BooleanSymbol "#f") [] h
    exact ⟨p, h3, hm, deref_Make_self hm⟩

/-- The loop of `and` at a concrete input: `(and 1 #f undefined-name)` returns
the value of `#f` and does not evaluate the unbound symbol. -/
theorem and_loop_example :
    AndFunction.Apply (EvaluateExpression 5) (.addr 0) [.addr 3, .addr 4, .addr 5] andOrExample
      = .ok (.addr 8) (evaluatedIn [.addr 3, .addr 4] andOrExample) :=
  (and_or_loop_in_held_context (EvaluateExpression 5) (.addr 0) [.addr 3] [.addr 5] (.addr 4)
    (.addr 8) (.addr 2) andOrExample (evaluatedIn [.addr 3] andOrExample)
    (evaluatedIn [.addr 3, .addr 4] andOrExample) (by decide!) (by decide!)).1
    (@EvaluatesInOrder.cons _ _ _ _ _ _ _ _ (.addr 2) (.addr 7) (by decide!) (by decide!)
      (Or.inr ⟨.Number 1, by decide!, fun n hn => by cases hn⟩) (.nil _))
    (Or.inl (by unfold IsBooleanFalse; decide!))

/-- C7 (code at the failing input).  `AndFunction::Apply` and
`OrFunction::Apply` read the member `context_` of the one `and` (`or`) object
again for every argument they evaluate; the member is set by
`Symbol::Evaluate` each time the symbol `and` (`or`) is looked up.  In
`(h 5)` the first argument `(t)` runs the body of `t`, whose `and` sets the
member to the context of that call; the last argument `y` is then looked up
in a context without the scope that binds `y`, and the run throws `NameError`
where the value of the last argument, `5`, is to be returned.  The same
happens with `or`.  When the earlier argument calls a procedure that does not
use the same form, `(h 5)` returns `5`; on arguments that call no procedure
the forms return the first `#f` (not `#f`) value or the last one, do not
evaluate the arguments after it, and return `#t` and `#f` on no arguments. -/
theorem C7_and_or_in_clobbered_context :
    Session 100 ["(define (t) (and #t #t))", "(define (h y) (and (t) y))", "(h 5)"]
      = [.returned "()", .returned "()", .thrown (.NameError "There are no such name.")] ∧
    Session 100 ["(define (t) (or #f #f))", "(define (h y) (or (t) y))", "(h 5)"]
      = [.returned "()", .returned "()", .thrown (.NameError "There are no such name.")] ∧
    Session 100 ["(define (t) #t)", "(define (h y) (and (t) y))", "(h 5)"]
      = [.returned "()", .returned "()", .returned "5"] ∧
    Session 100 ["(define (t) #f)", "(define (h y) (or (t) y))", "(h 5)"]
      = [.returned "()", .returned "()", .returned "5"] ∧
    Session 100 ["(and 1 2 3)", "(and 1 #f x)", "(or #f 2 x)", "(or #f #f)", "(and)", "(or)"]
      = [.returned "3", .returned "#f", .returned "2", .returned "#f", .returned "#t",
         .returned "#f"] := by
  decide!

end Scheme

namespace Scheme

/-! ## Frames -/

theorem Extends_refl (h : Heap) : Extends h h := fun _ _ hl => hl

theorem Extends_trans {h h1 h2 : Heap} (h01 : Extends h h1) (h12 : Extends h1 h2) :
    Extends h h2 := fun p o hl => h12 p o (h01 p o hl)

theorem Frame_refl (h : Heap) : Frame h h := fun _ o hd => ⟨o, hd, rfl⟩

theorem Frame_trans {h h1 h2 : Heap} (h01 : Frame h h1) (h12 : Frame h1 h2) : Frame h h2 := by
  intro p o hd
  obtain ⟨o1, hd1, he1⟩ := h01 p o hd
  obtain ⟨o2, hd2, he2⟩ := h12 p o1 hd1
  exact ⟨o2, hd2, Eq.trans he2 he1⟩

theorem Extends_deref {h h1 : Heap} (hx : Extends h h1) {p : ObjectPtr} {o : Object}
    (hd : deref p h = .ok o h) : deref p h1 = .ok o h1 := by
  obtain ⟨ho, hl, ho1, _⟩ := load_of_deref hd
  subst ho1
  rw [deref_eq, hx p ho hl]

theorem Extends_frame {h h1 : Heap} (hx : Extends h h1) : Frame h h1 :=
  fun _ o hd => ⟨o, Extends_deref hx hd, rfl⟩

theorem Extends_Make {obj : Object} {deps : List ObjectPtr} {h h1 : Heap} {q : ObjectPtr}
    (hm : Make obj deps h = .ok q h1) : Extends h h1 :=
  fun _ _ hl => load_Make_of_load hm hl

theorem load_Make_fresh {obj : Object} {deps : List ObjectPtr} {h h1 : Heap} {q : ObjectPtr}
    (hm : Make obj deps h = .ok q h1) (o : HeapObject) : load q h ≠ .ok o h := by
  rw [Make_eq] at hm
  injection hm with hq _
  subst hq
  rw [load_addr_eq]
  intro hl
  cases hg : h.memory.get? (firstFree h.memory) with
  | none => rw [hg] at hl; cases hl
  | some x =>
    cases x with
    | none => rw [hg] at hl; cases hl
    | some o1 => exact get?_firstFree h.memory o1 hg

theorem storeAt_eq_of_load {p : ObjectPtr} {h h1 : Heap} {o : HeapObject} {x : HeapObject}
    (hl : load p h = .ok o h) (hs : storeAt p x h = .ok () h1) :
    ∃ a, p = .addr a ∧ h1 = { h with memory := h.memory.set a (some x) } ∧
      a < h.memory.length := by
  cases p with
  | nullptr => cases hl
  | invalid => cases hl
  | addr a =>
    rw [load_addr_eq] at hl
    cases hg : h.memory.get? a with
    | none => rw [hg] at hl; cases hl
    | some y =>
      cases y with
      | none => rw [hg] at hl; cases hl
      | some o1 =>
        simp only [storeAt, hg] at hs
        injection hs with _ hh
        refine ⟨a, rfl, hh.symm, ?_⟩
        have := List.get?_eq_some.mp hg
        exact this.1

theorem load_storeAt_self {p : ObjectPtr} {h h1 : Heap} {o : HeapObject} {x : HeapObject}
    (hl : load p h = .ok o h) (hs : storeAt p x h = .ok () h1) : load p h1 = .ok x h1 := by
  obtain ⟨a, rfl, rfl, hlt⟩ := storeAt_eq_of_load hl hs
  rw [load_addr_eq]
  simp [List.getElem?_set_self, hlt]

theorem load_storeAt_of_ne {p q : ObjectPtr} {h h1 : Heap} {o oq : HeapObject} {x : HeapObject}
    (hl : load p h = .ok o h) (hs : storeAt p x h = .ok () h1) (hq : load q h = .ok oq h)
    (hne : q ≠ p) : load q h1 = .ok oq h1 := by
  obtain ⟨a, rfl, rfl, _⟩ := storeAt_eq_of_load hl hs
  cases q with
  | nullptr => cases hq
  | invalid => cases hq
  | addr b =>
    have hab : a ≠ b := fun hab => hne (by rw [hab])
    rw [load_addr_eq] at hq ⊢
    simp only [List.get?_eq_getElem?, List.getElem?_set_ne hab] at hq ⊢
    cases hg : h.memory[b]? with
    | none => rw [hg] at hq; cases hq
    | some y =>
      cases y with
      | none => rw [hg] at hq; cases hq
      | some o1 =>
        rw [hg] at hq
        injection hq with h1 _
        subst h1
        rfl

/-- Overwriting an object that did not exist in `h` keeps `Extends h`. -/
theorem Extends_storeAt_fresh {h h1 h2 : Heap} {q : ObjectPtr} {o x : HeapObject}
    (hx : Extends h h1) (hfresh : ∀ o0, load q h ≠ .ok o0 h)
    (hl : load q h1 = .ok o h1) (hs : storeAt q x h1 = .ok () h2) : Extends h h2 := by
  intro p op hp
  have hne : p ≠ q := by
    rintro rfl
    exact hfresh op hp
  exact load_storeAt_of_ne hl hs (hx p op hp) hne

/-- Overwriting an object with one of the same value part keeps `Frame`. -/
theorem Frame_storeAt {h h1 : Heap} {p : ObjectPtr} {o x : HeapObject}
    (hl : load p h = .ok o h) (hs : storeAt p x h = .ok () h1)
    (he : x.obj.erase = o.obj.erase) : Frame h h1 := by
  intro q oq hq
  by_cases hqp : q = p
  · subst hqp
    obtain ⟨ho, hl1, ho1, _⟩ := load_of_deref hq
    rw [hl] at hl1
    injection hl1 with hoo _
    subst hoo
    subst ho1
    exact ⟨x.obj, deref_of_load (load_storeAt_self hl hs), he⟩
  · obtain ⟨ho, hl1, ho1, _⟩ := load_of_deref hq
    subst ho1
    exact ⟨ho.obj, deref_of_load (load_storeAt_of_ne hl hs hl1 hqp), rfl⟩

theorem Denotes_nullptr {h : Heap} {V : Value} (hd : Denotes h .nullptr V) : V = .null := by
  cases hd with
  | null => rfl
  | number hd => rw [deref_nullptr] at hd; cases hd
  | boolean hd => rw [deref_nullptr] at hd; cases hd
  | symbol hd => rw [deref_nullptr] at hd; cases hd
  | pair hd _ _ => rw [deref_nullptr] at hd; cases hd
  | builtin hd => rw [deref_nullptr] at hd; cases hd
  | lambda hd _ => rw [deref_nullptr] at hd; cases hd

theorem Denotes_frame {h h1 : Heap} (hf : Frame h h1) {p : ObjectPtr} {V : Value}
    (hd : Denotes h p V) : Denotes h1 p V := by
  induction hd with
  | null => exact .null
  | number hp =>
    obtain ⟨o1, hd1, he⟩ := hf _ _ hp
    cases o1 <;> simp only [Object.erase, reduceCtorEq] at he
    cases he
    exact .number hd1
  | boolean hp =>
    obtain ⟨o1, hd1, he⟩ := hf _ _ hp
    cases o1 <;> simp only [Object.erase, reduceCtorEq] at he
    cases he
    exact .boolean hd1
  | symbol hp =>
    obtain ⟨o1, hd1, he⟩ := hf _ _ hp
    cases o1 <;> simp only [Object.erase, reduceCtorEq] at he
    injection he with hn _
    subst hn
    exact .symbol hd1
  | pair hp _ _ iha ihb =>
    obtain ⟨o1, hd1, he⟩ := hf _ _ hp
    cases o1 <;> simp only [Object.erase, reduceCtorEq] at he
    cases he
    exact .pair hd1 iha ihb
  | builtin hp =>
    obtain ⟨o1, hd1, he⟩ := hf _ _ hp
    cases o1 <;> simp only [Object.erase, reduceCtorEq] at he
    injection he with hn _
    subst hn
    exact .builtin hd1
  | lambda hp hc =>
    obtain ⟨o1, hd1, he⟩ := hf _ _ hp
    obtain ⟨o2, hd2, he2⟩ := hf _ _ hc
    cases o1 <;> simp only [Object.erase, reduceCtorEq] at he
    cases o2 <;> simp only [Object.erase, reduceCtorEq] at he2
    injection he with ha hb hcap _
    subst ha hb hcap
    cases he2
    exact .lambda hd1 hd2

end Scheme

namespace Scheme

/-! ## Clone -/

theorem Denotes_null {h : Heap} {p : ObjectPtr} (hd : Denotes h p .null) : p = .nullptr := by
  cases hd
  rfl

theorem SetContext_fresh_symbol {h h1 : Heap} {q : ObjectPtr} {name : String} (c : ObjectPtr)
    (hm : Make (.Symbol name .nullptr) [] h = .ok q h1) :
    ∃ h2, SetContext q c h1 = .ok () h2 ∧ deref q h2 = .ok (.Symbol name c) h2 ∧
      Extends h h2 := by
  have hl := load_Make_self hm
  obtain ⟨h2, hs⟩ := storeAt_of_load
    ({ (⟨.Symbol name .nullptr, false, []⟩ : HeapObject) with obj := .Symbol name c }) hl
  refine ⟨h2, ?_, ?_, ?_⟩
  · simp only [SetContext, bind_eq, hl, hs]
  · exact deref_of_load (load_storeAt_self hl hs)
  · exact Extends_storeAt_fresh (Extends_Make hm) (load_Make_fresh hm) hl hs

theorem MakeLambdaFunction_ok {h : Heap} (args body : ObjectPtrVector) {context : ObjectPtr}
    {scopes : List ObjectPtr} (hc : deref context h = .ok (.Context scopes) h) :
    ∃ q cap h1 h2 deps, MakeLambdaFunction args body context h = .ok q h2 ∧
      load q h2 = .ok ⟨.LambdaFunction args body cap cap, false, deps⟩ h2 ∧
      deref cap h1 = .ok (.Context scopes) h1 ∧ Extends h h1 ∧
      Make (.LambdaFunction args body cap cap) deps h1 = .ok q h2 := by
  obtain ⟨ho, hl, ho1, _⟩ := load_of_deref hc
  obtain ⟨cap, h1, hm1⟩ := Make_ok (.Context scopes) ho.dependencies_ h
  obtain ⟨q, h2, hm2⟩ := Make_ok (.LambdaFunction args body cap cap)
    (AddDependencies (AddDependencies (AddDependency [] cap) args) body) h1
  refine ⟨q, cap, h1, h2, _, ?_, load_Make_self hm2, ?_, Extends_Make hm1, hm2⟩
  · simp only [MakeLambdaFunction, bind_eq, hl, ho1, hm1, hm2]
  · exact deref_Make_self hm1

/-- `Clone` of a pointer that stands for a finite value returns, given a
budget above the depth of the value, a pointer that stands for the same value
and leaves every existing object unchanged. -/
theorem Clone_ok : ∀ (V : Value) (h : Heap) (p : ObjectPtr), Denotes h p V → V ≠ .null →
    ∀ fuel, V.depth < fuel →
    ∃ q h1, Clone fuel p h = .ok q h1 ∧ Denotes h1 q V ∧ Extends h h1 ∧ q ≠ .nullptr := by
  intro V
  induction V with
  | null => intro h p _ hV; exact absurd rfl hV
  | number value =>
    intro h p hd _ fuel hf
    obtain ⟨n, rfl⟩ : ∃ n, fuel = n + 1 := ⟨fuel - 1, by omega⟩
    cases hd with
    | number hp =>
      obtain ⟨q, h1, hm⟩ := Make_ok (.Number value) [] h
      refine ⟨q, h1, ?_, .number (deref_Make_self hm), Extends_Make hm,
        ne_nullptr_of_deref (deref_Make_self hm)⟩
      simp only [Clone, bind_eq, hp, hm]
  | boolean name =>
    intro h p hd _ fuel hf
    obtain ⟨n, rfl⟩ : ∃ n, fuel = n + 1 := ⟨fuel - 1, by omega⟩
    cases hd with
    | boolean hp =>
      obtain ⟨q, h1, hm⟩ := Make_ok (.BooleanSymbol name) [] h
      refine ⟨q, h1, ?_, .boolean (deref_Make_self hm), Extends_Make hm,
        ne_nullptr_of_deref (deref_Make_self hm)⟩
      simp only [Clone, bind_eq, hp, hm]
  | symbol name =>
    intro h p hd _ fuel hf
    obtain ⟨n, rfl⟩ : ∃ n, fuel = n + 1 := ⟨fuel - 1, by omega⟩
    cases hd with
    | @symbol _ c _ hp =>
      obtain ⟨q, h1, hm⟩ := Make_ok (.Symbol name .nullptr) [] h
      obtain ⟨h2, hs, hd2, hx⟩ := SetContext_fresh_symbol c hm
      refine ⟨q, h2, ?_, .symbol hd2, hx, ne_nullptr_of_deref hd2⟩
      simp only [Clone, bind_eq, hp, hm, hs, pure_eq]
  | builtin cls =>
    intro h p hd _ fuel hf
    obtain ⟨n, rfl⟩ : ∃ n, fuel = n + 1 := ⟨fuel - 1, by omega⟩
    cases hd with
    | builtin hp =>
      obtain ⟨q, h1, hm⟩ := Make_ok (.Function cls .nullptr) [] h
      refine ⟨q, h1, ?_, .builtin (deref_Make_self hm), Extends_Make hm,
        ne_nullptr_of_deref (deref_Make_self hm)⟩
      simp only [Clone, bind_eq, hp, hm]
  | lambda args body scopes =>
    intro h p hd _ fuel hf
    obtain ⟨n, rfl⟩ : ∃ n, fuel = n + 1 := ⟨fuel - 1, by omega⟩
    cases hd with
    | @lambda _ cap0 cur _ _ _ hp hc =>
      obtain ⟨q, cap, h1, h2, deps, hmk, hl, hcap1, hx1, hm2⟩ :=
        MakeLambdaFunction_ok args body hc
      obtain ⟨h3, hs⟩ := storeAt_of_load
        ({ (⟨.LambdaFunction args body cap cap, false, deps⟩ : HeapObject) with
            obj := .LambdaFunction args body cap cur }) hl
      have hx2 : Extends h1 h3 :=
        Extends_storeAt_fresh (Extends_Make hm2) (load_Make_fresh hm2) hl hs
      have hq3 : deref q h3 = .ok (.LambdaFunction args body cap cur) h3 :=
        deref_of_load (load_storeAt_self hl hs)
      refine ⟨q, h3, ?_, .lambda hq3 (Extends_deref hx2 hcap1), (Extends_trans hx1 hx2), ne_nullptr_of_deref hq3⟩
      simp only [Clone, bind_eq, hp, hmk, SetContext, hl, hs, pure_eq]
  | pair A B ihA ihB =>
    intro h p hd _ fuel hf
    obtain ⟨n, rfl⟩ : ∃ n, fuel = n + 1 := ⟨fuel - 1, by omega⟩
    simp only [Value.depth] at hf
    have hfA : A.depth < n := by omega
    have hfB : B.depth < n := by omega
    cases hd with
    | @pair _ a b _ _ hp ha hb =>
      have field : ∀ (X : Value) (hh : Heap) (x : ObjectPtr), Denotes hh x X → X.depth < n →
          (∀ (h : Heap) (p : ObjectPtr), Denotes h p X → X ≠ .null → ∀ fuel, X.depth < fuel →
            ∃ q h1, Clone fuel p h = .ok q h1 ∧ Denotes h1 q X ∧ Extends h h1 ∧ q ≠ .nullptr) →
          ∃ q h1, Denotes h1 q X ∧ Extends hh h1 ∧
            ((x = .nullptr ∧ q = .nullptr ∧ h1 = hh) ∨
             (x ≠ .nullptr ∧ Clone n x hh = .ok q h1)) := by
        intro X hh x hx hXn ih
        by_cases hxn : x = .nullptr
        · subst hxn
          have := Denotes_nullptr hx
          subst this
          exact ⟨.nullptr, hh, .null, Extends_refl _, Or.inl ⟨rfl, rfl, rfl⟩⟩
        · have hX : X ≠ .null := by
            rintro rfl
            exact hxn (Denotes_null hx)
          obtain ⟨q, h1, hc, hd1, hx1, _⟩ := ih hh x hx hX n hXn
          exact ⟨q, h1, hd1, hx1, Or.inr ⟨hxn, hc⟩⟩
      obtain ⟨q1, h1, hd1, hx1, hc1⟩ := field A h a ha hfA ihA
      obtain ⟨q2, h2, hd2, hx2, hc2⟩ := field B h1 b (Denotes_frame (Extends_frame hx1) hb) hfB ihB
      obtain ⟨q, h3, hm⟩ := Make_ok (.Cell q1 q2) (AddDependency (AddDependency [] q1) q2) h2
      have hx3 := Extends_Make hm
      refine ⟨q, h3, ?_, .pair (deref_Make_self hm)
        (Denotes_frame (Extends_frame (Extends_trans hx2 hx3)) hd1) (Denotes_frame (Extends_frame hx3) hd2),
        Extends_trans (Extends_trans hx1 hx2) hx3, ne_nullptr_of_deref (deref_Make_self hm)⟩
      rcases hc1 with ⟨ha0, hq1, hh1⟩ | ⟨ha0, hc1⟩ <;> rcases hc2 with ⟨hb0, hq2, hh2⟩ | ⟨hb0, hc2⟩
      · subst ha0 hq1 hh1 hb0 hq2 hh2
        simp only [Clone, bind_eq, hp, if_true, pure_eq, MakeCell, hm]
      · subst ha0 hq1 hh1
        simp only [Clone, bind_eq, hp, if_true, pure_eq, hb0, if_false, hc2, MakeCell, hm]
      · subst hb0 hq2 hh2
        simp only [Clone, bind_eq, hp, if_true, pure_eq, ha0, if_false, hc1, MakeCell, hm]
      · simp only [Clone, bind_eq, hp, ha0, hb0, if_false, hc1, hc2, MakeCell, hm]

end Scheme

namespace Scheme

/-! ## Scopes and contexts -/

theorem mapContains_mapAssign (m : List (String × ObjectPtr)) (x : String) (q : ObjectPtr) :
    mapContains (mapAssign m x q) x = true := by
  induction m with
  | nil => simp [mapAssign, mapContains]
  | cons kv rest ih =>
    obtain ⟨k, v⟩ := kv
    by_cases hk : k = x
    · simp [mapAssign, mapContains, hk]
    · simp only [mapContains] at ih
      simp [mapAssign, mapContains, hk, ih]

theorem mapIndex_mapAssign (m : List (String × ObjectPtr)) (x : String) (q : ObjectPtr) :
    mapIndex (mapAssign m x q) x = q := by
  induction m with
  | nil => simp [mapAssign, mapIndex]
  | cons kv rest ih =>
    obtain ⟨k, v⟩ := kv
    by_cases hk : k = x
    · simp [mapAssign, mapIndex, hk]
    · simp [mapAssign, mapIndex, hk, ih]

theorem Frame_scope {h h1 : Heap} (hf : Frame h h1) {s : ObjectPtr} {m : List (String × ObjectPtr)}
    (hs : deref s h = .ok (.Scope m) h) : ∃ m1, deref s h1 = .ok (.Scope m1) h1 := by
  obtain ⟨o1, hd1, he⟩ := hf _ _ hs
  cases o1 <;> simp only [Object.erase, reduceCtorEq] at he
  exact ⟨_, hd1⟩

theorem Frame_context {h h1 : Heap} (hf : Frame h h1) {c : ObjectPtr} {scopes : List ObjectPtr}
    (hc : deref c h = .ok (.Context scopes) h) : deref c h1 = .ok (.Context scopes) h1 := by
  obtain ⟨o1, hd1, he⟩ := hf _ _ hc
  cases o1 <;> simp only [Object.erase, reduceCtorEq] at he
  cases he
  exact hd1

theorem Scope_Contains_of_deref {s : ObjectPtr} {h : Heap} {m : List (String × ObjectPtr)}
    (hs : deref s h = .ok (.Scope m) h) (x : String) :
    Scope.Contains s x h = .ok (mapContains m x) h := by
  simp only [Scope.Contains, bind_eq, hs, pure_eq]

theorem reverse_of_getLast? {scopes : List ObjectPtr} {scope : ObjectPtr}
    (hlast : scopes.getLast? = some scope) :
    ∃ rest, scopes.reverse = scope :: rest ∧ scope ∈ scopes := by
  have hmem := List.mem_of_getLast?_eq_some hlast
  rw [List.getLast?_eq_head?_reverse] at hlast
  cases hr : scopes.reverse with
  | nil => rw [hr] at hlast; cases hlast
  | cons a rest =>
    rw [hr] at hlast
    simp only [List.head?_cons, Option.some.injEq] at hlast
    subst hlast
    exact ⟨rest, rfl, hmem⟩

theorem Scope_Define_ok {h : Heap} {scope v : ObjectPtr} {m : List (String × ObjectPtr)}
    {V : Value} (x : String) (hs : deref scope h = .ok (.Scope m) h) (hv : Denotes h v V)
    (hV : V ≠ .null) {fuel : Nat} (hf : V.depth < fuel) :
    ∃ q h1, Scope.Define fuel scope x v h = .ok () h1 ∧
      deref scope h1 = .ok (.Scope (mapAssign m x q)) h1 ∧ Denotes h1 q V ∧ Frame h h1 := by
  obtain ⟨q, h0, hc, hd, hx, _⟩ := Clone_ok V h v hv hV fuel hf
  obtain ⟨ho, hl, ho1, _⟩ := load_of_deref hs
  have hl0 := hx _ _ hl
  obtain ⟨h1, hst⟩ := storeAt_of_load
    { ho with obj := .Scope (mapAssign m x q), dependencies_ := AddDependency ho.dependencies_ q }
    hl0
  have hfr : Frame h0 h1 := Frame_storeAt hl0 hst (by rw [ho1]; rfl)
  refine ⟨q, h1, ?_, deref_of_load (load_storeAt_self hl0 hst), Denotes_frame hfr hd,
    Frame_trans (Extends_frame hx) hfr⟩
  simp only [Scope.Define, bind_eq, hc, hl0, ho1, hst]

theorem SetContext_of_Denotes {h : Heap} {p : ObjectPtr} {V : Value} (hp : Denotes h p V)
    (hV : V ≠ .null) (c : ObjectPtr) : ∃ h1, SetContext p c h = .ok () h1 ∧ Frame h h1 := by
  have key : ∀ (ho : HeapObject) (obj1 : Object), load p h = .ok ho h →
      obj1.erase = ho.obj.erase →
      ∃ h1, storeAt p { ho with obj := obj1 } h = .ok () h1 ∧ Frame h h1 := by
    intro ho obj1 hl he
    obtain ⟨h1, hs⟩ := storeAt_of_load { ho with obj := obj1 } hl
    exact ⟨h1, hs, Frame_storeAt hl hs he⟩
  cases hp with
  | null => exact absurd rfl hV
  | number hd =>
    obtain ⟨ho, hl, ho1, _⟩ := load_of_deref hd
    exact ⟨h, by simp only [SetContext, bind_eq, hl, ho1, pure_eq], Frame_refl h⟩
  | boolean hd =>
    obtain ⟨ho, hl, ho1, _⟩ := load_of_deref hd
    exact ⟨h, by simp only [SetContext, bind_eq, hl, ho1, pure_eq], Frame_refl h⟩
  | pair hd _ _ =>
    obtain ⟨ho, hl, ho1, _⟩ := load_of_deref hd
    exact ⟨h, by simp only [SetContext, bind_eq, hl, ho1, pure_eq], Frame_refl h⟩
  | @symbol _ c0 name hd =>
    obtain ⟨ho, hl, ho1, _⟩ := load_of_deref hd
    obtain ⟨h1, hs, hf⟩ := key ho (.Symbol name c) hl (by rw [ho1]; rfl)
    exact ⟨h1, by simp only [SetContext, bind_eq, hl, ho1, hs], hf⟩
  | @builtin _ c0 cls hd =>
    obtain ⟨ho, hl, ho1, _⟩ := load_of_deref hd
    by_cases hq : cls = .QuoteFunction
    · subst hq
      exact ⟨h, by simp only [SetContext, bind_eq, hl, ho1, pure_eq], Frame_refl h⟩
    · obtain ⟨h1, hs, hf⟩ := key ho (.Function cls c) hl (by rw [ho1]; rfl)
      refine ⟨h1, ?_, hf⟩
      cases cls <;> first | exact absurd rfl hq | simp only [SetContext, bind_eq, hl, ho1, hs]
  | @lambda _ cap cur args body _ hd _ =>
    obtain ⟨ho, hl, ho1, _⟩ := load_of_deref hd
    obtain ⟨h1, hs, hf⟩ := key ho (.LambdaFunction args body cap c) hl (by rw [ho1]; rfl)
    exact ⟨h1, by simp only [SetContext, bind_eq, hl, ho1, hs], hf⟩

theorem Denotes_ne_nullptr {h : Heap} {p : ObjectPtr} {V : Value} (hp : Denotes h p V)
    (hV : V ≠ .null) : p ≠ .nullptr := by
  rintro rfl
  exact hV (Denotes_nullptr hp)

end Scheme

namespace Scheme

/-! ## C5: define, set!, lookup -/

end Scheme

namespace Scheme

/-! ## C9: the two forms of define -/

theorem IsList_frame {h h1 : Heap} (hf : Frame h h1) {p : ObjectPtr} {xs : ObjectPtrVector}
    (hl : IsList h p xs) : IsList h1 p xs := by
  induction hl with
  | nil => exact .nil
  | cons hp _ ih =>
    obtain ⟨o1, hd1, he⟩ := hf _ _ hp
    cases o1 <;> simp only [Object.erase, reduceCtorEq] at he
    cases he
    exact .cons hd1 ih

theorem ListToVectorLoop_of_IsList {h : Heap} {p : ObjectPtr} {xs : ObjectPtrVector}
    (hl : IsList h p xs) :
    ∀ (fuel : Nat) (acc : ObjectPtrVector), xs.length < fuel →
      ListToVectorLoop fuel p acc h = .ok (acc ++ xs) h := by
  induction hl with
  | nil =>
    intro fuel acc hf
    obtain ⟨n, rfl⟩ : ∃ n, fuel = n + 1 := ⟨fuel - 1, by omega⟩
    simp only [ListToVectorLoop, bind_eq, Is_nullptr, Bool.false_eq_true, if_false, ne_eq,
      not_true_eq_false, pure_eq, List.append_nil]
  | @cons p first second xs hp _ ih =>
    intro fuel acc hf
    obtain ⟨n, rfl⟩ : ∃ n, fuel = n + 1 := ⟨fuel - 1, by omega⟩
    simp only [List.length_cons] at hf
    have := ih n (acc ++ [first]) (by omega)
    simp only [ListToVectorLoop, bind_eq, Is_of_deref hp, Object.hasType, if_true, hp, this,
      List.append_assoc, List.singleton_append]

theorem ListToVector_of_IsList {h : Heap} {p : ObjectPtr} {xs : ObjectPtrVector}
    (hl : IsList h p xs) {fuel : Nat} (hf : xs.length < fuel) :
    ListToVector fuel p h = .ok xs h := by
  have hloop := ListToVectorLoop_of_IsList hl fuel [] hf
  cases hl with
  | nil =>
    simp only [ListToVector, bind_eq, Is_nullptr, Bool.not_false, ne_eq, not_true_eq_false,
      decide_False, Bool.and_false, Bool.false_eq_true, if_false, hloop, List.nil_append]
  | cons hp _ =>
    simp only [ListToVector, bind_eq, Is_of_deref hp, Object.hasType, Bool.not_true,
      Bool.false_and, Bool.false_eq_true, if_false, hloop, List.nil_append]

theorem ThrowIfMismatchOperandsType_symbols {h : Heap} (message : String) :
    ∀ (ps : ObjectPtrVector), (∀ p ∈ ps, ∃ n c, deref p h = .ok (.Symbol n c) h) →
      ThrowIfMismatchOperandsType .Symbol ps message h = .ok () h := by
  intro ps
  induction ps with
  | nil => intro _; rfl
  | cons p rest ih =>
    intro hall
    obtain ⟨n, c, hp⟩ := hall p (List.mem_cons_self _ _)
    simp only [ThrowIfMismatchOperandsType, bind_eq, Is_of_deref hp, Object.hasType,
      Bool.not_true, Bool.false_eq_true, if_false]
    exact ih (fun q hq => hall q (List.mem_cons_of_mem _ hq))

theorem MakeLambdaFunction_denotes {h : Heap} (args body : ObjectPtrVector)
    {context : ObjectPtr} {scopes : List ObjectPtr} (hc : deref context h = .ok (.Context scopes) h) :
    ∃ q h2, MakeLambdaFunction args body context h = .ok q h2 ∧
      Denotes h2 q (.lambda args body scopes) ∧ Extends h h2 := by
  obtain ⟨q, cap, h1, h2, deps, hmk, hl, hcap1, hx1, hm2⟩ :=
    MakeLambdaFunction_ok args body hc
  exact ⟨q, h2, hmk, .lambda (deref_of_load hl) (deref_Make_of_deref hm2 hcap1),
    Extends_trans hx1 (Extends_Make hm2)⟩

/-- What `Context::Define` leaves: the innermost scope binds the name to a
pointer that stands for the defined value, and `Context::Get` returns it. -/
theorem Context_Define_Get {h : Heap} {context scope v : ObjectPtr} {scopes : List ObjectPtr}
    {V : Value} (x : String) (hctx : deref context h = .ok (.Context scopes) h)
    (hlast : scopes.getLast? = some scope)
    (hscopes : ∀ s ∈ scopes, ∃ m, deref s h = .ok (.Scope m) h)
    (hv : Denotes h v V) (hV : V ≠ .null) {fuel : Nat} (hf : V.depth < fuel) :
    ∃ q h1, Context.Define fuel context x v h = .ok () h1 ∧
      Context.Get context x h1 = .ok q h1 ∧ Denotes h1 q V := by
  obtain ⟨rest, hrev, hmem⟩ := reverse_of_getLast? hlast
  obtain ⟨m, hm⟩ := hscopes scope hmem
  obtain ⟨q, h1, hdef, hs1, hd1, hfr⟩ := Scope_Define_ok x hm hv hV hf
  obtain ⟨ho, hl, ho1, _⟩ := load_of_deref hs1
  refine ⟨q, h1, ?_, ?_, hd1⟩
  · simp only [Context.Define, Context.scopes, bind_eq, hctx, pure_eq, hlast, hdef]
  · simp only [Context.Get, Context.scopes, bind_eq, Frame_context hfr hctx, pure_eq, hrev,
      Context.GetLoop, Scope_Contains_of_deref hs1, mapContains_mapAssign, if_true, Scope.Get,
      hl, ho1, mapIndex_mapAssign]

theorem EvaluateExpression_cell {fuel : Nat} {ast context head tail : ObjectPtr} {h : Heap}
    (hd : deref ast h = .ok (.Cell head tail) h) :
    EvaluateExpression (fuel + 1) ast context h
      = (do
          let symbol_evaluated ← EvaluateExpression fuel head context
          if symbol_evaluated = ObjectPtr.nullptr then
            throw (Error.RuntimeError "First element of pair must be applicable.")
          else do
            let args ← ListToVector fuel tail
            Apply (EvaluateExpression fuel) fuel symbol_evaluated args) h := by
  cases ast with
  | nullptr => rw [deref_nullptr] at hd; cases hd
  | invalid => rw [deref_invalid] at hd; cases hd
  | addr a => simp only [EvaluateExpression, bind_eq, hd]

theorem EvaluateExpression_symbol {fuel : Nat} {ast context c : ObjectPtr} {name : String}
    {h : Heap} (hd : deref ast h = .ok (.Symbol name c) h) :
    EvaluateExpression (fuel + 1) ast context h = Symbol.Evaluate name context h := by
  cases ast with
  | nullptr => rw [deref_nullptr] at hd; cases hd
  | invalid => rw [deref_invalid] at hd; cases hd
  | addr a => simp only [EvaluateExpression, bind_eq, hd]

/-- C9.  In a context where `lambda` is bound to the lambda special form,
`(define (f p1 ... pn) body1 ... bodym)` and
`(define f (lambda (p1 ... pn) body1 ... bodym))`, built over the same
parameter symbols `ps` and the same non-empty list of body expressions `bs`,
both return null, and each leaves `f` bound (as `Context::Get` shows) to a
user lambda with parameters `ps`, body `bs` and a captured context that holds
the scopes of the defining context. -/
theorem C9_define_sugar_equivalent (h : Heap)
    (D context scope sigA fA fB lamExpr lamHead lamTail params L b cf1 cf2 cl cL : ObjectPtr)
    (ps bs : ObjectPtrVector) (scopes : List ObjectPtr) (f : String)
    (hD : deref D h = .ok (.Function .DefineFunction context) h)
    (hctx : deref context h = .ok (.Context scopes) h)
    (hlast : scopes.getLast? = some scope)
    (hscopes : ∀ s ∈ scopes, ∃ m, deref s h = .ok (.Scope m) h)
    (hps : ∀ p ∈ ps, ∃ n c, deref p h = .ok (.Symbol n c) h)
    (hsigA : IsList h sigA (fA :: ps))
    (hfA : deref fA h = .ok (.Symbol f cf1) h)
    (hfB : deref fB h = .ok (.Symbol f cf2) h)
    (hlam : deref lamExpr h = .ok (.Cell lamHead lamTail) h)
    (hhead : deref lamHead h = .ok (.Symbol "lambda" cl) h)
    (htail : IsList h lamTail (params :: b :: bs))
    (hparams : IsList h params ps)
    (hcontains : Context.Contains context "lambda" h = .ok true h)
    (hget : Context.Get context "lambda" h = .ok L h)
    (hL : deref L h = .ok (.Function .LambdaDeclaration cL) h) :
    ∀ fuel, ps.length + bs.length + 4 < fuel →
      (∃ hA pA, DefineFunction.Apply (EvaluateExpression fuel) fuel D (sigA :: b :: bs) h
          = .ok .nullptr hA ∧
        Context.Get context f hA = .ok pA hA ∧ Denotes hA pA (.lambda ps (b :: bs) scopes)) ∧
      (∃ hB pB, DefineFunction.Apply (EvaluateExpression fuel) fuel D [fB, lamExpr] h
          = .ok .nullptr hB ∧
        Context.Get context f hB = .ok pB hB ∧ Denotes hB pB (.lambda ps (b :: bs) scopes)) := by
  intro fuel hfuel
  have hVne : Value.lambda ps (b :: bs) scopes ≠ .null := by intro hc; cases hc
  have hdepth : (Value.lambda ps (b :: bs) scopes).depth < fuel := by
    simp only [Value.depth]; omega
  constructor
  · -- the sugared form
    cases hsigA with
    | @cons _ _ second _ hsig hrest =>
      have hsigL : IsList h sigA (fA :: ps) := .cons hsig hrest
      have hvec : ListToVector fuel sigA h = .ok (fA :: ps) h :=
        ListToVector_of_IsList hsigL (by simp only [List.length_cons]; omega)
      obtain ⟨l, h2, hmk, hden, hx⟩ := MakeLambdaFunction_denotes ps (b :: bs) hctx
      have hscopes2 : ∀ s ∈ scopes, ∃ m, deref s h2 = .ok (.Scope m) h2 := fun s hs => by
        obtain ⟨m, hm⟩ := hscopes s hs
        exact ⟨m, Extends_deref hx hm⟩
      obtain ⟨q, h3, hdef, hg, hdq⟩ := Context_Define_Get f (Extends_deref hx hctx) hlast hscopes2 hden
        hVne hdepth
      refine ⟨h3, q, ?_, hg, hdq⟩
      simp only [DefineFunction.Apply, bind_eq, Is_of_deref hsig, Object.hasType,
        Bool.false_eq_true, if_false, if_true, hvec, GetName, hfA, pure_eq,
        Function.context__of_deref hD, hmk, hdef]
  · -- the explicit lambda
    obtain ⟨n, rfl⟩ : ∃ n, fuel = n + 2 := ⟨fuel - 2, by omega⟩
    have hLd := Denotes.builtin hL
    obtain ⟨h1, hset, hfr1⟩ := SetContext_of_Denotes hLd (by intro hc; cases hc) context
    have hL1 : deref L h1 = .ok (.Function .LambdaDeclaration context) h1 := by
      obtain ⟨ho, hl, ho1, _⟩ := load_of_deref hL
      simp only [SetContext, bind_eq, hl, ho1] at hset
      exact deref_of_load (load_storeAt_self hl hset)
    have hLn : L ≠ .nullptr := ne_nullptr_of_deref hL
    have hsym : Symbol.Evaluate "lambda" context h = .ok L h1 := by
      simp only [Symbol.Evaluate, bind_eq, hcontains, if_true, hget, hset, pure_eq]
    have hevHead : EvaluateExpression (n + 1) lamHead context h = .ok L h1 := by
      rw [EvaluateExpression_symbol hhead, hsym]
    have htail1 := IsList_frame hfr1 htail
    have hparams1 := IsList_frame hfr1 hparams
    have hvecTail : ListToVector (n + 1) lamTail h1 = .ok (params :: b :: bs) h1 :=
      ListToVector_of_IsList htail1 (by simp only [List.length_cons]; omega)
    have hvecParams : ListToVector (n + 1) params h1 = .ok ps h1 :=
      ListToVector_of_IsList hparams1 (by omega)
    have hps1 : ∀ p ∈ ps, ∃ n c, deref p h1 = .ok (.Symbol n c) h1 := by
      intro p hp
      obtain ⟨nm, c, hd⟩ := hps p hp
      obtain ⟨o1, hd1, he⟩ := hfr1 _ _ hd
      cases o1 <;> simp only [Object.erase, reduceCtorEq] at he
      exact ⟨_, _, hd1⟩
    have hctx1 := Frame_context hfr1 hctx
    obtain ⟨l, h2, hmk, hden, hx⟩ :=
      MakeLambdaFunction_denotes ps (b :: bs) hctx1
    have hIsParams : ∃ c, Is .Cell params h1 = .ok c h1 ∧
        (decide (params ≠ .nullptr) && !c) = false := by
      cases hparams1 with
      | nil => exact ⟨false, Is_nullptr _ _, by decide⟩
      | cons hp _ => exact ⟨true, Is_of_deref hp, by simp⟩
    obtain ⟨c, hIs, hcheck⟩ := hIsParams
    have hdecl : LambdaDeclaration.Apply (n + 1) L (params :: b :: bs) h1 = .ok l h2 := by
      simp only [LambdaDeclaration.Apply, bind_eq, hIs, hcheck, Bool.false_eq_true, if_false,
        hvecParams, ThrowIfMismatchOperandsType_symbols _ ps hps1,
        Function.context__of_deref hL1, hmk]
    have hevLam : EvaluateExpression (n + 2) lamExpr context h = .ok l h2 := by
      rw [EvaluateExpression_cell hlam]
      simp only [bind_eq, hevHead, hLn, if_false, hvecTail, Apply, hL1, hdecl]
    have hscopes2 : ∀ s ∈ scopes, ∃ m, deref s h2 = .ok (.Scope m) h2 := fun s hs => by
      obtain ⟨m, hm⟩ := hscopes s hs
      obtain ⟨m1, hm1⟩ := Frame_scope hfr1 hm
      exact ⟨m1, Extends_deref hx hm1⟩
    obtain ⟨q, h3, hdef, hg, hdq⟩ := Context_Define_Get f (Extends_deref hx hctx1) hlast hscopes2 hden
      hVne hdepth
    refine ⟨h3, q, ?_, hg, hdq⟩
    simp only [DefineFunction.Apply, bind_eq, Is_of_deref hfB, Object.hasType, if_true, GetName,
      hfB, pure_eq, List.length_cons, List.length_nil, ne_eq, not_true_eq_false, if_false,
      Function.context__of_deref hD, hevLam, hdef]

/-- C9 at a concrete input: `(define (f x) x)` and `(define f (lambda (x) x))`
in the same heap and context. -/
theorem C9_define_sugar_witness :
    (∃ hA pA, DefineFunction.Apply (EvaluateExpression 6) 6 (.addr 0) [.addr 7, .addr 8]
        defineLambdaExample = .ok .nullptr hA ∧
      Context.Get (.addr 2) "f" hA = .ok pA hA ∧
      Denotes hA pA (.lambda [.addr 5] [.addr 8] [.addr 1])) ∧
    (∃ hB pB, DefineFunction.Apply (EvaluateExpression 6) 6 (.addr 0) [.addr 4, .addr 12]
        defineLambdaExample = .ok .nullptr hB ∧
      Context.Get (.addr 2) "f" hB = .ok pB hB ∧
      Denotes hB pB (.lambda [.addr 5] [.addr 8] [.addr 1])) :=
  C9_define_sugar_equivalent defineLambdaExample (.addr 0) (.addr 2) (.addr 1) (.addr 7)
    (.addr 4) (.addr 4) (.addr 12) (.addr 9) (.addr 11) (.addr 6) (.addr 3) (.addr 8)
    .nullptr .nullptr .nullptr .nullptr [.addr 5] [] [.addr 1] "f"
    (by decide!) (by decide!) rfl
    (fun s hs => by
      rw [List.mem_singleton] at hs
      subst hs
      exact ⟨[("lambda", .addr 3)], by decide!⟩)
    (fun p hp => by
      rw [List.mem_singleton] at hp
      subst hp
      exact ⟨"x", .nullptr, by decide!⟩)
    (@IsList.cons _ (.addr 7) (.addr 4) (.addr 6) _ (by decide!)
      (@IsList.cons _ (.addr 6) (.addr 5) .nullptr _ (by decide!) .nil))
    (by decide!) (by decide!) (by decide!) (by decide!)
    (@IsList.cons _ (.addr 11) (.addr 6) (.addr 10) _ (by decide!)
      (@IsList.cons _ (.addr 10) (.addr 8) .nullptr _ (by decide!) .nil))
    (@IsList.cons _ (.addr 6) (.addr 5) .nullptr _ (by decide!) .nil)
    (by decide!) (by decide!) (by decide!) 6 (by decide)

end Scheme

namespace Scheme

/-! ## The collector does not read number payloads -/

theorem load_cases (p : ObjectPtr) (h : Heap) :
    load p h = .undefined ∨ ∃ o, load p h = .ok o h := by
  cases hl : load p h with
  | ok o h1 => exact .inr ⟨o, by rw [load_heap hl]⟩
  | undefined => exact .inl rfl
  | exception e h1 =>
    rw [load_eq] at hl
    cases p with
    | addr a => simp only at hl; split at hl <;> cases hl
    | _ => cases hl
  | timeout =>
    rw [load_eq] at hl
    cases p with
    | addr a => simp only at hl; split at hl <;> cases hl
    | _ => cases hl

theorem get?_mapNumber (φ : Int → Int) (h : Heap) (a : Nat) :
    (h.mapNumber φ).memory.get? a = (h.memory.get? a).map (Option.map (HeapObject.mapNumber φ)) := by
  simp only [Heap.mapNumber, List.get?_eq_getElem?, List.getElem?_map]

theorem load_mapNumber_ok {φ : Int → Int} {p : ObjectPtr} {h : Heap} {o : HeapObject}
    (hl : load p h = .ok o h) :
    load p (h.mapNumber φ) = .ok (o.mapNumber φ) (h.mapNumber φ) := by
  cases p with
  | addr a =>
    rw [load_addr_eq] at hl
    rw [load_addr_eq, get?_mapNumber]
    cases hg : h.memory.get? a with
    | none => rw [hg] at hl; cases hl
    | some y =>
      cases y with
      | none => rw [hg] at hl; cases hl
      | some o1 =>
        rw [hg] at hl
        injection hl with ho _
        subst ho
        rfl
  | _ => cases hl

theorem load_mapNumber_undefined {φ : Int → Int} {p : ObjectPtr} {h : Heap}
    (hl : load p h = .undefined) : load p (h.mapNumber φ) = .undefined := by
  cases p with
  | addr a =>
    rw [load_addr_eq] at hl
    rw [load_addr_eq, get?_mapNumber]
    cases hg : h.memory.get? a with
    | none => rfl
    | some y =>
      cases y with
      | none => rfl
      | some o1 => rw [hg] at hl; cases hl
  | _ => rfl

theorem storeAt_mapNumber {φ : Int → Int} {p : ObjectPtr} {h : Heap} {o : HeapObject}
    (x : HeapObject) (hl : load p h = .ok o h) :
    ∃ h1, storeAt p x h = .ok () h1 ∧
      storeAt p (x.mapNumber φ) (h.mapNumber φ) = .ok () (h1.mapNumber φ) := by
  cases p with
  | addr a =>
    rw [load_addr_eq] at hl
    cases hg : h.memory.get? a with
    | none => rw [hg] at hl; cases hl
    | some y =>
      cases y with
      | none => rw [hg] at hl; cases hl
      | some o1 =>
        refine ⟨{ h with memory := h.memory.set a (some x) }, ?_, ?_⟩
        · simp only [storeAt, hg]
        · have hg1 : (h.mapNumber φ).memory.get? a = some (some (o1.mapNumber φ)) := by
            rw [get?_mapNumber, hg]; rfl
          simp only [storeAt, hg1]
          simp only [Heap.mapNumber, List.map_set, Option.map]
  | _ => cases hl

theorem Natural_pure {α : Type} (φ : Int → Int) (a : α) : Natural φ (pure a : M α) :=
  fun _ => rfl

theorem Natural_bind {α β : Type} {φ : Int → Int} {m : M α} {f : α → M β}
    (hm : Natural φ m) (hf : ∀ a, Natural φ (f a)) : Natural φ (m >>= f) := by
  intro h
  rw [bind_eq, bind_eq, hm h]
  cases m h with
  | ok a h1 => exact hf a h1
  | exception e h1 => rfl
  | undefined => rfl
  | timeout => rfl

theorem Natural_load_bind {β : Type} {φ : Int → Int} {p : ObjectPtr} {f : HeapObject → M β}
    (hf : ∀ o h, load p h = .ok o h →
      f (o.mapNumber φ) (h.mapNumber φ) = (f o h).mapNumber φ) :
    Natural φ (load p >>= f) := by
  intro h
  rcases load_cases p h with hu | ⟨o, ho⟩
  · rw [bind_eq, bind_eq, load_mapNumber_undefined hu, hu]; rfl
  · rw [bind_eq, bind_eq, load_mapNumber_ok ho, ho]
    exact hf o h ho

theorem Natural_MarkDependencies {φ : Int → Int} {mark : ObjectPtr → M Unit}
    (hmark : ∀ p, Natural φ (mark p)) :
    ∀ deps, Natural φ (MarkDependencies mark deps) := by
  intro deps
  induction deps with
  | nil => exact Natural_pure φ ()
  | cons dependence rest ih =>
    unfold MarkDependencies
    by_cases hd : dependence = .nullptr
    · simp only [hd, ne_eq, not_true_eq_false, if_false]
      exact Natural_bind (Natural_pure φ _) (fun _ => ih)
    · simp only [ne_eq, hd, not_false_eq_true, if_true]
      refine Natural_load_bind ?_
      intro o h _
      have ho : (o.mapNumber φ).is_connected_to_root = o.is_connected_to_root := rfl
      rw [ho]
      cases o.is_connected_to_root
      · exact Natural_bind (hmark dependence) (fun _ => ih) h
      · exact Natural_bind (Natural_pure φ _) (fun _ => ih) h

theorem Natural_Mark (φ : Int → Int) : ∀ fuel p, Natural φ (Mark fuel p) := by
  intro fuel
  induction fuel with
  | zero => intro p h; rfl
  | succ fuel ih =>
    intro p
    unfold Mark
    refine Natural_load_bind ?_
    intro o h hl
    obtain ⟨h1, hs, hs1⟩ := storeAt_mapNumber (φ := φ) { o with is_connected_to_root := true } hl
    rw [bind_eq, bind_eq, hs]
    have hs2 : storeAt p { o.mapNumber φ with is_connected_to_root := true } (h.mapNumber φ)
        = .ok () (h1.mapNumber φ) := hs1
    rw [hs2]
    exact Natural_MarkDependencies (ih) o.dependencies_ h1

theorem HeapObject.afterDelete_mapNumber (φ : Int → Int) (a : Nat) (o : HeapObject) :
    HeapObject.afterDelete a (o.mapNumber φ) = (HeapObject.afterDelete a o).mapNumber φ := by
  cases o with
  | mk obj c d => cases obj <;> rfl

theorem Natural_delete (φ : Int → Int) (a : Nat) : Natural φ (delete a) := by
  intro h
  simp only [delete, get?_mapNumber]
  cases hg : h.memory.get? a with
  | none => rfl
  | some y =>
    cases y with
    | none => rfl
    | some o =>
      simp only [Option.map, Outcome.mapNumber, Heap.mapNumber, List.map_set, List.map_map]
      congr 3
      apply List.map_congr_left
      intro x _
      cases x with
      | none => rfl
      | some o1 => exact congrArg some (HeapObject.afterDelete_mapNumber φ a o1)

theorem Natural_SweepLoop (φ : Int → Int) :
    ∀ fuel kept rest, Natural φ (SweepLoop fuel kept rest) := by
  intro fuel
  induction fuel with
  | zero => intro kept rest h; rfl
  | succ fuel ih =>
    intro kept rest
    cases rest with
    | nil => exact Natural_pure φ kept
    | cons p rest =>
      unfold SweepLoop
      refine Natural_load_bind ?_
      intro o h hl
      have ho : (o.mapNumber φ).is_connected_to_root = o.is_connected_to_root := rfl
      rw [ho]
      cases hc : o.is_connected_to_root
      · simp only [Bool.not_false, if_true]
        refine Natural_bind (Natural_delete φ p) (fun _ => ?_) h
        cases rest.getLast? with
        | none => exact ih kept []
        | some back => exact ih kept (back :: rest.dropLast)
      · simp only [Bool.not_true, Bool.false_eq_true, if_false]
        obtain ⟨h1, hs, hs1⟩ :=
          storeAt_mapNumber (φ := φ) { o with is_connected_to_root := false } hl
        rw [bind_eq, bind_eq, hs]
        have hs2 : storeAt (.addr p) { o.mapNumber φ with is_connected_to_root := false }
            (h.mapNumber φ) = .ok () (h1.mapNumber φ) := hs1
        rw [hs2]
        exact ih (kept ++ [p]) rest h1

theorem Natural_getHeap_bind {β : Type} {φ : Int → Int} {f : Heap → M β}
    (hf : ∀ h, f (h.mapNumber φ) (h.mapNumber φ) = (f h h).mapNumber φ) :
    Natural φ (getHeap >>= f) :=
  fun h => hf h

theorem length_mapNumber (φ : Int → Int) (h : Heap) :
    (h.mapNumber φ).memory.length = h.memory.length := by
  simp only [Heap.mapNumber, List.length_map]

/-- `Heap::MarkAndSweep` on a heap with renamed number payloads leaves the
renamed heap of `Heap::MarkAndSweep` on the heap itself. -/
theorem Natural_MarkAndSweep (φ : Int → Int) : Natural φ MarkAndSweep := by
  unfold MarkAndSweep
  refine Natural_getHeap_bind (fun h => ?_)
  rw [length_mapNumber]
  refine Natural_bind (Natural_Mark φ _ _) (fun _ => ?_) h
  refine Natural_getHeap_bind (fun h1 => ?_)
  refine Natural_bind (Natural_SweepLoop φ _ _ _) (fun heap_ => ?_) h1
  refine Natural_getHeap_bind (fun h2 => ?_)
  rfl

end Scheme

namespace Scheme

/-! ## Evaluation along a given sequence of heaps -/

theorem Scope_Change_steps {fuel : Nat} {self value cloned_value : ObjectPtr}
    {symbol_name : String} {o o1 : HeapObject}
    {scope_map_ scope_map_1 : List (String × ObjectPtr)} {h h1 h2 h3 : Heap}
    (hl : load self h = .ok o h) (ho : o.obj = .Scope scope_map_)
    (hs : storeAt self { o with
        obj := .Scope (if mapContains scope_map_ symbol_name then scope_map_
                       else mapAssign scope_map_ symbol_name .nullptr)
        dependencies_ := RemoveDependency o.dependencies_ (mapIndex scope_map_ symbol_name) } h
      = .ok () h1)
    (hc : Clone fuel value h1 = .ok cloned_value h2)
    (hl1 : load self h2 = .ok o1 h2) (ho1 : o1.obj = .Scope scope_map_1)
    (hs1 : storeAt self { o1 with
        obj := .Scope (mapAssign scope_map_1 symbol_name cloned_value)
        dependencies_ := AddDependency o1.dependencies_ cloned_value } h2 = .ok () h3) :
    Scope.Change fuel self symbol_name value h = .ok () h3 := by
  simp only [Scope.Change, bind_eq, hl, ho, hs, hc, hl1, ho1, hs1]

theorem Context_Change_second {fuel : Nat} {self value s0 s1 : ObjectPtr}
    {context_ rest : List ObjectPtr} {symbol_name : String} {h : Heap}
    (hctx : Context.scopes self h = .ok context_ h) (hrev : context_.reverse = s0 :: s1 :: rest)
    (h0 : Scope.Contains s0 symbol_name h = .ok false h)
    (h1 : Scope.Contains s1 symbol_name h = .ok true h) :
    Context.Change fuel self symbol_name value h = Scope.Change fuel s1 symbol_name value h := by
  simp only [Context.Change, bind_eq, hctx, hrev, Context.ChangeLoop, h0, h1, if_true,
    Bool.false_eq_true, if_false]

theorem SetFunction_Apply_steps {ev : ObjectPtr → ObjectPtr → M ObjectPtr} {fuel : Nat}
    {self v0 v1 context_ value : ObjectPtr} {var_name : String} {h h1 h2 : Heap}
    (ht : ThrowIfMismatchOperandType .Symbol 0 [v0, v1]
      "First argument for define must be a symbol" h = .ok () h)
    (hn : GetName v0 h = .ok var_name h)
    (hctx : Function.context_ self h = .ok context_ h)
    (hcont : Context.Contains context_ var_name h = .ok true h)
    (hev : ev v1 context_ h = .ok value h1)
    (hch : Context.Change fuel context_ var_name value h1 = .ok () h2) :
    SetFunction.Apply ev fuel self [v0, v1] h = .ok .nullptr h2 := by
  simp only [SetFunction.Apply, bind_eq, ht, hn, hctx, hcont, Bool.not_true, Bool.false_eq_true,
    if_false, hev, hch, pure_eq]

theorem LambdaFunction_Apply_thunk {ev : ObjectPtr → ObjectPtr → M ObjectPtr} {fuel : Nat}
    {self b0 b1 captured_context_ current_context_ r0 r : ObjectPtr} {h h1 h2 h3 h4 : Heap}
    (hd : deref self h = .ok (.LambdaFunction [] [b0, b1] captured_context_ current_context_) h)
    (hs : Context.AddEmptyScope captured_context_ h = .ok () h1)
    (hc1 : LambdaFunction.captured_context_ self h1 = .ok captured_context_ h1)
    (hb0 : ev b0 captured_context_ h1 = .ok r0 h2)
    (hc2 : LambdaFunction.captured_context_ self h2 = .ok captured_context_ h2)
    (hb1 : ev b1 captured_context_ h2 = .ok r h3)
    (hp : Context.PopScope captured_context_ h3 = .ok () h4) :
    LambdaFunction.Apply ev fuel self [] h = .ok r h4 := by
  simp only [LambdaFunction.Apply, bind_eq, hd, hs, List.length_nil, ne_eq, not_true_eq_false,
    if_false, LambdaFunction.BindLoop, pure_eq, LambdaFunction.BodyLoop, hc1, hb0, hc2, hb1, hp]

theorem Apply_SetFunction {ev : ObjectPtr → ObjectPtr → M ObjectPtr} {fuel : Nat}
    {self c : ObjectPtr} {args : ObjectPtrVector} {h : Heap}
    (hd : deref self h = .ok (.Function .SetFunction c) h) :
    Apply ev fuel self args h = SetFunction.Apply ev fuel self args h := by
  simp only [Apply, bind_eq, hd]

theorem Apply_LambdaFunction {ev : ObjectPtr → ObjectPtr → M ObjectPtr} {fuel : Nat}
    {self c d : ObjectPtr} {a b args : ObjectPtrVector} {h : Heap}
    (hd : deref self h = .ok (.LambdaFunction a b c d) h) :
    Apply ev fuel self args h = LambdaFunction.Apply ev fuel self args h := by
  simp only [Apply, bind_eq, hd]

theorem EvaluateExpression_cell_steps {fuel : Nat} {ast context head tail f : ObjectPtr}
    {args : ObjectPtrVector} {h h1 : Heap}
    (hd : deref ast h = .ok (.Cell head tail) h)
    (hh : EvaluateExpression fuel head context h = .ok f h1) (hf : f ≠ .nullptr)
    (ha : ListToVector fuel tail h1 = .ok args h1) :
    EvaluateExpression (fuel + 1) ast context h
      = Apply (EvaluateExpression fuel) fuel f args h1 := by
  rw [EvaluateExpression_cell hd]
  simp only [bind_eq, hh, hf, if_false, ha]

theorem Interpreter_Run_steps {fuel : Nat} {self : Interpreter} {expression : String}
    {tokenizer tokenizer1 : Tokenizer} {ast evaluated_ast : ObjectPtr}
    {serialized_result : String} {h h0 h1 h2 h3 h4 : Heap}
    (ht : Tokenizer.new expression.data h = .ok tokenizer h0)
    (hr : Read fuel tokenizer h0 = .ok (ast, tokenizer1) h1)
    (hend : tokenizer1.is_end_ = true)
    (hev : EvaluateExpression fuel ast self.context_ h1 = .ok evaluated_ast h2)
    (hser : Interpreter.SerializeAST fuel evaluated_ast h2 = .ok serialized_result h3)
    (hgc : MarkAndSweep h3 = .ok () h4) :
    Interpreter.Run fuel self expression h = .ok serialized_result h4 := by
  simp only [Interpreter.Run, bind_eq, ht, hr, hend, Bool.not_true, Bool.false_eq_true, if_false,
    hev, hser, hgc, pure_eq]

end Scheme

namespace Scheme

/-! ## One run of `(g)` from each of the two heap shapes -/

theorem runA_token (v : Int) :
    Tokenizer.new "(g)".data (shapeA v) = .ok ⟨false, ['g', ')'], .BracketToken .OPEN⟩ (shapeA v) := by
  rfl

theorem runA_read (v : Int) :
    Read 100 ⟨false, ['g', ')'], .BracketToken .OPEN⟩ (shapeA v)
      = .ok (.addr 37, ⟨true, [], .BracketToken .CLOSE⟩) (shapeA1 v) := by rfl

theorem runA_sum (v : Int) :
    EvaluateExpression 98 (.addr 53) (.addr 73) (shapeA1a v) = .ok (.addr 63) (shapeA1c v) := by rfl

set_option maxHeartbeats 2000000 in
theorem runA_change (v : Int) :
    Context.Change 98 (.addr 73) "c" (.addr 63) (shapeA1c v) = .ok () (shapeA1f v) := by
  rw [@Context_Change_second 98 (.addr 73) (.addr 63) (.addr 38) (.addr 66) _ _ "c"
    (shapeA1c v) (by rfl) (by rfl) (by rfl) (by rfl)]
  exact @Scope_Change_steps 98 (.addr 66) (.addr 63) (.addr 65) "c" _ _ _ _ (shapeA1c v) _ _ _
    (by rfl) (by rfl) (by rfl) (by rfl) (by rfl) (by rfl) (by rfl)

set_option maxHeartbeats 2000000 in
theorem runA_set (v : Int) :
    EvaluateExpression 99 (.addr 56) (.addr 73) (shapeA1a v) = .ok .nullptr (shapeA1f v) := by
  rw [@EvaluateExpression_cell_steps 98 (.addr 56) (.addr 73) (.addr 46) (.addr 55) (.addr 29)
    [.addr 47, .addr 53] (shapeA1a v) (shapeA1a v) (by rfl) (by rfl) (by decide) (by rfl)]
  rw [@Apply_SetFunction _ 98 (.addr 29) (.addr 73) _ (shapeA1a v) (by rfl)]
  exact @SetFunction_Apply_steps _ 98 (.addr 29) (.addr 47) (.addr 53) (.addr 73) (.addr 63) "c"
    (shapeA1a v) (shapeA1c v) (shapeA1f v) (by rfl) (by rfl) (by rfl) (by rfl) (runA_sum v) (runA_change v)

set_option maxHeartbeats 2000000 in
theorem runA_eval (v : Int) :
    EvaluateExpression 100 (.addr 37) (.addr 35) (shapeA1 v) = .ok (.addr 65) (shapeA2 v) := by
  rw [@EvaluateExpression_cell_steps 99 (.addr 37) (.addr 35) (.addr 36) .nullptr (.addr 74)
    [] (shapeA1 v) (shapeA1 v) (by rfl) (by rfl) (by decide) (by rfl)]
  rw [@Apply_LambdaFunction _ 99 (.addr 74) (.addr 73) (.addr 35) [] [.addr 56, .addr 57] _
    (shapeA1 v) (by rfl)]
  exact @LambdaFunction_Apply_thunk _ 99 (.addr 74) (.addr 56) (.addr 57) (.addr 73) (.addr 35)
    .nullptr (.addr 65) (shapeA1 v) (shapeA1a v) (shapeA1f v) (shapeA1f v) (shapeA2 v)
    (by rfl) (by rfl) (by rfl) (runA_set v) (by rfl) (by rfl) (by rfl)

theorem runA_serialize (v : Int) :
    Interpreter.SerializeAST 100 (.addr 65) (shapeA2 v)
      = .ok (to_string (wrap64 (v + 1))) (shapeA2 v) := by rfl

theorem runA_sweep_closed : MarkAndSweep (shapeA2 1000) = .ok () (shapeB 1001) := by decide!

set_option maxRecDepth 100000 in
theorem runA_sweep (v : Int) : MarkAndSweep (shapeA2 v) = .ok () (shapeB (wrap64 (v + 1))) := by
  have h1 : shapeA2 v = (shapeA2 1000).mapNumber (payload v) := by rfl
  have h2 : (shapeB 1001).mapNumber (payload v) = shapeB (wrap64 (v + 1)) := by rfl
  rw [h1, Natural_MarkAndSweep (payload v) (shapeA2 1000), runA_sweep_closed]
  exact congrArg (Outcome.ok ()) h2

theorem runA (v : Int) :
    Interpreter.Run 100 ⟨.addr 35⟩ "(g)" (shapeA v)
      = .ok (to_string (wrap64 (v + 1))) (shapeB (wrap64 (v + 1))) :=
  Interpreter_Run_steps (runA_token v) (runA_read v) (by rfl) (runA_eval v) (runA_serialize v)
    (runA_sweep v)

theorem runB_token (v : Int) :
    Tokenizer.new "(g)".data (shapeB v) = .ok ⟨false, ['g', ')'], .BracketToken .OPEN⟩ (shapeB v) := by
  rfl

theorem runB_read (v : Int) :
    Read 100 ⟨false, ['g', ')'], .BracketToken .OPEN⟩ (shapeB v)
      = .ok (.addr 37, ⟨true, [], .BracketToken .CLOSE⟩) (shapeB1 v) := by rfl

theorem runB_sum (v : Int) :
    EvaluateExpression 98 (.addr 53) (.addr 73) (shapeB1a v) = .ok (.addr 63) (shapeB1c v) := by rfl

set_option maxHeartbeats 2000000 in
theorem runB_change (v : Int) :
    Context.Change 98 (.addr 73) "c" (.addr 63) (shapeB1c v) = .ok () (shapeB1f v) := by
  rw [@Context_Change_second 98 (.addr 73) (.addr 63) (.addr 38) (.addr 66) _ _ "c"
    (shapeB1c v) (by rfl) (by rfl) (by rfl) (by rfl)]
  exact @Scope_Change_steps 98 (.addr 66) (.addr 63) (.addr 64) "c" _ _ _ _ (shapeB1c v) _ _ _
    (by rfl) (by rfl) (by rfl) (by rfl) (by rfl) (by rfl) (by rfl)

set_option maxHeartbeats 2000000 in
theorem runB_set (v : Int) :
    EvaluateExpression 99 (.addr 56) (.addr 73) (shapeB1a v) = .ok .nullptr (shapeB1f v) := by
  rw [@EvaluateExpression_cell_steps 98 (.addr 56) (.addr 73) (.addr 46) (.addr 55) (.addr 29)
    [.addr 47, .addr 53] (shapeB1a v) (shapeB1a v) (by rfl) (by rfl) (by decide) (by rfl)]
  rw [@Apply_SetFunction _ 98 (.addr 29) (.addr 73) _ (shapeB1a v) (by rfl)]
  exact @SetFunction_Apply_steps _ 98 (.addr 29) (.addr 47) (.addr 53) (.addr 73) (.addr 63) "c"
    (shapeB1a v) (shapeB1c v) (shapeB1f v) (by rfl) (by rfl) (by rfl) (by rfl) (runB_sum v) (runB_change v)

set_option maxHeartbeats 2000000 in
theorem runB_eval (v : Int) :
    EvaluateExpression 100 (.addr 37) (.addr 35) (shapeB1 v) = .ok (.addr 64) (shapeB2 v) := by
  rw [@EvaluateExpression_cell_steps 99 (.addr 37) (.addr 35) (.addr 36) .nullptr (.addr 74)
    [] (shapeB1 v) (shapeB1 v) (by rfl) (by rfl) (by decide) (by rfl)]
  rw [@Apply_LambdaFunction _ 99 (.addr 74) (.addr 73) (.addr 35) [] [.addr 56, .addr 57] _
    (shapeB1 v) (by rfl)]
  exact @LambdaFunction_Apply_thunk _ 99 (.addr 74) (.addr 56) (.addr 57) (.addr 73) (.addr 35)
    .nullptr (.addr 64) (shapeB1 v) (shapeB1a v) (shapeB1f v) (shapeB1f v) (shapeB2 v)
    (by rfl) (by rfl) (by rfl) (runB_set v) (by rfl) (by rfl) (by rfl)

theorem runB_serialize (v : Int) :
    Interpreter.SerializeAST 100 (.addr 64) (shapeB2 v)
      = .ok (to_string (wrap64 (v + 1))) (shapeB2 v) := by rfl

theorem runB_sweep_closed : MarkAndSweep (shapeB2 1000) = .ok () (shapeA 1001) := by decide!

set_option maxRecDepth 100000 in
theorem runB_sweep (v : Int) : MarkAndSweep (shapeB2 v) = .ok () (shapeA (wrap64 (v + 1))) := by
  have h1 : shapeB2 v = (shapeB2 1000).mapNumber (payload v) := by rfl
  have h2 : (shapeA 1001).mapNumber (payload v) = shapeA (wrap64 (v + 1)) := by rfl
  rw [h1, Natural_MarkAndSweep (payload v) (shapeB2 1000), runB_sweep_closed]
  exact congrArg (Outcome.ok ()) h2

theorem runB (v : Int) :
    Interpreter.Run 100 ⟨.addr 35⟩ "(g)" (shapeB v)
      = .ok (to_string (wrap64 (v + 1))) (shapeA (wrap64 (v + 1))) :=
  Interpreter_Run_steps (runB_token v) (runB_read v) (by rfl) (runB_eval v) (runB_serialize v)
    (runB_sweep v)

/-! ## The driver loop on the counter closure -/

theorem wrap64_add (a b : Int) : wrap64 (wrap64 a + b) = wrap64 (a + b) := by
  unfold wrap64
  omega

theorem wrap64_of_lt {x : Int} (h0 : 0 ≤ x) (h1 : x < 2 ^ 63) : wrap64 x = x := by
  unfold wrap64
  omega

theorem to_string_natCast (n : Nat) : to_string (n : Int) = toString n := by
  have h : ¬ ((n : Int) < 0) := by omega
  simp only [to_string, h, if_false, Int.toNat_ofNat]
  rfl

theorem RunAll_append {fuel : Nat} {self : Interpreter} {h1 : Heap} (l2 : List String) :
    ∀ (l1 : List String) (h : Heap), HeapAfterAll fuel self l1 h = some h1 →
      RunAll fuel self (l1 ++ l2) h = RunAll fuel self l1 h ++ RunAll fuel self l2 h1 := by
  intro l1
  induction l1 with
  | nil =>
    intro h hh
    simp only [HeapAfterAll, Option.some.injEq] at hh
    subst hh
    rfl
  | cons e rest ih =>
    intro h hh
    simp only [HeapAfterAll] at hh
    simp only [List.cons_append, RunAll]
    generalize Interpreter.Run fuel self e h = r at hh ⊢
    cases hr : r.heap? with
    | none => rw [hr] at hh; cases hh
    | some h2 =>
      rw [hr] at hh
      show r.observed :: RunAll fuel self (rest ++ l2) h2 = _
      rw [ih h2 hh]
      rfl

theorem Session_append {fuel : Nat} {self : Interpreter} {h1 : Heap} {l1 : List String}
    (l2 : List String) (hs : SessionState fuel l1 = some (self, h1)) :
    Session fuel (l1 ++ l2) = Session fuel l1 ++ RunAll fuel self l2 h1 := by
  unfold SessionState at hs
  unfold Session
  generalize Interpreter.new Heap.empty = r at hs ⊢
  cases r with
  | ok self1 h0 =>
    simp only [Option.map_eq_some'] at hs
    obtain ⟨h2, hh, he⟩ := hs
    injection he with e1 e2
    subst e1 e2
    exact RunAll_append l2 l1 h0 hh
  | exception e h0 => cases hs
  | undefined => cases hs
  | timeout => cases hs

theorem RunAll_counter : ∀ (n : Nat) (v : Int),
    RunAll 100 ⟨.addr 35⟩ (List.replicate n "(g)") (shapeA v)
        = (List.range n).map (fun (i : Nat) => Observed.returned (to_string (wrap64 (v + (i : Int) + 1)))) ∧
    RunAll 100 ⟨.addr 35⟩ (List.replicate n "(g)") (shapeB v)
        = (List.range n).map (fun (i : Nat) => Observed.returned (to_string (wrap64 (v + (i : Int) + 1)))) := by
  intro n
  induction n with
  | zero => intro v; exact ⟨rfl, rfl⟩
  | succ n ih =>
    intro v
    have hrange : (List.range (n + 1)).map
          (fun (i : Nat) => Observed.returned (to_string (wrap64 (v + (i : Int) + 1))))
        = Observed.returned (to_string (wrap64 (v + 1))) :: (List.range n).map
          (fun (i : Nat) => Observed.returned (to_string (wrap64 (wrap64 (v + 1) + (i : Int) + 1)))) := by
      rw [List.range_succ_eq_map, List.map_cons, List.map_map]
      congr 1
      · simp only [Nat.cast_zero, add_zero]
      · apply List.map_congr_left
        intro i _
        simp only [Function.comp, Nat.succ_eq_add_one, Nat.cast_add, Nat.cast_one]
        rw [add_assoc (wrap64 (v + 1)), wrap64_add]
        congr 3
        ring
    rw [hrange]
    constructor
    · simp only [List.replicate_succ, RunAll, runA v, Outcome.heap?, Outcome.observed,
        (ih (wrap64 (v + 1))).2]
    · simp only [List.replicate_succ, RunAll, runB v, Outcome.heap?, Outcome.observed,
        (ih (wrap64 (v + 1))).1]

theorem counterExample_state :
    SessionState 100 (counterExample ++ ["(g)"]) = some (⟨.addr 35⟩, shapeA 1) := by decide!

theorem counterExample_first :
    Session 100 (counterExample ++ ["(g)"])
      = [.returned "()", .returned "()", .returned "1"] := by decide!

theorem counterExample_defined :
    Session 100 counterExample = [.returned "()", .returned "()"] := by decide!

theorem Session_counter (n : Nat) :
    Session 100 (counterExample ++ List.replicate n "(g)")
      = [.returned "()", .returned "()"]
        ++ (List.range n).map (fun (i : Nat) => Observed.returned (to_string (wrap64 ((i : Int) + 1)))) := by
  cases n with
  | zero =>
    simp only [List.replicate_zero, List.append_nil, List.range_zero, List.map_nil]
    exact counterExample_defined
  | succ n =>
    have hl : counterExample ++ List.replicate (n + 1) "(g)"
        = (counterExample ++ ["(g)"]) ++ List.replicate n "(g)" := by
      rw [List.replicate_succ, List.append_assoc]; rfl
    rw [hl, Session_append _ counterExample_state, counterExample_first,
      (RunAll_counter n 1).1, List.range_succ_eq_map, List.map_cons, List.map_map]
    have h1 : to_string (wrap64 (((0 : Nat) : Int) + 1)) = "1" := by decide
    rw [h1]
    simp only [List.cons_append, List.nil_append, List.cons.injEq, true_and]
    apply List.map_congr_left
    intro i _
    simp only [Function.comp, Nat.succ_eq_add_one, Nat.cast_add, Nat.cast_one]
    congr 3
    ring

/-- **C4**, amended: after the two definitions of the counter closure, `n` runs
of `(g)` with `n < 2 ^ 63` return `1`, `2`, ..., `n` in this order: the `k`-th
run returns `k`. -/
theorem C4_counter_closure (n : Nat) (hn : n < 2 ^ 63) :
    Session 100 (counterExample ++ List.replicate n "(g)")
      = [.returned "()", .returned "()"]
        ++ (List.range n).map (fun (i : Nat) => Observed.returned (toString (i + 1))) := by
  have hm : (List.range n).map
        (fun (i : Nat) => Observed.returned (to_string (wrap64 ((i : Int) + 1))))
      = (List.range n).map (fun (i : Nat) => Observed.returned (toString (i + 1))) := by
    apply List.map_congr_left
    intro i hi
    have hi1 : i < n := List.mem_range.mp hi
    have h0 : (0 : Int) ≤ ((i + 1 : Nat) : Int) := Int.ofNat_nonneg _
    have h1 : ((i + 1 : Nat) : Int) < 2 ^ 63 := by
      have h2 : i + 1 < 2 ^ 63 := by omega
      exact_mod_cast h2
    have h3 : ((i : Int) + 1) = ((i + 1 : Nat) : Int) := by push_cast; rfl
    rw [h3, wrap64_of_lt h0 h1, to_string_natCast]
  rw [Session_counter, hm]

theorem C4_counter_closure_witness :
    Session 100 (counterExample ++ ["(g)", "(g)", "(g)"])
      = [.returned "()", .returned "()", .returned "1", .returned "2", .returned "3"] :=
  C4_counter_closure 3 (by decide)

/-- **C4**, counterexample: the run of `(g)` number `2 ^ 63` returns
`-9223372036854775808`, the counter being a 64-bit integer. -/
theorem C4_counter_wraps :
    (Session 100 (counterExample ++ List.replicate (2 ^ 63) "(g)")).getLast?
      = some (.returned "-9223372036854775808") := by
  have h : (2 : Nat) ^ 63 = 9223372036854775807 + 1 := by norm_num
  have hs : to_string (wrap64 (((9223372036854775807 : Nat) : Int) + 1))
      = "-9223372036854775808" := by decide
  rw [Session_counter, h, List.range_succ, List.map_append, ← List.append_assoc]
  simp only [List.map_cons, List.map_nil, List.getLast?_concat, hs]

end Scheme

namespace Scheme

/-! ## C11: unbound names -/

theorem Context_ContainsLoop_false {h : Heap} {x : String} :
    ∀ (scopes : List ObjectPtr),
      (∀ s ∈ scopes, ∃ m, deref s h = .ok (.Scope m) h ∧ mapContains m x = false) →
      Context.ContainsLoop scopes x h = .ok false h := by
  intro scopes
  induction scopes with
  | nil => intro _; rfl
  | cons s rest ih =>
    intro hall
    obtain ⟨m, hm, hc⟩ := hall s (List.mem_cons_self _ _)
    simp only [Context.ContainsLoop, bind_eq, Scope_Contains_of_deref hm, hc,
      Bool.false_eq_true, if_false]
    exact ih (fun s1 hs1 => hall s1 (List.mem_cons_of_mem _ hs1))

theorem Context_Contains_false {h : Heap} {context : ObjectPtr} {scopes : List ObjectPtr}
    {x : String} (hctx : deref context h = .ok (.Context scopes) h)
    (hall : ∀ s ∈ scopes, ∃ m, deref s h = .ok (.Scope m) h ∧ mapContains m x = false) :
    Context.Contains context x h = .ok false h := by
  simp only [Context.Contains, Context.scopes, bind_eq, hctx, pure_eq,
    Context_ContainsLoop_false scopes hall]

/-- C11.  In a context none of whose scopes contains `name`, the evaluation
of the symbol `name` throws `NameError` and leaves the heap as it is; and
`set!` applied to the symbol and any expression throws `NameError` with the
heap as it is, whatever the evaluator `ev` does on the expression: the
expression is not evaluated and no binding is changed. -/
theorem C11_unbound_name_is_name_error (ev : ObjectPtr → ObjectPtr → M ObjectPtr) (fuel : Nat)
    (h : Heap) (context self sym expr c : ObjectPtr) (name : String) (scopes : List ObjectPtr)
    (hctx : deref context h = .ok (.Context scopes) h)
    (hscopes : ∀ s ∈ scopes, ∃ m, deref s h = .ok (.Scope m) h ∧ mapContains m name = false)
    (hsym : deref sym h = .ok (.Symbol name c) h)
    (hself : deref self h = .ok (.Function .SetFunction context) h) :
    EvaluateExpression (fuel + 1) sym context h
      = .exception (.NameError "There are no such name.") h ∧
    SetFunction.Apply ev fuel self [sym, expr] h
      = .exception (.NameError "Variable for set must be defined before.") h := by
  have hcont := Context_Contains_false hctx hscopes
  constructor
  · rw [EvaluateExpression_symbol hsym]
    simp only [Symbol.Evaluate, bind_eq, hcont, Bool.false_eq_true, if_false, throw_eq]
  · have hty : ThrowIfMismatchOperandType .Symbol 0 [sym, expr]
        "First argument for define must be a symbol" h = .ok () h := by
      simp only [ThrowIfMismatchOperandType, List.get?, bind_eq, Is_of_deref hsym,
        Object.hasType, Bool.not_true, Bool.false_eq_true, if_false, pure_eq]
    have hname : GetName sym h = .ok name h := by
      simp only [GetName, bind_eq, hsym, pure_eq]
    simp only [SetFunction.Apply, bind_eq, hty, hname, Function.context__of_deref hself, hcont,
      Bool.not_false, if_true, throw_eq]

/-- C11 at a concrete input: in a context that binds only `y`, the symbol `x`
and `(set! x z)` both throw `NameError`. -/
theorem C11_unbound_name_witness :
    EvaluateExpression 1 (.addr 3) (.addr 2) unboundExample
      = .exception (.NameError "There are no such name.") unboundExample ∧
    SetFunction.Apply (EvaluateExpression 5) 5 (.addr 0) [.addr 3, .addr 4] unboundExample
      = .exception (.NameError "Variable for set must be defined before.") unboundExample :=
  C11_unbound_name_is_name_error (EvaluateExpression 5) 0 unboundExample (.addr 2) (.addr 0)
    (.addr 3) (.addr 4) .nullptr "x" [.addr 1] (by decide!)
    (fun s hs => by
      rw [List.mem_singleton] at hs
      subst hs
      exact ⟨[("y", .addr 5)], by decide!, by decide⟩)
    (by decide!) (by decide!)

end Scheme

namespace Scheme

/-! ## C12: set-car! and set-cdr! -/

theorem deref_storeAt_of_ne {p q : ObjectPtr} {h h1 : Heap} {o x : HeapObject} {oq : Object}
    (hl : load p h = .ok o h) (hs : storeAt p x h = .ok () h1) (hq : deref q h = .ok oq h)
    (hne : q ≠ p) : deref q h1 = .ok oq h1 := by
  obtain ⟨ho, hlq, ho1, _⟩ := load_of_deref hq
  subst ho1
  rw [deref_eq, load_storeAt_of_ne hl hs hlq hne]

end Scheme

namespace Scheme

/-! ## C13: a binding holds a deep clone -/

theorem Fresh_of_Make {obj : Object} {deps : List ObjectPtr} {h h1 : Heap} {q : ObjectPtr}
    (hm : Make obj deps h = .ok q h1) : Fresh h q :=
  fun o => load_Make_fresh hm o

theorem Fresh_of_Extends {h h1 : Heap} (hx : Extends h h1) {c : ObjectPtr} (hc : Fresh h1 c) :
    Fresh h c :=
  fun o hl => hc o (hx c o hl)

theorem DenotesIn_mono {h : Heap} {S T : ObjectPtr → Prop} (hST : ∀ c, S c → T c)
    {p : ObjectPtr} {V : Value} (hd : DenotesIn h S p V) : DenotesIn h T p V := by
  induction hd with
  | null => exact .null
  | number hs hp => exact .number (hST _ hs) hp
  | boolean hs hp => exact .boolean (hST _ hs) hp
  | symbol hs hp => exact .symbol (hST _ hs) hp
  | pair hs hp _ _ iha ihb => exact .pair (hST _ hs) hp iha ihb
  | builtin hs hp => exact .builtin (hST _ hs) hp
  | lambda hs hsc hp hc => exact .lambda (hST _ hs) (hST _ hsc) hp hc

/-- A value whose objects all satisfy `S` is the same value in every heap
that leaves the objects satisfying `S` as they are. -/
theorem DenotesIn_of_same {h h1 : Heap} {S : ObjectPtr → Prop}
    (hsame : ∀ c o, S c → deref c h = .ok o h → deref c h1 = .ok o h1)
    {p : ObjectPtr} {V : Value} (hd : DenotesIn h S p V) : DenotesIn h1 S p V := by
  induction hd with
  | null => exact .null
  | number hs hp => exact .number hs (hsame _ _ hs hp)
  | boolean hs hp => exact .boolean hs (hsame _ _ hs hp)
  | symbol hs hp => exact .symbol hs (hsame _ _ hs hp)
  | pair hs hp _ _ iha ihb => exact .pair hs (hsame _ _ hs hp) iha ihb
  | builtin hs hp => exact .builtin hs (hsame _ _ hs hp)
  | lambda hs hsc hp hc => exact .lambda hs hsc (hsame _ _ hs hp) (hsame _ _ hsc hc)

theorem DenotesIn_Extends {h h1 : Heap} {S : ObjectPtr → Prop} (hx : Extends h h1)
    {p : ObjectPtr} {V : Value} (hd : DenotesIn h S p V) : DenotesIn h1 S p V :=
  DenotesIn_of_same (fun _ _ _ hc => Extends_deref hx hc) hd

/-- `Clone` is deep: every object of the structure of the clone is a new
object. -/
theorem Clone_fresh : ∀ (V : Value) (h : Heap) (p : ObjectPtr), Denotes h p V → V ≠ .null →
    ∀ fuel, V.depth < fuel →
    ∃ q h1, Clone fuel p h = .ok q h1 ∧ DenotesIn h1 (Fresh h) q V ∧ Extends h h1 ∧
      q ≠ .nullptr := by
  intro V
  induction V with
  | null => intro h p _ hV; exact absurd rfl hV
  | number value =>
    intro h p hd _ fuel hf
    obtain ⟨n, rfl⟩ : ∃ n, fuel = n + 1 := ⟨fuel - 1, by omega⟩
    cases hd with
    | number hp =>
      obtain ⟨q, h1, hm⟩ := Make_ok (.Number value) [] h
      refine ⟨q, h1, ?_, .number (Fresh_of_Make hm) (deref_Make_self hm), Extends_Make hm,
        ne_nullptr_of_deref (deref_Make_self hm)⟩
      simp only [Clone, bind_eq, hp, hm]
  | boolean name =>
    intro h p hd _ fuel hf
    obtain ⟨n, rfl⟩ : ∃ n, fuel = n + 1 := ⟨fuel - 1, by omega⟩
    cases hd with
    | boolean hp =>
      obtain ⟨q, h1, hm⟩ := Make_ok (.BooleanSymbol name) [] h
      refine ⟨q, h1, ?_, .boolean (Fresh_of_Make hm) (deref_Make_self hm), Extends_Make hm,
        ne_nullptr_of_deref (deref_Make_self hm)⟩
      simp only [Clone, bind_eq, hp, hm]
  | symbol name =>
    intro h p hd _ fuel hf
    obtain ⟨n, rfl⟩ : ∃ n, fuel = n + 1 := ⟨fuel - 1, by omega⟩
    cases hd with
    | @symbol _ c _ hp =>
      obtain ⟨q, h1, hm⟩ := Make_ok (.Symbol name .nullptr) [] h
      obtain ⟨h2, hs, hd2, hx⟩ := SetContext_fresh_symbol c hm
      refine ⟨q, h2, ?_, .symbol (Fresh_of_Make hm) hd2, hx, ne_nullptr_of_deref hd2⟩
      simp only [Clone, bind_eq, hp, hm, hs, pure_eq]
  | builtin cls =>
    intro h p hd _ fuel hf
    obtain ⟨n, rfl⟩ : ∃ n, fuel = n + 1 := ⟨fuel - 1, by omega⟩
    cases hd with
    | builtin hp =>
      obtain ⟨q, h1, hm⟩ := Make_ok (.Function cls .nullptr) [] h
      refine ⟨q, h1, ?_, .builtin (Fresh_of_Make hm) (deref_Make_self hm), Extends_Make hm,
        ne_nullptr_of_deref (deref_Make_self hm)⟩
      simp only [Clone, bind_eq, hp, hm]
  | lambda args body scopes =>
    intro h p hd _ fuel hf
    obtain ⟨n, rfl⟩ : ∃ n, fuel = n + 1 := ⟨fuel - 1, by omega⟩
    cases hd with
    | @lambda _ cap0 cur _ _ _ hp hc =>
      obtain ⟨ho, hlc, ho1, _⟩ := load_of_deref hc
      obtain ⟨cap, h1, hm1⟩ := Make_ok (.Context scopes) ho.dependencies_ h
      obtain ⟨q, h2, hm2⟩ := Make_ok (.LambdaFunction args body cap cap)
        (AddDependencies (AddDependencies (AddDependency [] cap) args) body) h1
      have hmk : MakeLambdaFunction args body cap0 h = .ok q h2 := by
        simp only [MakeLambdaFunction, bind_eq, hlc, ho1, hm1, hm2]
      have hl := load_Make_self hm2
      have hx1 := Extends_Make hm1
      obtain ⟨h3, hs⟩ := storeAt_of_load
        ({ (⟨.LambdaFunction args body cap cap, false,
              AddDependencies (AddDependencies (AddDependency [] cap) args) body⟩ : HeapObject)
            with obj := .LambdaFunction args body cap cur }) hl
      have hx2 : Extends h1 h3 :=
        Extends_storeAt_fresh (Extends_Make hm2) (load_Make_fresh hm2) hl hs
      have hq3 : deref q h3 = .ok (.LambdaFunction args body cap cur) h3 :=
        deref_of_load (load_storeAt_self hl hs)
      refine ⟨q, h3, ?_, .lambda (Fresh_of_Extends hx1 (Fresh_of_Make hm2)) (Fresh_of_Make hm1)
        hq3 (Extends_deref hx2 (deref_Make_self hm1)), Extends_trans hx1 hx2,
        ne_nullptr_of_deref hq3⟩
      simp only [Clone, bind_eq, hp, hmk, SetContext, hl, hs, pure_eq]
  | pair A B ihA ihB =>
    intro h p hd _ fuel hf
    obtain ⟨n, rfl⟩ : ∃ n, fuel = n + 1 := ⟨fuel - 1, by omega⟩
    simp only [Value.depth] at hf
    have hfA : A.depth < n := by omega
    have hfB : B.depth < n := by omega
    cases hd with
    | @pair _ a b _ _ hp ha hb =>
      have field : ∀ (X : Value) (hh : Heap) (x : ObjectPtr), Denotes hh x X → X.depth < n →
          (∀ (h : Heap) (p : ObjectPtr), Denotes h p X → X ≠ .null → ∀ fuel, X.depth < fuel →
            ∃ q h1, Clone fuel p h = .ok q h1 ∧ DenotesIn h1 (Fresh h) q X ∧ Extends h h1 ∧
              q ≠ .nullptr) →
          ∃ q h1, DenotesIn h1 (Fresh hh) q X ∧ Extends hh h1 ∧
            ((x = .nullptr ∧ q = .nullptr ∧ h1 = hh) ∨
             (x ≠ .nullptr ∧ Clone n x hh = .ok q h1)) := by
        intro X hh x hx hXn ih
        by_cases hxn : x = .nullptr
        · subst hxn
          have := Denotes_nullptr hx
          subst this
          exact ⟨.nullptr, hh, .null, Extends_refl _, Or.inl ⟨rfl, rfl, rfl⟩⟩
        · have hX : X ≠ .null := by
            rintro rfl
            exact hxn (Denotes_null hx)
          obtain ⟨q, h1, hc, hd1, hx1, _⟩ := ih hh x hx hX n hXn
          exact ⟨q, h1, hd1, hx1, Or.inr ⟨hxn, hc⟩⟩
      obtain ⟨q1, h1, hd1, hx1, hc1⟩ := field A h a ha hfA ihA
      obtain ⟨q2, h2, hd2, hx2, hc2⟩ :=
        field B h1 b (Denotes_frame (Extends_frame hx1) hb) hfB ihB
      obtain ⟨q, h3, hm⟩ := Make_ok (.Cell q1 q2) (AddDependency (AddDependency [] q1) q2) h2
      have hx3 := Extends_Make hm
      refine ⟨q, h3, ?_, .pair (Fresh_of_Extends (Extends_trans hx1 hx2) (Fresh_of_Make hm))
        (deref_Make_self hm) (DenotesIn_Extends (Extends_trans hx2 hx3) hd1)
        (DenotesIn_Extends hx3 (DenotesIn_mono (fun _ hc => Fresh_of_Extends hx1 hc) hd2)),
        Extends_trans (Extends_trans hx1 hx2) hx3, ne_nullptr_of_deref (deref_Make_self hm)⟩
      rcases hc1 with ⟨ha0, hq1, hh1⟩ | ⟨ha0, hc1⟩ <;> rcases hc2 with ⟨hb0, hq2, hh2⟩ | ⟨hb0, hc2⟩
      · subst ha0 hq1 hh1 hb0 hq2 hh2
        simp only [Clone, bind_eq, hp, if_true, pure_eq, MakeCell, hm]
      · subst ha0 hq1 hh1
        simp only [Clone, bind_eq, hp, if_true, pure_eq, hb0, if_false, hc2, MakeCell, hm]
      · subst hb0 hq2 hh2
        simp only [Clone, bind_eq, hp, if_true, pure_eq, ha0, if_false, hc1, MakeCell, hm]
      · simp only [Clone, bind_eq, hp, ha0, hb0, if_false, hc1, hc2, MakeCell, hm]

end Scheme

namespace Scheme

/-! ## C14: arithmetic folds -/

theorem GetValue_of_deref {h : Heap} {v : ObjectPtr} {a : Int}
    (hv : deref v h = .ok (.Number a) h) : GetValue v h = .ok a h := by
  simp only [GetValue, bind_eq, hv, pure_eq]

theorem ThrowIfMismatchOperandsType_numbers {h : Heap} (message : String) :
    ∀ (vs : ObjectPtrVector) (values : List Int), NumberValues h vs values →
      ThrowIfMismatchOperandsType .Number vs message h = .ok () h := by
  intro vs values hn
  induction hn with
  | nil => rfl
  | cons hv _ ih =>
    simp only [ThrowIfMismatchOperandsType, bind_eq, Is_of_deref hv, Object.hasType,
      Bool.not_true, Bool.false_eq_true, if_false, ih]

theorem BinaryFoldFunction_Loop_values {h : Heap} (f : FoldFunctor) :
    ∀ (vs : ObjectPtrVector) (values : List Int), NumberValues h vs values → ∀ r : Int,
      BinaryFoldFunction.Loop f r vs h
        = match values.foldlM f.call r with
          | some x => .ok x h
          | none => .undefined := by
  intro vs values hn
  induction hn with
  | nil => intro r; rfl
  | @cons v a vs1 as1 hv _ ih =>
    intro r
    simp only [BinaryFoldFunction.Loop, bind_eq, GetValue_of_deref hv, List.foldlM_cons]
    cases hc : f.call r a with
    | none => rfl
    | some r1 => exact ih r1

theorem foldlM_some {f : Int → Int → Option Int} {g : Int → Int → Int}
    (hfg : ∀ r a, f r a = some (g r a)) :
    ∀ (values : List Int) (r : Int), values.foldlM f r = some (values.foldl g r) := by
  intro values
  induction values with
  | nil => intro r; rfl
  | cons a rest ih =>
    intro r
    simp only [List.foldlM_cons, hfg, List.foldl_cons]
    exact ih (g r a)

theorem foldlM_divides : ∀ (values : List Int) (r : Int), DividesDefined r values →
    values.foldlM (FoldFunctor.call .divides) r = some (values.foldl Int.tdiv r) := by
  intro values
  induction values with
  | nil => intro r _; rfl
  | cons a rest ih =>
    intro r hd
    obtain ⟨h0, h1, hrest⟩ := hd
    have hc : FoldFunctor.call .divides r a = some (Int.tdiv r a) := by
      simp only [FoldFunctor.call, h0, h1, or_self, if_false]
    simp only [List.foldlM_cons, hc, List.foldl_cons]
    exact ih _ hrest

theorem ThrowIfZeroDivisorsLoop_values {h : Heap} :
    ∀ (vs : ObjectPtrVector) (values : List Int), NumberValues h vs values →
      ((∀ a ∈ values, a ≠ 0) → ThrowIfZeroDivisorsLoop vs h = .ok () h) ∧
      ((∃ a ∈ values, a = 0) →
        ThrowIfZeroDivisorsLoop vs h = .exception (.RuntimeError "Division by zero.") h) := by
  intro vs values hn
  induction hn with
  | nil =>
    constructor
    · intro _; rfl
    · rintro ⟨a, ha, _⟩; cases ha
  | @cons v a vs1 as1 hv _ ih =>
    by_cases ha : a = 0
    · constructor
      · intro hall
        exact absurd ha (hall a (List.mem_cons_self _ _))
      · intro _
        simp only [ThrowIfZeroDivisorsLoop, bind_eq, GetValue_of_deref hv, ha, if_true, throw_eq]
    · constructor
      · intro hall
        simp only [ThrowIfZeroDivisorsLoop, bind_eq, GetValue_of_deref hv, ha, if_false]
        exact ih.1 (fun b hb => hall b (List.mem_cons_of_mem _ hb))
      · rintro ⟨b, hb, hb0⟩
        simp only [ThrowIfZeroDivisorsLoop, bind_eq, GetValue_of_deref hv, ha, if_false]
        rcases List.mem_cons.mp hb with rfl | hb1
        · exact absurd hb0 ha
        · exact ih.2 ⟨b, hb1, hb0⟩

theorem DividesDefined_ne_zero : ∀ (values : List Int) (r : Int), DividesDefined r values →
    ∀ a ∈ values, a ≠ 0 := by
  intro values
  induction values with
  | nil => intro r _ a ha; cases ha
  | cons b rest ih =>
    intro r hd a ha
    rcases List.mem_cons.mp ha with rfl | ha1
    · exact hd.1
    · exact ih _ hd.2.2 a ha1

/-- `BinaryFoldFunction::Apply` on at least one numeric argument, when no
divisor is zero: the fold of the functor over the payloads. -/
theorem BinaryFoldFunction_Apply_eq {ev : ObjectPtr → ObjectPtr → M ObjectPtr} {h h1 : Heap}
    {self context : ObjectPtr} {f : FoldFunctor} {args vs : ObjectPtrVector} {a1 : Int}
    {rest : List Int}
    (hself : deref self h = .ok (.Function (.BinaryFoldFunction f) context) h)
    (hev : EvaluateListArguments ev args context h = .ok vs h1)
    (hnum : NumberValues h1 vs (a1 :: rest))
    (hzero : f = .divides → ∀ a ∈ rest, a ≠ 0) :
    BinaryFoldFunction.Apply ev f self args h
      = match rest.foldlM f.call a1 with
        | some r => Make (.Number r) [] h1
        | none => .undefined := by
  have hty := ThrowIfMismatchOperandsType_numbers "Operands must be numbers." vs _ hnum
  cases hnum with
  | @cons v _ vs1 _ hv hrest =>
    have hloop := BinaryFoldFunction_Loop_values f vs1 rest hrest a1
    by_cases hf : f = .divides
    · have hdiv : ThrowIfZeroDivisors (v :: vs1) h1 = .ok () h1 :=
        (ThrowIfZeroDivisorsLoop_values vs1 rest hrest).1 (hzero hf)
      subst hf
      simp only [BinaryFoldFunction.Apply, bind_eq, Function.context__of_deref hself, hev, hty,
        if_true, hdiv, GetValue_of_deref hv, hloop]
      cases List.foldlM (FoldFunctor.call .divides) a1 rest <;> rfl
    · simp only [BinaryFoldFunction.Apply, bind_eq, Function.context__of_deref hself, hev, hty,
        hf, if_false, pure_eq, GetValue_of_deref hv, hloop]
      cases List.foldlM f.call a1 rest <;> rfl

theorem BinaryFoldFunction_Apply_values {ev : ObjectPtr → ObjectPtr → M ObjectPtr} {h h1 : Heap}
    {self context : ObjectPtr} {f : FoldFunctor} {args vs : ObjectPtrVector} {a1 : Int}
    {rest : List Int} {g : Int → Int → Int}
    (hself : deref self h = .ok (.Function (.BinaryFoldFunction f) context) h)
    (hev : EvaluateListArguments ev args context h = .ok vs h1)
    (hnum : NumberValues h1 vs (a1 :: rest))
    (hf : f ≠ .divides) (hfg : ∀ r a, f.call r a = some (g r a)) :
    BinaryFoldFunction.Apply ev f self args h = Make (.Number (rest.foldl g a1)) [] h1 := by
  rw [BinaryFoldFunction_Apply_eq hself hev hnum (fun hd => absurd hd hf),
    foldlM_some hfg rest a1]

theorem BinaryFoldFunction_Apply_nil {ev : ObjectPtr → ObjectPtr → M ObjectPtr} {h : Heap}
    {self context : ObjectPtr} {f : FoldFunctor}
    (hself : deref self h = .ok (.Function (.BinaryFoldFunction f) context) h) :
    BinaryFoldFunction.Apply ev f self [] h = BinaryFoldFunction.ApplyToEmptyList f h := by
  by_cases hf : f = .divides
  · subst hf
    simp only [BinaryFoldFunction.Apply, bind_eq, Function.context__of_deref hself,
      EvaluateListArguments, pure_eq, ThrowIfMismatchOperandsType, if_true, ThrowIfZeroDivisors,
      List.tail_nil, ThrowIfZeroDivisorsLoop]
  · simp only [BinaryFoldFunction.Apply, bind_eq, Function.context__of_deref hself,
      EvaluateListArguments, pure_eq, ThrowIfMismatchOperandsType, hf, if_false]

/-- C14 (as amended).  With no argument `+` returns a new `0` and `*` a new
`1`, while `-`, `/`, `min` and `max` throw `RuntimeError`.  With arguments
that evaluate to the numbers `a1, rest`, each of `+`, `-`, `*` returns a new
number whose payload is the left fold of the 64-bit (wrapping) operation
over them, and `/` returns the left fold of the truncating quotient provided
that no divisor is zero and no step divides `-2 ^ 63` by `-1`; a single
argument is returned unchanged (`rest = []`).  The names are those of
`kValidFunctionsMap`. -/
theorem C14_arithmetic_folds (ev : ObjectPtr → ObjectPtr → M ObjectPtr) (h : Heap)
    (self context : ObjectPtr) (f : FoldFunctor)
    (hself : deref self h = .ok (.Function (.BinaryFoldFunction f) context) h) :
    (BinaryFoldFunction.Apply ev f self [] h
      = match f with
        | .plus => Make (.Number 0) [] h
        | .multiplies => Make (.Number 1) [] h
        | _ => .exception (.RuntimeError "Few arguments.") h) ∧
    (∀ (args vs : ObjectPtrVector) (a1 : Int) (rest : List Int) (h1 : Heap),
      EvaluateListArguments ev args context h = .ok vs h1 → NumberValues h1 vs (a1 :: rest) →
      match f with
      | .plus => BinaryFoldFunction.Apply ev f self args h
          = Make (.Number (rest.foldl (fun r a => wrap64 (r + a)) a1)) [] h1
      | .minus => BinaryFoldFunction.Apply ev f self args h
          = Make (.Number (rest.foldl (fun r a => wrap64 (r - a)) a1)) [] h1
      | .multiplies => BinaryFoldFunction.Apply ev f self args h
          = Make (.Number (rest.foldl (fun r a => wrap64 (r * a)) a1)) [] h1
      | .divides => DividesDefined a1 rest →
          BinaryFoldFunction.Apply ev f self args h
            = Make (.Number (rest.foldl Int.tdiv a1)) [] h1
      | .Max => BinaryFoldFunction.Apply ev f self args h
          = Make (.Number (rest.foldl (fun r a => if r > a then r else a) a1)) [] h1
      | .Min => BinaryFoldFunction.Apply ev f self args h
          = Make (.Number (rest.foldl (fun r a => if r > a then a else r) a1)) [] h1) ∧
    (kValidFunctionsMap.lookup "+" = some (.BinaryFoldFunction .plus) ∧
     kValidFunctionsMap.lookup "-" = some (.BinaryFoldFunction .minus) ∧
     kValidFunctionsMap.lookup "*" = some (.BinaryFoldFunction .multiplies) ∧
     kValidFunctionsMap.lookup "/" = some (.BinaryFoldFunction .divides) ∧
     kValidFunctionsMap.lookup "min" = some (.BinaryFoldFunction .Min) ∧
     kValidFunctionsMap.lookup "max" = some (.BinaryFoldFunction .Max)) := by
  refine ⟨?_, ?_, by decide⟩
  · rw [BinaryFoldFunction_Apply_nil hself]
    cases f <;> rfl
  · intro args vs a1 rest h1 hev hnum
    cases f with
    | plus => exact BinaryFoldFunction_Apply_values hself hev hnum (by decide) (fun _ _ => rfl)
    | minus => exact BinaryFoldFunction_Apply_values hself hev hnum (by decide) (fun _ _ => rfl)
    | multiplies =>
      exact BinaryFoldFunction_Apply_values hself hev hnum (by decide) (fun _ _ => rfl)
    | divides =>
      intro hd
      rw [BinaryFoldFunction_Apply_eq hself hev hnum (fun _ => DividesDefined_ne_zero rest a1 hd),
        foldlM_divides rest a1 hd]
    | Max => exact BinaryFoldFunction_Apply_values hself hev hnum (by decide) (fun _ _ => rfl)
    | Min => exact BinaryFoldFunction_Apply_values hself hev hnum (by decide) (fun _ _ => rfl)

/-- C14 at a concrete input: `(-)` throws and `(- 10 1 2)` returns a new `7`. -/
theorem C14_arithmetic_folds_witness :
    BinaryFoldFunction.Apply (EvaluateExpression 5) .minus (.addr 0) [] arithmeticExample
      = .exception (.RuntimeError "Few arguments.") arithmeticExample ∧
    BinaryFoldFunction.Apply (EvaluateExpression 5) .minus (.addr 0)
        [.addr 7, .addr 8, .addr 9] arithmeticExample
      = Make (.Number 7) [] (evaluatedIn [.addr 7, .addr 8, .addr 9] arithmeticExample) := by
  have key := C14_arithmetic_folds (EvaluateExpression 5) arithmeticExample (.addr 0) (.addr 2)
    .minus (by decide!)
  exact ⟨key.1, key.2.1 [.addr 7, .addr 8, .addr 9] [.addr 11, .addr 12, .addr 13] 10 [1, 2]
    (evaluatedIn [.addr 7, .addr 8, .addr 9] arithmeticExample) (by decide!)
    (.cons (by decide!) (.cons (by decide!) (.cons (by decide!) .nil)))⟩

/-- C14 (counterexample to the claim as stated): on the numeric arguments `1`
and `0` the procedure `/` throws, and on `-2 ^ 63` and `-1` the quotient is
not a 64-bit integer and the behaviour is undefined; in neither case is a
fold returned. -/
theorem C14_division_returns_no_fold :
    Session 100 ["(/ 1 0)"] = [.thrown (.RuntimeError "Division by zero.")] ∧
    Session 100 ["(/ (- (- 0 9223372036854775807) 1) -1)"] = [.undefined] := by
  decide!

end Scheme

namespace Scheme

/-! ## C15: division by zero -/

theorem DividesDefined_zero : ∀ (values : List Int), (∀ a ∈ values, a ≠ 0) →
    DividesDefined 0 values ∧ values.foldl Int.tdiv 0 = 0 := by
  intro values
  induction values with
  | nil => intro _; exact ⟨trivial, rfl⟩
  | cons a rest ih =>
    intro hall
    have ha := hall a (List.mem_cons_self _ _)
    have hrest := ih (fun b hb => hall b (List.mem_cons_of_mem _ hb))
    have h0 : Int.tdiv 0 a = 0 := Int.zero_tdiv a
    refine ⟨⟨ha, ?_, ?_⟩, ?_⟩
    · rintro ⟨h1, _⟩
      norm_num at h1
    · rw [h0]; exact hrest.1
    · rw [List.foldl_cons, h0]; exact hrest.2

/-- C15.  Let the arguments of `/` evaluate to the numbers `a1, rest`.  If
some number of `rest` is zero, the call throws `RuntimeError` in the heap left
by the evaluation of the arguments, whatever the other numbers are: the check
comes before every division.  If no number of `rest` is zero, the call does
not throw; and when moreover `a1` is zero it returns a new `0`. -/
theorem C15_division_by_zero (ev : ObjectPtr → ObjectPtr → M ObjectPtr) (h h1 : Heap)
    (self context : ObjectPtr) (args vs : ObjectPtrVector) (a1 : Int) (rest : List Int)
    (hself : deref self h = .ok (.Function (.BinaryFoldFunction .divides) context) h)
    (hev : EvaluateListArguments ev args context h = .ok vs h1)
    (hnum : NumberValues h1 vs (a1 :: rest)) :
    ((∃ a ∈ rest, a = 0) →
      BinaryFoldFunction.Apply ev .divides self args h
        = .exception (.RuntimeError "Division by zero.") h1) ∧
    ((∀ a ∈ rest, a ≠ 0) →
      (∀ e h2, BinaryFoldFunction.Apply ev .divides self args h ≠ .exception e h2) ∧
      (a1 = 0 → BinaryFoldFunction.Apply ev .divides self args h = Make (.Number 0) [] h1)) := by
  constructor
  · intro hz
    have hty := ThrowIfMismatchOperandsType_numbers "Operands must be numbers." vs _ hnum
    cases hnum with
    | @cons v _ vs1 _ hv hrest =>
      have hdiv : ThrowIfZeroDivisors (v :: vs1) h1
          = .exception (.RuntimeError "Division by zero.") h1 :=
        (ThrowIfZeroDivisorsLoop_values vs1 rest hrest).2 hz
      simp only [BinaryFoldFunction.Apply, bind_eq, Function.context__of_deref hself, hev, hty,
        if_true, hdiv]
  · intro hnz
    have heq := BinaryFoldFunction_Apply_eq hself hev hnum (fun _ => hnz)
    constructor
    · intro e h2 hex
      rw [heq] at hex
      cases hf : List.foldlM (FoldFunctor.call .divides) a1 rest with
      | none => rw [hf] at hex; cases hex
      | some r =>
        rw [hf] at hex
        change Make (Object.Number r) [] h1 = _ at hex
        rw [Make_eq] at hex
        cases hex
    · intro ha1
      subst ha1
      obtain ⟨hd, hfold⟩ := DividesDefined_zero rest hnz
      rw [heq, foldlM_divides rest 0 hd, hfold]

/-- C15 at a concrete input: `(/ 10 1 0)` throws and `(/ 0 2)` returns a new
`0`. -/
theorem C15_division_by_zero_witness :
    BinaryFoldFunction.Apply (EvaluateExpression 5) .divides (.addr 3)
        [.addr 7, .addr 8, .addr 10] arithmeticExample
      = .exception (.RuntimeError "Division by zero.")
          (evaluatedIn [.addr 7, .addr 8, .addr 10] arithmeticExample) ∧
    BinaryFoldFunction.Apply (EvaluateExpression 5) .divides (.addr 3)
        [.addr 10, .addr 9] arithmeticExample
      = Make (.Number 0) [] (evaluatedIn [.addr 10, .addr 9] arithmeticExample) :=
  ⟨(C15_division_by_zero (EvaluateExpression 5) arithmeticExample
      (evaluatedIn [.addr 7, .addr 8, .addr 10] arithmeticExample) (.addr 3) (.addr 2)
      [.addr 7, .addr 8, .addr 10] [.addr 11, .addr 12, .addr 13] 10 [1, 0] (by decide!)
      (by decide!) (.cons (by decide!) (.cons (by decide!) (.cons (by decide!) .nil)))).1
      ⟨0, by decide, rfl⟩,
   ((C15_division_by_zero (EvaluateExpression 5) arithmeticExample
      (evaluatedIn [.addr 10, .addr 9] arithmeticExample) (.addr 3) (.addr 2)
      [.addr 10, .addr 9] [.addr 11, .addr 12] 0 [2] (by decide!)
      (by decide!) (.cons (by decide!) (.cons (by decide!) .nil))).2
      (by decide)).2 rfl⟩

/-! ## C16: `+` and `*` do not depend on the order of the arguments -/

theorem wrap64_mul (a b : Int) : wrap64 (wrap64 a * b) = wrap64 (a * b) := by
  have h1 : wrap64 a ≡ a [ZMOD 2 ^ 64] := by
    unfold wrap64 Int.ModEq
    omega
  have h2 : wrap64 a * b + 2 ^ 63 ≡ a * b + 2 ^ 63 [ZMOD 2 ^ 64] :=
    (h1.mul_right b).add_right _
  unfold Int.ModEq at h2
  show (wrap64 a * b + 2 ^ 63) % 2 ^ 64 - 2 ^ 63 = (a * b + 2 ^ 63) % 2 ^ 64 - 2 ^ 63
  rw [h2]

theorem foldl_plus_eq : ∀ (rest : List Int) (r : Int), rest ≠ [] →
    rest.foldl (fun r a => wrap64 (r + a)) r = wrap64 (r + rest.sum) := by
  intro rest
  induction rest with
  | nil => intro r hne; exact absurd rfl hne
  | cons a t ih =>
    intro r _
    by_cases ht : t = []
    · subst ht
      simp only [List.foldl_cons, List.foldl_nil, List.sum_cons, List.sum_nil, add_zero]
    · rw [List.foldl_cons, ih _ ht, wrap64_add, List.sum_cons, add_assoc]

theorem foldl_multiplies_eq : ∀ (rest : List Int) (r : Int), rest ≠ [] →
    rest.foldl (fun r a => wrap64 (r * a)) r = wrap64 (r * rest.prod) := by
  intro rest
  induction rest with
  | nil => intro r hne; exact absurd rfl hne
  | cons a t ih =>
    intro r _
    by_cases ht : t = []
    · subst ht
      simp only [List.foldl_cons, List.foldl_nil, List.prod_cons, List.prod_nil, mul_one]
    · rw [List.foldl_cons, ih _ ht, wrap64_mul, List.prod_cons, mul_assoc]

theorem fold_value_perm {g : Int → Int → Int} {total : List Int → Int}
    (hg : ∀ (rest : List Int) (r : Int), rest ≠ [] → rest.foldl g r = wrap64 (total (r :: rest)))
    (htotal : ∀ l1 l2 : List Int, l1.Perm l2 → total l1 = total l2)
    {a b : Int} {t u : List Int} (hp : (a :: t).Perm (b :: u)) :
    t.foldl g a = u.foldl g b := by
  have hlen := hp.length_eq
  simp only [List.length_cons, add_left_inj] at hlen
  cases t with
  | nil =>
    have hu : u = [] := List.length_eq_zero.mp hlen.symm
    subst hu
    have := List.perm_singleton.mp hp.symm
    simp only [List.cons.injEq, and_true] at this
    subst this
    rfl
  | cons a2 t2 =>
    have hu : u ≠ [] := by
      rintro rfl
      simp at hlen
    rw [hg _ _ (by simp), hg _ _ hu, htotal _ _ hp]

theorem wrap64_modEq (x : Int) : wrap64 x ≡ x [ZMOD 2 ^ 64] := by
  unfold wrap64 Int.ModEq
  omega

theorem BinaryFoldFunction_Apply_empty {ev : ObjectPtr → ObjectPtr → M ObjectPtr} {h h1 : Heap}
    {self context : ObjectPtr} {f : FoldFunctor} {args : ObjectPtrVector}
    (hself : deref self h = .ok (.Function (.BinaryFoldFunction f) context) h)
    (hev : EvaluateListArguments ev args context h = .ok [] h1) :
    BinaryFoldFunction.Apply ev f self args h = BinaryFoldFunction.ApplyToEmptyList f h1 := by
  by_cases hf : f = .divides
  · subst hf
    simp only [BinaryFoldFunction.Apply, bind_eq, Function.context__of_deref hself, hev,
      ThrowIfMismatchOperandsType, pure_eq, if_true, ThrowIfZeroDivisors, List.tail_nil,
      ThrowIfZeroDivisorsLoop]
  · simp only [BinaryFoldFunction.Apply, bind_eq, Function.context__of_deref hself, hev,
      ThrowIfMismatchOperandsType, pure_eq, hf, if_false]

/-- The number `+` or `*` returns on arguments that evaluate to the numbers
`values`. -/
theorem BinaryFoldFunction_Apply_total {ev : ObjectPtr → ObjectPtr → M ObjectPtr} {h h1 : Heap}
    {self context : ObjectPtr} {f : FoldFunctor} {args vs : ObjectPtrVector}
    {values : List Int} {g : Int → Int → Int} {unit : Int}
    (hself : deref self h = .ok (.Function (.BinaryFoldFunction f) context) h)
    (hev : EvaluateListArguments ev args context h = .ok vs h1)
    (hnum : NumberValues h1 vs values)
    (hf : f ≠ .divides) (hfg : ∀ r a, f.call r a = some (g r a))
    (hunit : BinaryFoldFunction.ApplyToEmptyList f = Make (.Number unit) []) :
    BinaryFoldFunction.Apply ev f self args h
      = Make (.Number (foldFrom g unit values)) [] h1 := by
  cases values with
  | nil =>
    cases hnum
    rw [BinaryFoldFunction_Apply_empty hself hev, hunit]
    rfl
  | cons a rest => exact BinaryFoldFunction_Apply_values hself hev hnum hf hfg

/-- C16.  Let the arguments of two calls of `+` evaluate to the numbers
`values` and `values1`, one list a permutation of the other.  Both calls
return a new number with the same payload `r`, and `r` is the sum of the
numbers modulo `2 ^ 64`.  Likewise for `*` and the product. -/
theorem C16_sum_product_permutation (ev ev1 : ObjectPtr → ObjectPtr → M ObjectPtr)
    (h h1 k k1 : Heap) (self self1 context context1 : ObjectPtr) (f : FoldFunctor)
    (args args1 vs vs1 : ObjectPtrVector) (values values1 : List Int)
    (hf : f = .plus ∨ f = .multiplies)
    (hself : deref self h = .ok (.Function (.BinaryFoldFunction f) context) h)
    (hev : EvaluateListArguments ev args context h = .ok vs h1)
    (hnum : NumberValues h1 vs values)
    (hself1 : deref self1 k = .ok (.Function (.BinaryFoldFunction f) context1) k)
    (hev1 : EvaluateListArguments ev1 args1 context1 k = .ok vs1 k1)
    (hnum1 : NumberValues k1 vs1 values1)
    (hperm : values.Perm values1) :
    ∃ r : Int,
      BinaryFoldFunction.Apply ev f self args h = Make (.Number r) [] h1 ∧
      BinaryFoldFunction.Apply ev1 f self1 args1 k = Make (.Number r) [] k1 ∧
      (f = .plus → r ≡ values.sum [ZMOD 2 ^ 64]) ∧
      (f = .multiplies → r ≡ values.prod [ZMOD 2 ^ 64]) := by
  have hcases : ∀ (g : Int → Int → Int) (total : List Int → Int) (unit : Int),
      (∀ r a, f.call r a = some (g r a)) → f ≠ .divides →
      BinaryFoldFunction.ApplyToEmptyList f = Make (.Number unit) [] →
      (∀ (rest : List Int) (r : Int), rest ≠ [] → rest.foldl g r = wrap64 (total (r :: rest))) →
      (∀ l1 l2 : List Int, l1.Perm l2 → total l1 = total l2) →
      total [] = unit → (∀ a, total [a] = a) →
      ∃ r : Int,
        BinaryFoldFunction.Apply ev f self args h = Make (.Number r) [] h1 ∧
        BinaryFoldFunction.Apply ev1 f self1 args1 k = Make (.Number r) [] k1 ∧
        r ≡ total values [ZMOD 2 ^ 64] := by
    intro g total unit hfg hfd hunit hg htotal h0 hone
    have e := BinaryFoldFunction_Apply_total hself hev hnum hfd hfg hunit
    have e1 := BinaryFoldFunction_Apply_total hself1 hev1 hnum1 hfd hfg hunit
    refine ⟨_, e, ?_, ?_⟩
    · rw [e1]
      cases values with
      | nil => rw [List.nil_perm.mp hperm]
      | cons a t =>
        cases values1 with
        | nil => exact absurd (List.perm_nil.mp hperm) (by simp)
        | cons b u =>
          show Make (.Number (u.foldl g b)) [] k1 = Make (.Number (t.foldl g a)) [] k1
          rw [fold_value_perm hg htotal hperm]
    · cases values with
      | nil =>
        show unit ≡ total [] [ZMOD 2 ^ 64]
        rw [h0]
      | cons a t =>
        show t.foldl g a ≡ total (a :: t) [ZMOD 2 ^ 64]
        by_cases ht : t = []
        · subst ht
          rw [List.foldl_nil, hone]
        · rw [hg t a ht]
          exact wrap64_modEq _
  rcases hf with hf | hf
  · subst hf
    obtain ⟨r, e, e1, hr⟩ := hcases (fun r a => wrap64 (r + a)) List.sum 0 (fun _ _ => rfl)
      (by decide) rfl
      (fun rest r hne => by rw [foldl_plus_eq rest r hne, List.sum_cons])
      (fun _ _ hp => hp.sum_eq) rfl (fun a => by simp)
    exact ⟨r, e, e1, (fun _ => hr), (fun hc => by cases hc)⟩
  · subst hf
    obtain ⟨r, e, e1, hr⟩ := hcases (fun r a => wrap64 (r * a)) List.prod 1 (fun _ _ => rfl)
      (by decide) rfl
      (fun rest r hne => by rw [foldl_multiplies_eq rest r hne, List.prod_cons])
      (fun _ _ hp => hp.prod_eq) rfl (fun a => by simp)
    exact ⟨r, e, e1, (fun hc => by cases hc), (fun _ => hr)⟩

/-- C16 at a concrete input: `(+ 10 1 2)` and `(+ 2 10 1)`. -/
theorem C16_sum_product_permutation_witness :
    ∃ r : Int,
      BinaryFoldFunction.Apply (EvaluateExpression 5) .plus (.addr 4)
          [.addr 7, .addr 8, .addr 9] arithmeticExample
        = Make (.Number r) [] (evaluatedIn [.addr 7, .addr 8, .addr 9] arithmeticExample) ∧
      BinaryFoldFunction.Apply (EvaluateExpression 5) .plus (.addr 4)
          [.addr 9, .addr 7, .addr 8] arithmeticExample
        = Make (.Number r) [] (evaluatedIn [.addr 9, .addr 7, .addr 8] arithmeticExample) ∧
      (FoldFunctor.plus = .plus → r ≡ [10, 1, 2].sum [ZMOD 2 ^ 64]) ∧
      (FoldFunctor.plus = .multiplies → r ≡ [10, 1, 2].prod [ZMOD 2 ^ 64]) :=
  C16_sum_product_permutation (EvaluateExpression 5) (EvaluateExpression 5) arithmeticExample
    (evaluatedIn [.addr 7, .addr 8, .addr 9] arithmeticExample) arithmeticExample
    (evaluatedIn [.addr 9, .addr 7, .addr 8] arithmeticExample) (.addr 4) (.addr 4) (.addr 2)
    (.addr 2) .plus [.addr 7, .addr 8, .addr 9] [.addr 9, .addr 7, .addr 8]
    [.addr 11, .addr 12, .addr 13] [.addr 11, .addr 12, .addr 13] [10, 1, 2] [2, 10, 1]
    (.inl rfl) (by decide!) (by decide!)
    (.cons (by decide!) (.cons (by decide!) (.cons (by decide!) .nil)))
    (by decide!) (by decide!)
    (.cons (by decide!) (.cons (by decide!) (.cons (by decide!) .nil)))
    (by decide)

end Scheme

namespace Scheme

/-! ## C17: comparisons -/

theorem MonotonicFunctor.call_eq_true (f : MonotonicFunctor) (a b : Int) :
    f.call a b = true ↔ f.Holds a b := by
  cases f <;> simp only [MonotonicFunctor.call, MonotonicFunctor.Holds, decide_eq_true_eq]

theorem MonotonicFunction_Loop_values {h : Heap} (f : MonotonicFunctor) :
    ∀ (vs : ObjectPtrVector) (values : List Int), NumberValues h vs values →
      (values.Chain' f.Holds → MonotonicFunction.Loop f vs h = .ok true h) ∧
      (¬ values.Chain' f.Holds → MonotonicFunction.Loop f vs h = .ok false h) := by
  intro vs values hn
  induction hn with
  | nil =>
    constructor
    · intro _; rfl
    · intro hc; exact absurd List.chain'_nil hc
  | @cons v a vs1 as1 hv hrest ih =>
    cases hrest with
    | nil =>
      constructor
      · intro _; rfl
      · intro hc; exact absurd (List.chain'_singleton a) hc
    | @cons v2 a2 vs2 as2 hv2 hrest2 =>
      have hstep : MonotonicFunction.Loop f (v :: v2 :: vs2) h
          = if (!f.call a a2) = true then .ok false h
            else MonotonicFunction.Loop f (v2 :: vs2) h := by
        simp only [MonotonicFunction.Loop, bind_eq, GetValue_of_deref hv, GetValue_of_deref hv2]
        cases f.call a a2 <;> rfl
      rw [hstep, List.chain'_cons]
      by_cases hc : f.call a a2 = true
      · have hh := (MonotonicFunctor.call_eq_true f a a2).mp hc
        simp only [hc, Bool.not_true, Bool.false_eq_true, if_false]
        exact ⟨fun hch => ih.1 hch.2, fun hch => ih.2 (fun h2 => hch ⟨hh, h2⟩)⟩
      · have hh : ¬ f.Holds a a2 := fun hx => hc ((MonotonicFunctor.call_eq_true f a a2).mpr hx)
        have hcf : f.call a a2 = false := by
          cases hx : f.call a a2
          · rfl
          · exact absurd hx hc
        simp only [hcf, Bool.not_false, if_true]
        exact ⟨fun hch => absurd hch.1 hh, fun _ => trivial⟩

theorem ThrowIfMismatchOperandsType_fails {h : Heap} (t : TypeTag) (message : String) :
    ∀ (vs : ObjectPtrVector), (∀ v ∈ vs, ∃ b, Is t v h = .ok b h) →
      (∃ v ∈ vs, Is t v h = .ok false h) →
      ThrowIfMismatchOperandsType t vs message h = .exception (.RuntimeError message) h := by
  intro vs
  induction vs with
  | nil => rintro _ ⟨v, hv, _⟩; cases hv
  | cons v rest ih =>
    intro hall hex
    obtain ⟨b, hb⟩ := hall v (List.mem_cons_self _ _)
    cases b with
    | false =>
      simp only [ThrowIfMismatchOperandsType, bind_eq, hb, Bool.not_false, if_true, throw_eq]
    | true =>
      simp only [ThrowIfMismatchOperandsType, bind_eq, hb, Bool.not_true, Bool.false_eq_true,
        if_false]
      refine ih (fun w hw => hall w (List.mem_cons_of_mem _ hw)) ?_
      obtain ⟨w, hw, hwf⟩ := hex
      rcases List.mem_cons.mp hw with rfl | hw1
      · rw [hb] at hwf; cases hwf
      · exact ⟨w, hw1, hwf⟩

/-- C17.  Let the arguments of a comparison procedure evaluate to `vs`.  If
these are the numbers `values`, the call returns a new `#t` when every
adjacent pair of `values` satisfies the relation of the procedure, and a new
`#f` otherwise; so it returns `#t` on no number and on one number.  If some
value is not a number, null included, the call throws `RuntimeError`.  The
names are those of `kValidFunctionsMap`. -/
theorem C17_monotonic_comparisons (ev : ObjectPtr → ObjectPtr → M ObjectPtr) (h h1 : Heap)
    (self context : ObjectPtr) (f : MonotonicFunctor) (args vs : ObjectPtrVector)
    (hself : deref self h = .ok (.Function (.MonotonicFunction f) context) h)
    (hev : EvaluateListArguments ev args context h = .ok vs h1) :
    (∀ values : List Int, NumberValues h1 vs values →
      (values.Chain' f.Holds →
        MonotonicFunction.Apply ev f self args h = Make (.BooleanSymbol "#t") [] h1) ∧
      (¬ values.Chain' f.Holds →
        MonotonicFunction.Apply ev f self args h = Make (.BooleanSymbol "#f") [] h1) ∧
      (values.length ≤ 1 →
        MonotonicFunction.Apply ev f self args h = Make (.BooleanSymbol "#t") [] h1)) ∧
    ((∀ v ∈ vs, ∃ b, Is .Number v h1 = .ok b h1) → (∃ v ∈ vs, Is .Number v h1 = .ok false h1) →
      MonotonicFunction.Apply ev f self args h
        = .exception (.RuntimeError "Operands must be numbers.") h1) ∧
    (kValidFunctionsMap.lookup "<" = some (.MonotonicFunction .less) ∧
     kValidFunctionsMap.lookup "<=" = some (.MonotonicFunction .less_equal) ∧
     kValidFunctionsMap.lookup "=" = some (.MonotonicFunction .equal_to) ∧
     kValidFunctionsMap.lookup ">" = some (.MonotonicFunction .greater) ∧
     kValidFunctionsMap.lookup ">=" = some (.MonotonicFunction .greater_equal)) := by
  have hctx := Function.context__of_deref hself
  refine ⟨?_, ?_, by decide⟩
  · intro values hnum
    have hty := ThrowIfMismatchOperandsType_numbers "Operands must be numbers." vs _ hnum
    have hloop := MonotonicFunction_Loop_values f vs values hnum
    have htrue : values.Chain' f.Holds →
        MonotonicFunction.Apply ev f self args h = Make (.BooleanSymbol "#t") [] h1 := by
      intro hc
      simp only [MonotonicFunction.Apply, bind_eq, hctx, hev, hty, hloop.1 hc, if_true]
    refine ⟨htrue, ?_, ?_⟩
    · intro hc
      simp only [MonotonicFunction.Apply, bind_eq, hctx, hev, hty, hloop.2 hc,
        Bool.false_eq_true, if_false]
    · intro hlen
      apply htrue
      match values, hlen with
      | [], _ => exact List.chain'_nil
      | [a], _ => exact List.chain'_singleton a
  · intro hall hex
    have hty := ThrowIfMismatchOperandsType_fails .Number "Operands must be numbers." vs hall hex
    simp only [MonotonicFunction.Apply, bind_eq, hctx, hev, hty]

/-- C17 at a concrete input: `(< 1 2 10)` returns a new `#t`. -/
theorem C17_monotonic_comparisons_witness :
    MonotonicFunction.Apply (EvaluateExpression 5) .less (.addr 6)
        [.addr 8, .addr 9, .addr 7] arithmeticExample
      = Make (.BooleanSymbol "#t") [] (evaluatedIn [.addr 8, .addr 9, .addr 7] arithmeticExample) :=
  ((C17_monotonic_comparisons (EvaluateExpression 5) arithmeticExample
    (evaluatedIn [.addr 8, .addr 9, .addr 7] arithmeticExample) (.addr 6) (.addr 2) .less
    [.addr 8, .addr 9, .addr 7] [.addr 11, .addr 12, .addr 13] (by decide!) (by decide!)).1
    [1, 2, 10] (.cons (by decide!) (.cons (by decide!) (.cons (by decide!) .nil)))).1
    (by
      simp only [List.chain'_cons, List.chain'_singleton, MonotonicFunctor.Holds, and_true]
      decide)

end Scheme

namespace Scheme

/-! ## C18: car and cdr of cons -/

theorem ThrowIfWrongNumberOfArguments_ok {number : Nat} {list : ObjectPtrVector}
    (func_name : String) (hlen : list.length = number) (h : Heap) :
    ThrowIfWrongNumberOfArguments number list func_name h = .ok () h := by
  simp only [ThrowIfWrongNumberOfArguments, hlen, ne_eq, not_true_eq_false, if_false, pure_eq]

theorem ThrowIfWrongNumberOfArguments_one (q : ObjectPtr) (func_name : String) (h : Heap) :
    ThrowIfWrongNumberOfArguments 1 [q] func_name h = .ok () h :=
  ThrowIfWrongNumberOfArguments_ok func_name rfl h

theorem ThrowIfWrongNumberOfArguments_two (q r : ObjectPtr) (func_name : String) (h : Heap) :
    ThrowIfWrongNumberOfArguments 2 [q, r] func_name h = .ok () h :=
  ThrowIfWrongNumberOfArguments_ok func_name rfl h

theorem EvaluateListArguments_one {ev : ObjectPtr → ObjectPtr → M ObjectPtr}
    {x context v : ObjectPtr} {h h1 : Heap} (hx : ev x context h = .ok v h1) :
    EvaluateListArguments ev [x] context h = .ok [v] h1 := by
  simp only [EvaluateListArguments, bind_eq, hx, pure_eq]

end Scheme

namespace Scheme

/-! ## C19: list? -/

theorem ToListFunction_Loop_IsList : ∀ (rest : ObjectPtrVector) (h : Heap) (p : ObjectPtr)
    (xs : ObjectPtrVector), IsList h p xs →
    ∃ q h1, ToListFunction.Loop rest p h = .ok q h1 ∧ IsList h1 q (rest.reverse ++ xs) ∧
      Extends h h1 := by
  intro rest
  induction rest with
  | nil => intro h p xs hl; exact ⟨p, h, rfl, hl, Extends_refl h⟩
  | cons e rest ih =>
    intro h p xs hl
    obtain ⟨c, h1, hm⟩ := Make_ok (.Cell e p) (AddDependency (AddDependency [] e) p) h
    have hx := Extends_Make hm
    have hl1 : IsList h1 c (e :: xs) :=
      .cons (deref_Make_self hm) (IsList_frame (Extends_frame hx) hl)
    obtain ⟨q, h2, hloop, hl2, hx2⟩ := ih h1 c (e :: xs) hl1
    refine ⟨q, h2, ?_, ?_, Extends_trans hx hx2⟩
    · simp only [ToListFunction.Loop, bind_eq, MakeCell, hm, hloop]
    · rw [List.reverse_cons, List.append_assoc]
      exact hl2

/-- `list` returns a proper list of the values of its arguments, in order. -/
theorem ToListFunction_Apply_IsList {ev : ObjectPtr → ObjectPtr → M ObjectPtr} {h h1 : Heap}
    {self context : ObjectPtr} {args vs : ObjectPtrVector}
    (hself : deref self h = .ok (.Function .ToListFunction context) h)
    (hev : EvaluateListArguments ev args context h = .ok vs h1) :
    ∃ p h2, ToListFunction.Apply ev self args h = .ok p h2 ∧ IsList h2 p vs ∧ Extends h1 h2 := by
  have hctx := Function.context__of_deref hself
  cases hr : vs.reverse with
  | nil =>
    have hvs : vs = [] := List.reverse_eq_nil_iff.mp hr
    subst hvs
    refine ⟨.nullptr, h1, ?_, .nil, Extends_refl h1⟩
    simp only [ToListFunction.Apply, bind_eq, hctx, hev, List.reverse_nil, pure_eq]
  | cons last rest =>
    obtain ⟨c, h2, hm⟩ := Make_ok (.Cell last .nullptr)
      (AddDependency (AddDependency [] last) .nullptr) h1
    have hl : IsList h2 c [last] := .cons (deref_Make_self hm) .nil
    obtain ⟨q, h3, hloop, hl3, hx3⟩ := ToListFunction_Loop_IsList rest h2 c [last] hl
    have hvs : vs = rest.reverse ++ [last] := by
      rw [← List.reverse_reverse vs, hr, List.reverse_cons]
    refine ⟨q, h3, ?_, ?_, Extends_trans (Extends_Make hm) hx3⟩
    · simp only [ToListFunction.Apply, bind_eq, hctx, hev, hr, MakeCell, hm, hloop]
    · rw [hvs]; exact hl3

theorem Is_Cell_of_IsList {h : Heap} {p : ObjectPtr} {xs : ObjectPtrVector}
    (hl : IsList h p xs) : Is .Cell p h = .ok (!xs.isEmpty) h := by
  cases hl with
  | nil => rfl
  | cons hp _ => rw [Is_of_deref hp]; rfl

theorem LastCell_of_IsList {h : Heap} : ∀ {p : ObjectPtr} {xs : ObjectPtrVector},
    IsList h p xs → xs ≠ [] → ∀ fuel, xs.length ≤ fuel →
    ∃ c first, LastCell fuel p h = .ok c h ∧ deref c h = .ok (.Cell first .nullptr) h := by
  intro p xs hl
  induction hl with
  | nil => intro hne; exact absurd rfl hne
  | @cons p first second rest hp hrest ih =>
    intro _ fuel hf
    obtain ⟨n, rfl⟩ : ∃ n, fuel = n + 1 := ⟨fuel - 1, by simp at hf; omega⟩
    have his := Is_Cell_of_IsList hrest
    cases rest with
    | nil =>
      cases hrest
      refine ⟨p, first, ?_, hp⟩
      simp only [LastCell, bind_eq, hp, Is_nullptr, Bool.false_eq_true, if_false, pure_eq]
    | cons y r =>
      obtain ⟨c, f1, hlast, hc⟩ := ih (by simp) n (by simp at hf ⊢; omega)
      refine ⟨c, f1, ?_, hc⟩
      simp only [LastCell, bind_eq, hp, his, List.isEmpty_cons, Bool.not_false, if_true, hlast]

theorem LastCell_of_ImproperList {h : Heap} : ∀ {p : ObjectPtr} {n : Nat},
    ImproperList h p n → ∀ fuel, n ≤ fuel →
    ∃ c first second, LastCell fuel p h = .ok c h ∧ deref c h = .ok (.Cell first second) h ∧
      second ≠ .nullptr := by
  intro p n hl
  induction hl with
  | @last p first second o hp hs ho =>
    intro fuel hf
    obtain ⟨n, rfl⟩ : ∃ n, fuel = n + 1 := ⟨fuel - 1, by omega⟩
    refine ⟨p, first, second, ?_, hp, ne_nullptr_of_deref hs⟩
    simp only [LastCell, bind_eq, hp, Is_of_deref hs, ho, Bool.false_eq_true, if_false, pure_eq]
  | @cons p first second m hp hrest ih =>
    intro fuel hf
    obtain ⟨n, rfl⟩ : ∃ n, fuel = n + 1 := ⟨fuel - 1, by omega⟩
    obtain ⟨c, f1, s1, hlast, hc, hne⟩ := ih n (by omega)
    have his : Is .Cell second h = .ok true h := by
      cases hrest with
      | last hp2 _ _ => rw [Is_of_deref hp2]; rfl
      | cons hp2 _ => rw [Is_of_deref hp2]; rfl
    refine ⟨c, f1, s1, ?_, hc, hne⟩
    simp only [LastCell, bind_eq, hp, his, if_true, hlast]

theorem CheckIfList_cell {h : Heap} {fuel : Nat} {p c first second : ObjectPtr} {o : Object}
    (hp : deref p h = .ok o h) (ho : o.hasType .Cell = true)
    (hlast : LastCell fuel p h = .ok c h) (hc : deref c h = .ok (.Cell first second) h) :
    CheckIfList fuel p h
      = if second = .nullptr then Make (.BooleanSymbol "#t") [] h
        else Make (.BooleanSymbol "#f") [] h := by
  simp only [CheckIfList, bind_eq, Is_of_deref hp, ho, Bool.not_true, Bool.false_eq_true,
    if_false, hlast, hc]
  by_cases hs : second = .nullptr <;> simp only [hs, if_true, if_false]

theorem deref_cases (p : ObjectPtr) (h : Heap) :
    deref p h = .undefined ∨ ∃ o, deref p h = .ok o h := by
  rcases load_cases p h with hu | ⟨o, hl⟩
  · left; rw [deref_eq, hu]
  · right; exact ⟨o.obj, deref_of_load hl⟩

theorem LastCell_sound {h : Heap} : ∀ (fuel : Nat) (p c : ObjectPtr) (h1 : Heap),
    LastCell fuel p h = .ok c h1 →
    h1 = h ∧ ∀ first, deref c h = .ok (.Cell first .nullptr) h → ∃ xs, IsList h p xs := by
  intro fuel
  induction fuel with
  | zero => intro p c h1 hl; cases hl
  | succ n ih =>
    intro p c h1 hl
    rcases deref_cases p h with hu | ⟨o, hp⟩
    · simp only [LastCell, bind_eq, hu] at hl
      cases hl
    · cases o with
      | Cell f s =>
        simp only [LastCell, bind_eq, hp] at hl
        by_cases hs : s = .nullptr
        · subst hs
          simp only [Is_nullptr, Bool.false_eq_true, if_false, pure_eq] at hl
          injection hl with hc hh
          subst hc
          exact ⟨hh.symm, fun _ _ => ⟨[f], .cons hp .nil⟩⟩
        · rcases deref_cases s h with hus | ⟨o2, hs2⟩
          · have his : Is .Cell s h = .undefined := by
              cases s with
              | nullptr => exact absurd rfl hs
              | addr a => simp only [Is, bind_eq, hus]
              | invalid => simp only [Is, bind_eq, hus]
            rw [his] at hl
            cases hl
          · rw [Is_of_deref hs2] at hl
            cases ht : o2.hasType .Cell with
            | true =>
              simp only [ht, if_true] at hl
              obtain ⟨hh, hxs⟩ := ih s c h1 hl
              refine ⟨hh, fun first hc => ?_⟩
              obtain ⟨xs, hl2⟩ := hxs first hc
              exact ⟨f :: xs, .cons hp hl2⟩
            | false =>
              simp only [ht, Bool.false_eq_true, if_false, pure_eq] at hl
              injection hl with hc hh
              subst hc
              refine ⟨hh.symm, fun first hc => ?_⟩
              rw [hp] at hc
              injection hc with hc1 _
              injection hc1 with _ hc2
              exact absurd hc2 hs
      | _ =>
        simp only [LastCell, bind_eq, hp] at hl
        cases hl

theorem CheckIfList_sound {h h2 : Heap} {fuel : Nat} {p q : ObjectPtr}
    (hc : CheckIfList fuel p h = .ok q h2) (hq : deref q h2 = .ok (.BooleanSymbol "#t") h2) :
    ∃ xs, IsList h p xs := by
  have hfalse : ∀ {h0 : Heap}, Make (.BooleanSymbol "#f") [] h0 = .ok q h2 → False := by
    intro h0 hm
    have := deref_Make_self hm
    rw [hq] at this
    injection this with he _
    injection he with he1
    exact absurd he1 (by decide)
  by_cases hp0 : p = .nullptr
  · subst hp0
    exact ⟨[], .nil⟩
  · rcases deref_cases p h with hu | ⟨o, hp⟩
    · have his : Is .Cell p h = .undefined := by
        cases p with
        | nullptr => exact absurd rfl hp0
        | addr a => simp only [Is, bind_eq, hu]
        | invalid => simp only [Is, bind_eq, hu]
      simp only [CheckIfList, bind_eq, his] at hc
      cases hc
    · simp only [CheckIfList, bind_eq, Is_of_deref hp] at hc
      cases ht : o.hasType .Cell with
      | false =>
        simp only [ht, Bool.not_false, if_true, hp0, if_false] at hc
        exact absurd hc (fun hm => hfalse hm)
      | true =>
        simp only [ht, Bool.not_true, Bool.false_eq_true, if_false, bind_eq] at hc
        cases hl : LastCell fuel p h with
        | ok c h1 =>
          obtain ⟨hh, hxs⟩ := LastCell_sound fuel p c h1 hl
          subst hh
          simp only [hl] at hc
          rcases deref_cases c h1 with huc | ⟨oc, hcc⟩
          · simp only [huc] at hc
            cases hc
          · cases oc with
            | Cell f s =>
              by_cases hs : s = .nullptr
              · subst hs
                exact hxs f hcc
              · simp only [hcc, hs, if_false] at hc
                exact absurd hc (fun hm => hfalse hm)
            | _ =>
              simp only [hcc] at hc
              cases hc
        | exception e h1 => rw [hl] at hc; cases hc
        | undefined => rw [hl] at hc; cases hc
        | timeout => rw [hl] at hc; cases hc

/-- C19.  Let the argument of `list?` evaluate to `p`.  The call is
`CheckIfList` on `p`, which returns a new `#t` when `p` is a proper list
(null, or a chain of pairs whose last second field is null), and a new `#f`
when `p` is an improper chain or an object that is not a pair; conversely,
whenever it returns `#t`, `p` is a proper list.  In particular, when the
argument is an application of `list`, the call returns `#t`.  The budget
only has to reach the number of pairs of the chain. -/
theorem C19_list_predicate (ev : ObjectPtr → ObjectPtr → M ObjectPtr) (fuel : Nat)
    (h h1 : Heap) (self context x p : ObjectPtr)
    (hself : deref self h = .ok (.Function .ListPredicateFunction context) h)
    (hx : ev x context h = .ok p h1) :
    ListPredicateFunction.Apply ev fuel self [x] h = CheckIfList fuel p h1 ∧
    (∀ xs, IsList h1 p xs → xs.length ≤ fuel →
      CheckIfList fuel p h1 = Make (.BooleanSymbol "#t") [] h1) ∧
    (∀ n, ImproperList h1 p n → n ≤ fuel →
      CheckIfList fuel p h1 = Make (.BooleanSymbol "#f") [] h1) ∧
    (∀ o, deref p h1 = .ok o h1 → o.hasType .Cell = false →
      CheckIfList fuel p h1 = Make (.BooleanSymbol "#f") [] h1) ∧
    (∀ q h2, CheckIfList fuel p h1 = .ok q h2 → deref q h2 = .ok (.BooleanSymbol "#t") h2 →
      ∃ xs, IsList h1 p xs) ∧
    (∀ (lself : ObjectPtr) (args vs : ObjectPtrVector) (h0 : Heap),
      deref lself h = .ok (.Function .ToListFunction context) h →
      ev x context h = ToListFunction.Apply ev lself args h →
      EvaluateListArguments ev args context h = .ok vs h0 → vs.length ≤ fuel →
      ListPredicateFunction.Apply ev fuel self [x] h = Make (.BooleanSymbol "#t") [] h1) := by
  have happ : ListPredicateFunction.Apply ev fuel self [x] h = CheckIfList fuel p h1 := by
    simp only [ListPredicateFunction.Apply, bind_eq, Function.context__of_deref hself,
      EvaluateListArguments_one hx, ThrowIfWrongNumberOfArguments_one]
  have hproper : ∀ xs, IsList h1 p xs → xs.length ≤ fuel →
      CheckIfList fuel p h1 = Make (.BooleanSymbol "#t") [] h1 := by
    intro xs hl hf
    cases hl with
    | nil =>
      simp only [CheckIfList, bind_eq, Is_nullptr, Bool.not_false, if_true]
    | @cons _ first second rest hp hrest =>
      obtain ⟨c, f1, hlast, hc⟩ := LastCell_of_IsList (.cons hp hrest) (by simp) fuel hf
      rw [CheckIfList_cell hp rfl hlast hc, if_pos rfl]
  refine ⟨happ, hproper, ?_, ?_, ?_, ?_⟩
  · intro n hl hf
    obtain ⟨c, f1, s1, hlast, hc, hne⟩ := LastCell_of_ImproperList hl fuel hf
    have hp : ∃ a b, deref p h1 = .ok (.Cell a b) h1 := by
      cases hl with
      | last hp _ _ => exact ⟨_, _, hp⟩
      | cons hp _ => exact ⟨_, _, hp⟩
    obtain ⟨a, b, hp⟩ := hp
    rw [CheckIfList_cell hp rfl hlast hc, if_neg hne]
  · intro o hp ho
    simp only [CheckIfList, bind_eq, Is_of_deref hp, ho, Bool.not_false, if_true,
      ne_nullptr_of_deref hp, if_false]
  · intro q h2 hc hq
    exact CheckIfList_sound hc hq
  · intro lself args vs h0 hlself hxl hargs hlen
    obtain ⟨l, h2, hlist, hl, _⟩ := ToListFunction_Apply_IsList hlself hargs
    rw [hxl, hlist] at hx
    injection hx with hp hh
    subst hp hh
    rw [happ]
    exact hproper vs hl hlen

/-- C19 at a concrete input: `(list? (list 1 2))` returns a new `#t` and
`(list? (cons 1 2))` a new `#f`. -/
theorem C19_list_predicate_witness :
    ListPredicateFunction.Apply (EvaluateExpression 5) 5 (.addr 0) [.addr 12] listExample
      = Make (.BooleanSymbol "#t") [] (evaluatedIn [.addr 12] listExample) ∧
    ListPredicateFunction.Apply (EvaluateExpression 5) 5 (.addr 0) [.addr 13] listExample
      = Make (.BooleanSymbol "#f") [] (evaluatedIn [.addr 13] listExample) := by
  have key1 := C19_list_predicate (EvaluateExpression 5) 5 listExample
    (evaluatedIn [.addr 12] listExample) (.addr 0) (.addr 2) (.addr 12) (.addr 19)
    (by decide!) (by decide!)
  have key2 := C19_list_predicate (EvaluateExpression 5) 5 listExample
    (evaluatedIn [.addr 13] listExample) (.addr 0) (.addr 2) (.addr 13) (.addr 18)
    (by decide!) (by decide!)
  refine ⟨key1.2.2.2.2.2 (.addr 3) [.addr 8, .addr 9] [.addr 16, .addr 17]
    (evaluatedIn [.addr 8, .addr 9] listExample) (by decide!) (by decide!) (by decide!)
    (by decide), ?_⟩
  rw [key2.1]
  exact key2.2.2.1 1
    (@ImproperList.last _ (.addr 18) (.addr 16) (.addr 17) (.Number 2) (by decide!) (by decide!)
      rfl)
    (by decide)

end Scheme

namespace Scheme

/-! ## C20: list-ref -/

/-- The loop of `list-ref` on a proper list, from `count` with `j` steps to
go: it stops at the pair number `j` when the list has one, and at the last
pair otherwise. -/
theorem ListRefFunction_Loop_of_IsList {h : Heap} : ∀ {l : ObjectPtr} {xs : ObjectPtrVector},
    IsList h l xs → ∀ (count : Int) (j fuel : Nat), xs.length ≤ fuel →
    (∀ e, xs.get? j = some e →
      ∃ cell second, ListRefFunction.Loop fuel l count (count + j) h = .ok (cell, count + j) h ∧
        deref cell h = .ok (.Cell e second) h) ∧
    (xs ≠ [] → xs.length ≤ j →
      ∃ cell, ListRefFunction.Loop fuel l count (count + j) h
        = .ok (cell, count + ((xs.length - 1 : Nat) : Int)) h) := by
  intro l xs hl
  induction hl with
  | nil =>
    intro count j fuel _
    exact ⟨(fun e he => by cases he), (fun hne => absurd rfl hne)⟩
  | @cons p first second rest hp hrest ih =>
    intro count j fuel hf
    obtain ⟨n, rfl⟩ : ∃ n, fuel = n + 1 := ⟨fuel - 1, by simp at hf; omega⟩
    have hfn : rest.length ≤ n := by simp at hf; omega
    cases j with
    | zero =>
      constructor
      · intro e he
        simp only [List.get?] at he
        injection he with he
        subst he
        refine ⟨p, second, ?_, hp⟩
        simp only [ListRefFunction.Loop, Nat.cast_zero, add_zero, if_true, pure_eq]
      · intro _ hlen
        simp at hlen
    | succ j1 =>
      have hne : ¬ count = count + ((j1 + 1 : Nat) : Int) := by
        push_cast
        omega
      have his := Is_Cell_of_IsList hrest
      have hreq : count + ((j1 + 1 : Nat) : Int) = (count + 1) + (j1 : Int) := by
        push_cast
        ring
      cases rest with
      | nil =>
        cases hrest
        constructor
        · intro e he
          simp only [List.get?] at he
          cases he
        · intro _ _
          refine ⟨p, ?_⟩
          simp only [ListRefFunction.Loop, hne, if_false, bind_eq, hp, Is_nullptr,
            Bool.false_eq_true, pure_eq, List.length_singleton, Nat.sub_self, Nat.cast_zero,
            add_zero]
      | cons y r =>
        obtain ⟨ih1, ih2⟩ := ih (count + 1) j1 n hfn
        have hstep : ListRefFunction.Loop (n + 1) p count (count + ((j1 + 1 : Nat) : Int)) h
            = ListRefFunction.Loop n second (count + 1) ((count + 1) + (j1 : Int)) h := by
          have hne1 : ¬ count = (count + 1) + (j1 : Int) := by omega
          rw [hreq]
          simp only [ListRefFunction.Loop, hne1, if_false, bind_eq, hp, his, List.isEmpty_cons,
            Bool.not_false, if_true]
        rw [hstep]
        constructor
        · intro e he
          simp only [List.get?] at he
          obtain ⟨cell, s2, hloop, hc⟩ := ih1 e he
          exact ⟨cell, s2, by rw [hloop, hreq], hc⟩
        · intro _ hlen
          obtain ⟨cell, hloop⟩ := ih2 (by simp) (by simp at hlen ⊢; omega)
          refine ⟨cell, ?_⟩
          rw [hloop]
          congr 2
          simp only [List.length_cons, Nat.add_sub_cancel]
          push_cast
          ring

/-- C20.  Let the arguments of `list-ref` evaluate to a proper list with the
elements `xs` and to the number `k`.  If `0 ≤ k` and `k` is less than the
length of the list, the call returns the element number `k` (counted from
zero).  If `k` is negative, or not less than the length (so for every `k` when
the list is empty), the call throws `RuntimeError`.  A list built by `list`
is a proper list whose elements are the values of the arguments, in order.
The budget only has to reach the length of the list. -/
theorem C20_list_ref (ev : ObjectPtr → ObjectPtr → M ObjectPtr) (fuel : Nat) (h h1 : Heap)
    (self context el ek l kp : ObjectPtr) (xs : ObjectPtrVector) (k : Int)
    (hself : deref self h = .ok (.Function .ListRefFunction context) h)
    (hev : EvaluateListArguments ev [el, ek] context h = .ok [l, kp] h1)
    (hl : IsList h1 l xs) (hk : deref kp h1 = .ok (.Number k) h1) (hf : xs.length ≤ fuel) :
    (∀ e, 0 ≤ k → xs.get? k.toNat = some e →
      ∃ h2, ListRefFunction.Apply ev fuel self [el, ek] h = .ok e h2) ∧
    ((k < 0 ∨ (xs.length : Int) ≤ k) →
      ∃ message h2, ListRefFunction.Apply ev fuel self [el, ek] h
        = .exception (.RuntimeError message) h2) ∧
    (∀ (lself c0 : ObjectPtr) (args vs : ObjectPtrVector) (h0 h3 : Heap),
      deref lself h0 = .ok (.Function .ToListFunction c0) h0 →
      EvaluateListArguments ev args c0 h0 = .ok vs h3 →
      ∃ p h4, ToListFunction.Apply ev lself args h0 = .ok p h4 ∧ IsList h4 p vs) := by
  have hctx := Function.context__of_deref hself
  obtain ⟨check, h2, hm⟩ := Make_ok (.BooleanSymbol "#t") [] h1
  have hx := Extends_Make hm
  have hl2 : IsList h2 l xs := IsList_frame (Extends_frame hx) hl
  have hk2 : deref kp h2 = .ok (.Number k) h2 := Extends_deref hx hk
  have hcheck : CheckIfList fuel l h1 = .ok check h2 := by
    rw [← hm]
    cases hl with
    | nil => simp only [CheckIfList, bind_eq, Is_nullptr, Bool.not_false, if_true]
    | @cons _ first second rest hp hrest =>
      obtain ⟨c, f1, hlast, hc⟩ := LastCell_of_IsList (.cons hp hrest) (by simp) fuel hf
      rw [CheckIfList_cell hp rfl hlast hc, if_pos rfl]
  have htrue : AsBooleanIsTrue check h2 = .ok true h2 := by
    simp only [AsBooleanIsTrue, bind_eq, deref_Make_self hm, pure_eq]
    rfl
  have hty : ThrowIfMismatchOperandType .Number 1 [l, kp]
      "Second operand for list-ref (tail) must be number." h2 = .ok () h2 := by
    simp only [ThrowIfMismatchOperandType, List.get?, bind_eq, Is_of_deref hk2, Object.hasType,
      Bool.not_true, Bool.false_eq_true, if_false, pure_eq]
  have hval : ValidateArgumentsForListTailAndRef fuel [l, kp] h1
      = if k < 0 then
          .exception (.RuntimeError "Second operand for list-ref (tail) must be non-negative.") h2
        else .ok () h2 := by
    simp only [ValidateArgumentsForListTailAndRef, bind_eq, ThrowIfWrongNumberOfArguments_two,
      hcheck, htrue, Bool.not_true, Bool.false_eq_true, if_false, hty, GetValue_of_deref hk2]
    by_cases hneg : k < 0 <;> simp only [hneg, if_true, if_false, throw_eq, pure_eq]
  have happ : ¬ k < 0 → ListRefFunction.Apply ev fuel self [el, ek] h
      = (if l = .nullptr then
          throw (.RuntimeError "Index for list-ref must less than list size.")
        else do
          let (cell, count) ← ListRefFunction.Loop fuel l 0 k
          if count ≠ k then
            throw (.RuntimeError "Index for list-ref must less than list size.")
          else
            match ← deref cell with
            | .Cell first_ _ => pure first_
            | _ => undefined) h2 := by
    intro hneg
    simp only [ListRefFunction.Apply, bind_eq, hctx, hev, hval, hneg, if_false,
      GetValue_of_deref hk2]
  refine ⟨?_, ?_, ?_⟩
  · intro e h0 he
    have hneg : ¬ k < 0 := by omega
    have hne : l ≠ .nullptr := by
      rintro rfl
      cases hl2 with
      | nil => cases he
      | cons hp _ => rw [deref_nullptr] at hp; cases hp
    obtain ⟨cell, second, hloop, hc⟩ :=
      (ListRefFunction_Loop_of_IsList hl2 0 k.toNat fuel hf).1 e he
    have hkk : (0 : Int) + (k.toNat : Int) = k := by
      rw [Int.toNat_of_nonneg h0]; ring
    rw [hkk] at hloop
    refine ⟨h2, ?_⟩
    rw [happ hneg]
    simp only [hne, if_false, bind_eq, hloop, ne_eq, not_true_eq_false, hc, pure_eq]
  · intro hbad
    by_cases hneg : k < 0
    · refine ⟨"Second operand for list-ref (tail) must be non-negative.", h2, ?_⟩
      simp only [ListRefFunction.Apply, bind_eq, hctx, hev, hval, hneg, if_true]
    · have hlen : (xs.length : Int) ≤ k := by
        rcases hbad with hb | hb
        · exact absurd hb hneg
        · exact hb
      refine ⟨"Index for list-ref must less than list size.", h2, ?_⟩
      rw [happ hneg]
      by_cases hnull : l = .nullptr
      · simp only [hnull, if_true, throw_eq]
      · have hxs : xs ≠ [] := by
          rintro rfl
          cases hl2
          exact hnull rfl
        have hj : xs.length ≤ k.toNat := by omega
        obtain ⟨cell, hloop⟩ := (ListRefFunction_Loop_of_IsList hl2 0 k.toNat fuel hf).2 hxs hj
        have hkk : (0 : Int) + (k.toNat : Int) = k := by
          rw [Int.toNat_of_nonneg (by omega)]; ring
        rw [hkk] at hloop
        have hpos : 0 < xs.length := List.length_pos.mpr hxs
        have hcount : (0 : Int) + ((xs.length - 1 : Nat) : Int) ≠ k := by omega
        simp only [hnull, if_false, bind_eq, hloop, ne_eq, hcount, not_false_eq_true, if_true,
          throw_eq]
  · intro lself c0 args vs h0 h3 hlself hargs
    obtain ⟨p, h4, hlist, hl4, _⟩ := ToListFunction_Apply_IsList hlself hargs
    exact ⟨p, h4, hlist, hl4⟩

/-- C20 at a concrete input: `(list-ref (list 1 2) 0)` returns the value of
`1`, and `(list-ref (list 1 2) 5)` throws. -/
theorem C20_list_ref_witness :
    (∃ h2, ListRefFunction.Apply (EvaluateExpression 5) 5 (.addr 4) [.addr 12, .addr 14]
      listExample = .ok (.addr 16) h2) ∧
    (∃ message h2, ListRefFunction.Apply (EvaluateExpression 5) 5 (.addr 4)
      [.addr 12, .addr 15] listExample = .exception (.RuntimeError message) h2) :=
  ⟨(C20_list_ref (EvaluateExpression 5) 5 listExample
      (evaluatedIn [.addr 12, .addr 14] listExample) (.addr 4) (.addr 2) (.addr 12) (.addr 14)
      (.addr 19) (.addr 20) [.addr 16, .addr 17] 0 (by decide!) (by decide!)
      (@IsList.cons _ (.addr 19) (.addr 16) (.addr 18) _ (by decide!)
        (@IsList.cons _ (.addr 18) (.addr 17) .nullptr _ (by decide!) .nil))
      (by decide!) (by decide)).1 (.addr 16) (by decide) rfl,
   (C20_list_ref (EvaluateExpression 5) 5 listExample
      (evaluatedIn [.addr 12, .addr 15] listExample) (.addr 4) (.addr 2) (.addr 12) (.addr 15)
      (.addr 19) (.addr 20) [.addr 16, .addr 17] 5 (by decide!) (by decide!)
      (@IsList.cons _ (.addr 19) (.addr 16) (.addr 18) _ (by decide!)
        (@IsList.cons _ (.addr 18) (.addr 17) .nullptr _ (by decide!) .nil))
      (by decide!) (by decide)).2.1 (.inr (by decide))⟩

end Scheme

namespace Scheme

/-! ## C21, C22: list-tail -/

/-- Following the second fields of a proper list `j` times, for `j` at most
its length, reaches a proper list of the remaining elements. -/
theorem NthTail_of_IsList {h : Heap} : ∀ {l : ObjectPtr} {xs : ObjectPtrVector},
    IsList h l xs → ∀ j, j ≤ xs.length → ∃ t, NthTail h l j t ∧ IsList h t (xs.drop j) := by
  intro l xs hl
  induction hl with
  | nil =>
    intro j hj
    simp at hj
    subst hj
    exact ⟨.nullptr, .zero, .nil⟩
  | @cons p first second rest hp hrest ih =>
    intro j hj
    cases j with
    | zero => exact ⟨p, .zero, .cons hp hrest⟩
    | succ j1 =>
      obtain ⟨t, ht, hl⟩ := ih j1 (by simp at hj; omega)
      exact ⟨t, .succ hp ht, hl⟩

/-- The tail of a proper list after all its elements is null. -/
theorem NthTail_length_of_IsList {h : Heap} : ∀ {l : ObjectPtr} {xs : ObjectPtrVector},
    IsList h l xs → NthTail h l xs.length .nullptr := by
  intro l xs hl
  induction hl with
  | nil => exact .zero
  | cons hp _ ih => exact .succ hp ih

/-- The loop of `list-tail` on a proper list, from `count` with `j` steps to
go: it stops at the `j`-th tail when `j` is less than the length, at the last
pair when the list is not empty and `j` is not less than the length, and at
once on the empty list. -/
theorem ListTailFunction_Loop_of_IsList {h : Heap} : ∀ {l : ObjectPtr} {xs : ObjectPtrVector},
    IsList h l xs → ∀ (count : Int) (j fuel : Nat), xs.length < fuel →
    (j < xs.length →
      ∃ t, ListTailFunction.Loop fuel l count (count + j) h = .ok (t, count + j) h ∧
        NthTail h l j t ∧ IsList h t (xs.drop j)) ∧
    (xs ≠ [] → xs.length ≤ j →
      ∃ cell, ListTailFunction.Loop fuel l count (count + j) h
        = .ok (cell, count + ((xs.length - 1 : Nat) : Int)) h) ∧
    (xs = [] → ListTailFunction.Loop fuel l count (count + j) h = .ok (.nullptr, count) h) := by
  intro l xs hl
  induction hl with
  | nil =>
    intro count j fuel hf
    obtain ⟨n, rfl⟩ : ∃ n, fuel = n + 1 := ⟨fuel - 1, by simp at hf; omega⟩
    refine ⟨(fun hj => by simp at hj), (fun hne => absurd rfl hne), ?_⟩
    intro _
    by_cases hc : count = count + (j : Int)
    · simp only [ListTailFunction.Loop, ← hc, if_true, pure_eq]
    · simp only [ListTailFunction.Loop, hc, if_false, if_true, pure_eq]
  | @cons p first second rest hp hrest ih =>
    intro count j fuel hf
    obtain ⟨n, rfl⟩ : ∃ n, fuel = n + 1 := ⟨fuel - 1, by simp at hf; omega⟩
    have hfn : rest.length < n := by simp at hf; omega
    have hpn : p ≠ .nullptr := ne_nullptr_of_deref hp
    cases j with
    | zero =>
      refine ⟨?_, ?_, ?_⟩
      · intro _
        refine ⟨p, ?_, .zero, .cons hp hrest⟩
        simp only [ListTailFunction.Loop, Nat.cast_zero, add_zero, if_true, pure_eq]
      · intro _ hlen
        simp at hlen
      · intro hnil
        cases hnil
    | succ j1 =>
      have hne : ¬ count = count + ((j1 + 1 : Nat) : Int) := by
        push_cast
        omega
      have his := Is_Cell_of_IsList hrest
      have hreq : count + ((j1 + 1 : Nat) : Int) = (count + 1) + (j1 : Int) := by
        push_cast
        ring
      refine ⟨?_, ?_, (fun hnil => by cases hnil)⟩
      · intro hj
        cases rest with
        | nil => simp at hj
        | cons y r =>
          obtain ⟨t, hloop, ht, hlt⟩ := (ih (count + 1) j1 n hfn).1 (by simp at hj ⊢; omega)
          refine ⟨t, ?_, .succ hp ht, hlt⟩
          have hne1 : ¬ count = (count + 1) + (j1 : Int) := by omega
          rw [hreq]
          simp only [ListTailFunction.Loop, hne1, hpn, if_false, bind_eq, hp, his,
            List.isEmpty_cons, Bool.not_false, if_true, hloop]
      · intro _ hlen
        cases rest with
        | nil =>
          cases hrest
          refine ⟨p, ?_⟩
          simp only [ListTailFunction.Loop, hne, hpn, if_false, bind_eq, hp, Is_nullptr,
            Bool.false_eq_true, pure_eq, List.length_singleton, Nat.sub_self, Nat.cast_zero,
            add_zero]
        | cons y r =>
          obtain ⟨cell, hloop⟩ := (ih (count + 1) j1 n hfn).2.1 (by simp)
            (by simp at hlen ⊢; omega)
          refine ⟨cell, ?_⟩
          have hne1 : ¬ count = (count + 1) + (j1 : Int) := by omega
          rw [hreq]
          simp only [ListTailFunction.Loop, hne1, hpn, if_false, bind_eq, hp, his,
            List.isEmpty_cons, Bool.not_false, if_true, hloop]
          congr 2
          simp only [List.length_cons, Nat.add_sub_cancel]
          push_cast
          ring

/-- C21.  Let the arguments of `list-tail` evaluate to a proper list with the
elements `xs` and to the number `k` with `0 ≤ k` and `k` at most the length
of the list.  Then the call returns the pointer `t` that is reached from the
list by following the second field `k` times: no pair is copied, every
object of the heap before the call is unchanged, `t` is a proper list of the
elements of `xs` from index `k` on, and `t` is null when `k` is the length.
The budget only has to exceed the length of the list. -/
theorem C21_list_tail (ev : ObjectPtr → ObjectPtr → M ObjectPtr) (fuel : Nat) (h h1 : Heap)
    (self context el ek l kp : ObjectPtr) (xs : ObjectPtrVector) (k : Int)
    (hself : deref self h = .ok (.Function .ListTailFunction context) h)
    (hev : EvaluateListArguments ev [el, ek] context h = .ok [l, kp] h1)
    (hl : IsList h1 l xs) (hk : deref kp h1 = .ok (.Number k) h1) (hf : xs.length < fuel)
    (h0 : 0 ≤ k) (hkn : k ≤ xs.length) :
    ∃ t h2, ListTailFunction.Apply ev fuel self [el, ek] h = .ok t h2 ∧ Extends h1 h2 ∧
      NthTail h2 l k.toNat t ∧ IsList h2 t (xs.drop k.toNat) ∧
      (k = xs.length → t = .nullptr) := by
  have hctx := Function.context__of_deref hself
  obtain ⟨check, h2, hm⟩ := Make_ok (.BooleanSymbol "#t") [] h1
  have hx := Extends_Make hm
  have hl2 : IsList h2 l xs := IsList_frame (Extends_frame hx) hl
  have hk2 : deref kp h2 = .ok (.Number k) h2 := Extends_deref hx hk
  have hcheck : CheckIfList fuel l h1 = .ok check h2 := by
    rw [← hm]
    cases hl with
    | nil => simp only [CheckIfList, bind_eq, Is_nullptr, Bool.not_false, if_true]
    | @cons _ first second rest hp hrest =>
      obtain ⟨c, f1, hlast, hc⟩ := LastCell_of_IsList (.cons hp hrest) (by simp) fuel
        (Nat.le_of_lt hf)
      rw [CheckIfList_cell hp rfl hlast hc, if_pos rfl]
  have htrue : AsBooleanIsTrue check h2 = .ok true h2 := by
    simp only [AsBooleanIsTrue, bind_eq, deref_Make_self hm, pure_eq]
    rfl
  have hty : ThrowIfMismatchOperandType .Number 1 [l, kp]
      "Second operand for list-ref (tail) must be number." h2 = .ok () h2 := by
    simp only [ThrowIfMismatchOperandType, List.get?, bind_eq, Is_of_deref hk2, Object.hasType,
      Bool.not_true, Bool.false_eq_true, if_false, pure_eq]
  have hneg : ¬ k < 0 := by omega
  have hval : ValidateArgumentsForListTailAndRef fuel [l, kp] h1 = .ok () h2 := by
    simp only [ValidateArgumentsForListTailAndRef, bind_eq, ThrowIfWrongNumberOfArguments_two,
      hcheck, htrue, Bool.not_true, Bool.false_eq_true, if_false, hty, GetValue_of_deref hk2,
      hneg, pure_eq]
  have happ : ListTailFunction.Apply ev fuel self [el, ek] h
      = (do
          let (cell, count) ← ListTailFunction.Loop fuel l 0 k
          if count = k - 1 then pure ObjectPtr.nullptr
          else if count = k then pure cell
          else throw (.RuntimeError "Index for list-tail must less or equal to list size.")) h2 := by
    simp only [ListTailFunction.Apply, bind_eq, hctx, hev, hval, GetValue_of_deref hk2]
  have hkk : (0 : Int) + (k.toNat : Int) = k := by
    rw [Int.toNat_of_nonneg h0]; ring
  have hloops := ListTailFunction_Loop_of_IsList hl2 0 k.toNat fuel hf
  rw [hkk] at hloops
  rw [happ]
  by_cases hlt : k.toNat < xs.length
  · obtain ⟨t, hloop, ht, hlt2⟩ := hloops.1 hlt
    have hk1 : ¬ k = k - 1 := by omega
    refine ⟨t, h2, ?_, hx, ht, hlt2, (fun he => by omega)⟩
    simp only [bind_eq, hloop, hk1, if_false, if_true, pure_eq]
  · have hke : k.toNat = xs.length := by omega
    have hnil : IsList h2 .nullptr (xs.drop k.toNat) := by
      rw [hke, List.drop_length]
      exact .nil
    have htail : NthTail h2 l k.toNat .nullptr := by
      rw [hke]
      exact NthTail_length_of_IsList hl2
    refine ⟨.nullptr, h2, ?_, hx, htail, hnil, (fun _ => rfl)⟩
    by_cases hxs : xs = []
    · have hloop := hloops.2.2 hxs
      subst hxs
      have hk0 : k = 0 := by simp at hkn; omega
      subst hk0
      simp only [bind_eq, hloop]
      rfl
    · obtain ⟨cell, hloop⟩ := hloops.2.1 hxs (by omega)
      have hpos : 0 < xs.length := List.length_pos.mpr hxs
      have hcount : (0 : Int) + ((xs.length - 1 : Nat) : Int) = k - 1 := by omega
      simp only [bind_eq, hloop, hcount, if_true, pure_eq]

/-- C21 at a concrete input: `(list-tail (list 1 2) 1)` returns the second
pair of the list, and `(list-tail (list 1 2) 2)` returns null. -/
theorem C21_list_tail_witness :
    (∃ t h2, ListTailFunction.Apply (EvaluateExpression 5) 5 (.addr 4) [.addr 12, .addr 14]
        listTailExample = .ok t h2 ∧
      Extends (evaluatedIn [.addr 12, .addr 14] listTailExample) h2 ∧
      NthTail h2 (.addr 19) (1 : Int).toNat t ∧
      IsList h2 t ([ObjectPtr.addr 16, .addr 17].drop (1 : Int).toNat) ∧
      ((1 : Int) = [ObjectPtr.addr 16, .addr 17].length → t = .nullptr)) ∧
    (∃ t h2, ListTailFunction.Apply (EvaluateExpression 5) 5 (.addr 4) [.addr 12, .addr 15]
        listTailExample = .ok t h2 ∧
      Extends (evaluatedIn [.addr 12, .addr 15] listTailExample) h2 ∧
      NthTail h2 (.addr 19) (2 : Int).toNat t ∧
      IsList h2 t ([ObjectPtr.addr 16, .addr 17].drop (2 : Int).toNat) ∧
      ((2 : Int) = [ObjectPtr.addr 16, .addr 17].length → t = .nullptr)) :=
  ⟨C21_list_tail (EvaluateExpression 5) 5 listTailExample
      (evaluatedIn [.addr 12, .addr 14] listTailExample) (.addr 4) (.addr 2) (.addr 12) (.addr 14)
      (.addr 19) (.addr 20) [.addr 16, .addr 17] 1 (by decide!) (by decide!)
      (@IsList.cons _ (.addr 19) (.addr 16) (.addr 18) _ (by decide!)
        (@IsList.cons _ (.addr 18) (.addr 17) .nullptr _ (by decide!) .nil))
      (by decide!) (by decide) (by decide) (by decide),
   C21_list_tail (EvaluateExpression 5) 5 listTailExample
      (evaluatedIn [.addr 12, .addr 15] listTailExample) (.addr 4) (.addr 2) (.addr 12) (.addr 15)
      (.addr 19) (.addr 20) [.addr 16, .addr 17] 2 (by decide!) (by decide!)
      (@IsList.cons _ (.addr 19) (.addr 16) (.addr 18) _ (by decide!)
        (@IsList.cons _ (.addr 18) (.addr 17) .nullptr _ (by decide!) .nil))
      (by decide!) (by decide) (by decide) (by decide)⟩

end Scheme

namespace Scheme

/-- C22 (code on out-of-range indices and on operands that are not lists).
Let the second argument of `list-tail` evaluate to the number `k`.  When the
first argument evaluates to a proper list with the elements `xs` and `k` is
negative or greater than the length, the call throws `RuntimeError`, with one
exception: on the empty list with `k = 1` the test `count == required_number
- 1` holds with `count = 0`, and the call returns null.  When the first
argument evaluates to an improper list or to an object that is not a pair,
the call throws `RuntimeError`. -/
theorem C22_list_tail_out_of_range (ev : ObjectPtr → ObjectPtr → M ObjectPtr) (fuel : Nat)
    (h h1 : Heap) (self context el ek l kp : ObjectPtr) (k : Int)
    (hself : deref self h = .ok (.Function .ListTailFunction context) h)
    (hev : EvaluateListArguments ev [el, ek] context h = .ok [l, kp] h1)
    (hk : deref kp h1 = .ok (.Number k) h1) :
    (∀ xs, IsList h1 l xs → xs.length < fuel → (k < 0 ∨ (xs.length : Int) < k) →
      (¬ (xs = [] ∧ k = 1) →
        ∃ message h2, ListTailFunction.Apply ev fuel self [el, ek] h
          = .exception (.RuntimeError message) h2) ∧
      (xs = [] → k = 1 →
        ∃ h2, ListTailFunction.Apply ev fuel self [el, ek] h = .ok .nullptr h2)) ∧
    (∀ n, ImproperList h1 l n → n ≤ fuel →
      ∃ message h2, ListTailFunction.Apply ev fuel self [el, ek] h
        = .exception (.RuntimeError message) h2) ∧
    (∀ o, deref l h1 = .ok o h1 → o.hasType .Cell = false →
      ∃ message h2, ListTailFunction.Apply ev fuel self [el, ek] h
        = .exception (.RuntimeError message) h2) := by
  have hctx := Function.context__of_deref hself
  have hfalse : ∀ q h2, Make (.BooleanSymbol "#f") [] h1 = .ok q h2 →
      AsBooleanIsTrue q h2 = .ok false h2 := by
    intro q h2 hm
    simp only [AsBooleanIsTrue, bind_eq, deref_Make_self hm, pure_eq]
    rfl
  have hnotlist : CheckIfList fuel l h1 = Make (.BooleanSymbol "#f") [] h1 →
      ∃ message h2, ListTailFunction.Apply ev fuel self [el, ek] h
        = .exception (.RuntimeError message) h2 := by
    intro hc
    obtain ⟨q, h2, hm⟩ := Make_ok (.BooleanSymbol "#f") [] h1
    rw [hm] at hc
    refine ⟨"First operand for list-ref (tail) must be list.", h2, ?_⟩
    simp only [ListTailFunction.Apply, bind_eq, hctx, hev, ValidateArgumentsForListTailAndRef,
      ThrowIfWrongNumberOfArguments_two, hc, hfalse q h2 hm, Bool.not_false, if_true, throw_eq]
  refine ⟨?_, ?_, ?_⟩
  · intro xs hl hf hbad
    obtain ⟨check, h2, hm⟩ := Make_ok (.BooleanSymbol "#t") [] h1
    have hx := Extends_Make hm
    have hl2 : IsList h2 l xs := IsList_frame (Extends_frame hx) hl
    have hk2 : deref kp h2 = .ok (.Number k) h2 := Extends_deref hx hk
    have hcheck : CheckIfList fuel l h1 = .ok check h2 := by
      rw [← hm]
      cases hl with
      | nil => simp only [CheckIfList, bind_eq, Is_nullptr, Bool.not_false, if_true]
      | @cons _ first second rest hp hrest =>
        obtain ⟨c, f1, hlast, hc⟩ := LastCell_of_IsList (.cons hp hrest) (by simp) fuel
          (Nat.le_of_lt hf)
        rw [CheckIfList_cell hp rfl hlast hc, if_pos rfl]
    have htrue : AsBooleanIsTrue check h2 = .ok true h2 := by
      simp only [AsBooleanIsTrue, bind_eq, deref_Make_self hm, pure_eq]
      rfl
    have hty : ThrowIfMismatchOperandType .Number 1 [l, kp]
        "Second operand for list-ref (tail) must be number." h2 = .ok () h2 := by
      simp only [ThrowIfMismatchOperandType, List.get?, bind_eq, Is_of_deref hk2, Object.hasType,
        Bool.not_true, Bool.false_eq_true, if_false, pure_eq]
    have hval : ValidateArgumentsForListTailAndRef fuel [l, kp] h1
        = if k < 0 then
            .exception (.RuntimeError "Second operand for list-ref (tail) must be non-negative.") h2
          else .ok () h2 := by
      simp only [ValidateArgumentsForListTailAndRef, bind_eq, ThrowIfWrongNumberOfArguments_two,
        hcheck, htrue, Bool.not_true, Bool.false_eq_true, if_false, hty, GetValue_of_deref hk2]
      by_cases hneg : k < 0 <;> simp only [hneg, if_true, if_false, throw_eq, pure_eq]
    have happ : ¬ k < 0 → ListTailFunction.Apply ev fuel self [el, ek] h
        = (do
            let (cell, count) ← ListTailFunction.Loop fuel l 0 k
            if count = k - 1 then pure ObjectPtr.nullptr
            else if count = k then pure cell
            else throw (.RuntimeError "Index for list-tail must less or equal to list size.")) h2 := by
      intro hneg
      simp only [ListTailFunction.Apply, bind_eq, hctx, hev, hval, hneg, if_false,
        GetValue_of_deref hk2]
    by_cases hneg : k < 0
    · refine ⟨?_, (fun _ h1k => by omega)⟩
      intro _
      refine ⟨"Second operand for list-ref (tail) must be non-negative.", h2, ?_⟩
      simp only [ListTailFunction.Apply, bind_eq, hctx, hev, hval, hneg, if_true]
    · have hlen : (xs.length : Int) < k := by
        rcases hbad with hb | hb
        · exact absurd hb hneg
        · exact hb
      have hkk : (0 : Int) + (k.toNat : Int) = k := by
        rw [Int.toNat_of_nonneg (by omega)]; ring
      have hloops := ListTailFunction_Loop_of_IsList hl2 0 k.toNat fuel hf
      rw [hkk] at hloops
      constructor
      · intro hnot
        refine ⟨"Index for list-tail must less or equal to list size.", h2, ?_⟩
        rw [happ hneg]
        by_cases hxs : xs = []
        · have hloop := hloops.2.2 hxs
          subst hxs
          have hk1 : ¬ (0 : Int) = k - 1 := by
            intro he
            exact hnot ⟨rfl, by omega⟩
          have hk0 : ¬ (0 : Int) = k := by simp at hlen; omega
          simp only [bind_eq, hloop, hk1, hk0, if_false, throw_eq]
        · obtain ⟨cell, hloop⟩ := hloops.2.1 hxs (by omega)
          have hpos : 0 < xs.length := List.length_pos.mpr hxs
          have hc1 : ¬ (0 : Int) + ((xs.length - 1 : Nat) : Int) = k - 1 := by omega
          have hc0 : ¬ (0 : Int) + ((xs.length - 1 : Nat) : Int) = k := by omega
          simp only [bind_eq, hloop, hc1, hc0, if_false, throw_eq]
      · intro hxs hk1
        subst hk1
        have hloop := hloops.2.2 hxs
        refine ⟨h2, ?_⟩
        rw [happ hneg]
        simp only [bind_eq, hloop]
        rfl
  · intro n himp hn
    apply hnotlist
    obtain ⟨c, first, second, hlast, hc, hsec⟩ := LastCell_of_ImproperList himp fuel hn
    cases himp with
    | last hp _ _ => rw [CheckIfList_cell hp rfl hlast hc, if_neg hsec]
    | cons hp _ => rw [CheckIfList_cell hp rfl hlast hc, if_neg hsec]
  · intro o ho hcell
    apply hnotlist
    have hne : l ≠ .nullptr := ne_nullptr_of_deref ho
    simp only [CheckIfList, bind_eq, Is_of_deref ho, hcell, Bool.not_false, if_true, hne,
      if_false]

/-- C22 at the failing input: `(list-tail (list) 1)` returns null. -/
theorem C22_list_tail_out_of_range_witness :
    ∃ h2, ListTailFunction.Apply (EvaluateExpression 5) 5 (.addr 4) [.addr 13, .addr 14]
      listTailExample = .ok .nullptr h2 :=
  ((C22_list_tail_out_of_range (EvaluateExpression 5) 5 listTailExample
      (evaluatedIn [.addr 13, .addr 14] listTailExample) (.addr 4) (.addr 2) (.addr 13)
      (.addr 14) .nullptr (.addr 16) 1 (by decide!) (by decide!) (by decide!)).1
    [] .nil (by decide) (.inr (by decide))).2 rfl rfl

end Scheme

namespace Scheme

/-! ## C23: serialization of a pair chain -/

/-- C23 (code at the failing input).  `Cell::Serialize` tests the first
element for null (`(GetFirst()) ? ... : "()"`), so `(() 1)` and `(())` are
written as the claim says; in the loop over the further elements the test is
on the pair (`(cell) ? ...`), which is never null there, so a null element
after the first one is dereferenced: serializing `(1 ())` is undefined
behaviour, whether the list is quoted or built by `list`. -/
theorem C23_null_element_after_first :
    Session 100 ["'(() 1)", "'(())", "'(1 2 . 3)"]
      = [.returned "(() 1)", .returned "(())", .returned "(1 2 . 3)"] ∧
    Session 100 ["'(1 ())"] = [.undefined] ∧
    Session 100 ["(list 1 (list))"] = [.undefined] := by
  decide!

end Scheme

namespace Scheme

/-! ## C24, C29: signed number tokens -/

/-- C24 (code at the failing input).  The list whose one element is the
number `-2147483649` serializes to `(-2147483649)`.  Reading that text back
fails in the tokenizer: a sign followed by digits is converted with
`std::stoi`, whose range is that of `int`, and the failure is
`std::out_of_range`, not an AST.  The same list with `-2147483648` is read
back. -/
theorem C24_negative_number_is_not_read_back :
    Session 100 ["(list (- 0 2147483649))", "'(-2147483649)"]
      = [.returned "(-2147483649)", .thrown (.out_of_range "stoi")] ∧
    Session 100 ["(list (- 0 2147483648))", "'(-2147483648)"]
      = [.returned "(-2147483648)", .returned "(-2147483648)"] := by
  decide!

/-- C29 (code at the failing input).  Digits without a sign are converted
with `std::stoll`: `2147483648` is the token `ConstantToken 2147483648`.  A
sign followed by digits is converted with `std::stoi`: on `+2147483648` and
on `-2147483649`, which are 64-bit values, the tokenizer throws
`std::out_of_range`.  A sign that no digit follows is the symbol `+` or
`-`. -/
theorem C29_signed_number_out_of_int_range :
    (∀ h, Tokenizer.new "2147483648".data h = .ok ⟨false, [], .ConstantToken 2147483648⟩ h) ∧
    (∀ h, Tokenizer.new "-2147483648".data h = .ok ⟨false, [], .ConstantToken (-2147483648)⟩ h) ∧
    (∀ h, Tokenizer.new "+2147483648".data h = .exception (.out_of_range "stoi") h) ∧
    (∀ h, Tokenizer.new "-2147483649".data h = .exception (.out_of_range "stoi") h) ∧
    (∀ h, Tokenizer.new "+".data h = .ok ⟨false, [], .SymbolToken "+"⟩ h) ∧
    (∀ h, Tokenizer.new "- 1".data h = .ok ⟨false, " 1".data, .SymbolToken "-"⟩ h) := by
  refine ⟨?_, ?_, ?_, ?_, ?_, ?_⟩ <;> intro h <;> rfl

end Scheme

namespace Scheme

/-! ## The tokenizer as a stream of tokens -/

/-- `Next` reads the heap and the stored token nowhere: its outcome on any
state that is not at the end is that on the initial state for the same
input, with the heap passed through and the stored token kept at the end of
input. -/
theorem Tokenizer_Next_eq (s : List Char) (t0 : Token) (h : Heap) :
    Tokenizer.Next ⟨false, s, t0⟩ h
      = match Tokenizer.Next ⟨false, s, .ConstantToken 0⟩ Heap.empty with
        | .ok t _ =>
          .ok ⟨t.is_end_, t.token_stream_, if t.is_end_ then t0 else t.last_processed_token_⟩ h
        | .exception e _ => .exception e h
        | .undefined => .undefined
        | .timeout => .timeout := by
  simp only [Tokenizer.Next, Bool.false_eq_true, if_false]
  cases hs : skipSpaces s with
  | none => rfl
  | some r =>
    obtain ⟨c, rest⟩ := r
    cases c with
    | none => rfl
    | some c =>
      simp only []
      by_cases h1 : IsQuote c = true
      · simp only [h1, if_true]; rfl
      simp only [h1, if_false]
      by_cases h2 : IsOpenBracket c = true
      · simp only [h2, if_true]; rfl
      simp only [h2, if_false]
      by_cases h3 : IsCloseBracket c = true
      · simp only [h3, if_true]; rfl
      simp only [h3, if_false]
      by_cases h4 : IsDot c = true
      · simp only [h4, if_true]; rfl
      simp only [h4, if_false]
      by_cases h5 : (IsPlus c || IsMinus c) = true
      · simp only [h5, if_true, Tokenizer.ProcessPlusMinusToken]
        cases takeWhilePeek IsDigit rest with
        | none => rfl
        | some r2 =>
          obtain ⟨digits, rest2⟩ := r2
          simp only []
          by_cases h6 : (c :: digits).length = 1
          · simp only [h6, if_true]; rfl
          · simp only [h6, if_false, bind_eq]
            cases stoi (c :: digits) <;> rfl
      simp only [h5, if_false]
      by_cases h7 : IsDigit c = true
      · simp only [h7, if_true, Tokenizer.ProcessConstantToken]
        cases takeWhilePeek IsDigit rest with
        | none => rfl
        | some r2 =>
          obtain ⟨digits, rest2⟩ := r2
          simp only [bind_eq]
          cases stoll (c :: digits) <;> rfl
      simp only [h7, if_false]
      by_cases h8 : IsStartOfSymbol c = true
      · simp only [h8, if_true, Tokenizer.ProcessSymbolToken]
        cases takeWhilePeek IsPartOfSymbol rest with
        | none => rfl
        | some r2 => rfl
      simp only [h8, if_false]
      rfl

/-- At the end of input `Next` throws. -/
theorem Tokenizer_Next_at_end {tokenizer : Tokenizer} (he : tokenizer.is_end_ = true)
    (h : Heap) : tokenizer.Next h = .exception (.SyntaxError "Wrong syntax!") h := by
  simp only [Tokenizer.Next, he, if_true, throw_eq]

/-- One call of `Next` on a tokenizer that stands at `t :: ts` succeeds,
leaves the heap as it is, and leaves the tokenizer at `ts`. -/
theorem Tokenizer_Next_of_At {tokenizer : Tokenizer} {t : Token} {ts : List Token}
    (hat : tokenizer.At (t :: ts)) (h : Heap) :
    ∃ tokenizer1, tokenizer.Next h = .ok tokenizer1 h ∧ tokenizer1.At ts := by
  obtain ⟨e, s, t0⟩ := tokenizer
  obtain ⟨he, _, fuel, hts⟩ := hat
  simp only at he hts
  subst he
  cases fuel with
  | zero => simp [tokensOf] at hts
  | succ fuel =>
    rw [Tokenizer_Next_eq]
    simp only [tokensOf] at hts
    generalize Tokenizer.Next ⟨false, s, .ConstantToken 0⟩ Heap.empty = r at hts ⊢
    cases r with
    | ok tk h1 =>
      simp only at hts ⊢
      by_cases hend : tk.is_end_ = true
      · simp only [hend, if_true, Option.some.injEq] at hts ⊢
        subst hts
        exact ⟨_, rfl, rfl⟩
      · simp only [hend, if_false, Option.map_eq_some', Bool.false_eq_true] at hts ⊢
        obtain ⟨ts1, hts1, rfl⟩ := hts
        refine ⟨_, rfl, ?_⟩
        exact ⟨by simp [hend], rfl, fuel, hts1⟩
    | exception e h1 => simp at hts
    | undefined => simp at hts
    | timeout => simp at hts

/-- The constructor of the tokenizer on an input with the tokens `ts` leaves
the heap as it is and the tokenizer at `ts`. -/
theorem Tokenizer_new_of_tokensOf {fuel : Nat} {input : List Char} {ts : List Token}
    (hts : tokensOf fuel input = some ts) (h : Heap) :
    ∃ tokenizer, Tokenizer.new input h = .ok tokenizer h ∧ tokenizer.At ts := by
  have hat : Tokenizer.At ⟨false, input, .ConstantToken 0⟩ (.ConstantToken 0 :: ts) :=
    ⟨rfl, rfl, fuel, hts⟩
  exact Tokenizer_Next_of_At hat h

/-- A tokenizer stands at a token list that is not empty exactly when it is
not at the end of input. -/
theorem Tokenizer_At_is_end {tokenizer : Tokenizer} {ts : List Token}
    (hat : tokenizer.At ts) : tokenizer.is_end_ = ts.isEmpty := by
  cases ts with
  | nil => exact hat
  | cons t r => exact hat.1

/-- The stored token of a tokenizer that is not at the end. -/
theorem Tokenizer_At_token {tokenizer : Tokenizer} {t : Token} {ts : List Token}
    (hat : tokenizer.At (t :: ts)) : tokenizer.last_processed_token_ = t :=
  hat.2.1

end Scheme

namespace Scheme

/-! ## `Read` on arbitrary tokens -/

theorem AtCloseBracket_iff (tokenizer : Tokenizer) :
    AtCloseBracket tokenizer = true ↔ tokenizer.last_processed_token_ = .BracketToken .CLOSE := by
  obtain ⟨e, s, t⟩ := tokenizer
  cases t with
  | BracketToken b => cases b <;> simp [AtCloseBracket]
  | _ => simp [AtCloseBracket]

theorem MakeCell_ok (first second : ObjectPtr) (h : Heap) :
    ∃ q h1, MakeCell first second h = .ok q h1 := Make_ok _ _ h

/-- `ReadList` after its first `Read` has returned. -/
theorem ReadList_of_read {read : Tokenizer → M (ObjectPtr × Tokenizer)} {fuel : Nat}
    {tok tok1 : Tokenizer} {h h1 : Heap} {p1 : ObjectPtr}
    (hc : AtCloseBracket tok = false) (hr : read tok h = .ok (p1, tok1) h1) :
    ReadList read (fuel + 1) tok h =
      (if tok1.last_processed_token_ = Token.BracketToken .CLOSE then do
          let cell ← MakeCell p1 .nullptr
          pure (cell, tok1)
        else if tok1.last_processed_token_ = Token.DotToken then do
          let tok2 ← tok1.Next
          let (second, tok3) ← read tok2
          let cell ← MakeCell p1 second
          pure (cell, tok3)
        else do
          let (rest, tok2) ← ReadList read fuel tok1
          let cell ← MakeCell p1 rest
          pure (cell, tok2)) h1 := by
  obtain ⟨e1, s1, t1⟩ := tok1
  simp only [ReadList, hc, Bool.false_eq_true, if_false, bind_eq, hr]
  cases t1 with
  | BracketToken b => cases b <;> simp
  | _ => simp

theorem ReadList_of_read_exception {read : Tokenizer → M (ObjectPtr × Tokenizer)} {fuel : Nat}
    {tok : Tokenizer} {h h1 : Heap} {e : Error}
    (hc : AtCloseBracket tok = false) (hr : read tok h = .exception e h1) :
    ReadList read (fuel + 1) tok h = .exception e h1 := by
  simp only [ReadList, hc, Bool.false_eq_true, if_false, bind_eq, hr]

theorem matchClose_of_ne {t : Token} (ho : t ≠ .BracketToken .OPEN)
    (hc : t ≠ .BracketToken .CLOSE) (depth : Nat) (rest : List Token) :
    matchClose depth (t :: rest) = matchClose depth rest := by
  cases t with
  | BracketToken b => cases b <;> simp at ho hc
  | _ => cases depth <;> simp [matchClose]

/-- The outcome of `ReadList` on any tokens, when `read` either throws
`SyntaxError` or consumes one complete datum: `ReadList` throws `SyntaxError`,
or it stops in front of a close parenthesis that is there, after complete
data, or it returns at the end of input or in front of another token. -/
theorem ReadList_total {read : Tokenizer → M (ObjectPtr × Tokenizer)} {m : Nat}
    (hread : ∀ (tok : Tokenizer) (ts : List Token) (h : Heap), ts.length ≤ m → tok.At ts →
      (∃ message h1, read tok h = .exception (.SyntaxError message) h1) ∨
      (∃ p tok1 h1 rest, read tok h = .ok (p, tok1) h1 ∧ tok1.At rest ∧ Consumed ts rest)) :
    ∀ (fuel : Nat) (tok : Tokenizer) (ts : List Token) (h : Heap), ts.length ≤ m →
      ts.length < fuel → tok.At ts →
      (∃ message h1, ReadList read fuel tok h = .exception (.SyntaxError message) h1) ∨
      (∃ p tok1 h1, ReadList read fuel tok h = .ok (p, tok1) h1 ∧
        ((∃ rest, tok1.At (.BracketToken .CLOSE :: rest) ∧ rest.length < ts.length ∧
            ∀ depth, matchClose depth ts = matchClose depth (.BracketToken .CLOSE :: rest)) ∨
          tok1.is_end_ = true ∨ AtCloseBracket tok1 = false)) := by
  intro fuel
  induction fuel with
  | zero => intro tok ts h _ hf; simp at hf
  | succ fuel ih =>
    intro tok ts h hm hf hat
    by_cases hc : AtCloseBracket tok = true
    · right
      refine ⟨.nullptr, tok, h, by simp only [ReadList, hc, if_true, pure_eq], ?_⟩
      cases ts with
      | nil => exact .inr (.inl hat)
      | cons t r =>
        have ht : t = .BracketToken .CLOSE := by
          rw [← Tokenizer_At_token hat]
          exact (AtCloseBracket_iff tok).1 hc
        subst ht
        exact .inl ⟨r, hat, by simp, fun _ => rfl⟩
    · have hc : AtCloseBracket tok = false := by simpa using hc
      rcases hread tok ts h hm hat with ⟨message, h1, hr⟩ | ⟨p1, tok1, h1, rest1, hr, hat1, hlen1, hmc1, _⟩
      · exact .inl ⟨message, h1, ReadList_of_read_exception hc hr⟩
      · rw [ReadList_of_read hc hr]
        by_cases hcl : tok1.last_processed_token_ = .BracketToken .CLOSE
        · obtain ⟨cell, h2, hcell⟩ := MakeCell_ok p1 .nullptr h1
          right
          refine ⟨cell, tok1, h2, by simp only [hcl, if_true, bind_eq, hcell, pure_eq], ?_⟩
          cases rest1 with
          | nil => exact .inr (.inl hat1)
          | cons x r1 =>
            have hx : x = .BracketToken .CLOSE := by
              rw [← Tokenizer_At_token hat1]; exact hcl
            subst hx
            exact .inl ⟨r1, hat1, by simp at hlen1 ⊢; omega, hmc1⟩
        · by_cases hdot : tok1.last_processed_token_ = .DotToken
          · rw [if_neg hcl, if_pos hdot]
            cases rest1 with
            | nil =>
              left
              exact ⟨"Wrong syntax!", h1, by simp only [bind_eq, Tokenizer_Next_at_end hat1]⟩
            | cons x r1 =>
              obtain ⟨tok2, hnext, hat2⟩ := Tokenizer_Next_of_At hat1 h1
              have hm2 : r1.length ≤ m := by simp at hlen1; omega
              rcases hread tok2 r1 h1 hm2 hat2 with ⟨message, h2, hr2⟩ |
                ⟨p2, tok3, h2, rest2, hr2, hat3, hlen2, hmc2, _⟩
              · left
                exact ⟨message, h2, by simp only [bind_eq, hnext, hr2]⟩
              · obtain ⟨cell, h3, hcell⟩ := MakeCell_ok p1 p2 h2
                right
                refine ⟨cell, tok3, h3, by simp only [bind_eq, hnext, hr2, hcell, pure_eq], ?_⟩
                have hx : x = .DotToken := by
                  rw [← Tokenizer_At_token hat1]; exact hdot
                subst hx
                cases rest2 with
                | nil => exact .inr (.inl hat3)
                | cons y r2 =>
                  by_cases hy : y = .BracketToken .CLOSE
                  · subst hy
                    refine .inl ⟨r2, hat3, by simp at hlen1 hlen2 ⊢; omega, ?_⟩
                    intro depth
                    rw [hmc1 depth, matchClose_of_ne (by simp) (by simp), hmc2 depth]
                  · refine .inr (.inr ?_)
                    cases hb : AtCloseBracket tok3 with
                    | false => rfl
                    | true =>
                      exact absurd ((Tokenizer_At_token hat3).symm.trans
                        ((AtCloseBracket_iff tok3).1 hb)) hy
          · rw [if_neg hcl, if_neg hdot]
            have hm1 : rest1.length ≤ m := by omega
            have hf1 : rest1.length < fuel := by omega
            rcases ih tok1 rest1 h1 hm1 hf1 hat1 with ⟨message, h2, hr2⟩ |
              ⟨p2, tok2, h2, hr2, hgood⟩
            · left
              exact ⟨message, h2, by simp only [bind_eq, hr2]⟩
            · obtain ⟨cell, h3, hcell⟩ := MakeCell_ok p1 p2 h2
              right
              refine ⟨cell, tok2, h3, by simp only [bind_eq, hr2, hcell, pure_eq], ?_⟩
              rcases hgood with ⟨rest, hat2, hlen2, hmc2⟩ | hbad
              · refine .inl ⟨rest, hat2, by omega, ?_⟩
                intro depth
                rw [hmc1 depth, hmc2 depth]
              · exact .inr hbad

theorem matchClose_open (depth : Nat) (rest : List Token) :
    matchClose depth (.BracketToken .OPEN :: rest) = matchClose (depth + 1) rest := by
  cases depth <;> simp [matchClose]

theorem matchClose_close_zero (rest : List Token) :
    matchClose 0 (.BracketToken .CLOSE :: rest) = some rest := by
  simp [matchClose]

theorem matchClose_close_succ (depth : Nat) (rest : List Token) :
    matchClose (depth + 1) (.BracketToken .CLOSE :: rest) = matchClose depth rest := by
  simp [matchClose]

theorem Consumed_atom {t : Token} (ho : t ≠ .BracketToken .OPEN)
    (hc : t ≠ .BracketToken .CLOSE) (hq : t ≠ .QuoteToken) (hd : t ≠ .DotToken)
    (rest : List Token) : Consumed (t :: rest) rest :=
  ⟨by simp, fun depth => matchClose_of_ne ho hc depth rest, by
    cases t with
    | BracketToken b => cases b <;> simp at ho hc
    | ConstantToken _ => rfl
    | SymbolToken _ => rfl
    | QuoteToken => exact absurd rfl hq
    | DotToken => exact absurd rfl hd⟩

/-- The outcome of `Read` on any tokens, with a budget above their number:
`Read` throws `SyntaxError`, or it returns with the tokenizer after one
complete datum. -/
theorem Read_total : ∀ (fuel : Nat) (tok : Tokenizer) (ts : List Token) (h : Heap),
    ts.length < fuel → tok.At ts →
    (∃ message h1, Read fuel tok h = .exception (.SyntaxError message) h1) ∨
    (∃ p tok1 h1 rest, Read fuel tok h = .ok (p, tok1) h1 ∧ tok1.At rest ∧ Consumed ts rest) := by
  intro fuel
  induction fuel with
  | zero => intro tok ts h hf; simp at hf
  | succ fuel ih =>
    intro tok ts h hf hat
    cases ts with
    | nil =>
      left
      exact ⟨"No tokens to read.", h, by
        simp only [Read, (show tok.is_end_ = true from hat), if_true, throw_eq]⟩
    | cons t r =>
      have he : tok.is_end_ = false := hat.1
      have ht : tok.last_processed_token_ = t := hat.2.1
      obtain ⟨tok1, hnext, hat1⟩ := Tokenizer_Next_of_At hat h
      have hr : r.length < fuel := by simp at hf; omega
      cases t with
      | ConstantToken value =>
        obtain ⟨q, h1, hq⟩ := Make_ok (.Number value) [] h
        right
        exact ⟨q, tok1, h1, r, by
          simp only [Read, he, Bool.false_eq_true, if_false, bind_eq, hnext, ht, hq, pure_eq],
          hat1, Consumed_atom (by simp) (by simp) (by simp) (by simp) r⟩
      | SymbolToken name =>
        right
        by_cases hb : name = kFalseTokenName ∨ name = kTrueTokenName
        · obtain ⟨q, h1, hq⟩ := Make_ok (.BooleanSymbol name) [] h
          exact ⟨q, tok1, h1, r, by
            simp only [Read, he, Bool.false_eq_true, if_false, bind_eq, hnext, ht,
              SpecifySymbolObject, hb, if_true, hq, pure_eq],
            hat1, Consumed_atom (by simp) (by simp) (by simp) (by simp) r⟩
        · obtain ⟨q, h1, hq⟩ := Make_ok (.Symbol name .nullptr) [] h
          exact ⟨q, tok1, h1, r, by
            simp only [Read, he, Bool.false_eq_true, if_false, bind_eq, hnext, ht,
              SpecifySymbolObject, hb, hq, pure_eq],
            hat1, Consumed_atom (by simp) (by simp) (by simp) (by simp) r⟩
      | DotToken =>
        left
        exact ⟨"Wrong syntax! Probably dot in a wrong place.", h, by
          simp only [Read, he, Bool.false_eq_true, if_false, bind_eq, hnext, ht, throw_eq]⟩
      | QuoteToken =>
        cases r with
        | nil =>
          left
          exact ⟨"Wrong syntax for quote.", h, by
            simp only [Read, he, Bool.false_eq_true, if_false, bind_eq, hnext, ht,
              (show tok1.is_end_ = true from hat1), if_true, throw_eq]⟩
        | cons x r1 =>
          have he1 : tok1.is_end_ = false := hat1.1
          obtain ⟨quote, h1, hq⟩ := Make_ok (.Symbol kQuoteSymbolName .nullptr) [] h
          rcases ih tok1 (x :: r1) h1 hr hat1 with ⟨message, h2, hr2⟩ |
            ⟨p2, tok2, h2, rest, hr2, hat2, hlen2, hmc2, hafter2⟩
          · left
            exact ⟨message, h2, by
              simp only [Read, he, Bool.false_eq_true, if_false, bind_eq, hnext, ht, he1, hq,
                hr2]⟩
          · obtain ⟨inner, h3, hinner⟩ := MakeCell_ok p2 .nullptr h2
            obtain ⟨cell, h4, hcell⟩ := MakeCell_ok quote inner h3
            right
            refine ⟨cell, tok2, h4, rest, by
              simp only [Read, he, Bool.false_eq_true, if_false, bind_eq, hnext, ht, he1, hq,
                hr2, hinner, hcell, pure_eq], hat2, ?_, ?_, ?_⟩
            · simp at hlen2 ⊢; omega
            · intro depth
              rw [matchClose_of_ne (by simp) (by simp), hmc2 depth]
            · exact hafter2
      | BracketToken b =>
        cases b with
        | CLOSE =>
          left
          exact ⟨"Close bracket in the start of the expression.", h, by
            simp only [Read, he, Bool.false_eq_true, if_false, bind_eq, hnext, ht, throw_eq]⟩
        | OPEN =>
          have hstart : Read (fuel + 1) tok h
              = (do
                  let (list_ptr, tokenizer) ← ReadList (Read fuel) fuel tok1
                  if !AtCloseBracket tokenizer then
                    throw (.SyntaxError "Wrong syntax! Not enough close brackets.")
                  else do
                    let tokenizer ← tokenizer.Next
                    pure (list_ptr, tokenizer)) h := by
            simp only [Read, he, Bool.false_eq_true, if_false, bind_eq, hnext, ht]
          rw [hstart]
          have hread : ∀ (tok : Tokenizer) (ts : List Token) (h : Heap), ts.length ≤ fuel - 1 →
              tok.At ts →
              (∃ message h1, Read fuel tok h = .exception (.SyntaxError message) h1) ∨
              (∃ p tok1 h1 rest, Read fuel tok h = .ok (p, tok1) h1 ∧ tok1.At rest ∧
                Consumed ts rest) :=
            fun tok ts h hl hat => ih tok ts h (by omega) hat
          rcases ReadList_total hread fuel tok1 r h (by omega) hr hat1 with
            ⟨message, h1, hl⟩ | ⟨p, tok2, h1, hl, hgood⟩
          · left
            exact ⟨message, h1, by simp only [bind_eq, hl]⟩
          · rcases hgood with ⟨rest, hat2, hlen2, hmc2⟩ | hbad
            · obtain ⟨tok3, hnext2, hat3⟩ := Tokenizer_Next_of_At hat2 h1
              have hcb : AtCloseBracket tok2 = true :=
                (AtCloseBracket_iff tok2).2 (Tokenizer_At_token hat2)
              right
              refine ⟨p, tok3, h1, rest, by
                simp only [bind_eq, hl, hcb, Bool.not_true, Bool.false_eq_true, if_false,
                  hnext2, pure_eq], hat3, ?_, ?_, ?_⟩
              · simp; omega
              · intro depth
                rw [matchClose_open, hmc2, matchClose_close_succ]
              · show matchClose 0 r = some rest
                rw [hmc2, matchClose_close_zero]
            · left
              by_cases hcb : AtCloseBracket tok2 = true
              · have hend : tok2.is_end_ = true := by
                  rcases hbad with hb | hb
                  · exact hb
                  · rw [hcb] at hb; cases hb
                exact ⟨"Wrong syntax!", h1, by
                  simp only [bind_eq, hl, hcb, Bool.not_true, Bool.false_eq_true, if_false,
                    Tokenizer_Next_at_end hend]⟩
              · have hcb : AtCloseBracket tok2 = false := by simpa using hcb
                exact ⟨"Wrong syntax! Not enough close brackets.", h1, by
                  simp only [bind_eq, hl, hcb, Bool.not_false, if_true, throw_eq]⟩

end Scheme

namespace Scheme

/-! ## C25: an open parenthesis without its close parenthesis -/

/-- When the matching close parenthesis is missing at some depth, it is
missing at every greater depth. -/
theorem matchClose_none_mono : ∀ (ts : List Token) (j k : Nat), matchClose j ts = none →
    j ≤ k → matchClose k ts = none := by
  intro ts
  induction ts with
  | nil => intro j k _ _; cases k <;> rfl
  | cons t r ih =>
    intro j k hj hjk
    cases t with
    | BracketToken b =>
      cases b with
      | OPEN =>
        rw [matchClose_open] at hj ⊢
        exact ih (j + 1) (k + 1) hj (by omega)
      | CLOSE =>
        cases j with
        | zero => rw [matchClose_close_zero] at hj; cases hj
        | succ j1 =>
          obtain ⟨k1, rfl⟩ : ∃ k1, k = k1 + 1 := ⟨k - 1, by omega⟩
          rw [matchClose_close_succ] at hj ⊢
          exact ih j1 k1 hj (by omega)
    | ConstantToken _ =>
      rw [matchClose_of_ne (by simp) (by simp)] at hj ⊢
      exact ih j k hj hjk
    | SymbolToken _ =>
      rw [matchClose_of_ne (by simp) (by simp)] at hj ⊢
      exact ih j k hj hjk
    | QuoteToken =>
      rw [matchClose_of_ne (by simp) (by simp)] at hj ⊢
      exact ih j k hj hjk
    | DotToken =>
      rw [matchClose_of_ne (by simp) (by simp)] at hj ⊢
      exact ih j k hj hjk

/-- Matching over tokens that do not hold the close parenthesis looked for
goes on, at some depth, in the tokens that follow. -/
theorem matchClose_append_of_none : ∀ (pre : List Token) (depth : Nat),
    matchClose depth pre = none →
    ∀ rest, ∃ depth1, matchClose depth (pre ++ rest) = matchClose depth1 rest := by
  intro pre
  induction pre with
  | nil => intro depth _ rest; exact ⟨depth, rfl⟩
  | cons t r ih =>
    intro depth hd rest
    cases t with
    | BracketToken b =>
      cases b with
      | OPEN =>
        rw [matchClose_open] at hd
        rw [List.cons_append, matchClose_open]
        exact ih (depth + 1) hd rest
      | CLOSE =>
        cases depth with
        | zero => rw [matchClose_close_zero] at hd; cases hd
        | succ d1 =>
          rw [matchClose_close_succ] at hd
          rw [List.cons_append, matchClose_close_succ]
          exact ih d1 hd rest
    | ConstantToken _ =>
      rw [matchClose_of_ne (by simp) (by simp)] at hd
      rw [List.cons_append, matchClose_of_ne (by simp) (by simp)]
      exact ih depth hd rest
    | SymbolToken _ =>
      rw [matchClose_of_ne (by simp) (by simp)] at hd
      rw [List.cons_append, matchClose_of_ne (by simp) (by simp)]
      exact ih depth hd rest
    | QuoteToken =>
      rw [matchClose_of_ne (by simp) (by simp)] at hd
      rw [List.cons_append, matchClose_of_ne (by simp) (by simp)]
      exact ih depth hd rest
    | DotToken =>
      rw [matchClose_of_ne (by simp) (by simp)] at hd
      rw [List.cons_append, matchClose_of_ne (by simp) (by simp)]
      exact ih depth hd rest

theorem afterDatum_quotes (quotes : Nat) (ts : List Token) :
    afterDatum (List.replicate quotes .QuoteToken ++ ts) = afterDatum ts := by
  induction quotes with
  | zero => rfl
  | succ n ih => rw [List.replicate_succ, List.cons_append]; exact ih

/-- When parenthesis matching over tokens with an unmatched open parenthesis
finds the close parenthesis looked for, it finds it in front of that open
parenthesis. -/
theorem matchClose_unmatched : ∀ (pre : List Token) (depth : Nat) (rest inner : List Token),
    matchClose depth (pre ++ .BracketToken .OPEN :: inner) = some rest →
    matchClose 0 inner = none → ∃ pre2, rest = pre2 ++ .BracketToken .OPEN :: inner := by
  intro pre
  induction pre with
  | nil =>
    intro depth rest inner hm hin
    rw [List.nil_append, matchClose_open,
      matchClose_none_mono inner 0 (depth + 1) hin (by omega)] at hm
    cases hm
  | cons t r ih =>
    intro depth rest inner hm hin
    rw [List.cons_append] at hm
    cases t with
    | BracketToken b =>
      cases b with
      | OPEN =>
        rw [matchClose_open] at hm
        exact ih (depth + 1) rest inner hm hin
      | CLOSE =>
        cases depth with
        | zero =>
          rw [matchClose_close_zero] at hm
          cases hm
          exact ⟨r, rfl⟩
        | succ d1 =>
          rw [matchClose_close_succ] at hm
          exact ih d1 rest inner hm hin
    | ConstantToken _ =>
      rw [matchClose_of_ne (by simp) (by simp)] at hm
      exact ih depth rest inner hm hin
    | SymbolToken _ =>
      rw [matchClose_of_ne (by simp) (by simp)] at hm
      exact ih depth rest inner hm hin
    | QuoteToken =>
      rw [matchClose_of_ne (by simp) (by simp)] at hm
      exact ih depth rest inner hm hin
    | DotToken =>
      rw [matchClose_of_ne (by simp) (by simp)] at hm
      exact ih depth rest inner hm hin

/-- What is left after the first complete datum of tokens with an unmatched
open parenthesis still holds that parenthesis. -/
theorem afterDatum_unmatched : ∀ (ts rest pre inner : List Token), afterDatum ts = some rest →
    ts = pre ++ .BracketToken .OPEN :: inner → matchClose 0 inner = none →
    ∃ pre2, rest = pre2 ++ .BracketToken .OPEN :: inner := by
  intro ts
  induction ts with
  | nil => intro rest pre inner ha; cases ha
  | cons t r ih =>
    intro rest pre inner ha hts hin
    cases pre with
    | nil =>
      rw [List.nil_append] at hts
      cases hts
      simp only [afterDatum] at ha
      rw [hin] at ha
      cases ha
    | cons t1 pre1 =>
      rw [List.cons_append] at hts
      cases hts
      cases t with
      | BracketToken b =>
        cases b with
        | OPEN =>
          simp only [afterDatum] at ha
          exact matchClose_unmatched pre1 0 rest inner ha hin
        | CLOSE => cases ha
      | ConstantToken _ =>
        simp only [afterDatum, Option.some.injEq] at ha
        exact ⟨pre1, ha.symm⟩
      | SymbolToken _ =>
        simp only [afterDatum, Option.some.injEq] at ha
        exact ⟨pre1, ha.symm⟩
      | QuoteToken =>
        simp only [afterDatum] at ha
        exact ih rest pre1 inner ha rfl hin
      | DotToken => cases ha

/-- C25.  Let the tokenizer stand at an open parenthesis, after any number
of quote tokens, followed by the tokens `inner` up to the end of input; every
token of the input is one that `Next` yields.  With a budget above the number
of tokens: (1) when no close parenthesis of `inner` matches the open
parenthesis, `Read` throws `SyntaxError`; (2) so it does when an open
parenthesis inside the list, at any depth, has no matching close parenthesis
in the rest of the input; (3) when `Read` returns, the close parenthesis that
matches the open parenthesis is in `inner`, and the tokenizer stands at the
tokens after it; (4) `Run` throws `SyntaxError` on every source text whose
tokens hold an open parenthesis without a matching close parenthesis,
wherever it is. -/
theorem C25_unmatched_open_parenthesis (fuel quotes : Nat) (tok : Tokenizer)
    (inner : List Token) (h : Heap)
    (hat : tok.At (List.replicate quotes .QuoteToken ++ .BracketToken .OPEN :: inner))
    (hf : quotes + inner.length + 1 < fuel) :
    (matchClose 0 inner = none →
      ∃ message h1, Read fuel tok h = .exception (.SyntaxError message) h1) ∧
    (∀ pre inner2, inner = pre ++ .BracketToken .OPEN :: inner2 → matchClose 0 pre = none →
      matchClose 0 inner2 = none →
      ∃ message h1, Read fuel tok h = .exception (.SyntaxError message) h1) ∧
    (∀ p tok1 h1, Read fuel tok h = .ok (p, tok1) h1 →
      ∃ rest, matchClose 0 inner = some rest ∧ tok1.At rest) ∧
    (∀ (self : Interpreter) (expression : String) (pre inner2 : List Token),
      tokens expression = some (pre ++ .BracketToken .OPEN :: inner2) →
      matchClose 0 inner2 = none → pre.length + inner2.length + 1 < fuel →
      ∃ message h1, Interpreter.Run fuel self expression h
        = .exception (.SyntaxError message) h1) := by
  have hafter : afterDatum (List.replicate quotes .QuoteToken ++ .BracketToken .OPEN :: inner)
      = matchClose 0 inner := afterDatum_quotes quotes _
  have htotal := Read_total fuel tok _ h (by simp; omega) hat
  have hnone : matchClose 0 inner = none →
      ∃ message h1, Read fuel tok h = .exception (.SyntaxError message) h1 := by
    intro hn
    rcases htotal with hex | ⟨p, tok1, h1, rest, _, _, _, _, hafter1⟩
    · exact hex
    · rw [hafter, hn] at hafter1
      cases hafter1
  refine ⟨hnone, ?_, ?_, ?_⟩
  · intro pre inner2 hin hpre hin2
    apply hnone
    obtain ⟨depth1, hd⟩ := matchClose_append_of_none pre 0 hpre (.BracketToken .OPEN :: inner2)
    rw [hin, hd, matchClose_open]
    exact matchClose_none_mono inner2 0 (depth1 + 1) hin2 (by omega)
  · intro p tok1 h1 hok
    rcases htotal with ⟨message, h2, hex⟩ | ⟨p2, tok2, h2, rest, hok2, hat2, _, _, hafter2⟩
    · rw [hok] at hex
      cases hex
    · rw [hok] at hok2
      cases hok2
      exact ⟨rest, by rw [← hafter]; exact hafter2, hat2⟩
  · intro self expression pre inner2 hts hin2 hlen
    obtain ⟨tok0, hnew, hat0⟩ := Tokenizer_new_of_tokensOf hts h
    rcases Read_total fuel tok0 _ h (by simp; omega) hat0 with
      ⟨message, h2, hex⟩ | ⟨p2, tok2, h2, rest, hok2, hat2, _, _, hafter2⟩
    · exact ⟨message, h2, by simp only [Interpreter.Run, bind_eq, hnew, hex]⟩
    · obtain ⟨pre2, rfl⟩ := afterDatum_unmatched _ rest pre inner2 hafter2 rfl hin2
      have hend : tok2.is_end_ = false := by
        cases pre2 with
        | nil => exact hat2.1
        | cons _ _ => exact hat2.1
      exact ⟨"Wrong syntax!", h2, by
        simp only [Interpreter.Run, bind_eq, hnew, hok2, hend, Bool.not_false, if_true,
          throw_eq]⟩

/-- C25 at a concrete input: on `(a (b)`, with the tokenizer at the first
token, `Read` throws `SyntaxError`. -/
theorem C25_unmatched_open_parenthesis_witness :
    ∃ message h1, Read 10 ⟨false, "a (b)".data, .BracketToken .OPEN⟩ Heap.empty
      = .exception (.SyntaxError message) h1 :=
  (C25_unmatched_open_parenthesis 10 0 ⟨false, "a (b)".data, .BracketToken .OPEN⟩
    [.SymbolToken "a", .BracketToken .OPEN, .SymbolToken "b", .BracketToken .CLOSE] Heap.empty
    ⟨rfl, rfl, 5, by decide⟩ (by decide)).1 (by decide)

/-- C25 (an unmatched open parenthesis that `Read` does not fail on).  The
tokens of `1 (` hold an open parenthesis without a matching close
parenthesis.  `Read` reads one datum: it returns the number `1` and leaves
the tokenizer at the open parenthesis.  `Run` then throws `SyntaxError`
because the input is not at its end. -/
theorem C25_unmatched_after_first_datum :
    tokens "1 (" = some [.ConstantToken 1, .BracketToken .OPEN] ∧
    matchClose 0 [] = none ∧
    (∃ h1, (Tokenizer.new "1 (".data >>= Read 10) Heap.empty
        = .ok (.addr 0, ⟨false, [], .BracketToken .OPEN⟩) h1 ∧
      deref (.addr 0) h1 = .ok (.Number 1) h1) ∧
    Session 100 ["1 ("] = [.thrown (.SyntaxError "Wrong syntax!")] := by
  refine ⟨by decide, rfl, ⟨_, rfl, by decide!⟩, by decide!⟩

end Scheme

namespace Scheme

/-! ## C26: reading lists -/

/-- `Read` returns on no tokenizer whose token is a close parenthesis or a
dot. -/
theorem token_of_Read_ok {fuel : Nat} {tok tok1 : Tokenizer} {h h1 : Heap} {p : ObjectPtr}
    (hok : Read fuel tok h = .ok (p, tok1) h1) :
    tok.last_processed_token_ ≠ .BracketToken .CLOSE ∧ tok.last_processed_token_ ≠ .DotToken := by
  cases fuel with
  | zero => cases hok
  | succ fuel =>
    by_cases he : tok.is_end_ = true
    · simp only [Read, he, if_true, throw_eq] at hok
      cases hok
    · simp only [Read, he, Bool.false_eq_true, if_false, bind_eq] at hok
      constructor
      · intro hc
        rw [hc] at hok
        cases hn : tok.Next h <;> rw [hn] at hok <;> cases hok
      · intro hc
        rw [hc] at hok
        cases hn : tok.Next h <;> rw [hn] at hok <;> cases hok

theorem Denotes_MakeCell {h h1 : Heap} {first second cell : ObjectPtr} {A B : Value}
    (hm : MakeCell first second h = .ok cell h1) (ha : Denotes h first A)
    (hb : Denotes h second B) : Denotes h1 cell (.pair A B) :=
  .pair (deref_Make_self hm) (Denotes_frame (Extends_frame (Extends_Make hm)) ha)
    (Denotes_frame (Extends_frame (Extends_Make hm)) hb)

/-- A number token is read as its number. -/
theorem ReadsAs_number (value : Int) : ReadsAs 1 [.ConstantToken value] (.number value) := by
  intro fuel tok h rest hf hat
  obtain ⟨n, rfl⟩ : ∃ n, fuel = n + 1 := ⟨fuel - 1, by omega⟩
  obtain ⟨tok1, hnext, hat1⟩ := Tokenizer_Next_of_At hat h
  obtain ⟨q, h1, hq⟩ := Make_ok (.Number value) [] h
  exact ⟨q, tok1, h1, by
    simp only [Read, (show tok.is_end_ = false from hat.1), Bool.false_eq_true, if_false,
      bind_eq, hnext, (show tok.last_processed_token_ = _ from hat.2.1), hq, pure_eq],
    Extends_Make hq, .number (deref_Make_self hq), hat1⟩

/-- A symbol token is read as the symbol of its name, and as a boolean when
the name is `#t` or `#f`. -/
theorem ReadsAs_symbol (name : String) :
    ReadsAs 1 [.SymbolToken name]
      (if name = kFalseTokenName ∨ name = kTrueTokenName then .boolean name
        else .symbol name) := by
  intro fuel tok h rest hf hat
  obtain ⟨n, rfl⟩ : ∃ n, fuel = n + 1 := ⟨fuel - 1, by omega⟩
  obtain ⟨tok1, hnext, hat1⟩ := Tokenizer_Next_of_At hat h
  by_cases hb : name = kFalseTokenName ∨ name = kTrueTokenName
  · obtain ⟨q, h1, hq⟩ := Make_ok (.BooleanSymbol name) [] h
    refine ⟨q, tok1, h1, by
      simp only [Read, (show tok.is_end_ = false from hat.1), Bool.false_eq_true, if_false,
        bind_eq, hnext, (show tok.last_processed_token_ = _ from hat.2.1), SpecifySymbolObject,
        hb, if_true, hq, pure_eq],
      Extends_Make hq, ?_, hat1⟩
    rw [if_pos hb]
    exact .boolean (deref_Make_self hq)
  · obtain ⟨q, h1, hq⟩ := Make_ok (.Symbol name .nullptr) [] h
    refine ⟨q, tok1, h1, by
      simp only [Read, (show tok.is_end_ = false from hat.1), Bool.false_eq_true, if_false,
        bind_eq, hnext, (show tok.last_processed_token_ = _ from hat.2.1), SpecifySymbolObject,
        hb, if_false, hq, pure_eq],
      Extends_Make hq, ?_, hat1⟩
    rw [if_neg hb]
    exact .symbol (deref_Make_self hq)

/-- A larger budget reads the same. -/
theorem ReadsAs_mono {n n1 : Nat} {D : List Token} {V : Value} (hD : ReadsAs n D V)
    (hn : n ≤ n1) : ReadsAs n1 D V :=
  fun fuel tok h rest hf hat => hD fuel tok h rest (Nat.le_trans hn hf) hat

/-- A quote token followed by a datum is read as the list of the symbol
`quote` and that datum. -/
theorem ReadsAs_quote {n : Nat} {D : List Token} {V : Value} (hD : ReadsAs n D V) :
    ReadsAs (n + 1) (.QuoteToken :: D) (.pair (.symbol kQuoteSymbolName) (.pair V .null)) := by
  intro fuel tok h rest hf hat
  obtain ⟨F, rfl⟩ : ∃ F, fuel = F + 1 := ⟨fuel - 1, by omega⟩
  rw [List.cons_append] at hat
  obtain ⟨tok1, hnext, hat1⟩ := Tokenizer_Next_of_At hat h
  obtain ⟨quote, h1, hq⟩ := Make_ok (.Symbol kQuoteSymbolName .nullptr) [] h
  obtain ⟨p2, tok2, h2, hr2, hx2, hd2, hat2⟩ := hD F tok1 h1 rest (by omega) hat1
  have he1 : tok1.is_end_ = false := by
    cases hb : tok1.is_end_ with
    | false => rfl
    | true =>
      cases F with
      | zero => cases hr2
      | succ F1 =>
        simp only [Read, hb, if_true, throw_eq] at hr2
        cases hr2
  obtain ⟨inner, h3, hinner⟩ := MakeCell_ok p2 .nullptr h2
  obtain ⟨cell, h4, hcell⟩ := MakeCell_ok quote inner h3
  have hdq : Denotes h3 quote (.symbol kQuoteSymbolName) :=
    .symbol (Extends_deref (Extends_trans hx2 (Extends_Make hinner)) (deref_Make_self hq))
  refine ⟨cell, tok2, h4, ?_,
    Extends_trans (Extends_Make hq)
      (Extends_trans hx2 (Extends_trans (Extends_Make hinner) (Extends_Make hcell))),
    Denotes_MakeCell hcell hdq (Denotes_MakeCell hinner hd2 .null), hat2⟩
  simp only [Read, (show tok.is_end_ = false from hat.1), Bool.false_eq_true, if_false,
    bind_eq, hnext, (show tok.last_processed_token_ = _ from hat.2.1), he1, hq, hr2, hinner,
    hcell, pure_eq]

/-- `Read` at an open parenthesis, when `ReadList` stops in front of a close
parenthesis. -/
theorem Read_of_ReadList {fuel : Nat} {tok : Tokenizer} {h : Heap} {inner : List Token}
    (hat : tok.At (.BracketToken .OPEN :: inner)) :
    ∃ tok1, tok1.At inner ∧ tok.Next h = .ok tok1 h ∧
      ∀ (p : ObjectPtr) (tok2 : Tokenizer) (h1 : Heap) (rest : List Token),
        ReadList (Read fuel) fuel tok1 h = .ok (p, tok2) h1 →
        tok2.At (.BracketToken .CLOSE :: rest) →
        ∃ tok3, Read (fuel + 1) tok h = .ok (p, tok3) h1 ∧ tok3.At rest := by
  obtain ⟨tok1, hnext, hat1⟩ := Tokenizer_Next_of_At hat h
  refine ⟨tok1, hat1, hnext, ?_⟩
  intro p tok2 h1 rest hl hat2
  obtain ⟨tok3, hnext2, hat3⟩ := Tokenizer_Next_of_At hat2 h1
  have hcb : AtCloseBracket tok2 = true := (AtCloseBracket_iff tok2).2 (Tokenizer_At_token hat2)
  exact ⟨tok3, by
    simp only [Read, (show tok.is_end_ = false from hat.1), Bool.false_eq_true, if_false,
      bind_eq, hnext, (show tok.last_processed_token_ = _ from hat.2.1), hl, hcb,
      Bool.not_true, hnext2, pure_eq], hat3⟩

/-- `ReadList` over the tokens of data that `Read` reads, up to the close
parenthesis or over a dot and one more datum: the chain of pairs. -/
theorem ReadList_items {n fuel : Nat} (hn : n ≤ fuel) :
    ∀ (items : List (List Token × Value)), (∀ x ∈ items, ReadsAs n x.1 x.2) → items ≠ [] →
    ∀ (f : Nat) (tok : Tokenizer) (h : Heap) (rest : List Token), items.length ≤ f →
    (tok.At ((items.map Prod.fst).flatten ++ .BracketToken .CLOSE :: rest) →
      ∃ p tok1 h1, ReadList (Read fuel) f tok h = .ok (p, tok1) h1 ∧ Extends h h1 ∧
        Denotes h1 p (pairChain (items.map Prod.snd) .null) ∧
        tok1.At (.BracketToken .CLOSE :: rest)) ∧
    (∀ T t, ReadsAs n T t →
      tok.At ((items.map Prod.fst).flatten ++ .DotToken :: (T ++ .BracketToken .CLOSE :: rest)) →
      ∃ p tok1 h1, ReadList (Read fuel) f tok h = .ok (p, tok1) h1 ∧ Extends h h1 ∧
        Denotes h1 p (pairChain (items.map Prod.snd) t) ∧
        tok1.At (.BracketToken .CLOSE :: rest)) := by
  intro items
  induction items with
  | nil => intro _ hne; exact absurd rfl hne
  | cons x items1 ih =>
    intro hall _ f tok h rest hf
    obtain ⟨f1, rfl⟩ : ∃ f1, f = f1 + 1 := ⟨f - 1, by simp at hf; omega⟩
    have hx : ReadsAs n x.1 x.2 := hall x (List.mem_cons_self _ _)
    have hall1 : ∀ y ∈ items1, ReadsAs n y.1 y.2 :=
      fun y hy => hall y (List.mem_cons_of_mem _ hy)
    have hfirst : ∀ (tail : List Token), tok.At (x.1 ++ tail) →
        ∃ p1 tok1 h1, Read fuel tok h = .ok (p1, tok1) h1 ∧ Extends h h1 ∧ Denotes h1 p1 x.2 ∧
          tok1.At tail ∧
          ReadList (Read fuel) (f1 + 1) tok h =
            (if tok1.last_processed_token_ = Token.BracketToken .CLOSE then do
                let cell ← MakeCell p1 .nullptr
                pure (cell, tok1)
              else if tok1.last_processed_token_ = Token.DotToken then do
                let tok2 ← tok1.Next
                let (second, tok3) ← Read fuel tok2
                let cell ← MakeCell p1 second
                pure (cell, tok3)
              else do
                let (rest, tok2) ← ReadList (Read fuel) f1 tok1
                let cell ← MakeCell p1 rest
                pure (cell, tok2)) h1 := by
      intro tail hat
      obtain ⟨p1, tok1, h1, hr, hx1, hd1, hat1⟩ := hx fuel tok h tail hn hat
      have hc : AtCloseBracket tok = false := by
        cases hb : AtCloseBracket tok with
        | false => rfl
        | true => exact absurd ((AtCloseBracket_iff tok).1 hb) (token_of_Read_ok hr).1
      exact ⟨p1, tok1, h1, hr, hx1, hd1, hat1, ReadList_of_read hc hr⟩
    cases items1 with
    | nil =>
      constructor
      · intro hat
        simp only [List.map_cons, List.map_nil, List.flatten_cons, List.flatten_nil,
          List.append_nil] at hat
        obtain ⟨p1, tok1, h1, _, hx1, hd1, hat1, hrl⟩ := hfirst _ hat
        obtain ⟨cell, h2, hcell⟩ := MakeCell_ok p1 .nullptr h1
        refine ⟨cell, tok1, h2, ?_, Extends_trans hx1 (Extends_Make hcell),
          Denotes_MakeCell hcell hd1 .null, hat1⟩
        rw [hrl, if_pos (Tokenizer_At_token hat1)]
        simp only [bind_eq, hcell, pure_eq]
      · intro T t hT hat
        simp only [List.map_cons, List.map_nil, List.flatten_cons, List.flatten_nil,
          List.append_nil] at hat
        obtain ⟨p1, tok1, h1, _, hx1, hd1, hat1, hrl⟩ := hfirst _ hat
        obtain ⟨tok2, hnext, hat2⟩ := Tokenizer_Next_of_At hat1 h1
        obtain ⟨p2, tok3, h2, hr2, hx2, hd2, hat3⟩ := hT fuel tok2 h1 _ hn hat2
        obtain ⟨cell, h3, hcell⟩ := MakeCell_ok p1 p2 h2
        refine ⟨cell, tok3, h3, ?_, Extends_trans hx1 (Extends_trans hx2 (Extends_Make hcell)),
          Denotes_MakeCell hcell (Denotes_frame (Extends_frame hx2) hd1) hd2, hat3⟩
        have ht1 := Tokenizer_At_token hat1
        rw [hrl, if_neg (by rw [ht1]; simp), if_pos ht1]
        simp only [bind_eq, hnext, hr2, hcell, pure_eq]
    | cons y items2 =>
      have ih1 := ih hall1 (by simp) f1
      have hy : ReadsAs n y.1 y.2 := hall1 y (List.mem_cons_self _ _)
      have hstep : ∀ (tail : List Token), tok.At (x.1 ++ (y.1 ++ tail)) →
          ∃ p1 tok1 h1, Extends h h1 ∧ Denotes h1 p1 x.2 ∧ tok1.At (y.1 ++ tail) ∧
            ReadList (Read fuel) (f1 + 1) tok h =
              (do
                let (rest, tok2) ← ReadList (Read fuel) f1 tok1
                let cell ← MakeCell p1 rest
                pure (cell, tok2)) h1 := by
        intro tail hat
        obtain ⟨p1, tok1, h1, _, hx1, hd1, hat1, hrl⟩ := hfirst _ hat
        obtain ⟨_, _, _, hr2, _⟩ := hy fuel tok1 h1 tail hn hat1
        have hne := token_of_Read_ok hr2
        refine ⟨p1, tok1, h1, hx1, hd1, hat1, ?_⟩
        rw [hrl, if_neg hne.1, if_neg hne.2]
      constructor
      · intro hat
        simp only [List.map_cons, List.flatten_cons, List.append_assoc] at hat
        obtain ⟨p1, tok1, h1, hx1, hd1, hat1, hrl⟩ := hstep _ hat
        obtain ⟨p2, tok2, h2, hr2, hx2, hd2, hat2⟩ := (ih1 tok1 h1 rest (by simp at hf ⊢; omega)).1
          (by simpa only [List.map_cons, List.flatten_cons, List.append_assoc] using hat1)
        obtain ⟨cell, h3, hcell⟩ := MakeCell_ok p1 p2 h2
        refine ⟨cell, tok2, h3, ?_, Extends_trans hx1 (Extends_trans hx2 (Extends_Make hcell)),
          Denotes_MakeCell hcell (Denotes_frame (Extends_frame hx2) hd1) hd2, hat2⟩
        rw [hrl]
        simp only [bind_eq, hr2, hcell, pure_eq]
      · intro T t hT hat
        simp only [List.map_cons, List.flatten_cons, List.append_assoc] at hat
        obtain ⟨p1, tok1, h1, hx1, hd1, hat1, hrl⟩ := hstep _ hat
        obtain ⟨p2, tok2, h2, hr2, hx2, hd2, hat2⟩ := (ih1 tok1 h1 rest (by simp at hf ⊢; omega)).2
          T t hT (by simpa only [List.map_cons, List.flatten_cons, List.append_assoc] using hat1)
        obtain ⟨cell, h3, hcell⟩ := MakeCell_ok p1 p2 h2
        refine ⟨cell, tok2, h3, ?_, Extends_trans hx1 (Extends_trans hx2 (Extends_Make hcell)),
          Denotes_MakeCell hcell (Denotes_frame (Extends_frame hx2) hd1) hd2, hat2⟩
        rw [hrl]
        simp only [bind_eq, hr2, hcell, pure_eq]

/-- C26.  Let `Read` read each of the token sequences `D1, ..., Dn` as the
value `d1, ..., dn` and the token sequence `T` as the value `t` (from every
position, in every heap, with every budget from `n` on).  Then, for `n ≥ 1`,
`Read` reads the tokens `( D1 ... Dn . T )` as the chain of pairs whose first
fields are `d1, ..., dn` in order and whose last second field is `t`, and the
tokens `( D1 ... Dn )` as that chain ending in null; and it reads `( )` as
null.  Reading changes no object that was in the heap. -/
theorem C26_read_list (n : Nat) (items : List (List Token × Value)) (T : List Token)
    (t : Value) (hitems : ∀ x ∈ items, ReadsAs n x.1 x.2) (hT : ReadsAs n T t) :
    (items ≠ [] →
      ReadsAs (n + items.length + 1)
        (.BracketToken .OPEN ::
          ((items.map Prod.fst).flatten ++ .DotToken :: (T ++ [.BracketToken .CLOSE])))
        (pairChain (items.map Prod.snd) t)) ∧
    (items ≠ [] →
      ReadsAs (n + items.length + 1)
        (.BracketToken .OPEN :: ((items.map Prod.fst).flatten ++ [.BracketToken .CLOSE]))
        (pairChain (items.map Prod.snd) .null)) ∧
    ReadsAs 2 [.BracketToken .OPEN, .BracketToken .CLOSE] .null := by
  refine ⟨?_, ?_, ?_⟩
  · intro hne fuel tok h rest hf hat
    obtain ⟨F, rfl⟩ : ∃ F, fuel = F + 1 := ⟨fuel - 1, by omega⟩
    simp only [List.cons_append, List.append_assoc, List.singleton_append] at hat
    obtain ⟨tok1, hat1, _, hread⟩ := @Read_of_ReadList F tok h _ hat
    obtain ⟨p, tok2, h1, hl, hx, hd, hat2⟩ :=
      (ReadList_items (show n ≤ F by omega) items hitems hne F tok1 h rest (by omega)).2
        T t hT hat1
    obtain ⟨tok3, hr, hat3⟩ := hread p tok2 h1 rest hl hat2
    exact ⟨p, tok3, h1, hr, hx, hd, hat3⟩
  · intro hne fuel tok h rest hf hat
    obtain ⟨F, rfl⟩ : ∃ F, fuel = F + 1 := ⟨fuel - 1, by omega⟩
    simp only [List.cons_append, List.append_assoc, List.singleton_append] at hat
    obtain ⟨tok1, hat1, _, hread⟩ := @Read_of_ReadList F tok h _ hat
    obtain ⟨p, tok2, h1, hl, hx, hd, hat2⟩ :=
      (ReadList_items (show n ≤ F by omega) items hitems hne F tok1 h rest (by omega)).1 hat1
    obtain ⟨tok3, hr, hat3⟩ := hread p tok2 h1 rest hl hat2
    exact ⟨p, tok3, h1, hr, hx, hd, hat3⟩
  · intro fuel tok h rest hf hat
    obtain ⟨F, rfl⟩ : ∃ F, fuel = F + 1 := ⟨fuel - 1, by omega⟩
    obtain ⟨F1, rfl⟩ : ∃ F1, F = F1 + 1 := ⟨F - 1, by omega⟩
    obtain ⟨tok1, hat1, _, hread⟩ := @Read_of_ReadList (F1 + 1) tok h _ hat
    have hcb : AtCloseBracket tok1 = true :=
      (AtCloseBracket_iff tok1).2 (Tokenizer_At_token hat1)
    have hl : ReadList (Read (F1 + 1)) (F1 + 1) tok1 h = .ok (.nullptr, tok1) h := by
      simp only [ReadList, hcb, if_true, pure_eq]
    obtain ⟨tok3, hr, hat3⟩ := hread .nullptr tok1 h rest hl hat1
    exact ⟨.nullptr, tok3, h, hr, Extends_refl h, .null, hat3⟩

/-- C26 at a concrete input: on `(1 2 . 3)`, with the tokenizer at the first
token, `Read` returns the chain of the pairs of `1` and `2` that ends in
`3`. -/
theorem C26_read_list_witness :
    ∃ p tok1 h1, Read 4 ⟨false, "1 2 . 3)".data, .BracketToken .OPEN⟩ Heap.empty
        = .ok (p, tok1) h1 ∧
      Extends Heap.empty h1 ∧
      Denotes h1 p (.pair (.number 1) (.pair (.number 2) (.number 3))) ∧ tok1.At [] :=
  (C26_read_list 1 [([.ConstantToken 1], .number 1), ([.ConstantToken 2], .number 2)]
    [.ConstantToken 3] (.number 3)
    (fun x hx => by
      simp only [List.mem_cons, List.mem_singleton, List.not_mem_nil, or_false] at hx
      rcases hx with rfl | rfl
      · exact ReadsAs_number 1
      · exact ReadsAs_number 2)
    (ReadsAs_number 3)).1 (by simp) 4 ⟨false, "1 2 . 3)".data, .BracketToken .OPEN⟩ Heap.empty []
    (by decide) ⟨rfl, rfl, 10, by decide⟩

end Scheme

namespace Scheme

/-! ## C27: a dot in a wrong place -/

/-- `Read` at an open parenthesis: `ReadList`, the test for the close
parenthesis, and one `Next`. -/
theorem Read_open {fuel : Nat} {tok : Tokenizer} {inner : List Token}
    (hat : tok.At (.BracketToken .OPEN :: inner)) (h : Heap) :
    ∃ tok1, tok1.At inner ∧
      Read (fuel + 1) tok h
        = (do
            let (list_ptr, tokenizer) ← ReadList (Read fuel) fuel tok1
            if !AtCloseBracket tokenizer then
              throw (.SyntaxError "Wrong syntax! Not enough close brackets.")
            else do
              let tokenizer ← tokenizer.Next
              pure (list_ptr, tokenizer)) h := by
  obtain ⟨tok1, hnext, hat1⟩ := Tokenizer_Next_of_At hat h
  exact ⟨tok1, hat1, by
    simp only [Read, (show tok.is_end_ = false from hat.1), Bool.false_eq_true, if_false,
      bind_eq, hnext, (show tok.last_processed_token_ = _ from hat.2.1)]⟩

/-- `Read` throws `SyntaxError` at a dot, at a close parenthesis and at the
end of input. -/
theorem Read_no_datum {fuel : Nat} {tok : Tokenizer} {ts : List Token} (hat : tok.At ts)
    (hts : ts = [] ∨ ts.head? = some (.BracketToken .CLOSE) ∨ ts.head? = some .DotToken)
    (h : Heap) :
    ∃ message h1, Read (fuel + 1) tok h = .exception (.SyntaxError message) h1 := by
  cases ts with
  | nil =>
    exact ⟨"No tokens to read.", h, by
      simp only [Read, (show tok.is_end_ = true from hat), if_true, throw_eq]⟩
  | cons x r =>
    obtain ⟨tok1, hnext, _⟩ := Tokenizer_Next_of_At hat h
    rcases hts with hts | hts | hts
    · cases hts
    · simp only [List.head?_cons, Option.some.injEq] at hts
      subst hts
      exact ⟨"Close bracket in the start of the expression.", h, by
        simp only [Read, (show tok.is_end_ = false from hat.1), Bool.false_eq_true, if_false,
          bind_eq, hnext, (show tok.last_processed_token_ = _ from hat.2.1), throw_eq]⟩
    · simp only [List.head?_cons, Option.some.injEq] at hts
      subst hts
      exact ⟨"Wrong syntax! Probably dot in a wrong place.", h, by
        simp only [Read, (show tok.is_end_ = false from hat.1), Bool.false_eq_true, if_false,
          bind_eq, hnext, (show tok.last_processed_token_ = _ from hat.2.1), throw_eq]⟩

/-- `ReadList` over the tokens of data that `Read` reads, up to a dot: what
`Read` does with the tokens after the dot decides the outcome. -/
theorem ReadList_items_dot {n fuel : Nat} (hn : n ≤ fuel) :
    ∀ (items : List (List Token × Value)), (∀ x ∈ items, ReadsAs n x.1 x.2) → items ≠ [] →
    ∀ (f : Nat) (tok : Tokenizer) (h : Heap) (tail : List Token), items.length ≤ f →
    tok.At ((items.map Prod.fst).flatten ++ .DotToken :: tail) →
    ∃ tok2 h1, tok2.At tail ∧
      (∀ e h2, Read fuel tok2 h1 = .exception e h2 →
        ReadList (Read fuel) f tok h = .exception e h2) ∧
      (∀ p2 tok3 h2, Read fuel tok2 h1 = .ok (p2, tok3) h2 →
        ∃ p h3, ReadList (Read fuel) f tok h = .ok (p, tok3) h3) := by
  intro items
  induction items with
  | nil => intro _ hne; exact absurd rfl hne
  | cons x items1 ih =>
    intro hall _ f tok h tail hf hat
    obtain ⟨f1, rfl⟩ : ∃ f1, f = f1 + 1 := ⟨f - 1, by simp at hf; omega⟩
    have hx : ReadsAs n x.1 x.2 := hall x (List.mem_cons_self _ _)
    have hall1 : ∀ y ∈ items1, ReadsAs n y.1 y.2 :=
      fun y hy => hall y (List.mem_cons_of_mem _ hy)
    simp only [List.map_cons, List.flatten_cons, List.append_assoc] at hat
    obtain ⟨p1, tok1, h1, hr, hx1, hd1, hat1⟩ := hx fuel tok h _ hn hat
    have hc : AtCloseBracket tok = false := by
      cases hb : AtCloseBracket tok with
      | false => rfl
      | true => exact absurd ((AtCloseBracket_iff tok).1 hb) (token_of_Read_ok hr).1
    have hrl := @ReadList_of_read (Read fuel) f1 tok tok1 h h1 p1 hc hr
    cases items1 with
    | nil =>
      simp only [List.map_nil, List.flatten_nil, List.nil_append] at hat1
      obtain ⟨tok2, hnext, hat2⟩ := Tokenizer_Next_of_At hat1 h1
      have ht1 := Tokenizer_At_token hat1
      rw [if_neg (by rw [ht1]; simp), if_pos ht1] at hrl
      refine ⟨tok2, h1, hat2, ?_, ?_⟩
      · intro e h2 he
        rw [hrl]
        simp only [bind_eq, hnext, he]
      · intro p2 tok3 h2 hok
        obtain ⟨cell, h3, hcell⟩ := MakeCell_ok p1 p2 h2
        refine ⟨cell, h3, ?_⟩
        rw [hrl]
        simp only [bind_eq, hnext, hok, hcell, pure_eq]
    | cons y items2 =>
      have hy : ReadsAs n y.1 y.2 := hall1 y (List.mem_cons_self _ _)
      have hat1a := hat1
      simp only [List.map_cons, List.flatten_cons, List.append_assoc] at hat1a
      obtain ⟨_, _, _, hr2, _⟩ := hy fuel tok1 h1 _ hn hat1a
      have hne := token_of_Read_ok hr2
      rw [if_neg hne.1, if_neg hne.2] at hrl
      obtain ⟨tok2, h2, hat2, hfail, hgo⟩ :=
        ih hall1 (by simp) f1 tok1 h1 tail (by simp at hf ⊢; omega) hat1
      refine ⟨tok2, h2, hat2, ?_, ?_⟩
      · intro e h3 he
        rw [hrl]
        simp only [bind_eq, hfail e h3 he]
      · intro p2 tok3 h3 hok
        obtain ⟨p, h4, hl⟩ := hgo p2 tok3 h3 hok
        obtain ⟨cell, h5, hcell⟩ := MakeCell_ok p1 p h4
        refine ⟨cell, h5, ?_⟩
        rw [hrl]
        simp only [bind_eq, hl, hcell, pure_eq]

/-- C27.  Let `Read` read each of the token sequences `D1, ..., Dn`, `n ≥ 1`,
and `T` as a value, and let the budget be above theirs and `n`.  `Read` throws
`SyntaxError` from a tokenizer that stands at (1) `( .` and any further
tokens: the dot has no element before it; (2) `( D1 ... Dn .` followed by a
close parenthesis or another dot and any further tokens, or (3) by the end of
input: no datum follows the dot; (4) `( D1 ... Dn . T` followed by a token
other than the close parenthesis: more than one datum follows the dot; (5) a
dot or (6) a close parenthesis in leading position. -/
theorem C27_misplaced_dot (n fuel : Nat) (items : List (List Token × Value)) (T : List Token)
    (t : Value) (h : Heap) (rest : List Token)
    (hitems : ∀ x ∈ items, ReadsAs n x.1 x.2) (hT : ReadsAs n T t) (hne : items ≠ [])
    (hf : n + items.length + 1 ≤ fuel) :
    (∀ tok : Tokenizer, tok.At (.BracketToken .OPEN :: .DotToken :: rest) →
      ∃ message h1, Read fuel tok h = .exception (.SyntaxError message) h1) ∧
    (∀ (tok : Tokenizer) (x : Token), x = .BracketToken .CLOSE ∨ x = .DotToken →
      tok.At (.BracketToken .OPEN :: ((items.map Prod.fst).flatten ++ .DotToken :: x :: rest)) →
      ∃ message h1, Read fuel tok h = .exception (.SyntaxError message) h1) ∧
    (∀ tok : Tokenizer,
      tok.At (.BracketToken .OPEN :: ((items.map Prod.fst).flatten ++ [.DotToken])) →
      ∃ message h1, Read fuel tok h = .exception (.SyntaxError message) h1) ∧
    (∀ (tok : Tokenizer) (x : Token), x ≠ .BracketToken .CLOSE →
      tok.At (.BracketToken .OPEN ::
        ((items.map Prod.fst).flatten ++ .DotToken :: (T ++ x :: rest))) →
      ∃ message h1, Read fuel tok h = .exception (.SyntaxError message) h1) ∧
    (∀ tok : Tokenizer, tok.At (.DotToken :: rest) →
      ∃ message h1, Read fuel tok h = .exception (.SyntaxError message) h1) ∧
    (∀ tok : Tokenizer, tok.At (.BracketToken .CLOSE :: rest) →
      ∃ message h1, Read fuel tok h = .exception (.SyntaxError message) h1) := by
  obtain ⟨F, rfl⟩ : ∃ F, fuel = F + 1 := ⟨fuel - 1, by omega⟩
  have hlen : 0 < items.length := List.length_pos.mpr hne
  obtain ⟨F1, rfl⟩ : ∃ F1, F = F1 + 1 := ⟨F - 1, by omega⟩
  have hnF : n ≤ F1 + 1 := by omega
  have hdotted : ∀ (tok : Tokenizer) (tail : List Token),
      tok.At (.BracketToken .OPEN :: ((items.map Prod.fst).flatten ++ .DotToken :: tail)) →
      ∃ tok1 tok2 h1, tok2.At tail ∧
        Read (F1 + 1 + 1) tok h
          = (do
              let (list_ptr, tokenizer) ← ReadList (Read (F1 + 1)) (F1 + 1) tok1
              if !AtCloseBracket tokenizer then
                throw (.SyntaxError "Wrong syntax! Not enough close brackets.")
              else do
                let tokenizer ← tokenizer.Next
                pure (list_ptr, tokenizer)) h ∧
        (∀ e h2, Read (F1 + 1) tok2 h1 = .exception e h2 →
          ReadList (Read (F1 + 1)) (F1 + 1) tok1 h = .exception e h2) ∧
        (∀ p2 tok3 h2, Read (F1 + 1) tok2 h1 = .ok (p2, tok3) h2 →
          ∃ p h3, ReadList (Read (F1 + 1)) (F1 + 1) tok1 h = .ok (p, tok3) h3) := by
    intro tok tail hat
    obtain ⟨tok1, hat1, hopen⟩ := @Read_open (F1 + 1) tok _ hat h
    obtain ⟨tok2, h1, hat2, hfail, hgo⟩ :=
      ReadList_items_dot hnF items hitems hne (F1 + 1) tok1 h tail (by omega) hat1
    exact ⟨tok1, tok2, h1, hat2, hopen, hfail, hgo⟩
  have hnodatum : ∀ (tok : Tokenizer) (tail : List Token),
      tok.At (.BracketToken .OPEN :: ((items.map Prod.fst).flatten ++ .DotToken :: tail)) →
      (tail = [] ∨ tail.head? = some (.BracketToken .CLOSE) ∨ tail.head? = some .DotToken) →
      ∃ message h1, Read (F1 + 1 + 1) tok h = .exception (.SyntaxError message) h1 := by
    intro tok tail hat htail
    obtain ⟨tok1, tok2, h1, hat2, hopen, hfail, _⟩ := hdotted tok tail hat
    obtain ⟨message, h2, hex⟩ := @Read_no_datum F1 tok2 tail hat2 htail h1
    exact ⟨message, h2, by rw [hopen]; simp only [bind_eq, hfail _ _ hex]⟩
  refine ⟨?_, ?_, ?_, ?_, ?_, ?_⟩
  · intro tok hat
    obtain ⟨tok1, hat1, hopen⟩ := @Read_open (F1 + 1) tok _ hat h
    obtain ⟨message, h2, hex⟩ :=
      @Read_no_datum F1 tok1 _ hat1 (.inr (.inr rfl)) h
    have hc : AtCloseBracket tok1 = false := by
      cases hb : AtCloseBracket tok1 with
      | false => rfl
      | true =>
        have := (AtCloseBracket_iff tok1).1 hb
        rw [Tokenizer_At_token hat1] at this
        cases this
    exact ⟨message, h2, by
      rw [hopen]; simp only [bind_eq, ReadList_of_read_exception hc hex]⟩
  · intro tok x hx hat
    apply hnodatum tok (x :: rest) hat
    rcases hx with rfl | rfl
    · exact .inr (.inl rfl)
    · exact .inr (.inr rfl)
  · intro tok hat
    exact hnodatum tok [] hat (.inl rfl)
  · intro tok x hx hat
    obtain ⟨tok1, tok2, h1, hat2, hopen, _, hgo⟩ := hdotted tok _ hat
    obtain ⟨p2, tok3, h2, hr2, _, _, hat3⟩ := hT (F1 + 1) tok2 h1 (x :: rest) hnF hat2
    obtain ⟨p, h3, hl⟩ := hgo p2 tok3 h2 hr2
    have hc : AtCloseBracket tok3 = false := by
      cases hb : AtCloseBracket tok3 with
      | false => rfl
      | true =>
        exact absurd ((Tokenizer_At_token hat3).symm.trans ((AtCloseBracket_iff tok3).1 hb)) hx
    exact ⟨"Wrong syntax! Not enough close brackets.", h3, by
      rw [hopen]; simp only [bind_eq, hl, hc, Bool.not_false, if_true, throw_eq]⟩
  · intro tok hat
    exact @Read_no_datum (F1 + 1) tok _ hat (.inr (.inr rfl)) h
  · intro tok hat
    exact @Read_no_datum (F1 + 1) tok _ hat (.inr (.inl rfl)) h

/-- C27 at a concrete input: on `(1 . 2 3)`, with the tokenizer at the first
token, `Read` throws `SyntaxError`. -/
theorem C27_misplaced_dot_witness :
    ∃ message h1, Read 3 ⟨false, "1 . 2 3)".data, .BracketToken .OPEN⟩ Heap.empty
      = .exception (.SyntaxError message) h1 :=
  (C27_misplaced_dot 1 3 [([.ConstantToken 1], .number 1)] [.ConstantToken 2] (.number 2)
    Heap.empty [.BracketToken .CLOSE]
    (fun x hx => by
      simp only [List.mem_singleton] at hx
      subst hx
      exact ReadsAs_number 1)
    (ReadsAs_number 2) (by simp) (by decide)).2.2.2.1
    ⟨false, "1 . 2 3)".data, .BracketToken .OPEN⟩ (.ConstantToken 3) (by simp)
    ⟨rfl, rfl, 10, by decide⟩

end Scheme

namespace Scheme

/-! ## White space at the end of the input -/

theorem IsSpace_char {c : Char} (hc : IsSpace c = true) :
    c = Char.ofNat 32 ∨ c = Char.ofNat 9 ∨ c = Char.ofNat 10 ∨ c = Char.ofNat 11 ∨
      c = Char.ofNat 12 ∨ c = Char.ofNat 13 := by
  have hof := Char.ofNat_toNat c
  simp only [IsSpace, Bool.or_eq_true, decide_eq_true_eq, Bool.and_eq_true] at hc
  rcases hc with rfl | ⟨h9, h13⟩
  · left; rfl
  · right
    have hk : c.toNat = 9 ∨ c.toNat = 10 ∨ c.toNat = 11 ∨ c.toNat = 12 ∨ c.toNat = 13 := by
      omega
    rcases hk with hk | hk | hk | hk | hk <;> rw [hk] at hof <;> simp [← hof]

/-- A white-space character is a plain character that is no digit and no
part of a symbol. -/
theorem IsSpace_facts {c : Char} (hc : IsSpace c = true) :
    isPlainChar c = true ∧ IsDigit c = false ∧ IsPartOfSymbol c = false := by
  rcases IsSpace_char hc with rfl | rfl | rfl | rfl | rfl | rfl <;> decide

theorem skipSpaces_spaces : ∀ (w : List Char), (∀ c ∈ w, IsSpace c = true) →
    skipSpaces w = some (none, []) := by
  intro w
  induction w with
  | nil => intro _; rfl
  | cons c r ih =>
    intro hw
    have hc := hw c (List.mem_cons_self _ _)
    simp only [skipSpaces, (IsSpace_facts hc).1, Bool.not_true, Bool.false_eq_true, if_false,
      hc, if_true]
    exact ih (fun d hd => hw d (List.mem_cons_of_mem _ hd))

theorem skipSpaces_append {w : List Char} (hw : ∀ c ∈ w, IsSpace c = true) :
    ∀ (s : List Char) (r : Option Char × List Char), skipSpaces s = some r →
    skipSpaces (s ++ w) = some (r.1, if r.1 = none then [] else r.2 ++ w) := by
  intro s
  induction s with
  | nil =>
    intro r hr
    simp only [skipSpaces, Option.some.injEq] at hr
    subst hr
    simpa using skipSpaces_spaces w hw
  | cons c rest ih =>
    intro r hr
    show skipSpaces (c :: (rest ++ w)) = _
    simp only [skipSpaces] at hr ⊢
    by_cases hp : isPlainChar c = true
    · simp only [hp, Bool.not_true, Bool.false_eq_true, if_false] at hr ⊢
      by_cases hs : IsSpace c = true
      · simp only [hs, if_true] at hr ⊢
        exact ih r hr
      · simp only [hs, Bool.false_eq_true, if_false, Option.some.injEq] at hr ⊢
        subst hr
        simp
    · simp only [hp, Bool.not_false, if_true] at hr
      cases hr

theorem takeWhilePeek_append {P : Char → Bool} {w : List Char}
    (hw : ∀ c ∈ w, isPlainChar c = true ∧ P c = false) :
    ∀ (s taken left : List Char), takeWhilePeek P s = some (taken, left) →
    takeWhilePeek P (s ++ w) = some (taken, left ++ w) := by
  intro s
  induction s with
  | nil =>
    intro taken left hr
    simp only [takeWhilePeek, Option.some.injEq, Prod.mk.injEq] at hr
    obtain ⟨rfl, rfl⟩ := hr
    cases w with
    | nil => rfl
    | cons c r =>
      have hc := hw c (List.mem_cons_self _ _)
      simp only [List.nil_append, takeWhilePeek, hc.1, hc.2, Bool.not_true, Bool.false_eq_true,
        if_false]
  | cons c rest ih =>
    intro taken left hr
    show takeWhilePeek P (c :: (rest ++ w)) = _
    simp only [takeWhilePeek] at hr ⊢
    by_cases hp : isPlainChar c = true
    · simp only [hp, Bool.not_true, Bool.false_eq_true, if_false] at hr ⊢
      by_cases hP : P c = true
      · simp only [hP, if_true] at hr ⊢
        cases hrec : takeWhilePeek P rest with
        | none => rw [hrec] at hr; cases hr
        | some r =>
          obtain ⟨taken1, left1⟩ := r
          rw [hrec] at hr
          simp only [Option.some.injEq, Prod.mk.injEq] at hr
          obtain ⟨rfl, rfl⟩ := hr
          rw [ih taken1 left1 hrec]
      · simp only [hP, Bool.false_eq_true, if_false, Option.some.injEq, Prod.mk.injEq] at hr ⊢
        obtain ⟨rfl, rfl⟩ := hr
        simp
    · simp only [hp, Bool.not_false, if_true] at hr
      cases hr

/-- White space appended to the input changes no token that `Next` yields,
and not where the input ends. -/
theorem Tokenizer_Next_append {w : List Char} (hw : ∀ c ∈ w, IsSpace c = true)
    (s : List Char) (t0 : Token) (h hout : Heap) (tk : Tokenizer)
    (hn : Tokenizer.Next ⟨false, s, t0⟩ h = .ok tk hout) :
    Tokenizer.Next ⟨false, s ++ w, t0⟩ h
      = .ok ⟨tk.is_end_, if tk.is_end_ then [] else tk.token_stream_ ++ w,
          tk.last_processed_token_⟩ hout := by
  have hwd : ∀ c ∈ w, isPlainChar c = true ∧ IsDigit c = false :=
    fun c hc => ⟨(IsSpace_facts (hw c hc)).1, (IsSpace_facts (hw c hc)).2.1⟩
  have hws : ∀ c ∈ w, isPlainChar c = true ∧ IsPartOfSymbol c = false :=
    fun c hc => ⟨(IsSpace_facts (hw c hc)).1, (IsSpace_facts (hw c hc)).2.2⟩
  simp only [Tokenizer.Next, Bool.false_eq_true, if_false] at hn ⊢
  cases hs : skipSpaces s with
  | none => rw [hs] at hn; cases hn
  | some r =>
    obtain ⟨c, rest⟩ := r
    rw [hs] at hn
    rw [skipSpaces_append hw s _ hs]
    cases c with
    | none =>
      simp only [pure_eq, Outcome.ok.injEq] at hn
      obtain ⟨rfl, rfl⟩ := hn
      rfl
    | some c =>
      simp only [reduceCtorEq, if_false] at hn ⊢
      by_cases h1 : IsQuote c = true
      · simp only [h1, if_true, pure_eq, Outcome.ok.injEq] at hn ⊢
        obtain ⟨rfl, rfl⟩ := hn
        exact ⟨rfl, rfl⟩
      simp only [h1, if_false] at hn ⊢
      by_cases h2 : IsOpenBracket c = true
      · simp only [h2, if_true, pure_eq, Outcome.ok.injEq] at hn ⊢
        obtain ⟨rfl, rfl⟩ := hn
        rfl
      simp only [h2, if_false] at hn ⊢
      by_cases h3 : IsCloseBracket c = true
      · simp only [h3, if_true, pure_eq, Outcome.ok.injEq] at hn ⊢
        obtain ⟨rfl, rfl⟩ := hn
        rfl
      simp only [h3, if_false] at hn ⊢
      by_cases h4 : IsDot c = true
      · simp only [h4, if_true, pure_eq, Outcome.ok.injEq] at hn ⊢
        obtain ⟨rfl, rfl⟩ := hn
        rfl
      simp only [h4, if_false] at hn ⊢
      by_cases h5 : (IsPlus c || IsMinus c) = true
      · simp only [h5, if_true, Tokenizer.ProcessPlusMinusToken] at hn ⊢
        cases ht : takeWhilePeek IsDigit rest with
        | none => rw [ht] at hn; cases hn
        | some r2 =>
          obtain ⟨digits, rest2⟩ := r2
          rw [ht] at hn
          rw [takeWhilePeek_append hwd rest digits rest2 ht]
          simp only at hn ⊢
          by_cases h6 : (c :: digits).length = 1
          · simp only [h6, if_true, pure_eq, Outcome.ok.injEq] at hn ⊢
            obtain ⟨rfl, rfl⟩ := hn
            rfl
          · simp only [h6, if_false, bind_eq] at hn ⊢
            cases hv : stoi (c :: digits) with
            | error e => rw [hv] at hn; cases hn
            | ok v =>
              rw [hv] at hn
              simp only [liftExcept, pure_eq, Outcome.ok.injEq] at hn ⊢
              obtain ⟨rfl, rfl⟩ := hn
              rfl
      simp only [h5, if_false] at hn ⊢
      by_cases h7 : IsDigit c = true
      · simp only [h7, if_true, Tokenizer.ProcessConstantToken] at hn ⊢
        cases ht : takeWhilePeek IsDigit rest with
        | none => rw [ht] at hn; cases hn
        | some r2 =>
          obtain ⟨digits, rest2⟩ := r2
          rw [ht] at hn
          rw [takeWhilePeek_append hwd rest digits rest2 ht]
          simp only [bind_eq] at hn ⊢
          cases hv : stoll (c :: digits) with
          | error e => rw [hv] at hn; cases hn
          | ok v =>
            rw [hv] at hn
            simp only [liftExcept, pure_eq, Outcome.ok.injEq] at hn ⊢
            obtain ⟨rfl, rfl⟩ := hn
            rfl
      simp only [h7, if_false] at hn ⊢
      by_cases h8 : IsStartOfSymbol c = true
      · simp only [h8, if_true, Tokenizer.ProcessSymbolToken] at hn ⊢
        cases ht : takeWhilePeek IsPartOfSymbol rest with
        | none => rw [ht] at hn; cases hn
        | some r2 =>
          obtain ⟨part, rest2⟩ := r2
          rw [ht] at hn
          rw [takeWhilePeek_append hws rest part rest2 ht]
          simp only [pure_eq, Outcome.ok.injEq] at hn ⊢
          obtain ⟨rfl, rfl⟩ := hn
          rfl
      simp only [h8, if_false] at hn
      cases hn

theorem tokensOf_append {w : List Char} (hw : ∀ c ∈ w, IsSpace c = true) :
    ∀ (fuel : Nat) (s : List Char) (ts : List Token), tokensOf fuel s = some ts →
    tokensOf fuel (s ++ w) = some ts := by
  intro fuel
  induction fuel with
  | zero => intro s ts hts; cases hts
  | succ fuel ih =>
    intro s ts hts
    simp only [tokensOf] at hts ⊢
    cases hn : Tokenizer.Next ⟨false, s, .ConstantToken 0⟩ Heap.empty with
    | ok tk h1 =>
      rw [hn] at hts
      rw [Tokenizer_Next_append hw s _ _ _ tk hn]
      simp only at hts ⊢
      by_cases he : tk.is_end_ = true
      · simp only [he, if_true] at hts ⊢
        exact hts
      · simp only [he, Bool.false_eq_true, if_false, Option.map_eq_some'] at hts ⊢
        obtain ⟨ts1, hts1, rfl⟩ := hts
        exact ⟨ts1, ih _ _ hts1, rfl⟩
    | exception e h1 => rw [hn] at hts; cases hts
    | undefined => rw [hn] at hts; cases hts
    | timeout => rw [hn] at hts; cases hts

theorem tokensOf_mono : ∀ (fuel fuel1 : Nat) (s : List Char) (ts : List Token),
    tokensOf fuel s = some ts → fuel ≤ fuel1 → tokensOf fuel1 s = some ts := by
  intro fuel
  induction fuel with
  | zero => intro _ s ts hts; cases hts
  | succ fuel ih =>
    intro fuel1 s ts hts hle
    obtain ⟨f1, rfl⟩ : ∃ f1, fuel1 = f1 + 1 := ⟨fuel1 - 1, by omega⟩
    simp only [tokensOf] at hts ⊢
    cases hn : Tokenizer.Next ⟨false, s, .ConstantToken 0⟩ Heap.empty with
    | ok tk h1 =>
      rw [hn] at hts
      simp only at hts ⊢
      by_cases he : tk.is_end_ = true
      · simp only [he, if_true] at hts ⊢
        exact hts
      · simp only [he, Bool.false_eq_true, if_false, Option.map_eq_some'] at hts ⊢
        obtain ⟨ts1, hts1, rfl⟩ := hts
        exact ⟨ts1, ih f1 _ _ hts1 (by omega), rfl⟩
    | exception e h1 => rw [hn] at hts; cases hts
    | undefined => rw [hn] at hts; cases hts
    | timeout => rw [hn] at hts; cases hts

/-- White space appended to a source text leaves its tokens as they are. -/
theorem tokens_append_spaces {expression : String} {ts : List Token} {w : List Char}
    (hw : ∀ c ∈ w, IsSpace c = true) (hts : tokens expression = some ts) :
    tokens (expression ++ String.mk w) = some ts := by
  have hdata : (expression ++ String.mk w).data = expression.data ++ w := by
    simp [String.data_append]
  simp only [tokens, hdata] at hts ⊢
  exact tokensOf_mono _ _ _ _ (tokensOf_append hw _ _ _ hts)
    (by rw [String.length_append]; omega)

theorem skipSpaces_length : ∀ (s : List Char) (c : Char) (rest : List Char),
    skipSpaces s = some (some c, rest) → rest.length < s.length := by
  intro s
  induction s with
  | nil => intro c rest hs; simp [skipSpaces] at hs
  | cons d r ih =>
    intro c rest hs
    simp only [skipSpaces] at hs
    by_cases hp : isPlainChar d = true
    · simp only [hp, Bool.not_true, Bool.false_eq_true, if_false] at hs
      by_cases hd : IsSpace d = true
      · simp only [hd, if_true] at hs
        have := ih c rest hs
        simp only [List.length_cons]
        omega
      · simp only [hd, Bool.false_eq_true, if_false, Option.some.injEq, Prod.mk.injEq] at hs
        obtain ⟨_, rfl⟩ := hs
        simp
    · simp only [hp, Bool.not_false, if_true] at hs
      cases hs

theorem takeWhilePeek_length {P : Char → Bool} : ∀ (s taken left : List Char),
    takeWhilePeek P s = some (taken, left) → left.length ≤ s.length := by
  intro s
  induction s with
  | nil =>
    intro taken left hs
    simp only [takeWhilePeek, Option.some.injEq, Prod.mk.injEq] at hs
    obtain ⟨_, rfl⟩ := hs
    simp
  | cons d r ih =>
    intro taken left hs
    simp only [takeWhilePeek] at hs
    by_cases hp : isPlainChar d = true
    · simp only [hp, Bool.not_true, Bool.false_eq_true, if_false] at hs
      by_cases hd : P d = true
      · simp only [hd, if_true] at hs
        cases hrec : takeWhilePeek P r with
        | none => rw [hrec] at hs; cases hs
        | some x =>
          obtain ⟨taken1, left1⟩ := x
          rw [hrec] at hs
          simp only [Option.some.injEq, Prod.mk.injEq] at hs
          obtain ⟨_, rfl⟩ := hs
          have := ih taken1 left1 hrec
          simp only [List.length_cons]
          omega
      · simp only [hd, Bool.false_eq_true, if_false, Option.some.injEq, Prod.mk.injEq] at hs
        obtain ⟨_, rfl⟩ := hs
        simp
    · simp only [hp, Bool.not_false, if_true] at hs
      cases hs

/-- A call of `Next` that yields a token takes at least one character off the
input. -/
theorem Tokenizer_Next_length (s : List Char) (t0 : Token) (h hout : Heap) (tk : Tokenizer)
    (hn : Tokenizer.Next ⟨false, s, t0⟩ h = .ok tk hout) (he : tk.is_end_ = false) :
    tk.token_stream_.length < s.length := by
  simp only [Tokenizer.Next, Bool.false_eq_true, if_false] at hn
  cases hs : skipSpaces s with
  | none => rw [hs] at hn; cases hn
  | some r =>
    obtain ⟨c, rest⟩ := r
    rw [hs] at hn
    cases c with
    | none =>
      simp only [pure_eq, Outcome.ok.injEq] at hn
      obtain ⟨rfl, _⟩ := hn
      cases he
    | some c =>
      have hlen := skipSpaces_length s c rest hs
      simp only at hn
      by_cases h1 : IsQuote c = true
      · simp only [h1, if_true, pure_eq, Outcome.ok.injEq] at hn
        obtain ⟨rfl, _⟩ := hn
        exact hlen
      simp only [h1, if_false] at hn
      by_cases h2 : IsOpenBracket c = true
      · simp only [h2, if_true, pure_eq, Outcome.ok.injEq] at hn
        obtain ⟨rfl, _⟩ := hn
        exact hlen
      simp only [h2, if_false] at hn
      by_cases h3 : IsCloseBracket c = true
      · simp only [h3, if_true, pure_eq, Outcome.ok.injEq] at hn
        obtain ⟨rfl, _⟩ := hn
        exact hlen
      simp only [h3, if_false] at hn
      by_cases h4 : IsDot c = true
      · simp only [h4, if_true, pure_eq, Outcome.ok.injEq] at hn
        obtain ⟨rfl, _⟩ := hn
        exact hlen
      simp only [h4, if_false] at hn
      by_cases h5 : (IsPlus c || IsMinus c) = true
      · simp only [h5, if_true, Tokenizer.ProcessPlusMinusToken] at hn
        cases ht : takeWhilePeek IsDigit rest with
        | none => rw [ht] at hn; cases hn
        | some r2 =>
          obtain ⟨digits, rest2⟩ := r2
          have hlen2 := takeWhilePeek_length rest digits rest2 ht
          rw [ht] at hn
          simp only at hn
          by_cases h6 : (c :: digits).length = 1
          · simp only [h6, if_true, pure_eq, Outcome.ok.injEq] at hn
            obtain ⟨rfl, _⟩ := hn
            exact Nat.lt_of_le_of_lt hlen2 hlen
          · simp only [h6, if_false, bind_eq] at hn
            cases hv : stoi (c :: digits) with
            | error e => rw [hv] at hn; cases hn
            | ok v =>
              rw [hv] at hn
              simp only [liftExcept, pure_eq, Outcome.ok.injEq] at hn
              obtain ⟨rfl, _⟩ := hn
              exact Nat.lt_of_le_of_lt hlen2 hlen
      simp only [h5, if_false] at hn
      by_cases h7 : IsDigit c = true
      · simp only [h7, if_true, Tokenizer.ProcessConstantToken] at hn
        cases ht : takeWhilePeek IsDigit rest with
        | none => rw [ht] at hn; cases hn
        | some r2 =>
          obtain ⟨digits, rest2⟩ := r2
          have hlen2 := takeWhilePeek_length rest digits rest2 ht
          rw [ht] at hn
          simp only [bind_eq] at hn
          cases hv : stoll (c :: digits) with
          | error e => rw [hv] at hn; cases hn
          | ok v =>
            rw [hv] at hn
            simp only [liftExcept, pure_eq, Outcome.ok.injEq] at hn
            obtain ⟨rfl, _⟩ := hn
            exact Nat.lt_of_le_of_lt hlen2 hlen
      simp only [h7, if_false] at hn
      by_cases h8 : IsStartOfSymbol c = true
      · simp only [h8, if_true, Tokenizer.ProcessSymbolToken] at hn
        cases ht : takeWhilePeek IsPartOfSymbol rest with
        | none => rw [ht] at hn; cases hn
        | some r2 =>
          obtain ⟨part, rest2⟩ := r2
          have hlen2 := takeWhilePeek_length rest part rest2 ht
          rw [ht] at hn
          simp only [pure_eq, Outcome.ok.injEq] at hn
          obtain ⟨rfl, _⟩ := hn
          exact Nat.lt_of_le_of_lt hlen2 hlen
      simp only [h8, if_false] at hn
      cases hn

/-- A budget above the length of the input is enough to list its tokens. -/
theorem tokensOf_of_length : ∀ (fuel : Nat) (s : List Char) (ts : List Token),
    tokensOf fuel s = some ts → ∀ fuel1, s.length < fuel1 → tokensOf fuel1 s = some ts := by
  intro fuel
  induction fuel with
  | zero => intro s ts hts; cases hts
  | succ fuel ih =>
    intro s ts hts fuel1 hlt
    obtain ⟨f1, rfl⟩ : ∃ f1, fuel1 = f1 + 1 := ⟨fuel1 - 1, by omega⟩
    simp only [tokensOf] at hts ⊢
    cases hn : Tokenizer.Next ⟨false, s, .ConstantToken 0⟩ Heap.empty with
    | ok tk h1 =>
      rw [hn] at hts
      simp only at hts ⊢
      by_cases he : tk.is_end_ = true
      · simp only [he, if_true] at hts ⊢
        exact hts
      · have hlen := Tokenizer_Next_length s _ _ _ tk hn (by simpa using he)
        simp only [he, Bool.false_eq_true, if_false, Option.map_eq_some'] at hts ⊢
        obtain ⟨ts1, hts1, rfl⟩ := hts
        exact ⟨ts1, ih _ _ hts1 f1 (by omega), rfl⟩
    | exception e h1 => rw [hn] at hts; cases hts
    | undefined => rw [hn] at hts; cases hts
    | timeout => rw [hn] at hts; cases hts

/-- The tokens of a source text are all the tokens that `Next` yields on it,
whatever the number of calls. -/
theorem tokens_of_tokensOf {fuel : Nat} {expression : String} {ts : List Token}
    (hts : tokensOf fuel expression.data = some ts) : tokens expression = some ts :=
  tokensOf_of_length fuel _ ts hts _ (Nat.lt_succ_self _)

end Scheme

namespace Scheme

/-! ## C28: tokens after the first datum -/

/-- Source texts that tokenize to the end.  Let `Read` read the token
sequence `D` as the value `V`, and let the budget reach that of `D`.  (1) When
the tokens of the source text are `D` followed by at least one more token,
`Run` throws `SyntaxError`, in the heap in which `Read` returned: nothing has
been evaluated, and no object that was in the heap has changed.  (2) When the
tokens of the source text are `D` and no more, whatever white space the text
holds, `Run` goes on: its outcome is that of evaluating the AST that was
read, serializing the result and collecting garbage.  (3) White space
appended to a source text leaves its tokens as they are, so that by (2) it is
accepted.  A text on which a call of `Next` fails has no token sequence and
is not covered. -/
theorem Run_trailing_tokens (fuel n : Nat) (self : Interpreter) (expression : String)
    (h : Heap) (D : List Token) (V : Value) (hD : ReadsAs n D V) (hn : n ≤ fuel) :
    (∀ x rest, tokens expression = some (D ++ x :: rest) →
      ∃ tok p tok1 h1, Tokenizer.new expression.data h = .ok tok h ∧
        Read fuel tok h = .ok (p, tok1) h1 ∧ Extends h h1 ∧
        Interpreter.Run fuel self expression h = .exception (.SyntaxError "Wrong syntax!") h1) ∧
    (tokens expression = some D →
      ∃ tok p tok1 h1, Tokenizer.new expression.data h = .ok tok h ∧
        Read fuel tok h = .ok (p, tok1) h1 ∧ Denotes h1 p V ∧
        Interpreter.Run fuel self expression h
          = (do
              let evaluated_ast ← EvaluateExpression fuel p self.context_
              let serialized_result ← Interpreter.SerializeAST fuel evaluated_ast
              MarkAndSweep
              pure serialized_result) h1) ∧
    (∀ (w : List Char) (ts : List Token), (∀ c ∈ w, IsSpace c = true) →
      tokens expression = some ts → tokens (expression ++ String.mk w) = some ts) := by
  refine ⟨?_, ?_, fun w ts hw hts => tokens_append_spaces hw hts⟩
  · intro x rest hts
    obtain ⟨tok, hnew, hat⟩ := Tokenizer_new_of_tokensOf hts h
    obtain ⟨p, tok1, h1, hr, hx, _, hat1⟩ := hD fuel tok h (x :: rest) hn hat
    refine ⟨tok, p, tok1, h1, hnew, hr, hx, ?_⟩
    simp only [Interpreter.Run, bind_eq, hnew, hr, (show tok1.is_end_ = false from hat1.1),
      Bool.not_false, if_true, throw_eq]
  · intro hts
    obtain ⟨tok, hnew, hat⟩ := Tokenizer_new_of_tokensOf hts h
    obtain ⟨p, tok1, h1, hr, _, hd, hat1⟩ := hD fuel tok h [] hn (by rw [List.append_nil]; exact hat)
    refine ⟨tok, p, tok1, h1, hnew, hr, hd, ?_⟩
    simp only [Interpreter.Run, bind_eq, hnew, hr, (show tok1.is_end_ = true from hat1),
      Bool.not_true, Bool.false_eq_true, if_false]

/-- `Run` on `1 2` throws `SyntaxError` in the heap in which `Read`
returned. -/
theorem Run_trailing_tokens_example :
    ∃ tok p tok1 h1, Tokenizer.new "1 2".data Heap.empty = .ok tok Heap.empty ∧
      Read 5 tok Heap.empty = .ok (p, tok1) h1 ∧ Extends Heap.empty h1 ∧
      Interpreter.Run 5 ⟨.nullptr⟩ "1 2" Heap.empty
        = .exception (.SyntaxError "Wrong syntax!") h1 :=
  (Run_trailing_tokens 5 1 ⟨.nullptr⟩ "1 2" Heap.empty [.ConstantToken 1] (.number 1)
    (ReadsAs_number 1) (by decide)).1 (.ConstantToken 2) [] (by decide)

/-- What `Run` does once `Read` has returned: with the tokenizer not at the
end of input it throws `SyntaxError`, in the heap `Read` left. -/
theorem Run_not_at_end (fuel : Nat) (self : Interpreter) (expression : String) (h h1 : Heap)
    (tok tok1 : Tokenizer) (p : ObjectPtr)
    (hnew : Tokenizer.new expression.data h = .ok tok h)
    (hread : Read fuel tok h = .ok (p, tok1) h1) (hend : tok1.is_end_ = false) :
    Interpreter.Run fuel self expression h = .exception (.SyntaxError "Wrong syntax!") h1 := by
  simp only [Interpreter.Run, bind_eq, hnew, hread, hend, Bool.not_false, if_true, throw_eq]

/-- C28 (code at the failing input).  After the first datum `Read` looks one
token ahead with `Tokenizer::Next`, and `Run` throws `SyntaxError` when the
tokenizer is then not at the end of input.  A number with a sign is converted
with `std::stoi` (a number without sign with `std::stoll`): when the token
after the first datum is a signed number outside the range of `int`, that
call throws `std::out_of_range` inside `Read`, and this is what `Run` fails
with, not `SyntaxError`.  A further token that `Next` accepts gives
`SyntaxError`, whatever follows it; trailing white space is accepted. -/
theorem C28_trailing_signed_number_out_of_int_range :
    Session 100 ["1 -2147483649", "1 +2147483648"]
      = [.thrown (.out_of_range "stoi"), .thrown (.out_of_range "stoi")] ∧
    Session 100 ["1 2", "(+ 1 2))", "1 2 @", "1 -2147483648", "1 2147483648"]
      = [.thrown (.SyntaxError "Wrong syntax!"), .thrown (.SyntaxError "Wrong syntax!"),
         .thrown (.SyntaxError "Wrong syntax!"), .thrown (.SyntaxError "Wrong syntax!"),
         .thrown (.SyntaxError "Wrong syntax!")] ∧
    Session 100 ["1  ", "(+ 1 2) \n"] = [.returned "1", .returned "3"] := by
  decide!

end Scheme

namespace Scheme

/-! ## C30: malformed `define`, `set!`, `lambda` -/

/-- C30 (code at the failing input).  A wrong number of parts and a first
argument of `define` that is neither a symbol nor a pair throw `SyntaxError`.
`SetFunction::Apply` and `LambdaDeclaration::Apply` check the symbols with
`ThrowIfMismatchOperandType(s)`, which throws `RuntimeError`: `(set! 5 1)`
and `(lambda (1) 1)` fail with `RuntimeError`.  `define` with a list headed by
a number reads the name through a null pointer. -/
theorem C30_set_and_lambda_shape_errors :
    Session 100 ["(set! 5 1)", "(lambda (1) 1)"]
      = [.thrown (.RuntimeError "First argument for define must be a symbol"),
         .thrown (.RuntimeError "Args for lambda declaration must be symbols.")] ∧
    Session 100 ["(define 5 1)", "(define x)", "(set! x)", "(lambda (x))", "(lambda 5 1)"]
      = [.thrown (.SyntaxError "Wrong syntax for define."),
         .thrown (.SyntaxError "Wrong syntax for define."),
         .thrown (.SyntaxError "Wrong syntax for set."),
         .thrown (.SyntaxError "Wrong syntax for lambda declaration."),
         .thrown (.SyntaxError "Wrong format for list of lambda's arguments.")] ∧
    Session 100 ["(define (1 x) 2)"] = [.undefined] := by
  decide!

end Scheme

namespace Scheme

/-! ## C31, C32: lookup and definition in a context -/

theorem mapIndex_mem_of_mapContains : ∀ (m : List (String × ObjectPtr)) (x : String),
    mapContains m x = true → (x, mapIndex m x) ∈ m := by
  intro m
  induction m with
  | nil => intro x hc; simp [mapContains] at hc
  | cons kv rest ih =>
    intro x hc
    obtain ⟨k, v⟩ := kv
    by_cases hk : k = x
    · subst hk
      simp [mapIndex]
    · have hc1 : mapContains rest x = true := by
        simpa [mapContains, hk] using hc
      simp only [mapIndex, hk, if_false]
      exact List.mem_cons_of_mem _ (ih x hc1)

/-- The loop of `Context::Get` over scopes none of which contains the name
goes on with the scopes that follow. -/
theorem Context_GetLoop_skip {h : Heap} {x : String} : ∀ (inner rest : List ObjectPtr),
    (∀ t ∈ inner, ∃ mt, deref t h = .ok (.Scope mt) h ∧ mapContains mt x = false) →
    Context.GetLoop (inner ++ rest) x h = Context.GetLoop rest x h := by
  intro inner
  induction inner with
  | nil => intro rest _; rfl
  | cons t inner1 ih =>
    intro rest hall
    obtain ⟨mt, hmt, hc⟩ := hall t (List.mem_cons_self _ _)
    rw [List.cons_append]
    simp only [Context.GetLoop, bind_eq, Scope_Contains_of_deref hmt, hc, Bool.false_eq_true,
      if_false]
    exact ih rest (fun u hu => hall u (List.mem_cons_of_mem _ hu))

/-- C31.  Let the context hold the scope vector `scopes`, outermost first,
each of them a scope object.  (1) When the scope `s` contains the name `x`
and no scope after it in the vector (no scope pushed later) does,
`Context::Get` returns the pointer that `s` binds to `x`, whatever the scopes
before `s` bind to `x`, and leaves the heap as it is.  (2) When no scope
contains `x`, it returns null.  (3) The pointer found for a name that a scope
contains is the one stored with that name in the scope. -/
theorem C31_context_get (h : Heap) (context : ObjectPtr) (scopes : List ObjectPtr) (x : String)
    (hctx : deref context h = .ok (.Context scopes) h)
    (hscopes : ∀ s ∈ scopes, ∃ m, deref s h = .ok (.Scope m) h) :
    (∀ (outer inner : List ObjectPtr) (s : ObjectPtr) (m : List (String × ObjectPtr)),
      scopes = outer ++ s :: inner → deref s h = .ok (.Scope m) h → mapContains m x = true →
      (∀ t ∈ inner, ∀ mt, deref t h = .ok (.Scope mt) h → mapContains mt x = false) →
      Context.Get context x h = .ok (mapIndex m x) h) ∧
    ((∀ s ∈ scopes, ∀ m, deref s h = .ok (.Scope m) h → mapContains m x = false) →
      Context.Get context x h = .ok .nullptr h) ∧
    (∀ m : List (String × ObjectPtr), mapContains m x = true → (x, mapIndex m x) ∈ m) := by
  refine ⟨?_, ?_, fun m hc => mapIndex_mem_of_mapContains m x hc⟩
  · intro outer inner s m hsplit hs hc hinner
    have hrev : scopes.reverse = inner.reverse ++ s :: outer.reverse := by
      rw [hsplit]
      simp
    have hskip : ∀ t ∈ inner.reverse, ∃ mt, deref t h = .ok (.Scope mt) h ∧
        mapContains mt x = false := by
      intro t ht
      have htin : t ∈ inner := List.mem_reverse.1 ht
      obtain ⟨mt, hmt⟩ := hscopes t (by rw [hsplit]; simp [htin])
      exact ⟨mt, hmt, hinner t htin mt hmt⟩
    obtain ⟨ho, hl, ho1, _⟩ := load_of_deref hs
    simp only [Context.Get, Context.scopes, bind_eq, hctx, pure_eq, hrev,
      Context_GetLoop_skip inner.reverse _ hskip, Context.GetLoop, Scope_Contains_of_deref hs,
      hc, if_true, Scope.Get, hl, ho1]
  · intro hnone
    have hskip : ∀ t ∈ scopes.reverse, ∃ mt, deref t h = .ok (.Scope mt) h ∧
        mapContains mt x = false := by
      intro t ht
      have htin : t ∈ scopes := List.mem_reverse.1 ht
      obtain ⟨mt, hmt⟩ := hscopes t htin
      exact ⟨mt, hmt, hnone t htin mt hmt⟩
    have hloop := Context_GetLoop_skip scopes.reverse [] hskip
    rw [List.append_nil] at hloop
    simp only [Context.Get, Context.scopes, bind_eq, hctx, pure_eq, hloop, Context.GetLoop]

/-- C31 at a concrete input: in a context whose outer scope binds `x` to the
number at address 3 and whose inner scope binds `x` to the number at address
4, `Context::Get` of `x` returns the pointer of the inner scope. -/
theorem C31_context_get_witness :
    Context.Get (.addr 2) "x" scopesExample = .ok (.addr 4) scopesExample :=
  (C31_context_get scopesExample (.addr 2) [.addr 0, .addr 1] "x" (by decide!)
    (fun s hs => by
      simp only [List.mem_cons, List.mem_singleton, List.not_mem_nil, or_false] at hs
      rcases hs with rfl | rfl
      · exact ⟨[("x", .addr 3)], by decide!⟩
      · exact ⟨[("x", .addr 4), ("y", .addr 3)], by decide!⟩)).1
    [.addr 0] [] (.addr 1) [("x", .addr 4), ("y", .addr 3)] rfl (by decide!) (by decide)
    (fun t ht => by cases ht)

end Scheme

namespace Scheme

theorem mapAssign_of_ne : ∀ (m : List (String × ObjectPtr)) (x y : String) (q : ObjectPtr),
    y ≠ x → mapContains (mapAssign m x q) y = mapContains m y ∧
      mapIndex (mapAssign m x q) y = mapIndex m y := by
  intro m
  induction m with
  | nil =>
    intro x y q hne
    have hxy : ¬ x = y := fun he => hne he.symm
    simp [mapAssign, mapContains, mapIndex, hxy]
  | cons kv rest ih =>
    intro x y q hne
    obtain ⟨k, v⟩ := kv
    have hxy : ¬ x = y := fun he => hne he.symm
    by_cases hk : k = x
    · subst hk
      simp [mapAssign, mapContains, mapIndex, hxy]
    · obtain ⟨ih1, ih2⟩ := ih x y q hne
      simp only [mapContains] at ih1
      by_cases hky : k = y
      · subst hky
        simp [mapAssign, mapContains, mapIndex, hk]
      · simp [mapAssign, mapContains, mapIndex, hk, hky, ih1, ih2]

/-- `Clone` changes no object that was in the heap. -/
theorem Clone_extends : ∀ (fuel : Nat) (p q : ObjectPtr) (h h1 : Heap),
    Clone fuel p h = .ok q h1 → Extends h h1 := by
  intro fuel
  induction fuel with
  | zero => intro p q h h1 hc; cases hc
  | succ n ih =>
    intro p q h h1 hc
    rcases deref_cases p h with hu | ⟨o, hp⟩
    · simp only [Clone, bind_eq, hu] at hc
      cases hc
    · cases o with
      | Number value =>
        simp only [Clone, bind_eq, hp] at hc
        exact Extends_Make hc
      | BooleanSymbol name =>
        simp only [Clone, bind_eq, hp] at hc
        exact Extends_Make hc
      | Function cls c =>
        simp only [Clone, bind_eq, hp] at hc
        exact Extends_Make hc
      | Symbol name c =>
        obtain ⟨q0, h0, hm⟩ := Make_ok (.Symbol name .nullptr) [] h
        obtain ⟨h2, hs, _, hx⟩ := SetContext_fresh_symbol c hm
        simp only [Clone, bind_eq, hp, hm, hs, pure_eq, Outcome.ok.injEq] at hc
        obtain ⟨_, rfl⟩ := hc
        exact hx
      | Scope m =>
        simp only [Clone, bind_eq, hp, throw_eq] at hc
        cases hc
      | Context scopes =>
        simp only [Clone, bind_eq, hp, throw_eq] at hc
        cases hc
      | Cell a b =>
        simp only [Clone, bind_eq, hp] at hc
        have second : ∀ (qa : ObjectPtr) (ha : Heap),
            (if b = ObjectPtr.nullptr then do
                let y ← pure ObjectPtr.nullptr
                MakeCell qa y
              else do
                let y ← Clone n b
                MakeCell qa y) ha = .ok q h1 → Extends ha h1 := by
          intro qa ha hb
          by_cases hbn : b = .nullptr
          · simp only [hbn, if_true, bind_eq, pure_eq] at hb
            exact Extends_Make hb
          · simp only [hbn, if_false, bind_eq] at hb
            cases hB : Clone n b ha with
            | ok qb hb1 =>
              rw [hB] at hb
              exact Extends_trans (ih b qb ha hb1 hB) (Extends_Make hb)
            | exception e hb1 => rw [hB] at hb; cases hb
            | undefined => rw [hB] at hb; cases hb
            | timeout => rw [hB] at hb; cases hb
        by_cases han : a = .nullptr
        · simp only [han, if_true, bind_eq, pure_eq] at hc
          exact second .nullptr h (by simpa only [bind_eq, pure_eq] using hc)
        · simp only [han, if_false, bind_eq] at hc
          cases hA : Clone n a h with
          | ok qa ha =>
            rw [hA] at hc
            exact Extends_trans (ih a qa h ha hA) (second qa ha (by simpa only [bind_eq] using hc))
          | exception e ha => rw [hA] at hc; cases hc
          | undefined => rw [hA] at hc; cases hc
          | timeout => rw [hA] at hc; cases hc
      | LambdaFunction args body cap cur =>
        simp only [Clone, bind_eq, hp] at hc
        rcases deref_cases cap h with hu | ⟨oc, hcap⟩
        · obtain hl : load cap h = .undefined := by
            rcases load_cases cap h with hl | ⟨x, hl⟩
            · exact hl
            · rw [deref_eq, hl] at hu
              cases hu
          simp only [MakeLambdaFunction, bind_eq, hl] at hc
          cases hc
        · cases oc with
          | Context scopes =>
            obtain ⟨q0, cap1, ha, hb, deps, hmk, hl, _, hx1, hm2⟩ :=
              MakeLambdaFunction_ok args body hcap
            obtain ⟨h3, hs⟩ := storeAt_of_load
              ({ (⟨.LambdaFunction args body cap1 cap1, false, deps⟩ : HeapObject) with
                  obj := .LambdaFunction args body cap1 cur }) hl
            have hx2 : Extends ha h3 :=
              Extends_storeAt_fresh (Extends_Make hm2) (load_Make_fresh hm2) hl hs
            simp only [hmk, SetContext, bind_eq, hl, hs, pure_eq, Outcome.ok.injEq] at hc
            obtain ⟨_, rfl⟩ := hc
            exact Extends_trans hx1 hx2
          | _ =>
            obtain ⟨x, hl, hx, _⟩ := load_of_deref hcap
            simp only [MakeLambdaFunction, bind_eq, hl, hx] at hc
            cases hc

/-- C32.  Let the last scope of the scope vector of the context be the scope
object `o` with the bindings `m`.  (1) When `p` stands for a finite value `V`
other than null, `Context::Define` of `x` to `p` returns, and that scope then
binds `x` to a pointer `q` that stands for `V` and is made of new objects only
(the clone); the budget only has to exceed the pair depth of `V`.
(2) Whenever `Context::Define` of `x` to `p` returns, for any `p`, it has
changed one object, that scope: its bindings are `m` with `x` bound to the
pointer `q` that `Clone` returned, and `q` is added to its trace edges.  The
scope then contains `x` and binds it to `q`; for every other name what it
contains and binds is as before.  Every object at another address, so every
outer scope, is as before, whatever it binds. -/
theorem C32_context_define (fuel : Nat) (h : Heap) (context scope p : ObjectPtr)
    (scopes : List ObjectPtr) (x : String) (o : HeapObject) (m : List (String × ObjectPtr))
    (hctx : deref context h = .ok (.Context scopes) h)
    (hlast : scopes.getLast? = some scope)
    (hscope : load scope h = .ok o h) (hm : o.obj = .Scope m) :
    (∀ V, Denotes h p V → V ≠ .null → V.depth < fuel →
      ∃ q h1, Context.Define fuel context x p h = .ok () h1 ∧ DenotesIn h1 (Fresh h) q V ∧
        load scope h1 = .ok { o with obj := .Scope (mapAssign m x q),
                                     dependencies_ := AddDependency o.dependencies_ q } h1) ∧
    (∀ h1, Context.Define fuel context x p h = .ok () h1 →
      ∃ q h0, Clone fuel p h = .ok q h0 ∧
        load scope h1 = .ok { o with obj := .Scope (mapAssign m x q),
                                     dependencies_ := AddDependency o.dependencies_ q } h1 ∧
        mapContains (mapAssign m x q) x = true ∧ mapIndex (mapAssign m x q) x = q ∧
        (∀ y, y ≠ x → mapContains (mapAssign m x q) y = mapContains m y ∧
          mapIndex (mapAssign m x q) y = mapIndex m y) ∧
        (∀ r o1, r ≠ scope → load r h = .ok o1 h → load r h1 = .ok o1 h1)) := by
  have hdefine : Context.Define fuel context x p h = Scope.Define fuel scope x p h := by
    simp only [Context.Define, Context.scopes, bind_eq, hctx, pure_eq, hlast]
  constructor
  · intro V hv hV hf
    obtain ⟨q, h0, hc, hd, hx, _⟩ := Clone_fresh V h p hv hV fuel hf
    have hl0 := hx _ _ hscope
    obtain ⟨h1, hst⟩ := storeAt_of_load
      { o with obj := .Scope (mapAssign m x q), dependencies_ := AddDependency o.dependencies_ q }
      hl0
    refine ⟨q, h1, ?_, ?_, load_storeAt_self hl0 hst⟩
    · rw [hdefine]
      simp only [Scope.Define, bind_eq, hc, hl0, hm, hst]
    · refine DenotesIn_of_same ?_ hd
      intro c oc hfresh hco
      refine deref_storeAt_of_ne hl0 hst hco ?_
      rintro rfl
      exact hfresh o hscope
  · intro h1 hdef
    rw [hdefine] at hdef
    simp only [Scope.Define, bind_eq] at hdef
    cases hc : Clone fuel p h with
    | ok q h0 =>
      rw [hc] at hdef
      have hx := Clone_extends fuel p q h h0 hc
      have hl0 := hx _ _ hscope
      simp only [hl0, hm] at hdef
      refine ⟨q, h0, rfl, load_storeAt_self hl0 hdef, mapContains_mapAssign m x q,
        mapIndex_mapAssign m x q, fun y hy => mapAssign_of_ne m x y q hy, ?_⟩
      intro r o1 hne hr
      exact load_storeAt_of_ne hl0 hdef (hx _ _ hr) hne
    | exception e h0 => rw [hc] at hdef; cases hdef
    | undefined => rw [hc] at hdef; cases hdef
    | timeout => rw [hc] at hdef; cases hdef

/-- C32 at a concrete input: in the context of two scopes that both bind
`x`, `Context::Define` of `x` to the number at address 3 returns and binds `x`
in the inner scope (address 1) to a new number `1`. -/
theorem C32_context_define_witness :
    ∃ q h1, Context.Define 5 (.addr 2) "x" (.addr 3) scopesExample = .ok () h1 ∧
      DenotesIn h1 (Fresh scopesExample) q (.number 1) ∧
      load (.addr 1) h1
        = .ok { (⟨.Scope [("x", .addr 4), ("y", .addr 3)], false, []⟩ : HeapObject) with
                obj := .Scope (mapAssign [("x", .addr 4), ("y", .addr 3)] "x" q),
                dependencies_ := AddDependency [] q } h1 :=
  (C32_context_define 5 scopesExample (.addr 2) (.addr 1) (.addr 3) [.addr 0, .addr 1] "x"
    ⟨.Scope [("x", .addr 4), ("y", .addr 3)], false, []⟩
    [("x", .addr 4), ("y", .addr 3)] (by decide!) rfl (by decide!) rfl).1 (.number 1)
    (@Denotes.number _ (.addr 3) 1 (by decide!)) (by simp) (by decide)

end Scheme

namespace Scheme

/-! ## The collector: access by address -/

theorem load_addr_objectAt (a : Nat) (h : Heap) :
    load (.addr a) h = match h.objectAt a with
      | some o => .ok o h
      | none => .undefined := by
  rw [load_addr_eq, Heap.objectAt]
  cases hg : h.memory.get? a with
  | none => rfl
  | some s => cases s <;> rfl

theorem load_of_objectAt {h : Heap} {a : Nat} {o : HeapObject} (ho : h.objectAt a = some o) :
    load (.addr a) h = .ok o h := by
  rw [load_addr_objectAt, ho]

theorem get?_of_objectAt {h : Heap} {a : Nat} {o : HeapObject} (ho : h.objectAt a = some o) :
    h.memory.get? a = some (some o) := by
  unfold Heap.objectAt at ho
  cases hg : h.memory.get? a with
  | none => rw [hg] at ho; cases ho
  | some s =>
    rw [hg] at ho
    cases s with
    | none => cases ho
    | some x => simp at ho; rw [ho]

theorem lt_length_of_objectAt {h : Heap} {a : Nat} {o : HeapObject} (ho : h.objectAt a = some o) :
    a < h.memory.length := by
  have hg := get?_of_objectAt ho
  by_contra hlt
  rw [List.get?_eq_none.mpr (Nat.le_of_not_lt hlt)] at hg
  cases hg

theorem storeAt_of_objectAt {h : Heap} {a : Nat} {o : HeapObject} (x : HeapObject)
    (ho : h.objectAt a = some o) :
    storeAt (.addr a) x h = .ok () { h with memory := h.memory.set a (some x) } := by
  have hg := get?_of_objectAt ho
  show (match h.memory.get? a with
      | some (some _) => Outcome.ok () { h with memory := h.memory.set a (some x) }
      | _ => .undefined) = _
  rw [hg]

theorem delete_of_objectAt {h : Heap} {a : Nat} {o : HeapObject} (ho : h.objectAt a = some o) :
    delete a h = .ok () { h with
      memory := (h.memory.set a none).map (Option.map (HeapObject.afterDelete a))
      root_ := h.root_.afterDelete a } := by
  have hg := get?_of_objectAt ho
  show (match h.memory.get? a with
      | some (some _) => Outcome.ok () { h with
          memory := (h.memory.set a none).map (Option.map (HeapObject.afterDelete a))
          root_ := h.root_.afterDelete a }
      | _ => .undefined) = _
  rw [hg]

theorem objectAt_set (h : Heap) (a b : Nat) (x : HeapObject) (ha : a < h.memory.length) :
    Heap.objectAt { h with memory := h.memory.set a (some x) } b
      = if b = a then some x else h.objectAt b := by
  unfold Heap.objectAt
  by_cases hb : b = a
  · subst hb
    simp [List.getElem?_set, ha]
  · have hne : a ≠ b := fun e => hb e.symm
    simp [List.getElem?_set, hb, hne]

theorem objectAt_delete (h : Heap) (a b : Nat) (r : ObjectPtr) (ha : a < h.memory.length) :
    Heap.objectAt { h with
        memory := (h.memory.set a none).map (Option.map (HeapObject.afterDelete a))
        root_ := r } b
      = if b = a then none else (h.objectAt b).map (HeapObject.afterDelete a) := by
  unfold Heap.objectAt
  by_cases hb : b = a
  · subst hb
    simp [List.getElem?_set, ha]
  · have hne : a ≠ b := fun e => hb e.symm
    simp [List.getElem?_set, hb, hne]
    cases h.memory[b]? with
    | none => rfl
    | some s => cases s <;> rfl

theorem memory_ext (m1 m2 : List (Option HeapObject)) (hlen : m1.length = m2.length)
    (hat : ∀ a, (m1.get? a).join = (m2.get? a).join) : m1 = m2 := by
  apply List.ext_get?
  intro a
  by_cases ha : a < m1.length
  · have ha2 : a < m2.length := hlen ▸ ha
    have h1 := hat a
    rw [List.get?_eq_get ha, List.get?_eq_get ha2] at h1 ⊢
    simpa using h1
  · rw [List.get?_eq_none.mpr (Nat.le_of_not_lt ha),
      List.get?_eq_none.mpr (hlen ▸ Nat.le_of_not_lt ha)]

end Scheme

namespace Scheme

/-! ## The collector: marking -/

theorem SameUpToMarks_refl (h : Heap) : h.SameUpToMarks h :=
  ⟨rfl, rfl, rfl, fun _ => rfl⟩

theorem SameUpToMarks_trans {h h1 h2 : Heap} (h01 : h.SameUpToMarks h1)
    (h12 : h1.SameUpToMarks h2) : h.SameUpToMarks h2 :=
  ⟨h12.1.trans h01.1, h12.2.1.trans h01.2.1, h12.2.2.1.trans h01.2.2.1,
    fun a => (h12.2.2.2 a).trans (h01.2.2.2 a)⟩

theorem SameUpToMarks_allocated {h h1 : Heap} (hs : h.SameUpToMarks h1) (a : Nat) :
    h1.allocated a = h.allocated a := by
  have := hs.2.2.2 a
  unfold Heap.allocated
  cases h1a : h1.objectAt a <;> cases ha : h.objectAt a <;> rw [h1a, ha] at this <;> simp at this ⊢

theorem SameUpToMarks_traceEdges {h h1 : Heap} (hs : h.SameUpToMarks h1) (a : Nat) :
    h1.traceEdges a = h.traceEdges a := by
  have := hs.2.2.2 a
  unfold Heap.traceEdges
  cases h1a : h1.objectAt a <;> cases ha : h.objectAt a <;> rw [h1a, ha] at this <;>
    simp at this ⊢
  have e := congrArg HeapObject.dependencies_ this
  exact e

theorem SameUpToMarks_validEdge {h h1 : Heap} (hs : h.SameUpToMarks h1) (p : ObjectPtr) :
    h1.validEdge p = h.validEdge p := by
  cases p with
  | nullptr => rfl
  | invalid => rfl
  | addr c => exact SameUpToMarks_allocated hs c

theorem SameUpToMarks_Reachable {h h1 : Heap} (hs : h.SameUpToMarks h1) {a b : Nat}
    (hr : h1.Reachable a b) : h.Reachable a b := by
  induction hr with
  | refl => exact .refl _
  | step _ he ih =>
    rw [SameUpToMarks_traceEdges hs] at he
    exact .step ih he

theorem Reachable_of_SameUpToMarks {h h1 : Heap} (hs : h.SameUpToMarks h1) {a b : Nat}
    (hr : h.Reachable a b) : h1.Reachable a b := by
  induction hr with
  | refl => exact .refl _
  | step _ he ih =>
    rw [← SameUpToMarks_traceEdges hs] at he
    exact .step ih he

theorem Reachable_head {h : Heap} {a c b : Nat} (he : ObjectPtr.addr c ∈ h.traceEdges a)
    (hr : h.Reachable c b) : h.Reachable a b := by
  induction hr with
  | refl => exact .step (.refl _) he
  | step _ he2 ih => exact .step ih he2

theorem marked_allocated {h : Heap} {a : Nat} (hm : h.marked a = true) : h.allocated a = true := by
  unfold Heap.marked at hm
  unfold Heap.allocated
  cases ha : h.objectAt a with
  | none => rw [ha] at hm; cases hm
  | some o => rfl

theorem Marking_refl (h : Heap) (start : Nat → Prop) : Marking h start h :=
  ⟨SameUpToMarks_refl h, fun _ hb => hb, fun _ hb => Or.inl hb,
    fun b _ h1 h2 _ => by rw [h1] at h2; cases h2⟩

theorem Marking_mono {h h1 : Heap} {P Q : Nat → Prop} (hPQ : ∀ a, P a → Q a)
    (hm : Marking h P h1) : Marking h Q h1 :=
  ⟨hm.same, hm.grow, fun b hb => (hm.reach b hb).imp id (fun ⟨a, ha, hr⟩ => ⟨a, hPQ a ha, hr⟩),
    hm.closed⟩

theorem Marking_trans {h h1 h2 : Heap} {P Q : Nat → Prop} (h01 : Marking h P h1)
    (h12 : Marking h1 Q h2) : Marking h (fun a => P a ∨ Q a) h2 := by
  refine ⟨SameUpToMarks_trans h01.same h12.same, fun b hb => h12.grow b (h01.grow b hb), ?_, ?_⟩
  · intro b hb
    rcases h12.reach b hb with h1b | ⟨a, ha, hr⟩
    · rcases h01.reach b h1b with h0b | ⟨a, ha, hr⟩
      · exact Or.inl h0b
      · exact Or.inr ⟨a, Or.inl ha, hr⟩
    · exact Or.inr ⟨a, Or.inr ha, SameUpToMarks_Reachable h01.same hr⟩
  · intro b c hb hb0 he
    cases h1b : h1.marked b with
    | true => exact h12.grow c (h01.closed b c h1b hb0 he)
    | false =>
      refine h12.closed b c hb h1b ?_
      rw [SameUpToMarks_traceEdges h01.same]
      exact he

theorem Covered_of_Marking {h h1 : Heap} {P : Nat → Prop} {L : List Nat} (hm : Marking h P h1)
    (hc : h.Covered L) : h1.Covered L := by
  intro b hb hbm
  refine hc b ?_ ?_
  · rw [← SameUpToMarks_allocated hm.same]; exact hb
  · cases h0 : h.marked b with
    | false => rfl
    | true => rw [hm.grow b h0] at hbm; cases hbm

theorem ValidFrom_of_SameUpToMarks {h h1 : Heap} {P : Nat → Prop} (hs : h.SameUpToMarks h1)
    (hv : h.ValidFrom P) : h1.ValidFrom P := by
  intro a b ha hr p hp
  rw [SameUpToMarks_validEdge hs]
  rw [SameUpToMarks_traceEdges hs] at hp
  exact hv a b ha (SameUpToMarks_Reachable hs hr) p hp

theorem MarkDependencies_nil (mark : ObjectPtr → M Unit) (h : Heap) :
    MarkDependencies mark [] h = .ok () h := rfl

theorem MarkDependencies_null (mark : ObjectPtr → M Unit) (rest : List ObjectPtr) (h : Heap) :
    MarkDependencies mark (.nullptr :: rest) h = MarkDependencies mark rest h := by
  simp [MarkDependencies, bind_eq, pure_eq]

theorem MarkDependencies_marked (mark : ObjectPtr → M Unit) (c : Nat) (rest : List ObjectPtr)
    (h : Heap) (o : HeapObject) (ho : h.objectAt c = some o)
    (hm : o.is_connected_to_root = true) :
    MarkDependencies mark (.addr c :: rest) h = MarkDependencies mark rest h := by
  simp [MarkDependencies, bind_eq, pure_eq, load_of_objectAt ho, hm]

theorem MarkDependencies_unmarked (mark : ObjectPtr → M Unit) (c : Nat) (rest : List ObjectPtr)
    (h h1 : Heap) (o : HeapObject) (ho : h.objectAt c = some o)
    (hm : o.is_connected_to_root = false) (hmark : mark (.addr c) h = .ok () h1) :
    MarkDependencies mark (.addr c :: rest) h = MarkDependencies mark rest h1 := by
  simp [MarkDependencies, bind_eq, pure_eq, load_of_objectAt ho, hm, hmark]

end Scheme

namespace Scheme

theorem marked_of_objectAt {h : Heap} {a : Nat} {o : HeapObject} (ho : h.objectAt a = some o) :
    h.marked a = o.is_connected_to_root := by
  unfold Heap.marked
  rw [ho]

theorem objectAt_of_allocated {h : Heap} {a : Nat} (ha : h.allocated a = true) :
    ∃ o, h.objectAt a = some o := by
  unfold Heap.allocated at ha
  cases ho : h.objectAt a with
  | none => rw [ho] at ha; cases ha
  | some o => exact ⟨o, rfl⟩

/-- The loop over the dependencies, given what `mark` does on an unmarked
object. -/
theorem MarkDependencies_spec (mark : ObjectPtr → M Unit) (L : List Nat)
    (hmark : ∀ (h : Heap) (a : Nat), h.Covered L → h.allocated a = true → h.marked a = false →
      h.ValidFrom (fun x => x = a) →
      ∃ h1, mark (.addr a) h = .ok () h1 ∧ Marking h (fun x => x = a) h1 ∧ h1.marked a = true) :
    ∀ (ds : List ObjectPtr) (h : Heap), h.Covered L → (∀ p ∈ ds, h.validEdge p = true) →
      h.ValidFrom (fun c => ObjectPtr.addr c ∈ ds) →
      ∃ h1, MarkDependencies mark ds h = .ok () h1 ∧
        Marking h (fun c => ObjectPtr.addr c ∈ ds) h1 ∧
        ∀ c, ObjectPtr.addr c ∈ ds → h1.marked c = true := by
  intro ds
  induction ds with
  | nil =>
    intro h _ _ _
    exact ⟨h, rfl, Marking_refl h _, fun c hc => by cases hc⟩
  | cons d rest ih =>
    intro h hcov hvalid hfrom
    have hvalidrest : ∀ p ∈ rest, h.validEdge p = true :=
      fun p hp => hvalid p (List.mem_cons_of_mem _ hp)
    have hfromrest : h.ValidFrom (fun c => ObjectPtr.addr c ∈ rest) :=
      fun a b ha hr => hfrom a b (List.mem_cons_of_mem _ ha) hr
    cases d with
    | invalid =>
      have := hvalid .invalid (List.mem_cons_self _ _)
      cases this
    | nullptr =>
      obtain ⟨h1, hrun, hm, hall⟩ := ih h hcov hvalidrest hfromrest
      refine ⟨h1, by rw [MarkDependencies_null]; exact hrun,
        Marking_mono (fun a ha => List.mem_cons_of_mem _ ha) hm, ?_⟩
      intro c hc
      rcases List.mem_cons.mp hc with e | hc
      · cases e
      · exact hall c hc
    | addr c =>
      have hc := hvalid (.addr c) (List.mem_cons_self _ _)
      obtain ⟨o, ho⟩ := objectAt_of_allocated hc
      cases hflag : o.is_connected_to_root with
      | true =>
        obtain ⟨h1, hrun, hm, hall⟩ := ih h hcov hvalidrest hfromrest
        refine ⟨h1, by rw [MarkDependencies_marked mark c rest h o ho hflag]; exact hrun,
          Marking_mono (fun a ha => List.mem_cons_of_mem _ ha) hm, ?_⟩
        intro c1 hc1
        rcases List.mem_cons.mp hc1 with e | hc1
        · injection e with e
          subst e
          exact hm.grow _ (by rw [marked_of_objectAt ho]; exact hflag)
        · exact hall c1 hc1
      | false =>
        have hcm : h.marked c = false := by rw [marked_of_objectAt ho]; exact hflag
        have hfromc : h.ValidFrom (fun x => x = c) := by
          intro a b ha hr
          subst ha
          exact hfrom _ b (List.mem_cons_self _ _) hr
        obtain ⟨h0, hrun0, hm0, hmc⟩ := hmark h c hcov hc hcm hfromc
        have hvalid0 : ∀ p ∈ rest, h0.validEdge p = true := by
          intro p hp
          rw [SameUpToMarks_validEdge hm0.same]
          exact hvalidrest p hp
        obtain ⟨h1, hrun, hm, hall⟩ := ih h0 (Covered_of_Marking hm0 hcov) hvalid0
          (ValidFrom_of_SameUpToMarks hm0.same hfromrest)
        refine ⟨h1, by rw [MarkDependencies_unmarked mark c rest h h0 o ho hflag hrun0]; exact hrun,
          Marking_mono ?_ (Marking_trans hm0 hm), ?_⟩
        · intro a ha
          rcases ha with e | ha
          · subst e; exact List.mem_cons_self _ _
          · exact List.mem_cons_of_mem _ ha
        · intro c1 hc1
          rcases List.mem_cons.mp hc1 with e | hc1
          · injection e with e
            subst e
            exact hm.grow _ hmc
          · exact hall c1 hc1

/-- `Object::Mark` on an unmarked object: it returns (the budget is the
number of unmarked objects), and marks what is reachable. -/
theorem Mark_spec : ∀ (fuel : Nat) (L : List Nat) (h : Heap) (a : Nat), L.length < fuel →
    h.Covered L → h.allocated a = true → h.marked a = false → h.ValidFrom (fun x => x = a) →
    ∃ h1, Mark fuel (.addr a) h = .ok () h1 ∧ Marking h (fun x => x = a) h1 ∧
      h1.marked a = true := by
  intro fuel
  induction fuel with
  | zero => intro L h a hL; cases hL
  | succ fuel ih =>
    intro L h a hL hcov ha ham hfrom
    obtain ⟨o, ho⟩ := objectAt_of_allocated ha
    have hlt := lt_length_of_objectAt ho
    have hflag : o.is_connected_to_root = false := by rw [← marked_of_objectAt ho]; exact ham
    -- the heap after the flag is set
    let h0 : Heap := { h with memory := h.memory.set a (some { o with is_connected_to_root := true }) }
    have hat0 : ∀ b, h0.objectAt b
        = if b = a then some { o with is_connected_to_root := true } else h.objectAt b :=
      fun b => objectAt_set h a b _ hlt
    have hsame0 : h.SameUpToMarks h0 := by
      refine ⟨rfl, rfl, by simp [h0], ?_⟩
      intro b
      rw [hat0]
      by_cases hb : b = a
      · subst hb
        rw [if_pos rfl, ho]
        rfl
      · rw [if_neg hb]
    have hmarked0 : ∀ b, h0.marked b = (decide (b = a) || h.marked b) := by
      intro b
      unfold Heap.marked
      rw [hat0]
      by_cases hb : b = a
      · subst hb; simp
      · simp [hb]
    have hedges0 : h0.traceEdges a = o.dependencies_ := by
      unfold Heap.traceEdges
      rw [hat0, if_pos rfl]
    have hedges : h.traceEdges a = o.dependencies_ := by
      unfold Heap.traceEdges
      rw [ho]
    have haL : a ∈ L := hcov a ha ham
    have hcov0 : h0.Covered (L.erase a) := by
      intro b hb hbm
      rw [hmarked0] at hbm
      have hba : b ≠ a := by
        intro e
        subst e
        simp at hbm
      have hbm0 : h.marked b = false := by simpa [hba] using hbm
      rw [SameUpToMarks_allocated hsame0] at hb
      exact (List.mem_erase_of_ne hba).mpr (hcov b hb hbm0)
    have hLen : (L.erase a).length < fuel := by
      rw [List.length_erase_of_mem haL]
      have : 0 < L.length := List.length_pos_of_mem haL
      omega
    have hvalid0 : ∀ p ∈ o.dependencies_, h0.validEdge p = true := by
      intro p hp
      rw [SameUpToMarks_validEdge hsame0]
      exact hfrom a a rfl (.refl a) p (hedges ▸ hp)
    have hfrom0 : h0.ValidFrom (fun c => ObjectPtr.addr c ∈ o.dependencies_) := by
      apply ValidFrom_of_SameUpToMarks hsame0
      intro c b hc hr
      exact hfrom a b rfl (Reachable_head (hedges ▸ hc) hr)
    obtain ⟨h1, hrun, hm, hall⟩ := MarkDependencies_spec (Mark fuel) (L.erase a)
      (fun h2 a2 hc2 ha2 hm2 hf2 => ih (L.erase a) h2 a2 hLen hc2 ha2 hm2 hf2)
      o.dependencies_ h0 hcov0 hvalid0 hfrom0
    have hrun1 : Mark (fuel + 1) (.addr a) h = .ok () h1 := by
      simp only [Mark, bind_eq, load_of_objectAt ho, storeAt_of_objectAt _ ho]
      exact hrun
    have ha0 : h0.marked a = true := by rw [hmarked0]; simp
    refine ⟨h1, hrun1, ⟨SameUpToMarks_trans hsame0 hm.same, ?_, ?_, ?_⟩, hm.grow a ha0⟩
    · intro b hb
      exact hm.grow b (by rw [hmarked0, hb]; simp)
    · intro b hb
      rcases hm.reach b hb with hb0 | ⟨c, hc, hr⟩
      · rw [hmarked0] at hb0
        by_cases hba : b = a
        · subst hba
          exact Or.inr ⟨b, rfl, .refl b⟩
        · exact Or.inl (by simpa [hba] using hb0)
      · exact Or.inr ⟨a, rfl, Reachable_head (hedges ▸ hc) (SameUpToMarks_Reachable hsame0 hr)⟩
    · intro b c hb hb0 he
      by_cases hba : b = a
      · subst hba
        exact hall c (hedges ▸ he)
      · refine hm.closed b c hb ?_ ?_
        · rw [hmarked0]; simp [hba, hb0]
        · rw [SameUpToMarks_traceEdges hsame0]; exact he

end Scheme

namespace Scheme

/-! ## The collector: sweeping -/

theorem SweepLoop_nil (fuel : Nat) (kept : List Nat) (h : Heap) :
    SweepLoop (fuel + 1) kept [] h = .ok kept h := rfl

theorem SweepLoop_unmarked (fuel : Nat) (kept : List Nat) (p : Nat) (rest : List Nat) (h h0 : Heap)
    (o : HeapObject) (ho : h.objectAt p = some o) (hflag : o.is_connected_to_root = false)
    (hd : delete p h = .ok () h0) :
    SweepLoop (fuel + 1) kept (p :: rest) h
      = (match rest.getLast? with
          | none => SweepLoop fuel kept []
          | some back => SweepLoop fuel kept (back :: rest.dropLast)) h0 := by
  simp only [SweepLoop, bind_eq, load_of_objectAt ho, hflag, Bool.not_false, if_true, hd]

theorem SweepLoop_marked (fuel : Nat) (kept : List Nat) (p : Nat) (rest : List Nat) (h : Heap)
    (o : HeapObject) (ho : h.objectAt p = some o) (hflag : o.is_connected_to_root = true) :
    SweepLoop (fuel + 1) kept (p :: rest) h
      = SweepLoop fuel (kept ++ [p]) rest
          { h with memory := h.memory.set p (some { o with is_connected_to_root := false }) } := by
  simp only [SweepLoop, bind_eq, load_of_objectAt ho, hflag, Bool.not_true, Bool.false_eq_true,
    if_false, storeAt_of_objectAt _ ho]

/-- The vector after `std::swap(heap_[i], heap_.back()); heap_.pop_back()`
holds the entries it held after position `i`. -/
theorem swap_pop_perm (rest : List Nat) :
    ∃ todo : List Nat, todo.Perm rest ∧ ∀ (fuel : Nat) (kept : List Nat),
      (match rest.getLast? with
        | none => SweepLoop fuel kept []
        | some back => SweepLoop fuel kept (back :: rest.dropLast)) = SweepLoop fuel kept todo := by
  cases hl : rest.getLast? with
  | none =>
    have : rest = [] := List.getLast?_eq_none_iff.mp hl
    subst this
    exact ⟨[], List.Perm.refl _, fun _ _ => rfl⟩
  | some back =>
    refine ⟨back :: rest.dropLast, ?_, fun _ _ => rfl⟩
    have e : rest.dropLast ++ [back] = rest := List.dropLast_append_getLast? back hl
    have p1 : (back :: rest.dropLast).Perm (rest.dropLast ++ [back]) :=
      (List.perm_append_singleton back rest.dropLast).symm
    rw [e] at p1
    exact p1

theorem afterDelete_unmark (p : Nat) (o : HeapObject) :
    (o.afterDelete p).unmark = (o.unmark).afterDelete p := rfl

theorem afterDeletes_obj_cons (p : Nat) (D : List Nat) (o : HeapObject) :
    o.afterDeletes (p :: D) = (o.afterDelete p).afterDeletes D := rfl

theorem afterDeletes_obj_nil (o : HeapObject) : o.afterDeletes [] = o := rfl

theorem afterDeletes_ptr_cons (p : Nat) (D : List Nat) (q : ObjectPtr) :
    q.afterDeletes (p :: D) = (q.afterDelete p).afterDeletes D := rfl

theorem afterDelete_flag (p : Nat) (o : HeapObject) :
    (o.afterDelete p).is_connected_to_root = o.is_connected_to_root := rfl

theorem afterDeletes_flag (D : List Nat) : ∀ o : HeapObject,
    (o.afterDeletes D).is_connected_to_root = o.is_connected_to_root := by
  induction D with
  | nil => intro o; rfl
  | cons p D ih => intro o; rw [afterDeletes_obj_cons, ih]; rfl

/-- The sweep loop: it returns, deletes the unmarked entries that are left to
visit, keeps the marked ones and clears their flag. -/
theorem SweepLoop_spec : ∀ (fuel : Nat) (kept todo : List Nat) (h : Heap), todo.length < fuel →
    todo.Nodup → (∀ p ∈ todo, h.allocated p = true) →
    ∃ (S D : List Nat) (h1 : Heap), SweepLoop fuel kept todo h = .ok (kept ++ S) h1 ∧
      S.Nodup ∧ D.Nodup ∧
      (∀ a, a ∈ S ↔ a ∈ todo ∧ h.marked a = true) ∧
      (∀ a, a ∈ D ↔ a ∈ todo ∧ h.marked a = false) ∧
      h1.memory.length = h.memory.length ∧ h1.heap_ = h.heap_ ∧
      h1.root_ = h.root_.afterDeletes D ∧
      ∀ a, h1.objectAt a = if a ∈ D then none else
        (h.objectAt a).map (fun o => (if a ∈ todo then o.unmark else o).afterDeletes D) := by
  intro fuel
  induction fuel with
  | zero => intro kept todo h hL; cases hL
  | succ fuel ih =>
    intro kept todo h hL hnd hall
    cases todo with
    | nil =>
      refine ⟨[], [], h, by rw [SweepLoop_nil, List.append_nil], List.nodup_nil, List.nodup_nil,
        by simp, by simp, rfl, rfl, rfl, ?_⟩
      intro a
      cases h.objectAt a <;> simp [afterDeletes_obj_nil]
    | cons p rest =>
      have hp := hall p (List.mem_cons_self _ _)
      obtain ⟨o, ho⟩ := objectAt_of_allocated hp
      have hlt := lt_length_of_objectAt ho
      have hprest : p ∉ rest := (List.nodup_cons.mp hnd).1
      have hndrest : rest.Nodup := (List.nodup_cons.mp hnd).2
      have hpm : h.marked p = o.is_connected_to_root := marked_of_objectAt ho
      cases hflag : o.is_connected_to_root with
      | false =>
        rw [hflag] at hpm
        obtain ⟨todo1, hperm, hsw⟩ := swap_pop_perm rest
        let h0 : Heap := { h with
          memory := (h.memory.set p none).map (Option.map (HeapObject.afterDelete p))
          root_ := h.root_.afterDelete p }
        have hat0 : ∀ b, h0.objectAt b
            = if b = p then none else (h.objectAt b).map (HeapObject.afterDelete p) :=
          fun b => objectAt_delete h p b _ hlt
        have hmem : ∀ a, a ∈ todo1 ↔ a ∈ rest := fun a => hperm.mem_iff
        have hmarked0 : ∀ b, b ≠ p → h0.marked b = h.marked b := by
          intro b hb
          unfold Heap.marked
          rw [hat0, if_neg hb]
          cases h.objectAt b <;> rfl
        have hall0 : ∀ a ∈ todo1, h0.allocated a = true := by
          intro a ha
          have har := (hmem a).mp ha
          have hap : a ≠ p := fun e => hprest (e ▸ har)
          have := hall a (List.mem_cons_of_mem _ har)
          unfold Heap.allocated at this ⊢
          rw [hat0, if_neg hap]
          cases hx : h.objectAt a with
          | none => rw [hx] at this; cases this
          | some x => rfl
        obtain ⟨S, D, h1, hrun, hS, hD, hSm, hDm, hlen, hheap, hroot, hat⟩ :=
          ih kept todo1 h0 (by rw [hperm.length_eq]; simpa using hL)
            (hperm.nodup_iff.mpr hndrest) hall0
        have hpD : p ∉ D := fun hin => hprest ((hmem p).mp ((hDm p).mp hin).1)
        refine ⟨S, p :: D, h1, ?_, hS, List.nodup_cons.mpr ⟨hpD, hD⟩, ?_, ?_, ?_, hheap, ?_, ?_⟩
        · rw [SweepLoop_unmarked fuel kept p rest h h0 o ho hflag (delete_of_objectAt ho), hsw]
          exact hrun
        · intro a
          rw [hSm, hmem]
          constructor
          · rintro ⟨har, ham⟩
            have hap : a ≠ p := fun e => hprest (e ▸ har)
            exact ⟨List.mem_cons_of_mem _ har, by rw [← hmarked0 a hap]; exact ham⟩
          · rintro ⟨har, ham⟩
            rcases List.mem_cons.mp har with e | har
            · subst e; rw [hpm] at ham; cases ham
            · have hap : a ≠ p := fun e => hprest (e ▸ har)
              exact ⟨har, by rw [hmarked0 a hap]; exact ham⟩
        · intro a
          rw [List.mem_cons, hDm, hmem]
          constructor
          · rintro (e | ⟨har, ham⟩)
            · subst e; exact ⟨List.mem_cons_self _ _, hpm⟩
            · have hap : a ≠ p := fun e => hprest (e ▸ har)
              exact ⟨List.mem_cons_of_mem _ har, by rw [← hmarked0 a hap]; exact ham⟩
          · rintro ⟨har, ham⟩
            rcases List.mem_cons.mp har with e | har
            · exact Or.inl e
            · have hap : a ≠ p := fun e => hprest (e ▸ har)
              exact Or.inr ⟨har, by rw [hmarked0 a hap]; exact ham⟩
        · rw [hlen]; simp [h0]
        · rw [hroot]; rfl
        · intro a
          rw [hat, hat0]
          by_cases hap : a = p
          · subst hap
            simp [hpD]
          · by_cases haD : a ∈ D
            · simp [haD]
            · rw [if_neg haD, if_neg hap, if_neg (by simp [hap, haD])]
              cases hx : h.objectAt a with
              | none => rfl
              | some x =>
                simp only [Option.map_some', List.mem_cons, hap, false_or, hmem,
                  afterDeletes_obj_cons]
                by_cases har : a ∈ rest
                · simp only [har, if_true]; rfl
                · simp only [har, if_false]
      | true =>
        rw [hflag] at hpm
        let h0 : Heap :=
          { h with memory := h.memory.set p (some { o with is_connected_to_root := false }) }
        have hat0 : ∀ b, h0.objectAt b = if b = p then some o.unmark else h.objectAt b :=
          fun b => objectAt_set h p b _ hlt
        have hmarked0 : ∀ b, b ≠ p → h0.marked b = h.marked b := by
          intro b hb
          unfold Heap.marked
          rw [hat0, if_neg hb]
        have hall0 : ∀ a ∈ rest, h0.allocated a = true := by
          intro a har
          have hap : a ≠ p := fun e => hprest (e ▸ har)
          have := hall a (List.mem_cons_of_mem _ har)
          unfold Heap.allocated at this ⊢
          rw [hat0, if_neg hap]
          exact this
        obtain ⟨S, D, h1, hrun, hS, hD, hSm, hDm, hlen, hheap, hroot, hat⟩ :=
          ih (kept ++ [p]) rest h0 (by simpa using hL) hndrest hall0
        have hpS : p ∉ S := fun hin => hprest ((hSm p).mp hin).1
        have hpD : p ∉ D := fun hin => hprest ((hDm p).mp hin).1
        refine ⟨p :: S, D, h1, ?_, List.nodup_cons.mpr ⟨hpS, hS⟩, hD, ?_, ?_, ?_, hheap, hroot, ?_⟩
        · rw [SweepLoop_marked fuel kept p rest h o ho hflag]
          simpa using hrun
        · intro a
          rw [List.mem_cons, hSm]
          constructor
          · rintro (e | ⟨har, ham⟩)
            · subst e; exact ⟨List.mem_cons_self _ _, hpm⟩
            · have hap : a ≠ p := fun e => hprest (e ▸ har)
              exact ⟨List.mem_cons_of_mem _ har, by rw [← hmarked0 a hap]; exact ham⟩
          · rintro ⟨har, ham⟩
            rcases List.mem_cons.mp har with e | har
            · exact Or.inl e
            · have hap : a ≠ p := fun e => hprest (e ▸ har)
              exact Or.inr ⟨har, by rw [hmarked0 a hap]; exact ham⟩
        · intro a
          rw [hDm]
          constructor
          · rintro ⟨har, ham⟩
            have hap : a ≠ p := fun e => hprest (e ▸ har)
            exact ⟨List.mem_cons_of_mem _ har, by rw [← hmarked0 a hap]; exact ham⟩
          · rintro ⟨har, ham⟩
            rcases List.mem_cons.mp har with e | har
            · subst e; rw [hpm] at ham; cases ham
            · have hap : a ≠ p := fun e => hprest (e ▸ har)
              exact ⟨har, by rw [hmarked0 a hap]; exact ham⟩
        · rw [hlen]; simp [h0]
        · intro a
          rw [hat, hat0]
          by_cases haD : a ∈ D
          · simp [haD]
          · rw [if_neg haD, if_neg haD]
            by_cases hap : a = p
            · subst hap
              simp [hprest, ho]
            · simp [hap]

/-- Deleting a list of distinct allocated objects. -/
theorem deleteAll_spec : ∀ (D : List Nat) (h : Heap), D.Nodup → (∀ a ∈ D, h.allocated a = true) →
    ∃ h2, deleteAll D h = .ok () h2 ∧ h2.memory.length = h.memory.length ∧ h2.heap_ = h.heap_ ∧
      h2.root_ = h.root_.afterDeletes D ∧
      ∀ a, h2.objectAt a = if a ∈ D then none else
        (h.objectAt a).map (fun o => o.afterDeletes D) := by
  intro D
  induction D with
  | nil =>
    intro h _ _
    refine ⟨h, rfl, rfl, rfl, rfl, ?_⟩
    intro a
    cases h.objectAt a <;> simp [afterDeletes_obj_nil]
  | cons p D ih =>
    intro h hnd hall
    have hp := hall p (List.mem_cons_self _ _)
    obtain ⟨o, ho⟩ := objectAt_of_allocated hp
    have hlt := lt_length_of_objectAt ho
    have hpD : p ∉ D := (List.nodup_cons.mp hnd).1
    let h0 : Heap := { h with
      memory := (h.memory.set p none).map (Option.map (HeapObject.afterDelete p))
      root_ := h.root_.afterDelete p }
    have hat0 : ∀ b, h0.objectAt b
        = if b = p then none else (h.objectAt b).map (HeapObject.afterDelete p) :=
      fun b => objectAt_delete h p b _ hlt
    have hall0 : ∀ a ∈ D, h0.allocated a = true := by
      intro a ha
      have hap : a ≠ p := fun e => hpD (e ▸ ha)
      have := hall a (List.mem_cons_of_mem _ ha)
      unfold Heap.allocated at this ⊢
      rw [hat0, if_neg hap]
      cases hx : h.objectAt a with
      | none => rw [hx] at this; cases this
      | some x => rfl
    obtain ⟨h2, hrun, hlen, hheap, hroot, hat⟩ := ih h0 (List.nodup_cons.mp hnd).2 hall0
    refine ⟨h2, ?_, ?_, hheap, ?_, ?_⟩
    · simp only [deleteAll, bind_eq, delete_of_objectAt ho]
      exact hrun
    · rw [hlen]; simp [h0]
    · rw [hroot]; rfl
    · intro a
      rw [hat, hat0]
      by_cases hap : a = p
      · subst hap
        simp [hpD]
      · by_cases haD : a ∈ D
        · simp [haD]
        · rw [if_neg haD, if_neg hap, if_neg (by simp [hap, haD])]
          cases hx : h.objectAt a with
          | none => rfl
          | some x => rfl

end Scheme

namespace Scheme

/-! ## C33: one collection -/

theorem afterDeletes_dependencies (D : List Nat) : ∀ o : HeapObject,
    (∀ d ∈ D, ObjectPtr.addr d ∉ o.dependencies_) →
    (o.afterDeletes D).dependencies_ = o.dependencies_ := by
  induction D with
  | nil => intro o _; rfl
  | cons p D ih =>
    intro o hD
    have hp : (o.afterDelete p).dependencies_ = o.dependencies_ := by
      show o.dependencies_.map (ObjectPtr.afterDelete p) = o.dependencies_
      conv_rhs => rw [← List.map_id o.dependencies_]
      apply List.map_congr_left
      intro q hq
      have : q ≠ .addr p := fun e => hD p (List.mem_cons_self _ _) (e ▸ hq)
      simp [ObjectPtr.afterDelete, this]
    rw [afterDeletes_obj_cons, ih, hp]
    intro d hd
    rw [hp]
    exact hD d (List.mem_cons_of_mem _ hd)

theorem afterDeletes_addr (D : List Nat) (r : Nat) (hr : r ∉ D) :
    (ObjectPtr.addr r).afterDeletes D = .addr r := by
  induction D with
  | nil => rfl
  | cons p D ih =>
    have hne : r ≠ p := fun e => hr (e ▸ List.mem_cons_self _ _)
    rw [afterDeletes_ptr_cons]
    have : (ObjectPtr.addr r).afterDelete p = .addr r := by
      simp [ObjectPtr.afterDelete, hne]
    rw [this]
    exact ih (fun hin => hr (List.mem_cons_of_mem _ hin))

/-- Marking from the root of a heap without marks: exactly the reachable
objects are marked afterwards. -/
theorem Mark_root (h : Heap) (r : Nat) (hr : h.allocated r = true)
    (hunmarked : ∀ a, h.marked a = false)
    (hedges : ∀ a, h.Reachable r a → ∀ p ∈ h.traceEdges a, h.validEdge p = true) :
    ∃ hm, Mark (h.memory.length + 1) (.addr r) h = .ok () hm ∧ h.SameUpToMarks hm ∧
      ∀ b, hm.marked b = true ↔ h.Reachable r b := by
  have hcov : h.Covered (List.range h.memory.length) := by
    intro b hb _
    obtain ⟨o, ho⟩ := objectAt_of_allocated hb
    exact List.mem_range.mpr (lt_length_of_objectAt ho)
  have hfrom : h.ValidFrom (fun x => x = r) := by
    intro a b ha hreach
    subst ha
    exact hedges b hreach
  obtain ⟨hm, hrun, hmk, hrm⟩ := Mark_spec (h.memory.length + 1) (List.range h.memory.length) h r
    (by simp) hcov hr (hunmarked r) hfrom
  refine ⟨hm, hrun, hmk.same, fun b => ⟨?_, ?_⟩⟩
  · intro hb
    rcases hmk.reach b hb with h0 | ⟨a, ha, hreach⟩
    · rw [hunmarked b] at h0; cases h0
    · subst ha; exact hreach
  · intro hreach
    induction hreach with
    | refl => exact hrm
    | step _ he ih => exact hmk.closed _ _ ih (hunmarked _) he

/-- C33.  Take a heap whose vector `heap_` lists each allocated object once,
whose root is an allocated object, in which no object is marked and in which
every trace edge of an object reachable from the root is null or points to an
allocated object.  Then `MarkAndSweep` returns (the marking budget of the
model is not exhausted, cycles or not, and nothing is read after its
`delete`); the `heap_` it leaves lists, each once, exactly the objects
reachable from the root through trace edges; the rest of the heap is what
`delete` of the objects of `deleted`, one after the other, leaves, where
`deleted` lists, each once, exactly the allocated objects that are not
reachable; the allocated objects afterwards are the reachable ones, none of
them is marked, each has the trace edges it had, and the root is the same. -/
theorem C33_mark_and_sweep (h : Heap) (r : Nat)
    (hroot : h.root_ = .addr r) (hr : h.allocated r = true)
    (hunmarked : ∀ a, h.marked a = false)
    (hnodup : h.heap_.Nodup) (hheap : ∀ a, a ∈ h.heap_ ↔ h.allocated a = true)
    (hedges : ∀ a, h.Reachable r a → ∀ p ∈ h.traceEdges a, h.validEdge p = true) :
    ∃ (deleted : List Nat) (h1 : Heap),
      MarkAndSweep h = .ok () h1 ∧
      deleteAll deleted h = .ok () { h1 with heap_ := h.heap_ } ∧
      h1.heap_.Nodup ∧ (∀ a, a ∈ h1.heap_ ↔ h.Reachable r a) ∧
      deleted.Nodup ∧ (∀ a, a ∈ deleted ↔ h.allocated a = true ∧ ¬ h.Reachable r a) ∧
      (∀ a, h1.allocated a = true ↔ h.Reachable r a) ∧
      (∀ a, h1.marked a = false) ∧
      (∀ a, h.Reachable r a → h1.traceEdges a = h.traceEdges a) ∧
      h1.root_ = .addr r := by
  obtain ⟨hm, hmark, hsame, hmarked⟩ := Mark_root h r hr hunmarked hedges
  have hallocm : ∀ p ∈ hm.heap_, hm.allocated p = true := by
    intro p hp
    rw [SameUpToMarks_allocated hsame]
    rw [hsame.1] at hp
    exact (hheap p).mp hp
  obtain ⟨S, D, hs, hsweep, hS, hD, hSm, hDm, hlen, -, hrootm, hat⟩ :=
    SweepLoop_spec (hm.heap_.length + 1) [] hm.heap_ hm (Nat.lt_succ_self _)
      (by rw [hsame.1]; exact hnodup) hallocm
  have hreach_alloc : ∀ a, h.Reachable r a → h.allocated a = true := by
    intro a hreach
    cases hreach with
    | refl => exact hr
    | step hb he => exact hedges _ hb _ he
  have hDchar : ∀ a, a ∈ D ↔ h.allocated a = true ∧ ¬ h.Reachable r a := by
    intro a
    rw [hDm, hsame.1, hheap, ← hmarked]
    cases hm.marked a <;> simp
  obtain ⟨h2, hdel, hlen2, hheap2, hroot2, hat2⟩ := deleteAll_spec D h hD
    (fun a ha => ((hDchar a).mp ha).1)
  -- the heap the sweep leaves, address by address
  have hats : ∀ a, hs.objectAt a = h2.objectAt a := by
    intro a
    rw [hat, hat2]
    by_cases haD : a ∈ D
    · rw [if_pos haD, if_pos haD]
    · rw [if_neg haD, if_neg haD]
      have hu := hsame.2.2.2 a
      cases hx : h.objectAt a with
      | none =>
        rw [hx] at hu
        cases hy : hm.objectAt a with
        | none => rfl
        | some y => rw [hy] at hu; cases hu
      | some x =>
        rw [hx] at hu
        have ha : a ∈ hm.heap_ := by
          rw [hsame.1, hheap]
          unfold Heap.allocated
          rw [hx]; rfl
        have hxflag : x.is_connected_to_root = false := by
          rw [← marked_of_objectAt hx]; exact hunmarked a
        cases hy : hm.objectAt a with
        | none => rw [hy] at hu; cases hu
        | some y =>
          rw [hy] at hu
          simp only [Option.map_some', Option.some.injEq] at hu
          simp only [Option.map_some', ha, if_true, hu]
          have : x.unmark = x := by
            cases x
            simp only [HeapObject.unmark]
            simp only at hxflag
            rw [hxflag]
          rw [this]
  have hmem : hs.memory = h2.memory :=
    memory_ext _ _ (by rw [hlen, hlen2, hsame.2.2.1]) hats
  have hrD : r ∉ D := fun hin => ((hDchar r).mp hin).2 (.refl r)
  have hroots : hs.root_ = .addr r := by
    rw [hrootm, hsame.2.1, hroot, afterDeletes_addr D r hrD]
  have hroot2r : h2.root_ = .addr r := by
    rw [hroot2, hroot, afterDeletes_addr D r hrD]
  have hSchar : ∀ a, a ∈ S ↔ h.Reachable r a := by
    intro a
    rw [hSm, hmarked, hsame.1, hheap]
    exact ⟨fun x => x.2, fun x => ⟨hreach_alloc a x, x⟩⟩
  have hrun : MarkAndSweep h = .ok () { hs with heap_ := S } := by
    simp only [MarkAndSweep, bind_eq, getHeap, hroot, hmark, hsweep, setHeap, List.nil_append]
  have hobj : ∀ a, Heap.objectAt { hs with heap_ := S } a
      = if a ∈ D then none else (h.objectAt a).map (fun o => o.afterDeletes D) :=
    fun a => (hats a).trans (hat2 a)
  refine ⟨D, { hs with heap_ := S }, hrun, ?_, hS, hSchar, hD, hDchar, ?_, ?_, ?_, hroots⟩
  · rw [hdel]
    congr 1
    cases h2
    simp only at hmem hheap2 hroot2r
    simp only [hmem, hheap2, hroots, hroot2r]
  · intro a
    unfold Heap.allocated
    rw [hobj]
    by_cases haD : a ∈ D
    · rw [if_pos haD]
      simp only [Option.isSome_none, Bool.false_eq_true, false_iff]
      exact ((hDchar a).mp haD).2
    · rw [if_neg haD]
      constructor
      · intro hsome
        have hal : h.allocated a = true := by
          unfold Heap.allocated
          cases hx : h.objectAt a with
          | none => rw [hx] at hsome; cases hsome
          | some x => rfl
        by_contra hnot
        exact haD ((hDchar a).mpr ⟨hal, hnot⟩)
      · intro hreach
        obtain ⟨x, hx⟩ := objectAt_of_allocated (hreach_alloc a hreach)
        rw [hx]; rfl
  · intro a
    unfold Heap.marked
    rw [hobj]
    by_cases haD : a ∈ D
    · rw [if_pos haD]
    · rw [if_neg haD]
      cases hx : h.objectAt a with
      | none => rfl
      | some x =>
        simp only [Option.map_some', afterDeletes_flag]
        rw [← marked_of_objectAt hx]; exact hunmarked a
  · intro a hreach
    have haD : a ∉ D := fun hin => ((hDchar a).mp hin).2 hreach
    obtain ⟨x, hx⟩ := objectAt_of_allocated (hreach_alloc a hreach)
    have hxe : h.traceEdges a = x.dependencies_ := by
      unfold Heap.traceEdges; rw [hx]
    unfold Heap.traceEdges
    rw [hobj, if_neg haD, hx]
    simp only [Option.map_some']
    apply afterDeletes_dependencies
    intro d hd hin
    exact ((hDchar d).mp hd).2 (.step hreach (hxe ▸ hin))

end Scheme

namespace Scheme

theorem objectAt_of_length_le {h : Heap} {a : Nat} (ha : h.memory.length ≤ a) :
    h.objectAt a = none := by
  unfold Heap.objectAt
  rw [List.get?_eq_none.mpr ha]
  rfl

/-- The heap `gcExample`, whose object graph has cycles among the reachable
and among the unreachable objects, meets the conditions of C33. -/
theorem C33_mark_and_sweep_witness :
    ∃ (deleted : List Nat) (h1 : Heap),
      MarkAndSweep gcExample = .ok () h1 ∧
      deleteAll deleted gcExample = .ok () { h1 with heap_ := gcExample.heap_ } ∧
      h1.heap_.Nodup ∧ (∀ a, a ∈ h1.heap_ ↔ gcExample.Reachable 0 a) ∧
      deleted.Nodup ∧
      (∀ a, a ∈ deleted ↔ gcExample.allocated a = true ∧ ¬ gcExample.Reachable 0 a) ∧
      (∀ a, h1.allocated a = true ↔ gcExample.Reachable 0 a) ∧
      (∀ a, h1.marked a = false) ∧
      (∀ a, gcExample.Reachable 0 a → h1.traceEdges a = gcExample.traceEdges a) ∧
      h1.root_ = .addr 0 := by
  have hbig : ∀ a, 5 ≤ a → gcExample.objectAt a = none :=
    fun a ha => objectAt_of_length_le ha
  refine C33_mark_and_sweep gcExample 0 rfl (by decide) ?_ (by decide) ?_ ?_
  · intro a
    rcases Nat.lt_or_ge a 5 with ha | ha
    · interval_cases a <;> rfl
    · unfold Heap.marked
      rw [hbig a ha]
  · intro a
    rcases Nat.lt_or_ge a 5 with ha | ha
    · interval_cases a <;> decide
    · unfold Heap.allocated
      rw [hbig a ha]
      simp [gcExample]
      omega
  · intro a _ p hp
    rcases Nat.lt_or_ge a 5 with ha | ha
    · interval_cases a <;> revert p <;> decide
    · unfold Heap.traceEdges at hp
      rw [hbig a ha] at hp
      cases hp

end Scheme

namespace Scheme

/-! ## C34: trace edges of a pair after `SetFirst` / `SetSecond` -/

/-- C34 (code at the failing input).  `dependencies_` is a set, so a pair
whose two fields hold the same object has one trace edge to it;
`Cell::SetFirst` erases the edge to the old `first_` without looking at
`second_`.  After `(set-cdr! x (car x))` the pair bound to `x` (address 52)
holds the pair `(3 . 4)` (address 49) in both fields and prints as
`((3 . 4) 3 . 4)`; `(set-car! x 5)` leaves it with the single trace edge to
the new number although `second_` still holds address 49, the collection at
the end of that run frees the object at 49, and printing `x` afterwards reads
freed memory.  Without the sharing step the same overwrite is harmless. -/
theorem C34_shared_field_loses_trace_edge :
    Session 100 ["(define x (cons 1 2))", "(set-car! x (cons 3 4))", "(set-cdr! x (car x))",
                 "x", "(set-car! x 5)", "x"]
      = [.returned "()", .returned "()", .returned "()", .returned "((3 . 4) 3 . 4)",
         .returned "()", .undefined] ∧
    (SessionState 100 ["(define x (cons 1 2))", "(set-car! x (cons 3 4))",
                       "(set-cdr! x (car x))"]).map
        (fun s => (s.2.bound 34 "x", s.2.valueAt 52, s.2.traceEdges 52, s.2.valueAt 49))
      = some (some (.addr 52), some (.Cell (.addr 49) (.addr 49)), [.addr 49],
              some (.Cell (.addr 47) (.addr 48))) ∧
    (SessionState 100 ["(define x (cons 1 2))", "(set-car! x (cons 3 4))",
                       "(set-cdr! x (car x))", "(set-car! x 5)"]).map
        (fun s => (s.2.bound 34 "x", s.2.valueAt 52, s.2.traceEdges 52, s.2.valueAt 49))
      = some (some (.addr 52), some (.Cell (.addr 42) .invalid), [.addr 42], none) ∧
    Session 100 ["(define x (cons 1 2))", "(set-car! x (cons 3 4))", "(set-car! x 5)", "x"]
      = [.returned "()", .returned "()", .returned "()", .returned "(5 . 2)"] := by
  decide!

/-! ## C35: trace edges of a scope after `Define` / `Change` -/

/-- C35 (code at the failing input).  `Scope::Define` adds a trace edge to the
clone it binds and never removes the edge to the value the name was bound to
before (`Scope::Change` does call `RemoveDependency`).  After `(define x 1)`
and `(define x 2)` the global scope (address 34) binds `x` to the number at
address 44, and its trace edges beyond those to the built-ins are the edges
to 43 and to 44: the replaced number `1` at address 43 is still traced and
has survived the collection at the end of the run (it is in `heap_`), as it
does every later one.  The same replacement made by `set!` removes the edge and the number at
43 is collected. -/
theorem C35_define_keeps_replaced_value_traced :
    (SessionState 100 ["(define x 1)", "(define x 2)"]).map
        (fun s => s.2.scopeTrace 34 "x" 34 43)
      = some ⟨some (.addr 44), [.addr 43, .addr 44], some (.Number 1), [34, 35, 43, 44]⟩ ∧
    (SessionState 100 ["(define x 1)", "(define x 2)", "(define x 3)", "x"]).map
        (fun s => s.2.scopeTrace 34 "x" 34 43)
      = some ⟨some (.addr 45), [.addr 43, .addr 44, .addr 45], some (.Number 1),
              [34, 35, 43, 44, 45]⟩ ∧
    (SessionState 100 ["(define x 1)", "(set! x 2)"]).map
        (fun s => s.2.scopeTrace 34 "x" 34 43)
      = some ⟨some (.addr 44), [.addr 44], none, [34, 35, 44]⟩ := by
  decide!

/-! ## C36: the environment of the operands of `if` -/

/-- C36 (code at the failing input).  `IfFunction::Apply` reads the member
`context_` of the one `if` object each time it evaluates an operand; the
member is set by `Symbol::Evaluate` when the symbol `if` is looked up.  In
`(g 5)` the condition `(t)` runs the body of `t`, whose `if` sets the member
to the context of that call; that scope is popped when `t` returns, so the
branch `y` of the outer `if` is looked up in a context without the scope that
binds `y`, and the run throws `NameError`.  When the condition calls a
procedure that uses no `if`, or is a constant, `(g 5)` returns `5`. -/
theorem C36_if_branch_in_clobbered_context :
    Session 100 ["(define (t) (if #t #t #f))", "(define (g y) (if (t) y 0))", "(g 5)"]
      = [.returned "()", .returned "()", .thrown (.NameError "There are no such name.")] ∧
    Session 100 ["(define (t) #t)", "(define (g y) (if (t) y 0))", "(g 5)"]
      = [.returned "()", .returned "()", .returned "5"] ∧
    Session 100 ["(define (g y) (if #t y 0))", "(g 5)"]
      = [.returned "()", .returned "5"] := by
  decide!

end Scheme

